import Mathlib

/-!
Mesh exporter of the morphology tool: catalog, branch geometry and wireframe export.

A shallow embedding of `src/src/tool/mesh_exporter.cpp` and
`src/include/morpho/bits/morpho_tree_bits.hpp`.

Conventions of the embedding:

* `double` values are exact rationals (`ℚ`): rounding, NaN and infinities are not
  modelled.  Functions of the external numeric library (hadoken) are parameters,
  collected in `externals`.
* `std::size_t` identifiers are `Nat`, `std::int64_t` signed references are `Int`.
* A container of the catalog is the list of its stored elements in insertion
  order; `set_insert` is `std::set::insert`.
* A method that can throw returns `Except exception _`; a non-const method
  passes the catalog explicitly.
-/

namespace morpho

/-! ## Values -/

/-- Cartesian coordinate triple (`geo::point3d`, also used for `geo::vector3d`). -/
structure point3d where
  x : ℚ
  y : ℚ
  z : ℚ
deriving DecidableEq

/-- Exceptions thrown by the program, and the outcome of reading a sequence
outside its bounds. -/
inductive exception where
  | out_of_range
  | runtime_error
  | out_of_bounds
deriving DecidableEq

/-- Functions and constants the sources use but do not define. -/
structure externals where
  /-- Euclidean distance `geo::distance`. -/
  distance : point3d → point3d → ℚ
  /-- Comparison `hadoken::math::almost_equal`. -/
  almost_equal : ℚ → ℚ → Bool
  /-- Comparison `point::close_to`. -/
  close_to : point3d → point3d → Bool
  /-- Branch identifier a `gmsh_segment` carries before `setBranchId`. -/
  default_branch_id : Nat
  /-- Size hint of a `gmsh_point` built from coordinates alone. -/
  default_diameter : ℚ
  /-- Scaling to unit length `geo::normalize`. -/
  normalize : point3d → point3d
  /-- Comparison `hadoken::math::close_to_abs` of two values within a tolerance. -/
  close_to_abs : ℚ → ℚ → ℚ → Bool

/-- Catalog point: coordinate, size hint, identifier, physical flag. -/
structure gmsh_point where
  coords : point3d
  diameter : ℚ
  id : Nat
  isPhysical : Bool
deriving DecidableEq

/-- Catalog segment: two points by value, identifier, physical flag, owning branch. -/
structure gmsh_segment where
  point1 : gmsh_point
  point2 : gmsh_point
  id : Nat
  isPhysical : Bool
  branch_id : Nat
deriving DecidableEq

/-- Catalog arc: centre and two boundary points by value. -/
structure gmsh_circle where
  center : gmsh_point
  point1 : gmsh_point
  point2 : gmsh_point
  id : Nat
  isPhysical : Bool
deriving DecidableEq

/-- Catalog loop: signed line references. -/
structure gmsh_line_loop where
  ids : List Int
  id : Nat
  isPhysical : Bool
  isRuled : Bool
deriving DecidableEq

/-- Catalog volume: loop references. -/
structure gmsh_volume where
  ids : List Nat
  id : Nat
  isPhysical : Bool
deriving DecidableEq

/-- Modelled from the spec: the constructor `gmsh_point(coords, d)` of the missing
header `mesh_exporter.hpp`; a fresh point has no identifier yet and is not physical. -/
def gmsh_point.make (coords : point3d) (d : ℚ) : gmsh_point :=
  { coords := coords, diameter := d, id := 0, isPhysical := false }

/-- Modelled from the spec: the constructor `gmsh_segment(p1, p2)` of the missing header. -/
def gmsh_segment.make (E : externals) (p1 p2 : gmsh_point) : gmsh_segment :=
  { point1 := p1, point2 := p2, id := 0, isPhysical := false,
    branch_id := E.default_branch_id }

/-- Modelled from the spec: the constructor `gmsh_circle(center, p1, p2)` of the missing header. -/
def gmsh_circle.make (center p1 p2 : gmsh_point) : gmsh_circle :=
  { center := center, point1 := p1, point2 := p2, id := 0, isPhysical := false }

/-- Modelled from the spec: the constructor `gmsh_line_loop(ids)` of the missing header. -/
def gmsh_line_loop.make (ids : List Int) : gmsh_line_loop :=
  { ids := ids, id := 0, isPhysical := false, isRuled := false }

/-- Modelled from the spec: the constructor `gmsh_volume(ids)` of the missing header. -/
def gmsh_volume.make (ids : List Nat) : gmsh_volume :=
  { ids := ids, id := 0, isPhysical := false }

/-- Modelled from the spec: the comparator of the point container in the missing
header; the identity key of a point is its coordinate, compared exactly. -/
def gmsh_point.same (p q : gmsh_point) : Bool :=
  decide (p.coords = q.coords)

/-- Modelled from the spec: the identity key of a segment is its ordered pair of points. -/
def gmsh_segment.same (s t : gmsh_segment) : Bool :=
  s.point1.same t.point1 && s.point2.same t.point2

/-- Modelled from the spec: the identity key of an arc is its triple of points. -/
def gmsh_circle.same (c d : gmsh_circle) : Bool :=
  c.center.same d.center && c.point1.same d.point1 && c.point2.same d.point2

/-- Modelled from the spec: the identity key of a loop is its insertion order, so no
two inserted loops are the same entity. -/
def gmsh_line_loop.same (_ _ : gmsh_line_loop) : Bool :=
  false

/-- Modelled from the spec: the identity key of a volume is its insertion order. -/
def gmsh_volume.same (_ _ : gmsh_volume) : Bool :=
  false

/-- Insertion into a keyed container, `s.insert(x).first`: when an element with the
key of `x` is stored the container is unchanged and that element is returned,
otherwise `x` is stored and returned. -/
def set_insert {α : Type} (same : α → α → Bool) (s : List α) (x : α) : List α × α :=
  match s.find? (fun y => same y x) with
  | some y => (s, y)
  | none => (s ++ [x], x)

/-! ## The catalog -/

/-- The catalog `gmsh_abstract_file`: five keyed containers. -/
structure gmsh_abstract_file where
  _points : List gmsh_point
  _segments : List gmsh_segment
  _circles : List gmsh_circle
  _line_loop : List gmsh_line_loop
  _volumes : List gmsh_volume
deriving DecidableEq

/-- The catalog right after construction. -/
def gmsh_abstract_file.empty : gmsh_abstract_file :=
  { _points := [], _segments := [], _circles := [], _line_loop := [], _volumes := [] }

namespace gmsh_abstract_file

/-- `gmsh_abstract_file::add_point`. -/
def add_point (f : gmsh_abstract_file) (point : gmsh_point) : Nat × gmsh_abstract_file :=
  let new_point : gmsh_point := { point with id := f._points.length + 1 }
  let r := set_insert gmsh_point.same f._points new_point
  (r.2.id, { f with _points := r.1 })

/-- `gmsh_abstract_file::find_point`. -/
def find_point (f : gmsh_abstract_file) (point : gmsh_point) :
    Except exception Nat × gmsh_abstract_file :=
  match f._points.find? (fun y => gmsh_point.same y point) with
  | none => (Except.error exception.out_of_range, f)
  | some it => (Except.ok it.id, f)

/-- `gmsh_abstract_file::create_id_line_element`. -/
def create_id_line_element (f : gmsh_abstract_file) : Nat :=
  f._segments.length + f._circles.length + f._line_loop.length + 1

/-- `gmsh_abstract_file::add_segment`. -/
def add_segment (f : gmsh_abstract_file) (s : gmsh_segment) : Nat × gmsh_abstract_file :=
  let f1 := (f.add_point s.point1).2
  let f2 := (f1.add_point s.point2).2
  let segment : gmsh_segment := { s with id := f2.create_id_line_element }
  let r := set_insert gmsh_segment.same f2._segments segment
  (r.2.id, { f2 with _segments := r.1 })

/-- `gmsh_abstract_file::add_circle`. -/
def add_circle (f : gmsh_abstract_file) (c : gmsh_circle) : Nat × gmsh_abstract_file :=
  let f1 := (f.add_point c.center).2
  let f2 := (f1.add_point c.point1).2
  let f3 := (f2.add_point c.point2).2
  let my_circle : gmsh_circle := { c with id := f3.create_id_line_element }
  let r := set_insert gmsh_circle.same f3._circles my_circle
  (r.2.id, { f3 with _circles := r.1 })

/-- `gmsh_abstract_file::add_line_loop`. -/
def add_line_loop (f : gmsh_abstract_file) (l : gmsh_line_loop) : Nat × gmsh_abstract_file :=
  let loop : gmsh_line_loop := { l with id := f.create_id_line_element }
  let r := set_insert gmsh_line_loop.same f._line_loop loop
  (r.2.id, { f with _line_loop := r.1 })

/-- `gmsh_abstract_file::add_volume`. -/
def add_volume (f : gmsh_abstract_file) (v : gmsh_volume) : Nat × gmsh_abstract_file :=
  let volume : gmsh_volume := { v with id := f._volumes.length + 1 }
  let r := set_insert gmsh_volume.same f._volumes volume
  (r.2.id, { f with _volumes := r.1 })

end gmsh_abstract_file

/-- `sort_by_id`: copy of the container sorted with the comparator `p1.id < p2.id`. -/
def sort_by_id {α : Type} (id : α → Nat) (s : List α) : List α :=
  s.insertionSort (fun p1 p2 => id p1 < id p2)

namespace gmsh_abstract_file

/-- `gmsh_abstract_file::get_all_points`. -/
def get_all_points (f : gmsh_abstract_file) : List gmsh_point :=
  sort_by_id gmsh_point.id f._points

/-- `gmsh_abstract_file::get_all_segments`. -/
def get_all_segments (f : gmsh_abstract_file) : List gmsh_segment :=
  sort_by_id gmsh_segment.id f._segments

/-- `gmsh_abstract_file::get_all_circles`. -/
def get_all_circles (f : gmsh_abstract_file) : List gmsh_circle :=
  sort_by_id gmsh_circle.id f._circles

/-- `gmsh_abstract_file::get_all_line_loops`. -/
def get_all_line_loops (f : gmsh_abstract_file) : List gmsh_line_loop :=
  sort_by_id gmsh_line_loop.id f._line_loop

/-- `gmsh_abstract_file::get_all_volumes`. -/
def get_all_volumes (f : gmsh_abstract_file) : List gmsh_volume :=
  sort_by_id gmsh_volume.id f._volumes

end gmsh_abstract_file

/-- `clean_coordinate`: a value almost equal to zero becomes zero. -/
def clean_coordinate (E : externals) (val : ℚ) : ℚ :=
  if E.almost_equal val 0 then 0 else val

/-! ## Rounding to `double`

Values of type `double` are rationals, and the operations on them are exact, except
where the rounding of an operation changes a property stated below: the subtraction and
the addition of the margin in `add_bounding_box` round their result with `round_double`. -/

/-- Position of the leading binary digit of `n`, found in at most `fuel` halvings. -/
def log2_fuel : Nat → Nat → Nat
  | 0, _ => 0
  | fuel + 1, n => if n < 2 then 0 else log2_fuel fuel (n / 2) + 1

/-- The power of two `2 ^ e`. -/
def pow2 (e : Int) : ℚ :=
  if 0 ≤ e then ((2 ^ e.toNat : Nat) : ℚ) else 1 / ((2 ^ (-e).toNat : Nat) : ℚ)

/-- The binary exponent `e` of a non-zero value: `2 ^ e ≤ |q| < 2 ^ (e + 1)`. -/
def binade (q : ℚ) : Int :=
  let e0 : Int := (log2_fuel q.num.natAbs q.num.natAbs : Int) - (log2_fuel q.den q.den : Int)
  if pow2 e0 ≤ |q| then e0 else e0 - 1

/-- The integer nearest to `m`, the even one of the two when `m` lies half way. -/
def round_even (m : ℚ) : Int :=
  let fl := ⌊m⌋
  let fr := m - fl
  if fr < 1 / 2 then fl
  else if 1 / 2 < fr then fl + 1
  else if fl % 2 = 0 then fl else fl + 1

/-- The `double` a real result is rounded to (IEEE 754 binary64, round to nearest, ties
to even): the nearest multiple of `2 ^ (e - 52)`, with `e` the binary exponent of the
value.  The exponent range is not bounded: overflow and subnormal values are not
modelled. -/
def round_double (q : ℚ) : ℚ :=
  if q = 0 then 0
  else
    let ulp := pow2 (binade q - 52)
    round_even (q / ulp) * ulp

/-- One iteration of the extent loop of `add_bounding_box` on `(minp, maxp)`. -/
def bounding_box_step (E : externals) (acc : point3d × point3d) (p : gmsh_point) :
    point3d × point3d :=
  let minp := acc.1
  let maxp := acc.2
  let x := clean_coordinate E p.coords.x
  let minp := if x < minp.x then { minp with x := x } else minp
  let maxp := if x > maxp.x then { maxp with x := x } else maxp
  let y := clean_coordinate E p.coords.y
  let minp := if y < minp.y then { minp with y := y } else minp
  let maxp := if y > maxp.y then { maxp with y := y } else maxp
  let z := clean_coordinate E p.coords.z
  let minp := if z < minp.z then { minp with z := z } else minp
  let maxp := if z > maxp.z then { maxp with z := z } else maxp
  (minp, maxp)

/-- The inflated extents `(minp, maxp)` computed by `add_bounding_box`: the extent loop,
then `minp[i] -= offset` and `maxp[i] += offset`, each rounded to `double`. -/
def bounding_box_extents (E : externals) (f : gmsh_abstract_file) : point3d × point3d :=
  let init : point3d × point3d := (⟨1000000, 1000000, 1000000⟩, ⟨-1000000, -1000000, -1000000⟩)
  let r := f.get_all_points.foldl (bounding_box_step E) init
  let offset : ℚ := 20
  (⟨round_double (r.1.x - offset), round_double (r.1.y - offset),
      round_double (r.1.z - offset)⟩,
   ⟨round_double (r.2.x + offset), round_double (r.2.y + offset),
      round_double (r.2.z + offset)⟩)

/-- The eight corner points `pnt0 .. pnt7` of `add_bounding_box`, flagged physical. -/
def bounding_box_pnts (E : externals) (f : gmsh_abstract_file) : List gmsh_point :=
  let minp := (bounding_box_extents E f).1
  let maxp := (bounding_box_extents E f).2
  let csize : ℚ := 100
  let mk := fun (c : point3d) => { gmsh_point.make c csize with isPhysical := true }
  [ mk ⟨minp.x, minp.y, minp.z⟩, mk ⟨maxp.x, minp.y, minp.z⟩,
    mk ⟨maxp.x, maxp.y, minp.z⟩, mk ⟨minp.x, maxp.y, minp.z⟩,
    mk ⟨minp.x, minp.y, maxp.z⟩, mk ⟨maxp.x, minp.y, maxp.z⟩,
    mk ⟨maxp.x, maxp.y, maxp.z⟩, mk ⟨minp.x, maxp.y, maxp.z⟩ ]

/-- The twelve edges of `add_bounding_box` as index pairs into `pnts`, in the order
of its three loops. -/
def bounding_box_edges : List (Nat × Nat) :=
  (List.range 4).map (fun i => (i, (i + 1) % 4)) ++
  (List.range 4).map (fun i => (i, i + 4)) ++
  (List.range 4).map (fun i => (i + 4, (i + 1) % 4 + 4))

/-- The twelve edge segments of `add_bounding_box`, flagged physical: `pnts[i]` to
`pnts[j]` for each index pair of `bounding_box_edges`. -/
def bounding_box_segments (E : externals) (f : gmsh_abstract_file) : List gmsh_segment :=
  let pnts := bounding_box_pnts E f
  let pnt := fun (i : Nat) => pnts.getD i (gmsh_point.make ⟨0, 0, 0⟩ 0)
  bounding_box_edges.map
    (fun e => { gmsh_segment.make E (pnt e.1) (pnt e.2) with isPhysical := true })

/-- The six faces of `add_bounding_box`: signed positions in `seg_ids`. -/
def bounding_box_faces : List (List (Bool × Nat)) :=
  [ [(true, 0), (true, 1), (true, 2), (true, 3)],
    [(true, 3), (true, 4), (false, 11), (false, 7)],
    [(false, 0), (true, 4), (true, 8), (false, 5)],
    [(false, 1), (true, 5), (true, 9), (false, 6)],
    [(true, 2), (true, 7), (false, 10), (false, 6)],
    [(true, 8), (true, 9), (true, 10), (true, 11)] ]

namespace gmsh_abstract_file

/-- Insertion of a sequence of points, one `add_point` after the other. -/
def add_points (f : gmsh_abstract_file) (ps : List gmsh_point) : gmsh_abstract_file :=
  ps.foldl (fun g p => (g.add_point p).2) f

/-- Insertion of a sequence of segments collecting the returned identifiers. -/
def add_segments (f : gmsh_abstract_file) (ss : List gmsh_segment) :
    List Int × gmsh_abstract_file :=
  ss.foldl (fun acc s => (acc.1 ++ [((acc.2.add_segment s).1 : Int)], (acc.2.add_segment s).2))
    ([], f)

/-- Insertion of a sequence of loops collecting the returned identifiers. -/
def add_line_loops (f : gmsh_abstract_file) (ls : List gmsh_line_loop) :
    List Nat × gmsh_abstract_file :=
  ls.foldl (fun acc l => (acc.1 ++ [(acc.2.add_line_loop l).1], (acc.2.add_line_loop l).2))
    ([], f)

/-- `gmsh_abstract_file::add_bounding_box`. -/
def add_bounding_box (E : externals) (f : gmsh_abstract_file) : gmsh_abstract_file :=
  let f1 := f.add_points (bounding_box_pnts E f)
  let r2 := f1.add_segments (bounding_box_segments E f)
  let seg_ids := r2.1
  let sid := fun (e : Bool × Nat) =>
    if e.1 then seg_ids.getD e.2 0 else - seg_ids.getD e.2 0
  let lloops := bounding_box_faces.map
    (fun face => { gmsh_line_loop.make (face.map sid) with isPhysical := true, isRuled := true })
  let r3 := r2.2.add_line_loops lloops
  let lloop_ids := r3.1
  let vol : gmsh_volume := { gmsh_volume.make lloop_ids with isPhysical := true }
  (r3.2.add_volume vol).2

end gmsh_abstract_file

/-- One call on the catalog's insertion interface. -/
inductive catalog_op where
  | add_point (p : gmsh_point)
  | add_segment (s : gmsh_segment)
  | add_circle (c : gmsh_circle)
  | add_line_loop (l : gmsh_line_loop)
  | add_volume (v : gmsh_volume)
  | add_bounding_box

/-- The catalog after one insertion call. -/
def catalog_op.apply (E : externals) (f : gmsh_abstract_file) : catalog_op → gmsh_abstract_file
  | .add_point p => (f.add_point p).2
  | .add_segment s => (f.add_segment s).2
  | .add_circle c => (f.add_circle c).2
  | .add_line_loop l => (f.add_line_loop l).2
  | .add_volume v => (f.add_volume v).2
  | .add_bounding_box => f.add_bounding_box E

/-- The catalog after a sequence of insertion calls, first call first. -/
def run_ops (E : externals) (ops : List catalog_op) (f : gmsh_abstract_file) :
    gmsh_abstract_file :=
  ops.foldl (catalog_op.apply E) f


/-! ## Branch geometry (`morpho_tree_bits.hpp`) -/

/-- Sum of two coordinate triples. -/
def point3d.add (a b : point3d) : point3d :=
  ⟨a.x + b.x, a.y + b.y, a.z + b.z⟩

/-- Difference of two coordinate triples. -/
def point3d.sub (a b : point3d) : point3d :=
  ⟨a.x - b.x, a.y - b.y, a.z - b.z⟩

/-- Division of a coordinate triple by a scalar. -/
def point3d.div (a : point3d) (n : ℚ) : point3d :=
  ⟨a.x / n, a.y / n, a.z / n⟩

/-- Sphere `geo::sphere3d`. -/
structure sphere3d where
  center : point3d
  radius : ℚ
deriving DecidableEq

/-- Oriented circular cross-section `geo::circle3d`. -/
structure circle3d where
  center : point3d
  radius : ℚ
  axis : point3d
deriving DecidableEq

/-- Modelled from the spec: the type tag of a branch (the enumeration is declared in
the missing header `morpho_tree.hpp`); the sources only test it against `soma`. -/
inductive branch_type where
  | soma
  | other
deriving DecidableEq

/-- Modelled from the spec: a branch of the missing header `morpho_tree.hpp`: type tag,
identifier, point sequence, per-point radius sequence and the parent link `_parent`
(`none` is the null pointer). -/
inductive branch where
  | mk (type : branch_type) (id : Nat) (points : List point3d) (distances : List ℚ)
      (parent : Option branch)

namespace branch

/-- Accessor `branch::get_type`. -/
def get_type : branch → branch_type
  | mk t _ _ _ _ => t

/-- Accessor `branch::get_id`. -/
def get_id : branch → Nat
  | mk _ i _ _ _ => i

/-- Accessor `branch::get_points`. -/
def get_points : branch → List point3d
  | mk _ _ ps _ _ => ps

/-- Accessor `branch::get_distances`. -/
def get_distances : branch → List ℚ
  | mk _ _ _ ds _ => ds

/-- The parent link `_parent`. -/
def get_parent : branch → Option branch
  | mk _ _ _ _ p => p

/-- Accessor `branch::get_size`: the number of own points. -/
def get_size (b : branch) : Nat :=
  b.get_points.length

/-- Accessor `branch::get_point`; a read outside the sequence is `out_of_bounds`. -/
def get_point (b : branch) (i : Nat) : Except exception point3d :=
  match b.get_points[i]? with
  | some p => Except.ok p
  | none => Except.error exception.out_of_bounds

/-- Read of `_distances[i]`; a read outside the sequence is `out_of_bounds`. -/
def get_distance (b : branch) (i : Nat) : Except exception ℚ :=
  match b.get_distances[i]? with
  | some r => Except.ok r
  | none => Except.error exception.out_of_bounds

end branch

/-- Subtraction of `std::size_t` values, wrapping modulo `2 ^ 64`.  It is used where
the wrapped value is read as an index into a non-empty sequence; where the sequence is
empty or the subtraction is guarded, truncated subtraction gives the same outcome. -/
def size_t_sub (a b : Nat) : Nat :=
  (a + 2 ^ 64 - b) % 2 ^ 64

/-- `soma_gravity_center`: mean of the points and mean distance to it. -/
def soma_gravity_center (E : externals) (raw_points : List point3d) : point3d × ℚ :=
  let center : point3d := raw_points.foldl (fun c p => c.add p) (point3d.mk 0 0 0)
  let center := center.div raw_points.length
  let distance := raw_points.foldl (fun d p => d + E.distance p center) 0
  (center, distance / raw_points.length)

/-- `get_tangente_axis`. -/
def get_tangente_axis (p1 p2 p3 : point3d) : point3d :=
  let v1 := p2.sub p1
  let v2 := p3.sub p2
  v1.add v2

namespace branch

/-- `branch_soma::get_sphere`. -/
def get_sphere (E : externals) (b : branch) : Except exception sphere3d :=
  match b.get_size with
  | 0 => Except.error exception.runtime_error
  | 1 => do
    let p ← b.get_point 0
    let r ← b.get_distance 0
    pure ⟨p, r⟩
  | _ =>
    let r := soma_gravity_center E b.get_points
    pure ⟨r.1, r.2⟩

/-- `branch::get_linestring`. -/
def get_linestring (E : externals) (b : branch) : Except exception (List point3d) := do
  let res ← match b.get_parent with
    | some parent =>
      if parent.get_type = branch_type.soma then do
        let sphere ← parent.get_sphere E
        pure [sphere.center]
      else do
        let p ← parent.get_point (parent.get_size - 1)
        pure [p]
    | none => pure []
  let own ← (List.range b.get_size).mapM (fun i => b.get_point i)
  pure (res ++ own)

/-- The last element `res.back()` of a cross-section sequence. -/
def back (res : List circle3d) : Except exception circle3d :=
  match res.getLast? with
  | some c => Except.ok c
  | none => Except.error exception.out_of_bounds

/-- One iteration, for own point `i`, of the second loop of `get_circle_pipe`. -/
def circle_pipe_step (E : externals) (b : branch) (res : List circle3d) (i : Nat) :
    Except exception (List circle3d) := do
  let prev ← back res
  let prev_center := prev.center
  let center ← b.get_point i
  let axis ←
    if i < b.get_size - 1 then do
      let next ← b.get_point (i + 1)
      pure (get_tangente_axis prev_center center next)
    else pure (prev_center.sub center)
  let radius ← b.get_distance i
  if E.close_to prev_center center then pure res
  else pure (res ++ [⟨center, radius, axis⟩])

/-- `branch::get_circle_pipe`. -/
def get_circle_pipe (E : externals) : branch → Except exception (List circle3d)
  | mk t i ps ds parent =>
    if (mk t i ps ds parent).get_size < 1 then pure []
    else do
      let res ←
        match parent with
        | some p =>
          if p.get_type = branch_type.soma then do
            let sphere ← p.get_sphere E
            let center := sphere.center
            let radius := sphere.radius
            let p0 ← (mk t i ps ds parent).get_point 0
            let axis := center.sub p0
            pure [circle3d.mk center radius axis]
          else do
            let parent_circle_pipe ← get_circle_pipe E p
            if parent_circle_pipe.length < 1 then Except.error exception.runtime_error
            else do
              let last ← back parent_circle_pipe
              pure [last]
        | none => Except.error exception.runtime_error
      (List.range (mk t i ps ds parent).get_size).foldlM
        (circle_pipe_step E (mk t i ps ds parent)) res

end branch

/-! ## Wireframe construction and export -/

/-- Modelled from the spec: the bit set `exporter_flags` of the missing header
`mesh_exporter.hpp`, one field per flag the sources test. -/
structure exporter_flags where
  exporter_single_soma : Bool
  exporter_write_dmg : Bool
  exporter_bounding_box : Bool
  exporter_packed : Bool
deriving DecidableEq

/-- Modelled from the spec: the tree of the missing header `morpho_tree.hpp` seen from a
branch: the branch itself and, for each identifier `c` of `get_childrens()`, the tree
seen from `tree.get_branch(c)`. -/
inductive morpho_tree where
  | node (current_branch : branch) (childrens : List morpho_tree)

/-- Read of `v[i]`; a read outside the sequence is `out_of_bounds`. -/
def at_index {α : Type} (v : List α) (i : Nat) : Except exception α :=
  match v[i]? with
  | some a => Except.ok a
  | none => Except.error exception.out_of_bounds

/-- One iteration, for index `i`, of the segment loop of `construct_gmsh_vfile_lines`. -/
def vfile_lines_step (E : externals) (current_branch : branch) (linestring : List point3d)
    (vfile : gmsh_abstract_file) (i : Nat) : Except exception gmsh_abstract_file := do
  let a ← at_index linestring i
  let b ← at_index linestring (i + 1)
  let dist := E.distance a b
  let p1 : gmsh_point := { gmsh_point.make a dist with isPhysical := true }
  let dist ←
    if i < linestring.length - 2 then do
      let c ← at_index linestring (i + 2)
      pure (E.distance b c)
    else pure dist
  let p2 : gmsh_point := { gmsh_point.make b dist with isPhysical := true }
  let segment : gmsh_segment :=
    { gmsh_segment.make E p1 p2 with isPhysical := true, branch_id := current_branch.get_id }
  pure (vfile.add_segment segment).2

/-- The segments of one branch, first part of `construct_gmsh_vfile_lines`. -/
def vfile_lines_branch (E : externals) (flags : exporter_flags) (current_branch : branch)
    (vfile : gmsh_abstract_file) : Except exception gmsh_abstract_file := do
  let linestring ← current_branch.get_linestring E
  if linestring.length > 1 &&
      !(decide (current_branch.get_type = branch_type.soma) && flags.exporter_single_soma) then
    (List.range (linestring.length - 1)).foldlM
      (vfile_lines_step E current_branch linestring) vfile
  else pure vfile

mutual

/-- `gmsh_exporter::construct_gmsh_vfile_lines`. -/
def construct_gmsh_vfile_lines (E : externals) (flags : exporter_flags) :
    morpho_tree → gmsh_abstract_file → Except exception gmsh_abstract_file
  | morpho_tree.node current_branch childrens, vfile => do
    let vfile ← vfile_lines_branch E flags current_branch vfile
    construct_gmsh_vfile_lines_childrens E flags childrens vfile

/-- The loop of `construct_gmsh_vfile_lines` over the children of a branch. -/
def construct_gmsh_vfile_lines_childrens (E : externals) (flags : exporter_flags) :
    List morpho_tree → gmsh_abstract_file → Except exception gmsh_abstract_file
  | [], vfile => pure vfile
  | c :: cs, vfile => do
    let vfile ← construct_gmsh_vfile_lines E flags c vfile
    construct_gmsh_vfile_lines_childrens E flags cs vfile

end

/-- One statement of the geometry script written to `geo_stream`. -/
inductive geo_statement where
  /-- Literal text: a comment or the header. -/
  | text (s : String)
  /-- Scale directive `h=1;`. -/
  | scale
  /-- Statement `Point(id) = (x, y, z);`. -/
  | point (id : Nat) (x y z : ℚ)
  /-- Statement `Physical name("tag") = (ids);`. -/
  | physical (name tag : String) (ids : List Nat)
  /-- Statement `Line(id) = (points);`. -/
  | line (id : Nat) (points : List Nat)
  /-- Statement `Circle(id) = (p1, center, p2);`. -/
  | circle (id : Nat) (p1 center p2 : Nat)
  /-- Statement `Line Loop(id) = (ids);`. -/
  | line_loop (id : Nat) (ids : List Int)
  /-- Statement `Ruled Surface(id) = (id);`. -/
  | ruled_surface (id : Nat)
  /-- Statement `Surface Loop(id) = (ids);`. -/
  | surface_loop (id : Nat) (ids : List Nat)
  /-- Statement `Volume(id) = (id);`. -/
  | volume (id : Nat)
  /-- Statement `Physical Volume(id) = (id);`. -/
  | physical_volume (id : Nat)
  /-- Directive `For s In (beg:end) Line(s) In Volume(vol); EndFor`. -/
  | for_line_in_volume (seg_id_beg seg_id_end vol_id_end : Nat)
deriving DecidableEq

/-- `exportPhysicalsElements` on the `(id, isPhysical)` pairs of a collection: `none`
is the state `first == true`, `some ids` the statement opened so far. -/
def exportPhysicalsElements (elements : List (Nat × Bool)) (name tag : String) :
    List geo_statement :=
  let r : Option (List Nat) := elements.foldl
    (fun acc p =>
      if p.2 then
        match acc with
        | none => some [p.1]
        | some ids => some (ids ++ [p.1])
      else acc) none
  match r with
  | none => []
  | some ids => [geo_statement.physical name tag ids]

/-- `export_segments_single`. -/
def export_segments_single (all_segments : List gmsh_segment) (f : gmsh_abstract_file) :
    Except exception (List geo_statement) := do
  let lines ← all_segments.mapM (fun p => do
    let p1 ← (f.find_point p.point1).1
    let p2 ← (f.find_point p.point2).1
    pure (geo_statement.line p.id [p1, p2]))
  pure ([geo_statement.text "// export morphology segments"] ++ lines ++
    exportPhysicalsElements (all_segments.map (fun p => (p.id, p.isPhysical))) "Line" "Segments")

/-- One iteration of the grouping loop of `export_segments_packed` on
`(packed_segments, packed_lines)`; the comparison of two points is the one of the
catalog. -/
def packed_step (acc : List (List gmsh_segment) × List (Nat × Bool)) (p : gmsh_segment) :
    List (List gmsh_segment) × List (Nat × Bool) :=
  let packed_segments := acc.1
  let packed_lines := acc.2
  let chained : Bool :=
    match packed_segments.getLast? with
    | some back_group =>
      match back_group.getLast? with
      | some b => gmsh_point.same b.point2 p.point1 && decide (b.branch_id = p.branch_id)
      | none => false
    | none => false
  if chained then
    (packed_segments.dropLast ++ (packed_segments.getLast?.map (fun g => g ++ [p])).toList,
     packed_lines)
  else
    let packed_line_id := packed_lines.length + 1
    (packed_segments ++ [[{ p with id := packed_line_id }]],
     packed_lines ++ [(packed_line_id, true)])

/-- `export_segments_packed`. -/
def export_segments_packed (all_segments : List gmsh_segment) (f : gmsh_abstract_file) :
    Except exception (List geo_statement) := do
  let r := all_segments.foldl packed_step ([], [])
  let lines ← r.1.mapM (fun elem_group => do
    let first_elem ← at_index elem_group 0
    let p1 ← (f.find_point first_elem.point1).1
    let rest ← elem_group.mapM (fun p => (f.find_point p.point2).1)
    pure (geo_statement.line first_elem.id (p1 :: rest)))
  pure ([geo_statement.text "// export morphology segments packed"] ++ lines ++
    exportPhysicalsElements r.2 "Line" "Segments")

namespace gmsh_abstract_file

/-- `gmsh_abstract_file::export_points_to_stream`. -/
def export_points_to_stream (E : externals) (f : gmsh_abstract_file) : List geo_statement :=
  let all_points := f.get_all_points
  [geo_statement.text "// export morphology points", geo_statement.scale] ++
    all_points.map (fun p => geo_statement.point p.id (clean_coordinate E p.coords.x)
      (clean_coordinate E p.coords.y) (clean_coordinate E p.coords.z)) ++
    exportPhysicalsElements (all_points.map (fun p => (p.id, p.isPhysical))) "Point" "Points"

/-- `gmsh_abstract_file::export_segments_to_stream`. -/
def export_segments_to_stream (f : gmsh_abstract_file) (packed : Bool) :
    Except exception (List geo_statement) :=
  let all_segments := f.get_all_segments
  if packed then export_segments_packed all_segments f
  else export_segments_single all_segments f

/-- `gmsh_abstract_file::export_circle_to_stream`. -/
def export_circle_to_stream (f : gmsh_abstract_file) :
    Except exception (List geo_statement) := do
  let all_circles := f.get_all_circles
  let arcs ← all_circles.mapM (fun p => do
    let p1 ← (f.find_point p.point1).1
    let c ← (f.find_point p.center).1
    let p2 ← (f.find_point p.point2).1
    pure (geo_statement.circle p.id p1 c p2))
  pure ([geo_statement.text "// export morphology arc-circle"] ++ arcs ++
    exportPhysicalsElements (all_circles.map (fun p => (p.id, p.isPhysical))) "Line" "Circles")

/-- `gmsh_abstract_file::export_line_loop_to_stream`. -/
def export_line_loop_to_stream (f : gmsh_abstract_file) : List geo_statement :=
  let all_loop := f.get_all_line_loops
  [geo_statement.text "// export line_looop"] ++
    all_loop.flatMap (fun p =>
      [geo_statement.line_loop p.id p.ids] ++
        (if p.isRuled then [geo_statement.ruled_surface p.id] else [])) ++
    exportPhysicalsElements (all_loop.map (fun p => (p.id, p.isPhysical))) "Surface" "Surfaces"

/-- `gmsh_abstract_file::export_volume_to_stream`. -/
def export_volume_to_stream (f : gmsh_abstract_file) : List geo_statement :=
  let all_volumes := f.get_all_volumes
  [geo_statement.text "// export volumes"] ++
    all_volumes.flatMap (fun p =>
      [geo_statement.surface_loop p.id p.ids, geo_statement.volume p.id] ++
        (if p.isPhysical then [geo_statement.physical_volume p.id] else []))

end gmsh_abstract_file

/-- The catalog after the construction loop of `export_to_wireframe` over the trees. -/
def construct_all (E : externals) (flags : exporter_flags) :
    List morpho_tree → gmsh_abstract_file → Except exception gmsh_abstract_file
  | [], vfile => pure vfile
  | t :: ts, vfile => do
    let vfile ← construct_gmsh_vfile_lines E flags t vfile
    construct_all E flags ts vfile

/-- `gmsh_exporter::export_to_wireframe`: the statements written to `geo_stream` for
the loaded trees `morphotrees`; the companion stream `dmg_stream` is not modelled. -/
def export_to_wireframe (E : externals) (flags : exporter_flags)
    (morphotrees : List morpho_tree) : Except exception (List geo_statement) := do
  let header := [geo_statement.text "gmsh file generated by morpho-tool"]
  let vfile ← construct_all E flags morphotrees gmsh_abstract_file.empty
  let vfile := if flags.exporter_bounding_box then vfile.add_bounding_box E else vfile
  let points := vfile.export_points_to_stream E
  let segments ← vfile.export_segments_to_stream flags.exporter_packed
  let box ←
    if flags.exporter_bounding_box then do
      let loops := vfile.export_line_loop_to_stream
      let volumes := vfile.export_volume_to_stream
      let all_segments := vfile.get_all_segments
      let seg_beg ← at_index all_segments 0
      let seg_end ← at_index all_segments (size_t_sub all_segments.length 13)
      let all_volumes := vfile.get_all_volumes
      let vol_end ← at_index all_volumes (all_volumes.length - 1)
      pure (loops ++ volumes ++
        [geo_statement.for_line_in_volume seg_beg.id seg_end.id vol_end.id])
    else pure []
  pure (header ++ points ++ segments ++ box)

/-! ## Solid construction -/

/-- Product of a vector by a scalar. -/
def point3d.scale (a : point3d) (k : ℚ) : point3d :=
  ⟨a.x * k, a.y * k, a.z * k⟩

/-- Scalar product `geo::dot_product`. -/
def dot_product (a b : point3d) : ℚ :=
  a.x * b.x + a.y * b.y + a.z * b.z

/-- Vector product `geo::cross_product`. -/
def cross_product (a b : point3d) : point3d :=
  ⟨a.y * b.z - a.z * b.y, a.z * b.x - a.x * b.z, a.x * b.y - a.y * b.x⟩

/-- The largest finite `double`, `std::numeric_limits<double>::max()`. -/
def double_max : ℚ :=
  2 ^ 1024 - 2 ^ 971

/-- A fixed-size array `std::array<T, 4>`. -/
structure array4 (α : Type) where
  e0 : α
  e1 : α
  e2 : α
  e3 : α
deriving DecidableEq

/-- Element `a[i]` of an array of four, for `i` in `0 .. 3`. -/
def array4.get {α : Type} (a : array4 α) (i : Nat) : α :=
  match i with
  | 0 => a.e0
  | 1 => a.e1
  | 2 => a.e2
  | _ => a.e3

/-- The elements of an array of four in index order. -/
def array4.toList {α : Type} (a : array4 α) : List α :=
  [a.e0, a.e1, a.e2, a.e3]

/-- Index following `i` in the cyclic order of four: `(i < 3) ? i + 1 : 0`. -/
def next_id (i : Nat) : Nat :=
  if i < 3 then i + 1 else 0

/-- One iteration of the loop of `create_gmsh_sphere` over `zpoints`. -/
def sphere_z_step (center x y : gmsh_point) (xy_circle_id : Nat)
    (acc : List Nat × gmsh_abstract_file) (z : gmsh_point) : List Nat × gmsh_abstract_file :=
  let xz_circle : gmsh_circle := { gmsh_circle.make center x z with isPhysical := true }
  let r1 := acc.2.add_circle xz_circle
  let xz_circle_id := r1.1
  let yz_circle : gmsh_circle := { gmsh_circle.make center y z with isPhysical := true }
  let r2 := r1.2.add_circle yz_circle
  let yz_circle_id := r2.1
  let line_loop : gmsh_line_loop :=
    { gmsh_line_loop.make [(xy_circle_id : Int), (yz_circle_id : Int), -(xz_circle_id : Int)]
      with isPhysical := true, isRuled := true }
  let r3 := r2.2.add_line_loop line_loop
  (acc.1 ++ [r3.1], r3.2)

/-- One iteration of the loop of `create_gmsh_sphere` over `ypoints`. -/
def sphere_y_step (center x : gmsh_point) (zpoints : List gmsh_point)
    (acc : List Nat × gmsh_abstract_file) (y : gmsh_point) : List Nat × gmsh_abstract_file :=
  let xy_circle : gmsh_circle := { gmsh_circle.make center x y with isPhysical := true }
  let r := acc.2.add_circle xy_circle
  zpoints.foldl (sphere_z_step center x y r.1) (acc.1, r.2)

/-- One iteration of the loop of `create_gmsh_sphere` over `xpoints`. -/
def sphere_x_step (center : gmsh_point) (ypoints zpoints : List gmsh_point)
    (acc : List Nat × gmsh_abstract_file) (x : gmsh_point) : List Nat × gmsh_abstract_file :=
  ypoints.foldl (sphere_y_step center x zpoints) acc

/-- The six extremal points of `create_gmsh_sphere`, flagged physical as they are when
the loops use them: `(xpoints, ypoints, zpoints)`. -/
def sphere_points (E : externals) (sphere : sphere3d) :
    List gmsh_point × List gmsh_point × List gmsh_point :=
  let mk := fun (c : point3d) => { gmsh_point.make c E.default_diameter with isPhysical := true }
  let r := sphere.radius
  ([mk (sphere.center.sub ⟨r, 0, 0⟩), mk (sphere.center.add ⟨r, 0, 0⟩)],
   [mk (sphere.center.sub ⟨0, r, 0⟩), mk (sphere.center.add ⟨0, r, 0⟩)],
   [mk (sphere.center.sub ⟨0, 0, r⟩), mk (sphere.center.add ⟨0, 0, r⟩)])

/-- `create_gmsh_sphere`. -/
def create_gmsh_sphere (E : externals) (vfile : gmsh_abstract_file) (sphere : sphere3d) :
    gmsh_abstract_file :=
  let pts := sphere_points E sphere
  let center := gmsh_point.make sphere.center E.default_diameter
  let r := pts.1.foldl (sphere_x_step center pts.2.1 pts.2.2) ([], vfile)
  let line_loops := r.1
  (r.2.add_volume (gmsh_volume.make line_loops)).2

/-- `check_points_on_circle`: the points that pass the test; the function throws when
one of them fails. -/
def check_points_on_circle (E : externals) (radius : ℚ) (center : gmsh_point)
    (points : array4 gmsh_point) : Except exception Unit :=
  if points.toList.all
      (fun p => E.close_to_abs radius (E.distance center.coords p.coords) (1 / 10000)) then
    pure ()
  else Except.error exception.out_of_range

/-- `get_unit_vec`. -/
def get_unit_vec (p1 : point3d) : point3d :=
  let unit_vec : List point3d := [⟨1, 0, 0⟩, ⟨0, 1, 0⟩]
  let r := unit_vec.foldl
    (fun (acc : ℚ × point3d) u =>
      let dot_res := dot_product p1 u
      if dot_res < acc.1 then (dot_res, u) else acc)
    (double_max, ⟨0, 0, 0⟩)
  r.2

/-- The four boundary points of `create_gmsh_circle`, flagged physical. -/
def circle_points (E : externals) (p1 : circle3d) : array4 gmsh_point :=
  let center_coords := p1.center
  let radius := p1.radius
  let axis := E.normalize p1.axis
  let unit_vec := get_unit_vec axis
  let normal_vec := cross_product unit_vec axis
  let normal_vec := E.normalize normal_vec
  let orig_vec := cross_product normal_vec axis
  let orig_vec := E.normalize orig_vec
  let mk := fun (v : point3d) =>
    { gmsh_point.make (center_coords.add v) E.default_diameter with isPhysical := true }
  ⟨mk (normal_vec.scale radius), mk (orig_vec.scale radius),
   mk ((normal_vec.scale radius).scale (-1)), mk ((orig_vec.scale radius).scale (-1))⟩

/-- One iteration of the arc loop of `create_gmsh_circle` on `(arc_ids, vfile)`. -/
def circle_arc_step (center : gmsh_point) (points : array4 gmsh_point)
    (acc : List Nat × gmsh_abstract_file) (i : Nat) : List Nat × gmsh_abstract_file :=
  let arc := gmsh_circle.make center (points.get i) (points.get (next_id i))
  let r := acc.2.add_circle arc
  (acc.1 ++ [r.1], r.2)

/-- `create_gmsh_circle`: the centre point, the boundary points, the arc identifiers
and the catalog. -/
def create_gmsh_circle (E : externals) (vfile : gmsh_abstract_file) (p1 : circle3d) :
    Except exception (gmsh_point × array4 gmsh_point × List Nat × gmsh_abstract_file) := do
  let center := gmsh_point.make p1.center E.default_diameter
  let vfile := (vfile.add_point center).2
  let points := circle_points E p1
  let vfile := vfile.add_points points.toList
  check_points_on_circle E p1.radius center points
  let r := [0, 1, 2, 3].foldl (circle_arc_step center points) ([], vfile)
  pure (center, points, r.1, r.2)

/-- One iteration of the spoke loop of `create_gmsh_disk` on
`(radius_segment_ids, vfile)`. -/
def disk_spoke_step (E : externals) (center : gmsh_point)
    (acc : List Nat × gmsh_abstract_file) (point : gmsh_point) :
    List Nat × gmsh_abstract_file :=
  let radius_segment : gmsh_segment :=
    { gmsh_segment.make E point center with isPhysical := true }
  let r := acc.2.add_segment radius_segment
  (acc.1 ++ [r.1], r.2)

/-- One iteration of the capping loop of `create_gmsh_disk` on `(surfaces, vfile)`. -/
def disk_cap_step (arc1_ids radius_segment_ids : List Nat)
    (acc : List Nat × gmsh_abstract_file) (i : Nat) : List Nat × gmsh_abstract_file :=
  let ids : List Int :=
    [(arc1_ids.getD i 0 : Int), (radius_segment_ids.getD (next_id i) 0 : Int),
     -(radius_segment_ids.getD i 0 : Int)]
  let part_disk : gmsh_line_loop :=
    { gmsh_line_loop.make ids with isPhysical := true, isRuled := true }
  let r := acc.2.add_line_loop part_disk
  (acc.1 ++ [r.1], r.2)

/-- `create_gmsh_disk`: the returned surface identifiers, the boundary points, the arc
identifiers and the catalog. -/
def create_gmsh_disk (E : externals) (vfile : gmsh_abstract_file) (p1 : circle3d)
    (surface : Bool) :
    Except exception (List Nat × array4 gmsh_point × List Nat × gmsh_abstract_file) := do
  let (center, circle1_points, arc1_ids, vfile) ← create_gmsh_circle E vfile p1
  let r := circle1_points.toList.foldl (disk_spoke_step E center) ([], vfile)
  let radius_segment_ids := r.1
  if surface then
    let s := [0, 1, 2, 3].foldl (disk_cap_step arc1_ids radius_segment_ids) ([], r.2)
    pure (s.1, circle1_points, arc1_ids, s.2)
  else pure ([], circle1_points, arc1_ids, r.2)

/-- One iteration of the loop of `create_gmsh_pipe_surfaces` on `(res, vfile)`. -/
def pipe_surface_step (E : externals) (disk1_points : array4 gmsh_point)
    (arc1_ids : List Nat) (disk2_points : array4 gmsh_point) (arc2_ids : List Nat)
    (acc : List Nat × gmsh_abstract_file) (i : Nat) : List Nat × gmsh_abstract_file :=
  let id := i
  let seg1 : gmsh_segment :=
    { gmsh_segment.make E (disk1_points.get id) (disk2_points.get id) with isPhysical := true }
  let r1 := acc.2.add_segment seg1
  let line_id1 := r1.1
  let seg2 : gmsh_segment :=
    { gmsh_segment.make E (disk1_points.get (next_id i)) (disk2_points.get (next_id i))
      with isPhysical := true }
  let r2 := r1.2.add_segment seg2
  let line_id2 := r2.1
  let ids : List Int :=
    [(arc1_ids.getD i 0 : Int), (line_id2 : Int), -(arc2_ids.getD i 0 : Int), -(line_id1 : Int)]
  let pipe_surface : gmsh_line_loop :=
    { gmsh_line_loop.make ids with isPhysical := true, isRuled := true }
  let r3 := r2.2.add_line_loop pipe_surface
  (acc.1 ++ [r3.1], r3.2)

/-- `create_gmsh_pipe_surfaces`. -/
def create_gmsh_pipe_surfaces (E : externals) (vfile : gmsh_abstract_file)
    (disk1_points : array4 gmsh_point) (arc1_ids : List Nat)
    (disk2_points : array4 gmsh_point) (arc2_ids : List Nat) :
    List Nat × gmsh_abstract_file :=
  [0, 1, 2, 3].foldl (pipe_surface_step E disk1_points arc1_ids disk2_points arc2_ids)
    ([], vfile)

/-- One iteration, for the pair `(id, id + 1)`, of the loop of
`create_gmsh_truncated_pipe` on `(volume_ids, vfile)`. -/
def truncated_pipe_step (E : externals) (circles : List circle3d)
    (acc : List Nat × gmsh_abstract_file) (id : Nat) :
    Except exception (List Nat × gmsh_abstract_file) := do
  let id_next := id + 1
  let c1 ← at_index circles id
  let (disk_surface_ids1, circle1_points, arc1_ids, vfile) ←
    create_gmsh_disk E acc.2 c1 (decide (id = 0))
  let volume_ids := acc.1 ++ disk_surface_ids1
  let c2 ← at_index circles id_next
  let (disk_surface_ids2, circle2_points, arc2_ids, vfile) ←
    create_gmsh_disk E vfile c2 (decide (id_next = circles.length - 1))
  let volume_ids := volume_ids ++ disk_surface_ids2
  let r := create_gmsh_pipe_surfaces E vfile circle1_points arc1_ids circle2_points arc2_ids
  pure (volume_ids ++ r.1, r.2)

/-- `create_gmsh_truncated_pipe`.  For an empty sequence the loop bound
`circles.size() - 1` wraps and the first iteration reads `circles[0]` outside the
sequence. -/
def create_gmsh_truncated_pipe (E : externals) (vfile : gmsh_abstract_file)
    (circles : List circle3d) : Except exception gmsh_abstract_file :=
  if circles.length = 0 then Except.error exception.out_of_bounds
  else do
    let r ← (List.range (circles.length - 1)).foldlM (truncated_pipe_step E circles) ([], vfile)
    let truncated_pipe : gmsh_volume := { gmsh_volume.make r.1 with isPhysical := true }
    pure (r.2.add_volume truncated_pipe).2

/-- The sphere `construct_gmsh_3d_object` builds for a branch: the soma sphere, or
the sphere at the last point of another branch. -/
def branch_sphere (E : externals) (current_branch : branch) : Except exception sphere3d :=
  if current_branch.get_type = branch_type.soma then current_branch.get_sphere E
  else do
    let last_elem := current_branch.get_distances.length - 1
    let p ← current_branch.get_point last_elem
    let r ← current_branch.get_distance last_elem
    pure ⟨p, r⟩

mutual

/-- `gmsh_exporter::construct_gmsh_3d_object`. -/
def construct_gmsh_3d_object (E : externals) :
    morpho_tree → gmsh_abstract_file → Except exception gmsh_abstract_file
  | morpho_tree.node current_branch childrens, vfile => do
    let sphere ← branch_sphere E current_branch
    let vfile := create_gmsh_sphere E vfile sphere
    construct_gmsh_3d_object_childrens E childrens vfile

/-- The loop of `construct_gmsh_3d_object` over the children of a branch. -/
def construct_gmsh_3d_object_childrens (E : externals) :
    List morpho_tree → gmsh_abstract_file → Except exception gmsh_abstract_file
  | [], vfile => pure vfile
  | morpho_tree.node child_branch cs :: rest, vfile => do
    let pipe ← child_branch.get_circle_pipe E
    let vfile ← create_gmsh_truncated_pipe E vfile pipe
    let vfile ← construct_gmsh_3d_object E (morpho_tree.node child_branch cs) vfile
    construct_gmsh_3d_object_childrens E rest vfile

end

/-! ## The second output format -/

/-- One record of the model description written to `dmg_stream`. -/
inductive dmg_row where
  /-- Record `id x y z` of a point. -/
  | vertex (id : Nat) (x y z : ℚ)
  /-- Record `id p1 p2` of a segment or an arc. -/
  | edge (id p1 p2 : Nat)
  /-- Record `id 1` followed by the number of entries. -/
  | header (id count : Nat)
  /-- Entry `id 1` (positive) or `id 0`. -/
  | use (id : Nat) (positive : Bool)
deriving DecidableEq

namespace gmsh_abstract_file

/-- `gmsh_abstract_file::export_points_to_stream_dmg`. -/
def export_points_to_stream_dmg (E : externals) (f : gmsh_abstract_file) : List dmg_row :=
  let all_points := f.get_all_points
  all_points.flatMap (fun p =>
    if p.isPhysical then
      [dmg_row.vertex p.id (clean_coordinate E p.coords.x) (clean_coordinate E p.coords.y)
        (clean_coordinate E p.coords.z)]
    else [])

/-- `gmsh_abstract_file::export_segments_to_stream_dmg`. -/
def export_segments_to_stream_dmg (f : gmsh_abstract_file) :
    Except exception (List dmg_row) := do
  let all_segments := f.get_all_segments
  let rows ← all_segments.mapM (fun p =>
    if p.isPhysical then do
      let p1 ← (f.find_point p.point1).1
      let p2 ← (f.find_point p.point2).1
      pure [dmg_row.edge p.id p1 p2]
    else pure [])
  pure rows.flatten

/-- `gmsh_abstract_file::export_circle_to_stream_dmg`. -/
def export_circle_to_stream_dmg (f : gmsh_abstract_file) :
    Except exception (List dmg_row) := do
  let all_circles := f.get_all_circles
  let rows ← all_circles.mapM (fun p =>
    if p.isPhysical then do
      let p1 ← (f.find_point p.point1).1
      let p2 ← (f.find_point p.point2).1
      pure [dmg_row.edge p.id p1 p2]
    else pure [])
  pure rows.flatten

/-- `gmsh_abstract_file::export_line_loop_to_stream_dmg`. -/
def export_line_loop_to_stream_dmg (f : gmsh_abstract_file) : List dmg_row :=
  let all_loop := f.get_all_line_loops
  all_loop.flatMap (fun p =>
    if !p.isPhysical then []
    else dmg_row.header p.id p.ids.length ::
      p.ids.map (fun id => dmg_row.use id.natAbs (decide (id > 0))))

/-- `gmsh_abstract_file::export_volume_to_stream_dmg`. -/
def export_volume_to_stream_dmg (f : gmsh_abstract_file) : List dmg_row :=
  let all_volumes := f.get_all_volumes
  all_volumes.flatMap (fun p =>
    if !p.isPhysical then []
    else dmg_row.header p.id p.ids.length ::
      p.ids.map (fun id => dmg_row.use id (decide (id > 0))))

end gmsh_abstract_file

/-! ## Derived notions used by the statements -/

/-- Identifiers of the `Line` statements of a script. -/
def line_statement_ids : List geo_statement → List Nat
  | [] => []
  | geo_statement.line id _ :: rest => id :: line_statement_ids rest
  | _ :: rest => line_statement_ids rest

/-- Line identifiers a script refers to: the absolute values of the entries of its
`Line Loop` statements and every identifier of the range of its `For` directive. -/
def referenced_line_ids : List geo_statement → List Nat
  | [] => []
  | geo_statement.line_loop _ ids :: rest =>
    ids.map Int.natAbs ++ referenced_line_ids rest
  | geo_statement.for_line_in_volume b e _ :: rest =>
    List.range' b (e + 1 - b) ++ referenced_line_ids rest
  | _ :: rest => referenced_line_ids rest

/-! ## The catalog invariant -/

/-- A point with the coordinate of `p` is stored in the catalog. -/
def registered (f : gmsh_abstract_file) (p : gmsh_point) : Prop :=
  ∃ q ∈ f._points, q.coords = p.coords

/-- Identifiers of all stored line elements: segments, then arcs, then loops. -/
def line_ids (f : gmsh_abstract_file) : List Nat :=
  f._segments.map gmsh_segment.id ++ f._circles.map gmsh_circle.id ++
    f._line_loop.map gmsh_line_loop.id

/-- Invariant of the catalogs built through the insertion interface. -/
structure well_formed (f : gmsh_abstract_file) : Prop where
  point_ids : f._points.map gmsh_point.id = List.range' 1 f._points.length
  point_keys : f._points.Pairwise (fun p q => p.coords ≠ q.coords)
  line_perm : (line_ids f).Perm (List.range' 1 (line_ids f).length)
  volume_ids : f._volumes.map gmsh_volume.id = List.range' 1 f._volumes.length
  segment_points : ∀ s ∈ f._segments, registered f s.point1 ∧ registered f s.point2
  circle_points : ∀ c ∈ f._circles,
    registered f c.center ∧ registered f c.point1 ∧ registered f c.point2


/-- The points an insertion call passes to `add_point`, in call order, on catalog `f`. -/
def catalog_op.point_calls (E : externals) (f : gmsh_abstract_file) :
    catalog_op → List gmsh_point
  | .add_point p => [p]
  | .add_segment s => [s.point1, s.point2]
  | .add_circle c => [c.center, c.point1, c.point2]
  | .add_line_loop _ => []
  | .add_volume _ => []
  | .add_bounding_box =>
    bounding_box_pnts E f ++ (bounding_box_segments E f).flatMap (fun s => [s.point1, s.point2])

/-- The points passed to `add_point` during a sequence of insertion calls started on
catalog `f`: the points inserted into the catalog. -/
def inserted_points (E : externals) : List catalog_op → gmsh_abstract_file → List gmsh_point
  | [], _ => []
  | op :: ops, f => op.point_calls E f ++ inserted_points E ops (op.apply E f)

/-! ## Sample data for concrete evaluation -/

/-- A sample instance of the external functions: exact comparisons, the sum of the
coordinate differences as distance and the division by the sum of the absolute
coordinates as normalization (the Euclidean distance of two points that differ in one
coordinate, and the Euclidean normalization of a vector along one axis). -/
def sample_externals : externals :=
  { distance := fun p q => |p.x - q.x| + |p.y - q.y| + |p.z - q.z|,
    almost_equal := fun a b => decide (a = b),
    close_to := fun p q => decide (p = q),
    default_branch_id := 0,
    default_diameter := 1,
    normalize := fun v => ⟨v.x / (|v.x| + |v.y| + |v.z|), v.y / (|v.x| + |v.y| + |v.z|),
      v.z / (|v.x| + |v.y| + |v.z|)⟩,
    close_to_abs := fun a b eps => decide (|a - b| ≤ eps) }

/-- A soma of one point at the origin with radius 1. -/
def sample_soma : branch :=
  branch.mk branch_type.soma 0 [⟨0, 0, 0⟩] [1] none

/-- A branch of three points of radius 1/2 whose parent is `sample_soma`. -/
def sample_child : branch :=
  branch.mk branch_type.other 1 [⟨1, 0, 0⟩, ⟨2, 0, 0⟩, ⟨3, 0, 0⟩] [1 / 2, 1 / 2, 1 / 2]
    (some sample_soma)

/-- The two-branch tree made of `sample_soma` and `sample_child`. -/
def sample_tree : morpho_tree :=
  morpho_tree.node sample_soma [morpho_tree.node sample_child []]

/-- A branch without parent and without points. -/
def sample_empty_root : branch :=
  branch.mk branch_type.other 0 [] [] none

/-- A branch without parent with one point. -/
def sample_root : branch :=
  branch.mk branch_type.other 0 [⟨1, 2, 3⟩] [1] none

/-- A branch of two points whose parent is the non-soma branch `sample_child`. -/
def sample_grandchild : branch :=
  branch.mk branch_type.other 2 [⟨3, 1, 0⟩, ⟨3, 2, 0⟩] [1 / 4, 1 / 4] (some sample_child)

/-- A soma without points. -/
def sample_empty_soma : branch :=
  branch.mk branch_type.soma 0 [] [] none

/-- A soma of the two points (0,0,0) and (2,0,0), with recorded radii 5 and 7. -/
def sample_soma_two : branch :=
  branch.mk branch_type.soma 0 [⟨0, 0, 0⟩, ⟨2, 0, 0⟩] [5, 7] none

/-! ## The soma sphere in the words of the specification -/

/-- Coordinate-wise arithmetic mean of a point sequence (the gravity centre). -/
def arithmetic_mean (pts : List point3d) : point3d :=
  ⟨(pts.map point3d.x).sum / pts.length, (pts.map point3d.y).sum / pts.length,
   (pts.map point3d.z).sum / pts.length⟩

/-- Arithmetic mean of the distances from each point of a sequence to `c`. -/
def mean_distance (E : externals) (pts : List point3d) (c : point3d) : ℚ :=
  (pts.map (fun p => E.distance p c)).sum / pts.length


/-- A branch of three points of radius 1/2 along the third axis whose parent is
`sample_soma`. -/
def sample_child_z : branch :=
  branch.mk branch_type.other 1 [⟨0, 0, 1⟩, ⟨0, 0, 2⟩, ⟨0, 0, 3⟩] [1 / 2, 1 / 2, 1 / 2]
    (some sample_soma)

/-- The two-branch tree made of `sample_soma` and `sample_child_z`. -/
def sample_tree_z : morpho_tree :=
  morpho_tree.node sample_soma [morpho_tree.node sample_child_z []]

/-! ## Notions used by the statements on solid construction -/

/-- The catalog stores an arc with identifier `id`, centre `c` and boundary points
`p1`, `p2` (by coordinate). -/
def has_arc (f : gmsh_abstract_file) (id : Nat) (c p1 p2 : point3d) : Prop :=
  ∃ a ∈ f._circles, a.id = id ∧ a.center.coords = c ∧ a.point1.coords = p1 ∧
    a.point2.coords = p2

/-- Catalog `g` is catalog `f` with the loops `L` and the volumes `V` added, in order,
and possibly points, segments and arcs added. -/
structure grows (f g : gmsh_abstract_file) (L : List gmsh_line_loop)
    (V : List gmsh_volume) : Prop where
  loops : g._line_loop = f._line_loop ++ L
  volumes : g._volumes = f._volumes ++ V
  circles : ∃ extra, g._circles = f._circles ++ extra
  segments : ∃ extra, g._segments = f._segments ++ extra
  points : ∃ extra, g._points = f._points ++ extra

/-- The loop `l` is the octant loop of the sphere of centre `c` for the extremal points
`x`, `y`, `z`: ruled, physical, made of the arc from `x` to `y`, the arc from `y` to `z`
and the reversed arc from `x` to `z`, all three stored in `g` with centre `c`. -/
def is_octant_loop (g : gmsh_abstract_file) (c : point3d) (l : gmsh_line_loop)
    (o : gmsh_point × gmsh_point × gmsh_point) : Prop :=
  l.isRuled = true ∧ l.isPhysical = true ∧
  ∃ xy yz xz : Nat, l.ids = [(xy : Int), (yz : Int), -(xz : Int)] ∧
    has_arc g xy c o.1.coords o.2.1.coords ∧ has_arc g yz c o.2.1.coords o.2.2.coords ∧
    has_arc g xz c o.1.coords o.2.2.coords

/-- The eight choices of one x-, one y- and one z-extremal point, in the order of the
loops of `create_gmsh_sphere`. -/
def sphere_octants (E : externals) (sphere : sphere3d) :
    List (gmsh_point × gmsh_point × gmsh_point) :=
  (sphere_points E sphere).1.flatMap (fun x =>
    (sphere_points E sphere).2.1.flatMap (fun y =>
      (sphere_points E sphere).2.2.map (fun z => (x, y, z))))

/-- The error a computation ends with, if it does. -/
def error_of {α : Type} : Except exception α → Option exception
  | Except.error e => some e
  | Except.ok _ => none

/-- The circle construction succeeds on cross-section `c`: the four boundary points
pass `check_points_on_circle`. -/
def circle_ok (E : externals) (c : circle3d) : Prop :=
  check_points_on_circle E c.radius (gmsh_point.make c.center E.default_diameter)
    (circle_points E c) = Except.ok ()

/-- The loop `l` is a cap loop of the disk of centre `c`: ruled, physical, made of an
arc stored in `g` with centre `c`, a spoke, and a reversed spoke. -/
def is_cap_loop (g : gmsh_abstract_file) (c : point3d) (l : gmsh_line_loop) : Prop :=
  l.isRuled = true ∧ l.isPhysical = true ∧
  ∃ arc s1 s0 : Nat, l.ids = [(arc : Int), (s1 : Int), -(s0 : Int)] ∧
    ∃ a ∈ g._circles, a.id = arc ∧ a.center.coords = c

/-- The loop `l` is a lateral loop between the disks of centres `c1` and `c2`: ruled,
physical, made of an arc of the first disk, a longitudinal segment, the reversed arc of
the second disk and a reversed longitudinal segment. -/
def is_lateral_loop (g : gmsh_abstract_file) (c1 c2 : point3d) (l : gmsh_line_loop) : Prop :=
  l.isRuled = true ∧ l.isPhysical = true ∧
  ∃ arc1 line2 arc2 line1 : Nat,
    l.ids = [(arc1 : Int), (line2 : Int), -(arc2 : Int), -(line1 : Int)] ∧
    (∃ a ∈ g._circles, a.id = arc1 ∧ a.center.coords = c1) ∧
    (∃ a ∈ g._circles, a.id = arc2 ∧ a.center.coords = c2)

/-- The loops `block` are those of the iteration of `create_gmsh_truncated_pipe` for the
pair `(i, i + 1)` of `circles`: four cap loops of cross-section `i` exactly when `i` is
the first one, four cap loops of cross-section `i + 1` exactly when it is the last one,
then four lateral loops. -/
def pipe_block (g : gmsh_abstract_file) (circles : List circle3d)
    (block : List gmsh_line_loop) (i : Nat) : Prop :=
  ∃ (c1 c2 : circle3d) (caps1 caps2 lat : List gmsh_line_loop),
    circles[i]? = some c1 ∧ circles[i + 1]? = some c2 ∧
    block = caps1 ++ caps2 ++ lat ∧
    caps1.length = (if i = 0 then 4 else 0) ∧
    caps2.length = (if i + 1 = circles.length - 1 then 4 else 0) ∧
    lat.length = 4 ∧
    (∀ l ∈ caps1, is_cap_loop g c1.center l) ∧
    (∀ l ∈ caps2, is_cap_loop g c2.center l) ∧
    (∀ l ∈ lat, is_lateral_loop g c1.center c2.center l)

/-- Two cross-sections along the third axis: radius 1 at the origin, radius 1/2 at
(0, 0, 1). -/
def sample_circles : List circle3d :=
  [⟨⟨0, 0, 0⟩, 1, ⟨0, 0, -1⟩⟩, ⟨⟨0, 0, 1⟩, 1 / 2, ⟨0, 0, 2⟩⟩]

/-- A soma of one point at the origin with radius 1. -/
def two_branch_soma (soma_id : Nat) : branch :=
  branch.mk branch_type.soma soma_id [⟨0, 0, 0⟩] [1] none

/-- A branch of the three points `p1`, `p2`, `p3` of radius 1/2 whose parent is
`two_branch_soma`. -/
def two_branch_child (soma_id child_id : Nat) (p1 p2 p3 : point3d) : branch :=
  branch.mk branch_type.other child_id [p1, p2, p3] [1 / 2, 1 / 2, 1 / 2]
    (some (two_branch_soma soma_id))

/-- The two-branch tree of a soma of one point at the origin with radius 1 and one child
branch of the three points `p1`, `p2`, `p3` of radius 1/2. -/
def two_branch_tree (soma_id child_id : Nat) (p1 p2 p3 : point3d) : morpho_tree :=
  morpho_tree.node (two_branch_soma soma_id)
    [morpho_tree.node (two_branch_child soma_id child_id p1 p2 p3) []]

/-- The segment `construct_gmsh_vfile_lines` inserts for the polyline points `a`, `b` of
the branch `branch_id`, with the size hints `d1`, `d2`: both points and the segment are
flagged physical. -/
def wire_segment (E : externals) (branch_id : Nat) (a b : point3d) (d1 d2 : ℚ) :
    gmsh_segment :=
  { gmsh_segment.make E { gmsh_point.make a d1 with isPhysical := true }
      { gmsh_point.make b d2 with isPhysical := true } with
    isPhysical := true, branch_id := branch_id }


/-- The cross-section sequence of the child of the two-branch tree with own points
(0,0,1), (0,0,2), (0,0,3): the soma cross-section and one cross-section per point. -/
def sample_pipe_z : List circle3d :=
  [⟨⟨0, 0, 0⟩, 1, ⟨0, 0, -1⟩⟩, ⟨⟨0, 0, 1⟩, 1 / 2, ⟨0, 0, 2⟩⟩, ⟨⟨0, 0, 2⟩, 1 / 2, ⟨0, 0, 2⟩⟩,
    ⟨⟨0, 0, 3⟩, 1 / 2, ⟨0, 0, -1⟩⟩]

/-! ## Notions used by the statement on export determinism -/

/-- Catalogs `f` and `g` hold the same entities, with the same identifiers and flags:
each container of `g` is a rearrangement of the container of `f`. -/
structure same_entities (f g : gmsh_abstract_file) : Prop where
  points : f._points.Perm g._points
  segments : f._segments.Perm g._segments
  circles : f._circles.Perm g._circles
  line_loop : f._line_loop.Perm g._line_loop
  volumes : f._volumes.Perm g._volumes

/-- The containers of `f` are keyed: no container repeats an identifier and no two
stored points have the same coordinate. -/
structure keyed (f : gmsh_abstract_file) : Prop where
  point_ids : (f._points.map gmsh_point.id).Nodup
  segment_ids : (f._segments.map gmsh_segment.id).Nodup
  circle_ids : (f._circles.map gmsh_circle.id).Nodup
  loop_ids : (f._line_loop.map gmsh_line_loop.id).Nodup
  volume_ids : (f._volumes.map gmsh_volume.id).Nodup
  point_keys : f._points.Pairwise (fun p q => p.coords ≠ q.coords)

/-- The catalog `f` with every container enumerated in the reverse order. -/
def reversed (f : gmsh_abstract_file) : gmsh_abstract_file :=
  { _points := f._points.reverse, _segments := f._segments.reverse,
    _circles := f._circles.reverse, _line_loop := f._line_loop.reverse,
    _volumes := f._volumes.reverse }

/-- A sample catalog: two chained segments, one arc, two loops, two volumes and a third
segment apart from the others. -/
def sample_catalog : gmsh_abstract_file :=
  run_ops sample_externals
    [catalog_op.add_segment (gmsh_segment.make sample_externals
        (gmsh_point.make ⟨0, 0, 0⟩ 1) (gmsh_point.make ⟨1, 0, 0⟩ 1)),
      catalog_op.add_segment (gmsh_segment.make sample_externals
        (gmsh_point.make ⟨1, 0, 0⟩ 1) (gmsh_point.make ⟨2, 0, 0⟩ 1)),
      catalog_op.add_circle (gmsh_circle.make (gmsh_point.make ⟨0, 0, 0⟩ 1)
        (gmsh_point.make ⟨1, 0, 0⟩ 1) (gmsh_point.make ⟨0, 1, 0⟩ 1)),
      catalog_op.add_line_loop (gmsh_line_loop.make [1, 2]),
      catalog_op.add_line_loop (gmsh_line_loop.make [3]),
      catalog_op.add_volume (gmsh_volume.make [4]),
      catalog_op.add_volume (gmsh_volume.make [5]),
      catalog_op.add_segment (gmsh_segment.make sample_externals
        (gmsh_point.make ⟨5, 0, 0⟩ 1) (gmsh_point.make ⟨6, 0, 0⟩ 1))]
    gmsh_abstract_file.empty

/-! ## Notions used by the statement on packing -/

/-- The chaining condition of `export_segments_packed`: `b` starts at the end point of
`a` and has the same branch id. -/
def chains (a b : gmsh_segment) : Bool :=
  gmsh_point.same a.point2 b.point1 && decide (a.branch_id = b.branch_id)

/-- The segment without its identifier. -/
def erase_id (s : gmsh_segment) : gmsh_segment :=
  { s with id := 0 }

/-- The consecutive point pairs of the `Line` statements of a script, in order. -/
def line_pairs : List geo_statement → List (Nat × Nat)
  | [] => []
  | geo_statement.line _ points :: rest => points.zip points.tail ++ line_pairs rest
  | _ :: rest => line_pairs rest

/-- The identifier of the stored point with the coordinate of `p`, 0 when there is none. -/
def point_id (f : gmsh_abstract_file) (p : gmsh_point) : Nat :=
  match f._points.find? (fun y => gmsh_point.same y p) with
  | some y => y.id
  | none => 0

/-- The groups and the numbered lines are a packing of the segment list `l`: the lines
are numbered 1..k, all physical; the groups are not empty; the first segment of group
number i carries the identifier i; the groups in order hold the segments of `l` in
order, apart from identifiers; consecutive segments of a group chain; the last segment
of a group and the first of the next group do not chain. -/
structure packing (l : List gmsh_segment) (groups : List (List gmsh_segment))
    (lines : List (Nat × Bool)) : Prop where
  lines_eq : lines = (List.range' 1 groups.length).map (fun i => (i, true))
  nonempty : ∀ g ∈ groups, g ≠ []
  first_ids : groups.map (fun g => g.head?.map gmsh_segment.id) =
    (List.range' 1 groups.length).map some
  partition : groups.flatten.map erase_id = l.map erase_id
  within : ∀ g ∈ groups, g.Chain' (fun a b => chains a b = true)
  boundary : groups.Chain' (fun g1 g2 => ∀ a ∈ g1.getLast?, ∀ b ∈ g2.head?, chains a b = false)

/-- The `Line` statement of a group of segments: the identifier of its first segment,
the start point of the first segment and the end point of every segment, by point
identifier. -/
def polyline (f : gmsh_abstract_file) (g : List gmsh_segment) : geo_statement :=
  geo_statement.line ((g.head?.map gmsh_segment.id).getD 0)
    ((g.head?.map (fun s => point_id f s.point1)).getD 0 ::
      g.map (fun s => point_id f s.point2))

/-! ## Notions used by the statements on the cross-section sequence -/

/-- The axis rule at the loop index `i`: cross-section `c` has as centre the own point
of index `i` and as radius the radius recorded at index `i`, and its axis is the sum of
the direction from the centre of `prev` to the point and the direction from the point to
the own point of index `i + 1` when `i` is not the last index, and the direction from the
point back to the centre of `prev` when `i` is the last index. -/
def axis_rule (b : branch) (i : Nat) (prev c : circle3d) : Prop :=
  i < b.get_size ∧ b.get_points[i]? = some c.center ∧
    b.get_distances[i]? = some c.radius ∧
    ((i + 1 < b.get_size ∧ ∃ q, b.get_points[i + 1]? = some q ∧
        c.axis = (c.center.sub prev.center).add (q.sub c.center)) ∨
      (i + 1 = b.get_size ∧ c.axis = prev.center.sub c.center))

/-- The degenerate-point policy in the words of the specification: of the own points
with the indices listed, in order, a point is kept when it does not coincide with the
centre of the cross-section emitted immediately before, which is `prev` at the start and
the last kept point afterwards. -/
def kept_points (E : externals) (pts : List point3d) : point3d → List Nat → List Nat
  | _, [] => []
  | prev, i :: rest =>
    if E.close_to prev (pts.getD i ⟨0, 0, 0⟩) then kept_points E pts prev rest
    else i :: kept_points E pts (pts.getD i ⟨0, 0, 0⟩) rest

/-- A branch without points whose parent is `sample_soma`. -/
def sample_empty_child : branch :=
  branch.mk branch_type.other 1 [] [] (some sample_soma)

/-! ## Notions used by the statements on loops -/

/-- The catalog stores a segment with identifier `id` from `p1` to `p2` (by coordinate). -/
def has_segment (f : gmsh_abstract_file) (id : Nat) (p1 p2 : point3d) : Prop :=
  ∃ s ∈ f._segments, s.id = id ∧ s.point1.coords = p1 ∧ s.point2.coords = p2

/-- The property `P` of catalogs is kept by each of the five elementary insertions. -/
structure stable (P : gmsh_abstract_file → Prop) : Prop where
  point : ∀ f p, P f → P (f.add_point p).2
  segment : ∀ f s, P f → P (f.add_segment s).2
  circle : ∀ f c, P f → P (f.add_circle c).2
  line_loop : ∀ f l, P f → P (f.add_line_loop l).2
  volume : ∀ f v, P f → P (f.add_volume v).2

/-- The segment and arc containers of `f` are keyed: no two stored segments have the
same ordered pair of end points and no two stored arcs the same centre and end points. -/
structure keyed_lines (f : gmsh_abstract_file) : Prop where
  segment_keys : f._segments.Pairwise (fun a b => gmsh_segment.same a b = false)
  circle_keys : f._circles.Pairwise (fun a b => gmsh_circle.same a b = false)

/-- The end points `(start, end)` of the stored segments and arcs with identifier `n`. -/
def line_ends (g : gmsh_abstract_file) (n : Nat) : List (point3d × point3d) :=
  (g._segments.filter (fun s => s.id = n)).map
      (fun s => (s.point1.coords, s.point2.coords)) ++
    (g._circles.filter (fun a => a.id = n)).map
      (fun a => (a.point1.coords, a.point2.coords))

/-- The end points a signed line reference resolves to: those of the one stored segment
or arc with the absolute value as identifier, exchanged when the sign is negative;
`none` when no or more than one stored element has that identifier. -/
def signed_ends (g : gmsh_abstract_file) (z : Int) : Option (point3d × point3d) :=
  match line_ends g z.natAbs with
  | [e] => some (if z < 0 then (e.2, e.1) else e)
  | _ => none

/-- Traversal of the remaining elements of a loop: each starts where the one before
ended, and the last ends at `first`. -/
def ends_chain (first : point3d) : point3d → List (point3d × point3d) → Bool
  | cur, [] => decide (cur = first)
  | cur, e :: rest => decide (cur = e.1) && ends_chain first e.2 rest

/-- The sequence of end point pairs is a closed traversal. -/
def ends_closed : List (point3d × point3d) → Bool
  | [] => true
  | e :: rest => ends_chain e.1 e.2 rest

/-- The loop `l` is closed and resolvable in catalog `g`: every signed reference
resolves to exactly one stored segment or arc, and traversing the elements in order the
end of each is the start of the next and the end of the last the start of the first. -/
def loop_closed (g : gmsh_abstract_file) (l : gmsh_line_loop) : Bool :=
  (l.ids.map (signed_ends g)).all Option.isSome &&
    ends_closed (l.ids.map (signed_ends g)).reduceOption

/-- Each coordinate of `p` has magnitude at most `B`. -/
def coords_within (B : ℚ) (p : point3d) : Prop :=
  |p.x| ≤ B ∧ |p.y| ≤ B ∧ |p.z| ≤ B

/-- The magnitude 2^57.  A value of magnitude below 2^58 is rounded to a `double` at
most 16 away, so that the margin 20 added to or subtracted from a coordinate of at most
this magnitude moves it by at least 4. -/
def margin_safe_bound : ℚ := 144115188075855872

/-- A catalog with the single point (-2^60, -2^60, -2^60), not flagged physical. -/
def sample_huge_catalog : gmsh_abstract_file :=
  (gmsh_abstract_file.empty.add_point (gmsh_point.make
    ⟨-1152921504606846976, -1152921504606846976, -1152921504606846976⟩ 1)).2

/-- A catalog with the single point (2000000, 0, 0). -/
def sample_far_catalog : gmsh_abstract_file :=
  (gmsh_abstract_file.empty.add_point (gmsh_point.make ⟨2000000, 0, 0⟩ 1)).2

/-- A tree made of the one-point soma `sample_soma` alone. -/
def sample_soma_tree : morpho_tree :=
  morpho_tree.node sample_soma []

/-- The `For` directives of a script: `(begin, end, volume)`. -/
def for_directives : List geo_statement → List (Nat × Nat × Nat)
  | [] => []
  | geo_statement.for_line_in_volume b e v :: rest => (b, e, v) :: for_directives rest
  | _ :: rest => for_directives rest

/-! ## Notions used by the statement on the axes of the cross-sections -/

/-- A branch of three points of radius 1/2 whose parent is `sample_soma` and whose second
point is back at the centre of the soma. -/
def sample_child_back : branch :=
  branch.mk branch_type.other 1 [⟨1, 0, 0⟩, ⟨0, 0, 0⟩, ⟨0, 0, 1⟩] [1 / 2, 1 / 2, 1 / 2]
    (some sample_soma)

/-- The cross-section sequence of `sample_child_back`. -/
def sample_pipe_back : List circle3d :=
  [⟨⟨0, 0, 0⟩, 1, ⟨-1, 0, 0⟩⟩, ⟨⟨1, 0, 0⟩, 1 / 2, ⟨0, 0, 0⟩⟩, ⟨⟨0, 0, 0⟩, 1 / 2, ⟨-1, 0, 1⟩⟩,
    ⟨⟨0, 0, 1⟩, 1 / 2, ⟨0, 0, -1⟩⟩]

/-- The axis of the cross-section `c` emitted at the loop index `i` after `prev`: the
centre of `c` is the own point of index `i`; when `i` is not the last index the axis is
`get_tangente_axis` of the centre of `prev`, the point and the own point of index
`i + 1`; when `i` is the last index the axis is the centre of `prev` minus the point,
the two differ and the axis is not the zero vector. -/
def axis_nonzero_rule (b : branch) (i : Nat) (prev c : circle3d) : Prop :=
  i < b.get_size ∧ b.get_points[i]? = some c.center ∧
    ((i + 1 < b.get_size ∧ ∃ q, b.get_points[i + 1]? = some q ∧
        c.axis = get_tangente_axis prev.center c.center q) ∨
      (i + 1 = b.get_size ∧ c.axis = prev.center.sub c.center ∧
        prev.center ≠ c.center ∧ c.axis ≠ ⟨0, 0, 0⟩))

/-- A branch whose parent is `sample_soma` and whose first and last own point have the
same coordinate, with three different radii. -/
def sample_child_aba : branch :=
  branch.mk branch_type.other 1 [⟨1, 0, 0⟩, ⟨2, 0, 0⟩, ⟨1, 0, 0⟩] [1 / 2, 1 / 3, 1 / 4]
    (some sample_soma)

/-- The cross-section sequence of `sample_child_aba`. -/
def sample_pipe_aba : List circle3d :=
  [⟨⟨0, 0, 0⟩, 1, ⟨-1, 0, 0⟩⟩, ⟨⟨1, 0, 0⟩, 1 / 2, ⟨2, 0, 0⟩⟩, ⟨⟨2, 0, 0⟩, 1 / 3, ⟨0, 0, 0⟩⟩,
    ⟨⟨1, 0, 0⟩, 1 / 4, ⟨1, 0, 0⟩⟩]
/-! ## Lemmas on the keyed containers -/

theorem set_insert_cases {α : Type} (same : α → α → Bool) (s : List α) (x : α) :
    (∃ y, s.find? (fun y => same y x) = some y ∧ set_insert same s x = (s, y)) ∨
    (s.find? (fun y => same y x) = none ∧ set_insert same s x = (s ++ [x], x)) := by
  unfold set_insert
  cases h : s.find? (fun y => same y x) with
  | none => exact Or.inr ⟨rfl, rfl⟩
  | some y => exact Or.inl ⟨y, rfl, rfl⟩

theorem gmsh_point.same_with_id (y p : gmsh_point) (n : Nat) :
    gmsh_point.same y { p with id := n } = gmsh_point.same y p := rfl

theorem find_append_of_some {α : Type} (q : α → Bool) (l l2 : List α) (y : α)
    (h : l.find? q = some y) : (l ++ l2).find? q = some y := by
  simp [List.find?_append, h]

namespace gmsh_abstract_file

/-- What `add_point` does, by cases on a stored point with the same coordinate. -/
theorem add_point_cases (f : gmsh_abstract_file) (p : gmsh_point) :
    (∃ y, f._points.find? (fun y => gmsh_point.same y p) = some y ∧
      f.add_point p = (y.id, f)) ∨
    (f._points.find? (fun y => gmsh_point.same y p) = none ∧
      f.add_point p = (f._points.length + 1,
        { f with _points := f._points ++ [{ p with id := f._points.length + 1 }] })) := by
  rcases set_insert_cases gmsh_point.same f._points { p with id := f._points.length + 1 } with
    ⟨y, h1, h2⟩ | ⟨h1, h2⟩
  · left
    refine ⟨y, h1, ?_⟩
    simp only [add_point, h2]
  · right
    refine ⟨h1, ?_⟩
    simp only [add_point, h2]

/-- What `add_segment` does, by cases on a stored segment with the same point pair. -/
theorem add_segment_cases (f : gmsh_abstract_file) (s : gmsh_segment) :
    (∃ y, ((f.add_point s.point1).2.add_point s.point2).2._segments.find?
        (fun y => gmsh_segment.same y s) = some y ∧
      f.add_segment s = (y.id, ((f.add_point s.point1).2.add_point s.point2).2)) ∨
    (((f.add_point s.point1).2.add_point s.point2).2._segments.find?
        (fun y => gmsh_segment.same y s) = none ∧
      f.add_segment s =
        (((f.add_point s.point1).2.add_point s.point2).2.create_id_line_element,
         { ((f.add_point s.point1).2.add_point s.point2).2 with
           _segments := ((f.add_point s.point1).2.add_point s.point2).2._segments ++
             [{ s with id :=
                 ((f.add_point s.point1).2.add_point s.point2).2.create_id_line_element }] })) := by
  rcases set_insert_cases gmsh_segment.same
      ((f.add_point s.point1).2.add_point s.point2).2._segments
      { s with id := ((f.add_point s.point1).2.add_point s.point2).2.create_id_line_element } with
    ⟨y, h1, h2⟩ | ⟨h1, h2⟩
  · left
    refine ⟨y, h1, ?_⟩
    simp only [add_segment, h2]
  · right
    refine ⟨h1, ?_⟩
    simp only [add_segment, h2]

/-- What `add_circle` does, by cases on a stored arc with the same point triple. -/
theorem add_circle_cases (f : gmsh_abstract_file) (c : gmsh_circle) :
    (∃ y, (((f.add_point c.center).2.add_point c.point1).2.add_point c.point2).2._circles.find?
        (fun y => gmsh_circle.same y c) = some y ∧
      f.add_circle c =
        (y.id, (((f.add_point c.center).2.add_point c.point1).2.add_point c.point2).2)) ∨
    ((((f.add_point c.center).2.add_point c.point1).2.add_point c.point2).2._circles.find?
        (fun y => gmsh_circle.same y c) = none ∧
      f.add_circle c =
        ((((f.add_point c.center).2.add_point c.point1).2.add_point
            c.point2).2.create_id_line_element,
         { (((f.add_point c.center).2.add_point c.point1).2.add_point c.point2).2 with
           _circles :=
             (((f.add_point c.center).2.add_point c.point1).2.add_point c.point2).2._circles ++
             [{ c with id := (((f.add_point c.center).2.add_point c.point1).2.add_point
                 c.point2).2.create_id_line_element }] })) := by
  rcases set_insert_cases gmsh_circle.same
      (((f.add_point c.center).2.add_point c.point1).2.add_point c.point2).2._circles
      { c with id := (((f.add_point c.center).2.add_point c.point1).2.add_point
          c.point2).2.create_id_line_element } with
    ⟨y, h1, h2⟩ | ⟨h1, h2⟩
  · left
    refine ⟨y, h1, ?_⟩
    simp only [add_circle, h2]
  · right
    refine ⟨h1, ?_⟩
    simp only [add_circle, h2]

/-- A loop is always stored, under the next line-element identifier. -/
theorem add_line_loop_eq (f : gmsh_abstract_file) (l : gmsh_line_loop) :
    f.add_line_loop l = (f.create_id_line_element,
      { f with _line_loop := f._line_loop ++ [{ l with id := f.create_id_line_element }] }) := by
  have h : f._line_loop.find? (fun y => gmsh_line_loop.same y
      { l with id := f.create_id_line_element }) = none := by
    simp [gmsh_line_loop.same]
  simp only [add_line_loop, set_insert, h]

/-- A volume is always stored, under the next volume identifier. -/
theorem add_volume_eq (f : gmsh_abstract_file) (v : gmsh_volume) :
    f.add_volume v = (f._volumes.length + 1,
      { f with _volumes := f._volumes ++ [{ v with id := f._volumes.length + 1 }] }) := by
  have h : f._volumes.find? (fun y => gmsh_volume.same y
      { v with id := f._volumes.length + 1 }) = none := by
    simp [gmsh_volume.same]
  simp only [add_volume, set_insert, h]

end gmsh_abstract_file

/-! ## Induction over insertion sequences -/

/-- A property kept by the five elementary insertions is kept by every insertion
sequence, bounding boxes included. -/
theorem run_ops_induction (E : externals) (P : gmsh_abstract_file → Prop)
    (hp : ∀ f p, P f → P (f.add_point p).2)
    (hs : ∀ f s, P f → P (f.add_segment s).2)
    (hc : ∀ f c, P f → P (f.add_circle c).2)
    (hl : ∀ f l, P f → P (f.add_line_loop l).2)
    (hv : ∀ f v, P f → P (f.add_volume v).2)
    (ops : List catalog_op) (f : gmsh_abstract_file) (h : P f) : P (run_ops E ops f) := by
  have hpts : ∀ (ps : List gmsh_point) (g : gmsh_abstract_file), P g → P (g.add_points ps) := by
    intro ps
    induction ps with
    | nil => intro g hg; exact hg
    | cons p ps ih => intro g hg; exact ih _ (hp g p hg)
  have hsegs : ∀ (ss : List gmsh_segment) (acc : List Int × gmsh_abstract_file),
      P acc.2 → P (ss.foldl (fun acc s =>
        (acc.1 ++ [((acc.2.add_segment s).1 : Int)], (acc.2.add_segment s).2)) acc).2 := by
    intro ss
    induction ss with
    | nil => intro acc hacc; exact hacc
    | cons s ss ih => intro acc hacc; exact ih _ (hs acc.2 s hacc)
  have hloops : ∀ (ls : List gmsh_line_loop) (acc : List Nat × gmsh_abstract_file),
      P acc.2 → P (ls.foldl (fun acc l =>
        (acc.1 ++ [(acc.2.add_line_loop l).1], (acc.2.add_line_loop l).2)) acc).2 := by
    intro ls
    induction ls with
    | nil => intro acc hacc; exact hacc
    | cons l ls ih => intro acc hacc; exact ih _ (hl acc.2 l hacc)
  have hbox : ∀ g, P g → P (g.add_bounding_box E) := by
    intro g hg
    unfold gmsh_abstract_file.add_bounding_box
    exact hv _ _ (hloops _ _ (hsegs _ _ (hpts _ _ hg)))
  induction ops generalizing f with
  | nil => exact h
  | cons o ops ih =>
    apply ih
    cases o with
    | add_point p => exact hp f p h
    | add_segment s => exact hs f s h
    | add_circle c => exact hc f c h
    | add_line_loop l => exact hl f l h
    | add_volume v => exact hv f v h
    | add_bounding_box => exact hbox f h

theorem line_ids_length (f : gmsh_abstract_file) :
    (line_ids f).length + 1 = f.create_id_line_element := by
  simp [line_ids, gmsh_abstract_file.create_id_line_element, Nat.add_assoc]

theorem find_same_none_iff (l : List gmsh_point) (p : gmsh_point) :
    l.find? (fun y => gmsh_point.same y p) = none ↔ ∀ q ∈ l, q.coords ≠ p.coords := by
  simp [List.find?_eq_none, gmsh_point.same]

theorem find_same_some (l : List gmsh_point) (p y : gmsh_point)
    (h : l.find? (fun y => gmsh_point.same y p) = some y) : y ∈ l ∧ y.coords = p.coords := by
  refine ⟨List.mem_of_find?_eq_some h, ?_⟩
  have := List.find?_some h
  simpa [gmsh_point.same] using this

theorem well_formed_empty : well_formed gmsh_abstract_file.empty := by
  constructor <;> simp [gmsh_abstract_file.empty, line_ids]

/-- After `add_point p` a point with the coordinate of `p` is stored. -/
theorem registered_add_point (f : gmsh_abstract_file) (p : gmsh_point) :
    registered (f.add_point p).2 p := by
  rcases f.add_point_cases p with ⟨y, h1, h2⟩ | ⟨_, h2⟩
  · rw [h2]
    exact ⟨y, (find_same_some _ _ _ h1).1, (find_same_some _ _ _ h1).2⟩
  · rw [h2]
    exact ⟨{ p with id := f._points.length + 1 }, by simp, rfl⟩

/-- The point container only grows at its end under `add_point`. -/
theorem add_point_points (f : gmsh_abstract_file) (p : gmsh_point) :
    ∃ extra, (f.add_point p).2._points = f._points ++ extra := by
  rcases f.add_point_cases p with ⟨y, _, h2⟩ | ⟨_, h2⟩
  · exact ⟨[], by rw [h2]; simp⟩
  · exact ⟨_, by rw [h2]⟩

theorem add_point_segments (f : gmsh_abstract_file) (p : gmsh_point) :
    (f.add_point p).2._segments = f._segments := rfl

theorem add_point_circles (f : gmsh_abstract_file) (p : gmsh_point) :
    (f.add_point p).2._circles = f._circles := rfl

theorem add_point_line_loop (f : gmsh_abstract_file) (p : gmsh_point) :
    (f.add_point p).2._line_loop = f._line_loop := rfl

theorem add_point_volumes (f : gmsh_abstract_file) (p : gmsh_point) :
    (f.add_point p).2._volumes = f._volumes := rfl

theorem registered_mono (f g : gmsh_abstract_file) (p : gmsh_point)
    (h : ∃ extra, g._points = f._points ++ extra) (hr : registered f p) : registered g p := by
  obtain ⟨extra, he⟩ := h
  obtain ⟨q, hq, hc⟩ := hr
  exact ⟨q, by rw [he]; exact List.mem_append_left _ hq, hc⟩

theorem well_formed_add_point (f : gmsh_abstract_file) (p : gmsh_point) (h : well_formed f) :
    well_formed (f.add_point p).2 := by
  rcases f.add_point_cases p with ⟨y, _, h2⟩ | ⟨h1, h2⟩
  · rw [h2]; exact h
  · have hm := registered_mono f (f.add_point p).2
    have hex := add_point_points f p
    rw [h2] at hm hex ⊢
    refine ⟨?_, ?_, h.line_perm, h.volume_ids, ?_, ?_⟩
    · simp [h.point_ids, List.range'_concat, Nat.add_comm]
    · refine List.pairwise_append.2 ⟨h.point_keys, by simp, ?_⟩
      intro a ha b hb
      simp only [List.mem_singleton] at hb
      subst hb
      exact (find_same_none_iff _ _).1 h1 a ha
    · intro s hs
      exact ⟨hm _ hex (h.segment_points s hs).1, hm _ hex (h.segment_points s hs).2⟩
    · intro c hc
      exact ⟨hm _ hex (h.circle_points c hc).1, hm _ hex (h.circle_points c hc).2.1,
        hm _ hex (h.circle_points c hc).2.2⟩

theorem line_perm_step (l l2 : List Nat) (h : l.Perm (List.range' 1 l.length))
    (h2 : l2.Perm (l ++ [l.length + 1])) : l2.Perm (List.range' 1 l2.length) := by
  have hlen : l2.length = l.length + 1 := by rw [h2.length_eq]; simp
  rw [hlen, List.range'_concat, Nat.one_mul, Nat.add_comm 1]
  exact h2.trans (h.append_right _)

theorem well_formed_add_segment (f : gmsh_abstract_file) (s : gmsh_segment)
    (h : well_formed f) : well_formed (f.add_segment s).2 := by
  have h2 : well_formed ((f.add_point s.point1).2.add_point s.point2).2 :=
    well_formed_add_point _ _ (well_formed_add_point _ _ h)
  have r1 : registered ((f.add_point s.point1).2.add_point s.point2).2 s.point1 :=
    registered_mono _ _ _ (add_point_points _ _) (registered_add_point f s.point1)
  have r2 : registered ((f.add_point s.point1).2.add_point s.point2).2 s.point2 :=
    registered_add_point _ s.point2
  rcases f.add_segment_cases s with ⟨y, _, e⟩ | ⟨_, e⟩
  · rw [e]; exact h2
  · rw [e]
    refine ⟨h2.point_ids, h2.point_keys, ?_, h2.volume_ids, ?_, h2.circle_points⟩
    · refine line_perm_step _ _ h2.line_perm ?_
      rw [line_ids_length]
      simp only [line_ids, List.map_append, List.map_cons, List.map_nil, List.append_assoc]
      refine List.Perm.append_left _ ?_
      simp only [List.singleton_append, List.cons_append, List.nil_append,
        ← List.append_assoc]
      exact (List.perm_append_singleton _ _).symm
    · intro t ht
      rcases List.mem_append.1 ht with ht | ht
      · exact h2.segment_points t ht
      · simp only [List.mem_singleton] at ht
        subst ht
        exact ⟨r1, r2⟩

theorem well_formed_add_circle (f : gmsh_abstract_file) (c : gmsh_circle)
    (h : well_formed f) : well_formed (f.add_circle c).2 := by
  have h3 : well_formed
      (((f.add_point c.center).2.add_point c.point1).2.add_point c.point2).2 :=
    well_formed_add_point _ _ (well_formed_add_point _ _ (well_formed_add_point _ _ h))
  have r0 : registered
      (((f.add_point c.center).2.add_point c.point1).2.add_point c.point2).2 c.center :=
    registered_mono _ _ _ (add_point_points _ _)
      (registered_mono _ _ _ (add_point_points _ _) (registered_add_point f c.center))
  have r1 : registered
      (((f.add_point c.center).2.add_point c.point1).2.add_point c.point2).2 c.point1 :=
    registered_mono _ _ _ (add_point_points _ _) (registered_add_point _ c.point1)
  have r2 : registered
      (((f.add_point c.center).2.add_point c.point1).2.add_point c.point2).2 c.point2 :=
    registered_add_point _ c.point2
  rcases f.add_circle_cases c with ⟨y, _, e⟩ | ⟨_, e⟩
  · rw [e]; exact h3
  · rw [e]
    refine ⟨h3.point_ids, h3.point_keys, ?_, h3.volume_ids, h3.segment_points, ?_⟩
    · refine line_perm_step _ _ h3.line_perm ?_
      rw [line_ids_length]
      simp only [line_ids, List.map_append, List.map_cons, List.map_nil, List.append_assoc]
      refine List.Perm.append_left _ (List.Perm.append_left _ ?_)
      exact (List.perm_append_singleton _ _).symm
    · intro t ht
      rcases List.mem_append.1 ht with ht | ht
      · exact h3.circle_points t ht
      · simp only [List.mem_singleton] at ht
        subst ht
        exact ⟨r0, r1, r2⟩

theorem well_formed_add_line_loop (f : gmsh_abstract_file) (l : gmsh_line_loop)
    (h : well_formed f) : well_formed (f.add_line_loop l).2 := by
  rw [f.add_line_loop_eq l]
  refine ⟨h.point_ids, h.point_keys, ?_, h.volume_ids, h.segment_points, h.circle_points⟩
  refine line_perm_step _ _ h.line_perm ?_
  rw [line_ids_length]
  simp only [line_ids, List.map_append, List.map_cons, List.map_nil, List.append_assoc]
  exact List.Perm.refl _

theorem well_formed_add_volume (f : gmsh_abstract_file) (v : gmsh_volume)
    (h : well_formed f) : well_formed (f.add_volume v).2 := by
  rw [f.add_volume_eq v]
  refine ⟨h.point_ids, h.point_keys, h.line_perm, ?_, h.segment_points, h.circle_points⟩
  simp [h.volume_ids, List.range'_concat, Nat.add_comm]

/-- Every catalog built from the empty one through the insertion interface
satisfies the invariant. -/
theorem well_formed_run_ops (E : externals) (ops : List catalog_op) :
    well_formed (run_ops E ops gmsh_abstract_file.empty) :=
  run_ops_induction E well_formed well_formed_add_point well_formed_add_segment
    well_formed_add_circle well_formed_add_line_loop well_formed_add_volume ops _
    well_formed_empty

/-! ## Point interning -/

/-- After `add_point p` the search for the key of `p` finds the point whose
identifier the call returned. -/
theorem add_point_find (f : gmsh_abstract_file) (p : gmsh_point) :
    ∃ y, (f.add_point p).2._points.find? (fun y => gmsh_point.same y p) = some y ∧
      y.id = (f.add_point p).1 := by
  rcases f.add_point_cases p with ⟨y, h1, h2⟩ | ⟨h1, h2⟩
  · exact ⟨y, by rw [h2]; exact h1, by rw [h2]⟩
  · refine ⟨{ p with id := f._points.length + 1 }, ?_, by rw [h2]⟩
    rw [h2]
    show (f._points ++ [{ p with id := f._points.length + 1 }]).find?
      (fun y => gmsh_point.same y p) = _
    rw [List.find?_append, h1]
    simp [gmsh_point.same]

/-- Every insertion sequence only appends to the point container. -/
theorem run_ops_points (E : externals) (ops : List catalog_op) (f : gmsh_abstract_file) :
    ∃ extra, (run_ops E ops f)._points = f._points ++ extra := by
  refine run_ops_induction E (fun g => ∃ extra, g._points = f._points ++ extra)
    ?_ ?_ ?_ ?_ ?_ ops f ⟨[], by simp⟩
  · intro g p ⟨e, he⟩
    obtain ⟨e2, he2⟩ := add_point_points g p
    exact ⟨e ++ e2, by rw [he2, he, List.append_assoc]⟩
  · intro g s ⟨e, he⟩
    obtain ⟨e1, he1⟩ := add_point_points g s.point1
    obtain ⟨e2, he2⟩ := add_point_points (g.add_point s.point1).2 s.point2
    refine ⟨e ++ e1 ++ e2, ?_⟩
    have : (g.add_segment s).2._points =
        ((g.add_point s.point1).2.add_point s.point2).2._points := rfl
    rw [this, he2, he1, he, List.append_assoc, List.append_assoc, List.append_assoc]
  · intro g c ⟨e, he⟩
    obtain ⟨e0, he0⟩ := add_point_points g c.center
    obtain ⟨e1, he1⟩ := add_point_points (g.add_point c.center).2 c.point1
    obtain ⟨e2, he2⟩ :=
      add_point_points ((g.add_point c.center).2.add_point c.point1).2 c.point2
    refine ⟨e ++ e0 ++ e1 ++ e2, ?_⟩
    have : (g.add_circle c).2._points =
        (((g.add_point c.center).2.add_point c.point1).2.add_point c.point2).2._points := rfl
    rw [this, he2, he1, he0, he]
    simp only [List.append_assoc]
  · intro g l ⟨e, he⟩
    exact ⟨e, he⟩
  · intro g v ⟨e, he⟩
    exact ⟨e, he⟩

/-- A point found by key stays the point found after any insertion sequence. -/
theorem run_ops_find (E : externals) (ops : List catalog_op) (f : gmsh_abstract_file)
    (p y : gmsh_point) (h : f._points.find? (fun y => gmsh_point.same y p) = some y) :
    (run_ops E ops f)._points.find? (fun y => gmsh_point.same y p) = some y := by
  obtain ⟨extra, he⟩ := run_ops_points E ops f
  rw [he]
  exact find_append_of_some _ _ _ _ h

/-- C1: point interning is idempotent.  From any catalog, after `add_point p` and any
sequence of further insertions, a second `add_point p` returns the identifier of the
first call and leaves the number of stored points unchanged. -/
theorem add_point_idempotent (E : externals) (f : gmsh_abstract_file) (p : gmsh_point)
    (ops : List catalog_op) :
    ((run_ops E ops (f.add_point p).2).add_point p).1 = (f.add_point p).1 ∧
    ((run_ops E ops (f.add_point p).2).add_point p).2._points.length =
      (run_ops E ops (f.add_point p).2)._points.length := by
  obtain ⟨y, hy, hid⟩ := add_point_find f p
  have hfind := run_ops_find E ops _ p y hy
  rcases (run_ops E ops (f.add_point p).2).add_point_cases p with ⟨y2, h1, h2⟩ | ⟨h1, _⟩
  · rw [hfind] at h1
    cases h1
    rw [h2]
    exact ⟨hid, rfl⟩
  · rw [hfind] at h1
    cases h1

/-- C2: point identifiers are dense and 1-based.  In every catalog built from the empty
one by insertion calls the identifiers of the stored points are `1, ..., N` in storage
order, `N` being the number of stored points; the stored points are pairwise
structurally distinct; an identifier is in use exactly when it lies in `1 .. N`; and two
stored points with one identifier are the same point. -/
theorem point_ids_dense (E : externals) (ops : List catalog_op) :
    (run_ops E ops gmsh_abstract_file.empty)._points.map gmsh_point.id =
      List.range' 1 (run_ops E ops gmsh_abstract_file.empty)._points.length ∧
    (run_ops E ops gmsh_abstract_file.empty)._points.Pairwise
      (fun p q => p.coords ≠ q.coords) ∧
    (∀ i, i ∈ (run_ops E ops gmsh_abstract_file.empty)._points.map gmsh_point.id ↔
      1 ≤ i ∧ i ≤ (run_ops E ops gmsh_abstract_file.empty)._points.length) ∧
    (∀ p ∈ (run_ops E ops gmsh_abstract_file.empty)._points,
      ∀ q ∈ (run_ops E ops gmsh_abstract_file.empty)._points, p.id = q.id → p = q) := by
  have h := well_formed_run_ops E ops
  refine ⟨h.point_ids, h.point_keys, ?_, ?_⟩
  · intro i
    rw [h.point_ids, List.mem_range'_1]
    omega
  · have hn : ((run_ops E ops gmsh_abstract_file.empty)._points.map gmsh_point.id).Nodup := by
      rw [h.point_ids]; exact List.nodup_range' _ _
    intro p hp q hq hpq
    exact List.inj_on_of_nodup_map hn hp hq hpq

/-- C3: line-element identifiers never collide.  In every catalog built from the empty
one by insertion calls, re-insertions included, no identifier occurs twice among the
stored segments, arcs and loops taken together, and the identifiers in use are exactly
`1 .. (segments + arcs + loops)`. -/
theorem line_ids_disjoint (E : externals) (ops : List catalog_op) :
    (line_ids (run_ops E ops gmsh_abstract_file.empty)).Nodup ∧
    (∀ i, i ∈ line_ids (run_ops E ops gmsh_abstract_file.empty) ↔
      1 ≤ i ∧ i ≤ (run_ops E ops gmsh_abstract_file.empty)._segments.length +
        (run_ops E ops gmsh_abstract_file.empty)._circles.length +
        (run_ops E ops gmsh_abstract_file.empty)._line_loop.length) := by
  have h := (well_formed_run_ops E ops).line_perm
  have hl : (line_ids (run_ops E ops gmsh_abstract_file.empty)).length =
      (run_ops E ops gmsh_abstract_file.empty)._segments.length +
        (run_ops E ops gmsh_abstract_file.empty)._circles.length +
        (run_ops E ops gmsh_abstract_file.empty)._line_loop.length := by
    simp [line_ids, Nat.add_assoc]
  refine ⟨h.nodup_iff.2 (List.nodup_range' _ _), ?_⟩
  intro i
  rw [h.mem_iff, List.mem_range'_1, hl]
  omega

/-! ## Stored points are the inserted points -/

theorem registered_congr (f g : gmsh_abstract_file) (p : gmsh_point)
    (h : g._points = f._points) : registered g p ↔ registered f p := by
  unfold registered
  rw [h]

theorem registered_add_point_iff (f : gmsh_abstract_file) (q p : gmsh_point) :
    registered (f.add_point q).2 p ↔ registered f p ∨ q.coords = p.coords := by
  constructor
  · intro h
    rcases f.add_point_cases q with ⟨y, _, h2⟩ | ⟨_, h2⟩
    · rw [h2] at h
      exact Or.inl h
    · rw [h2] at h
      obtain ⟨x, hx, hc⟩ := h
      rcases List.mem_append.1 hx with hx | hx
      · exact Or.inl ⟨x, hx, hc⟩
      · simp only [List.mem_singleton] at hx
        subst hx
        exact Or.inr hc
  · intro h
    rcases h with h | h
    · exact registered_mono _ _ _ (add_point_points f q) h
    · obtain ⟨x, hx, hc⟩ := registered_add_point f q
      exact ⟨x, hx, hc.trans h⟩

theorem registered_add_points_iff (qs : List gmsh_point) (f : gmsh_abstract_file)
    (p : gmsh_point) :
    registered (f.add_points qs) p ↔ registered f p ∨ ∃ q ∈ qs, q.coords = p.coords := by
  induction qs generalizing f with
  | nil => simp [gmsh_abstract_file.add_points]
  | cons q qs ih =>
    have h : f.add_points (q :: qs) = (f.add_point q).2.add_points qs := rfl
    rw [h, ih, registered_add_point_iff]
    simp only [List.mem_cons, exists_eq_or_imp]
    tauto

theorem add_points_append (f : gmsh_abstract_file) (a b : List gmsh_point) :
    f.add_points (a ++ b) = (f.add_points a).add_points b := by
  simp [gmsh_abstract_file.add_points, List.foldl_append]

theorem add_points_congr (qs : List gmsh_point) (f g : gmsh_abstract_file)
    (h : g._points = f._points) : (g.add_points qs)._points = (f.add_points qs)._points := by
  induction qs generalizing f g with
  | nil => exact h
  | cons q qs ih =>
    refine ih _ _ ?_
    simp only [gmsh_abstract_file.add_point, h]

theorem add_segment_points (f : gmsh_abstract_file) (s : gmsh_segment) :
    (f.add_segment s).2._points = (f.add_points [s.point1, s.point2])._points := rfl

theorem add_segments_points (ss : List gmsh_segment)
    (acc : List Int × gmsh_abstract_file) :
    (ss.foldl (fun acc s =>
        (acc.1 ++ [((acc.2.add_segment s).1 : Int)], (acc.2.add_segment s).2)) acc).2._points =
      (acc.2.add_points (ss.flatMap (fun s => [s.point1, s.point2])))._points := by
  induction ss generalizing acc with
  | nil => rfl
  | cons s ss ih =>
    rw [List.foldl_cons, ih, List.flatMap_cons, add_points_append]
    exact add_points_congr _ _ _ (add_segment_points acc.2 s)

theorem add_line_loops_points (ls : List gmsh_line_loop)
    (acc : List Nat × gmsh_abstract_file) :
    (ls.foldl (fun acc l =>
        (acc.1 ++ [(acc.2.add_line_loop l).1], (acc.2.add_line_loop l).2)) acc).2._points =
      acc.2._points := by
  induction ls generalizing acc with
  | nil => rfl
  | cons l ls ih =>
    rw [List.foldl_cons, ih]
    rfl

/-- The point container after an insertion call is the one obtained by the
`add_point` calls the call makes. -/
theorem apply_points (E : externals) (f : gmsh_abstract_file) (op : catalog_op) :
    (op.apply E f)._points = (f.add_points (op.point_calls E f))._points := by
  cases op with
  | add_point p => rfl
  | add_segment s => rfl
  | add_circle c => rfl
  | add_line_loop l => rfl
  | add_volume v => rfl
  | add_bounding_box =>
    show (f.add_bounding_box E)._points = _
    unfold gmsh_abstract_file.add_bounding_box
    simp only [catalog_op.point_calls]
    rw [add_points_append]
    have hv : ∀ (g : gmsh_abstract_file) (v : gmsh_volume),
        (g.add_volume v).2._points = g._points := fun _ _ => rfl
    rw [hv]
    unfold gmsh_abstract_file.add_line_loops gmsh_abstract_file.add_segments
    rw [add_line_loops_points, add_segments_points]

/-- A coordinate is stored after an insertion sequence exactly when it was stored
before or is the coordinate of a point inserted by the sequence. -/
theorem registered_run_ops_iff (E : externals) (ops : List catalog_op)
    (f : gmsh_abstract_file) (p : gmsh_point) :
    registered (run_ops E ops f) p ↔
      registered f p ∨ ∃ q ∈ inserted_points E ops f, q.coords = p.coords := by
  induction ops generalizing f with
  | nil => simp [run_ops, inserted_points]
  | cons op ops ih =>
    have h : run_ops E (op :: ops) f = run_ops E ops (op.apply E f) := rfl
    rw [h, ih, registered_congr _ _ p (apply_points E f op), registered_add_points_iff]
    simp only [inserted_points, List.mem_append]
    constructor
    · rintro ((h | ⟨q, hq, hc⟩) | ⟨q, hq, hc⟩)
      · exact Or.inl h
      · exact Or.inr ⟨q, Or.inl hq, hc⟩
      · exact Or.inr ⟨q, Or.inr hq, hc⟩
    · rintro (h | ⟨q, hq | hq, hc⟩)
      · exact Or.inl (Or.inl h)
      · exact Or.inl (Or.inr ⟨q, hq, hc⟩)
      · exact Or.inr ⟨q, hq, hc⟩

theorem find_point_error_iff (f : gmsh_abstract_file) (p : gmsh_point) :
    (f.find_point p).1 = Except.error exception.out_of_range ↔ ¬ registered f p := by
  unfold registered
  rw [show (¬ ∃ q ∈ f._points, q.coords = p.coords) ↔ ∀ q ∈ f._points, q.coords ≠ p.coords by
    simp, ← find_same_none_iff]
  unfold gmsh_abstract_file.find_point
  cases f._points.find? (fun y => gmsh_point.same y p) <;> simp

/-- C4: `find_point p` raises the not-found error exactly when no point with the
coordinate of `p` was inserted before: on the catalog built from the empty one by an
insertion sequence, exactly when none of the points the sequence passed to `add_point`
has that coordinate, and on any catalog exactly when no stored point has it.  After
`add_point p` and any further insertions it returns the identifier `add_point`
returned; whenever it succeeds its result is the identifier a new `add_point p`
returns; and it leaves the catalog unchanged. -/
theorem find_point_spec (E : externals) (f : gmsh_abstract_file) (p : gmsh_point)
    (ops : List catalog_op) :
    (((run_ops E ops gmsh_abstract_file.empty).find_point p).1 =
        Except.error exception.out_of_range ↔
      ∀ q ∈ inserted_points E ops gmsh_abstract_file.empty, q.coords ≠ p.coords) ∧
    ((f.find_point p).1 = Except.error exception.out_of_range ↔
      ∀ q ∈ f._points, q.coords ≠ p.coords) ∧
    (run_ops E ops (f.add_point p).2).find_point p =
      (Except.ok (f.add_point p).1, run_ops E ops (f.add_point p).2) ∧
    (∀ i, (f.find_point p).1 = Except.ok i → (f.add_point p) = (i, f)) ∧
    (f.find_point p).2 = f := by
  refine ⟨?_, ?_, ?_, ?_, ?_⟩
  · rw [find_point_error_iff, registered_run_ops_iff]
    simp [registered, gmsh_abstract_file.empty]
  · rw [← find_same_none_iff]
    unfold gmsh_abstract_file.find_point
    cases f._points.find? (fun y => gmsh_point.same y p) <;> simp
  · obtain ⟨y, hy, hid⟩ := add_point_find f p
    have hfind := run_ops_find E ops _ p y hy
    unfold gmsh_abstract_file.find_point
    rw [hfind, ← hid]
  · intro i hi
    rcases f.add_point_cases p with ⟨y, h1, h2⟩ | ⟨h1, _⟩
    · unfold gmsh_abstract_file.find_point at hi
      rw [h1] at hi
      simp only [Except.ok.injEq] at hi
      rw [h2, hi]
    · unfold gmsh_abstract_file.find_point at hi
      rw [h1] at hi
      simp at hi
  · unfold gmsh_abstract_file.find_point
    cases f._points.find? (fun y => gmsh_point.same y p) <;> rfl

/-! ## Listing by identifier -/

theorem orderedInsert_pairwise {α : Type} (id : α → Nat) (a : α) (l : List α)
    (hl : l.Pairwise (fun x y => id x < id y)) (ha : ∀ b ∈ l, id a ≠ id b) :
    (l.orderedInsert (fun x y => id x < id y) a).Pairwise (fun x y => id x < id y) := by
  induction l with
  | nil => simp
  | cons b l ih =>
    rw [List.pairwise_cons] at hl
    rw [List.orderedInsert]
    split
    · rename_i h
      refine List.pairwise_cons.2 ⟨?_, List.pairwise_cons.2 hl⟩
      intro x hx
      rcases List.mem_cons.1 hx with hx | hx
      · rw [hx]; exact h
      · exact Nat.lt_trans h (hl.1 x hx)
    · rename_i h
      have hba : id b < id a := by
        have := ha b (List.mem_cons_self _ _)
        omega
      refine List.pairwise_cons.2 ⟨?_, ih hl.2 (fun x hx => ha x (List.mem_cons_of_mem _ hx))⟩
      intro x hx
      rcases (List.mem_orderedInsert _).1 hx with hx | hx
      · rw [hx]; exact hba
      · exact hl.1 x hx

/-- The copy made by `sort_by_id` holds the elements of the container. -/
theorem sort_by_id_perm {α : Type} (id : α → Nat) (s : List α) :
    (sort_by_id id s).Perm s :=
  List.perm_insertionSort _ s

/-- On a container without repeated identifiers `sort_by_id` is strictly ascending. -/
theorem sort_by_id_pairwise {α : Type} (id : α → Nat) (s : List α)
    (h : (s.map id).Nodup) : (sort_by_id id s).Pairwise (fun x y => id x < id y) := by
  unfold sort_by_id
  induction s with
  | nil => simp
  | cons a s ih =>
    rw [List.map_cons, List.nodup_cons] at h
    rw [List.insertionSort]
    refine orderedInsert_pairwise id a _ (ih h.2) ?_
    intro b hb heq
    have hb2 : b ∈ s := (List.perm_insertionSort _ s).mem_iff.1 hb
    exact h.1 (heq ▸ List.mem_map_of_mem id hb2)

/-- In a well-formed catalog no container repeats an identifier. -/
theorem well_formed_nodup (f : gmsh_abstract_file) (h : well_formed f) :
    (f._points.map gmsh_point.id).Nodup ∧ (f._segments.map gmsh_segment.id).Nodup ∧
    (f._circles.map gmsh_circle.id).Nodup ∧ (f._line_loop.map gmsh_line_loop.id).Nodup ∧
    (f._volumes.map gmsh_volume.id).Nodup := by
  have hl : (line_ids f).Nodup := h.line_perm.nodup_iff.2 (List.nodup_range' _ _)
  unfold line_ids at hl
  rw [List.nodup_append, List.nodup_append] at hl
  refine ⟨?_, hl.1.1, hl.1.2.1, hl.2.1, ?_⟩
  · rw [h.point_ids]; exact List.nodup_range' _ _
  · rw [h.volume_ids]; exact List.nodup_range' _ _

/-! ## Registered points -/

theorem find_point_of_registered (f : gmsh_abstract_file) (p : gmsh_point)
    (h : registered f p) : ∃ i, (f.find_point p).1 = Except.ok i := by
  unfold gmsh_abstract_file.find_point
  cases hf : f._points.find? (fun y => gmsh_point.same y p) with
  | none =>
    obtain ⟨q, hq, hc⟩ := h
    exact absurd hc ((find_same_none_iff _ _).1 hf q hq)
  | some y => exact ⟨y.id, rfl⟩

theorem mapM_ok_of_forall {α β : Type} (g : α → Except exception β) (l : List α)
    (h : ∀ a ∈ l, ∃ b, g a = Except.ok b) : ∃ bs, l.mapM g = Except.ok bs := by
  induction l with
  | nil => exact ⟨[], rfl⟩
  | cons a l ih =>
    obtain ⟨b, hb⟩ := h a (List.mem_cons_self _ _)
    obtain ⟨bs, hbs⟩ := ih (fun x hx => h x (List.mem_cons_of_mem _ hx))
    refine ⟨b :: bs, ?_⟩
    rw [List.mapM_cons, hb, hbs]
    rfl

/-- C7: every point referenced by a stored segment or arc is registered.  In every
catalog built from the empty one by insertion calls `find_point` succeeds on both end
points of every stored segment and on the centre and both boundary points of every
stored arc, and `export_segments_single` and `export_circle_to_stream` return their
statements without raising. -/
theorem referenced_points_registered (E : externals) (ops : List catalog_op) :
    (∀ s ∈ (run_ops E ops gmsh_abstract_file.empty)._segments, ∃ i j,
      ((run_ops E ops gmsh_abstract_file.empty).find_point s.point1).1 = Except.ok i ∧
      ((run_ops E ops gmsh_abstract_file.empty).find_point s.point2).1 = Except.ok j) ∧
    (∀ c ∈ (run_ops E ops gmsh_abstract_file.empty)._circles, ∃ i j k,
      ((run_ops E ops gmsh_abstract_file.empty).find_point c.center).1 = Except.ok i ∧
      ((run_ops E ops gmsh_abstract_file.empty).find_point c.point1).1 = Except.ok j ∧
      ((run_ops E ops gmsh_abstract_file.empty).find_point c.point2).1 = Except.ok k) ∧
    (∃ out, export_segments_single (run_ops E ops gmsh_abstract_file.empty).get_all_segments
      (run_ops E ops gmsh_abstract_file.empty) = Except.ok out) ∧
    (∃ out, (run_ops E ops gmsh_abstract_file.empty).export_circle_to_stream =
      Except.ok out) := by
  have h := well_formed_run_ops E ops
  have hs : ∀ s ∈ (run_ops E ops gmsh_abstract_file.empty)._segments, ∃ i j,
      ((run_ops E ops gmsh_abstract_file.empty).find_point s.point1).1 = Except.ok i ∧
      ((run_ops E ops gmsh_abstract_file.empty).find_point s.point2).1 = Except.ok j := by
    intro s hs
    obtain ⟨i, hi⟩ := find_point_of_registered _ _ (h.segment_points s hs).1
    obtain ⟨j, hj⟩ := find_point_of_registered _ _ (h.segment_points s hs).2
    exact ⟨i, j, hi, hj⟩
  have hc : ∀ c ∈ (run_ops E ops gmsh_abstract_file.empty)._circles, ∃ i j k,
      ((run_ops E ops gmsh_abstract_file.empty).find_point c.center).1 = Except.ok i ∧
      ((run_ops E ops gmsh_abstract_file.empty).find_point c.point1).1 = Except.ok j ∧
      ((run_ops E ops gmsh_abstract_file.empty).find_point c.point2).1 = Except.ok k := by
    intro c hc
    obtain ⟨i, hi⟩ := find_point_of_registered _ _ (h.circle_points c hc).1
    obtain ⟨j, hj⟩ := find_point_of_registered _ _ (h.circle_points c hc).2.1
    obtain ⟨k, hk⟩ := find_point_of_registered _ _ (h.circle_points c hc).2.2
    exact ⟨i, j, k, hi, hj, hk⟩
  refine ⟨hs, hc, ?_, ?_⟩
  · obtain ⟨bs, hbs⟩ := mapM_ok_of_forall (fun p => do
        let p1 ← ((run_ops E ops gmsh_abstract_file.empty).find_point p.point1).1
        let p2 ← ((run_ops E ops gmsh_abstract_file.empty).find_point p.point2).1
        pure (geo_statement.line p.id [p1, p2]))
      (run_ops E ops gmsh_abstract_file.empty).get_all_segments (by
        intro s hs2
        obtain ⟨i, j, hi, hj⟩ := hs s ((sort_by_id_perm _ _).mem_iff.1 hs2)
        exact ⟨geo_statement.line s.id [i, j], by simp only [hi, hj]; rfl⟩)
    unfold export_segments_single
    rw [hbs]
    exact ⟨_, rfl⟩
  · obtain ⟨bs, hbs⟩ := mapM_ok_of_forall (fun p => do
        let p1 ← ((run_ops E ops gmsh_abstract_file.empty).find_point p.point1).1
        let c ← ((run_ops E ops gmsh_abstract_file.empty).find_point p.center).1
        let p2 ← ((run_ops E ops gmsh_abstract_file.empty).find_point p.point2).1
        pure (geo_statement.circle p.id p1 c p2))
      (run_ops E ops gmsh_abstract_file.empty).get_all_circles (by
        intro c hc2
        obtain ⟨i, j, k, hi, hj, hk⟩ := hc c ((sort_by_id_perm _ _).mem_iff.1 hc2)
        exact ⟨geo_statement.circle c.id j i k, by simp only [hi, hj, hk]; rfl⟩)
    unfold gmsh_abstract_file.export_circle_to_stream
    simp only []
    rw [hbs]
    exact ⟨_, rfl⟩

/-! ## Polylines and cross-sections of a branch -/

theorem mapM_index_range' (pre l : List point3d) :
    (List.range' pre.length l.length).mapM
      (fun i => match (pre ++ l)[i]? with
        | some p => (Except.ok p : Except exception point3d)
        | none => Except.error exception.out_of_bounds) = Except.ok l := by
  induction l generalizing pre with
  | nil => rfl
  | cons a l ih =>
    have h := ih (pre ++ [a])
    simp only [List.append_assoc, List.singleton_append, List.length_append,
      List.length_singleton] at h
    have hget : (pre ++ a :: l)[pre.length]? = some a := by
      rw [List.getElem?_append_right (Nat.le_refl _), Nat.sub_self]
      exact List.getElem?_cons_zero
    simp only [List.length_cons, List.range', List.mapM_cons, hget, h]
    rfl

/-- The loop of `get_linestring` over the own points reads them all, in order. -/
theorem own_points_loop (b : branch) :
    (List.range b.get_size).mapM (fun i => b.get_point i) = Except.ok b.get_points := by
  have h := mapM_index_range' [] b.get_points
  simp only [List.length_nil, List.nil_append] at h
  rw [List.range_eq_range']
  exact h

/-- C8: polyline continuity with a non-soma parent.  For a branch whose parent is a
non-soma branch with at least one point, `get_linestring` returns the parent's last own
point followed by the branch's own points in order, a sequence of length `size + 1`. -/
theorem get_linestring_continuity (E : externals) (b p : branch)
    (hp : b.get_parent = some p) (ht : p.get_type ≠ branch_type.soma)
    (hs : 1 ≤ p.get_size) :
    ∃ last, p.get_points.getLast? = some last ∧
      b.get_linestring E = Except.ok (last :: b.get_points) ∧
      (last :: b.get_points).length = b.get_size + 1 := by
  have hne : p.get_points ≠ [] := by
    intro h
    simp [branch.get_size, h] at hs
  obtain ⟨last, hlast⟩ : ∃ last, p.get_points.getLast? = some last := by
    cases h : p.get_points.getLast? with
    | none => exact absurd (List.getLast?_eq_none_iff.1 h) hne
    | some x => exact ⟨x, rfl⟩
  refine ⟨last, hlast, ?_, rfl⟩
  have hget : p.get_point (p.get_size - 1) = Except.ok last := by
    unfold branch.get_point branch.get_size
    rw [← List.getLast?_eq_getElem?, hlast]
  unfold branch.get_linestring
  rw [hp]
  simp only [ht, if_false, hget, own_points_loop]
  rfl

/-- Witness of C8 on `sample_grandchild`, whose parent `sample_child` ends at (3, 0, 0). -/
theorem get_linestring_continuity_witness :
    ∃ last, sample_child.get_points.getLast? = some last ∧
      sample_grandchild.get_linestring sample_externals =
        Except.ok (last :: sample_grandchild.get_points) ∧
      (last :: sample_grandchild.get_points).length = sample_grandchild.get_size + 1 :=
  get_linestring_continuity sample_externals sample_grandchild sample_child rfl
    (by decide) (by decide)

/-- C9: polyline with a soma parent or no parent.  For a branch whose parent is a soma
with at least one point (and one radius per point), `get_sphere` of the parent succeeds
and `get_linestring` returns its centre followed by the branch's own points in order;
for a branch with no parent `get_linestring` returns exactly the own points, so a
single-point branch without parent yields a one-point polyline. -/
theorem get_linestring_soma_or_root (E : externals) (b : branch) :
    (∀ p, b.get_parent = some p → p.get_type = branch_type.soma → 1 ≤ p.get_size →
      p.get_distances.length = p.get_size →
      ∃ s, p.get_sphere E = Except.ok s ∧
        b.get_linestring E = Except.ok (s.center :: b.get_points)) ∧
    (b.get_parent = none → b.get_linestring E = Except.ok b.get_points ∧
      (b.get_size = 1 → ∃ ls, b.get_linestring E = Except.ok ls ∧ ls.length = 1)) := by
  constructor
  · intro p hp ht hs hd
    have hsph : ∃ s, p.get_sphere E = Except.ok s := by
      unfold branch.get_sphere
      match hsz : p.get_size with
      | 0 => omega
      | 1 =>
        have h1 : ∃ a, p.get_points = [a] := by
          unfold branch.get_size at hsz
          exact List.length_eq_one.1 hsz
        have h2 : ∃ r, p.get_distances = [r] := by
          rw [hsz] at hd
          exact List.length_eq_one.1 hd
        obtain ⟨a, ha⟩ := h1
        obtain ⟨r, hr⟩ := h2
        refine ⟨⟨a, r⟩, ?_⟩
        simp [branch.get_point, branch.get_distance, ha, hr]
        rfl
      | n + 2 => exact ⟨_, rfl⟩
    obtain ⟨s, hsp⟩ := hsph
    refine ⟨s, hsp, ?_⟩
    unfold branch.get_linestring
    rw [hp]
    simp only [ht, if_true, hsp, own_points_loop]
    rfl
  · intro hp
    have h : b.get_linestring E = Except.ok b.get_points := by
      unfold branch.get_linestring
      rw [hp]
      simp only [own_points_loop]
      rfl
    refine ⟨h, fun h1 => ⟨_, h, h1⟩⟩

/-- Witness of C9 on `sample_child` (soma parent) and `sample_root` (no parent). -/
theorem get_linestring_soma_or_root_witness :
    (∃ s, sample_soma.get_sphere sample_externals = Except.ok s ∧
      sample_child.get_linestring sample_externals =
        Except.ok (s.center :: sample_child.get_points)) ∧
    (sample_root.get_linestring sample_externals = Except.ok sample_root.get_points ∧
      ∃ ls, sample_root.get_linestring sample_externals = Except.ok ls ∧ ls.length = 1) :=
  ⟨(get_linestring_soma_or_root sample_externals sample_child).1 sample_soma rfl rfl
      (by decide) (by decide),
   ((get_linestring_soma_or_root sample_externals sample_root).2 rfl).1,
   ((get_linestring_soma_or_root sample_externals sample_root).2 rfl).2 (by decide)⟩

/-- Counterexample to C10 as stated: a branch without parent and without points gets
the empty cross-section sequence, not an error. -/
theorem get_circle_pipe_no_parent_counterexample :
    sample_empty_root.get_parent = none ∧
    sample_empty_root.get_circle_pipe sample_externals = Except.ok [] :=
  ⟨rfl, rfl⟩

/-- C10, amended: for every branch that has no parent and at least one point,
`get_circle_pipe` fails with a runtime error; for a branch that has no parent and no
point it returns the empty sequence. -/
theorem get_circle_pipe_no_parent (E : externals) (b : branch) (hp : b.get_parent = none) :
    (1 ≤ b.get_size → b.get_circle_pipe E = Except.error exception.runtime_error) ∧
    (b.get_size = 0 → b.get_circle_pipe E = Except.ok []) := by
  cases b with
  | mk t i ps ds parent =>
    simp only [branch.get_parent] at hp
    subst hp
    unfold branch.get_circle_pipe
    constructor
    · intro h
      rw [if_neg (by omega)]
      rfl
    · intro h
      rw [if_pos (by omega)]
      rfl

/-- Witness of the amended C10 on `sample_root` and `sample_empty_root`. -/
theorem get_circle_pipe_no_parent_witness :
    sample_root.get_circle_pipe sample_externals = Except.error exception.runtime_error ∧
    sample_empty_root.get_circle_pipe sample_externals = Except.ok [] :=
  ⟨(get_circle_pipe_no_parent sample_externals sample_root rfl).1 (by decide),
   (get_circle_pipe_no_parent sample_externals sample_empty_root rfl).2 (by decide)⟩

/-! ## Wireframe export with packing and a bounding box -/

/-- C6 at a failing input: for the two-branch sample tree exported with packing and
the bounding box, the script's `Line` statements carry the identifiers 1 to 6 while
its `Line Loop` statements and `For` range refer to the identifiers 1 to 15; the
identifier 15 is referred to and is no `Line` statement. -/
theorem export_to_wireframe_packed_box_dangling :
    (export_to_wireframe sample_externals ⟨false, false, true, true⟩
        [sample_tree]).toOption.map line_statement_ids = some [1, 2, 3, 4, 5, 6] ∧
    (export_to_wireframe sample_externals ⟨false, false, true, true⟩
        [sample_tree]).toOption.map referenced_line_ids =
      some [4, 5, 6, 7, 7, 8, 15, 11, 4, 8, 12, 9, 5, 9, 13, 10, 6, 11, 14, 10,
        12, 13, 14, 15, 1, 2, 3] ∧
    (15 ∈ [4, 5, 6, 7, 7, 8, 15, 11, 4, 8, 12, 9, 5, 9, 13, 10, 6, 11, 14, 10,
        12, 13, 14, 15, 1, 2, 3] ∧ 15 ∉ [1, 2, 3, 4, 5, 6]) := by
  refine ⟨?_, ?_, ?_⟩ <;> decide!


/-! ## Cross-section continuity -/

/-- What one iteration of the cross-section loop does when its reads are in bounds. -/
theorem circle_pipe_step_eq (E : externals) (b : branch) (res : List circle3d) (i : Nat)
    (prev : circle3d) (hprev : res.getLast? = some prev)
    (hi : i < b.get_size) (hd : b.get_distances.length = b.get_size) :
    ∃ c : circle3d, branch.circle_pipe_step E b res i =
      Except.ok (if E.close_to prev.center c.center then res else res ++ [c]) ∧
      b.get_points[i]? = some c.center ∧ b.get_distances[i]? = some c.radius := by
  have hp : ∃ p, b.get_points[i]? = some p := by
    unfold branch.get_size at hi
    exact ⟨_, List.getElem?_eq_getElem hi⟩
  have hr : ∃ r, b.get_distances[i]? = some r := by
    rw [← hd] at hi
    exact ⟨_, List.getElem?_eq_getElem hi⟩
  obtain ⟨p, hp⟩ := hp
  obtain ⟨r, hr⟩ := hr
  by_cases hlt : i < b.get_size - 1
  · have hq : ∃ q, b.get_points[i + 1]? = some q := by
      have : i + 1 < b.get_points.length := by unfold branch.get_size at hlt; omega
      exact ⟨_, List.getElem?_eq_getElem this⟩
    obtain ⟨q, hq⟩ := hq
    refine ⟨⟨p, r, get_tangente_axis prev.center p q⟩, ?_, hp, hr⟩
    unfold branch.circle_pipe_step branch.back branch.get_point branch.get_distance
    simp only [hprev, hp, hq, hr, hlt, if_true, bind, Except.bind, pure, Except.pure]
    by_cases hc : E.close_to prev.center p = true
    · simp only [hc, if_true]
    · simp only [hc, if_false]; rfl
  · refine ⟨⟨p, r, prev.center.sub p⟩, ?_, hp, hr⟩
    unfold branch.circle_pipe_step branch.back branch.get_point branch.get_distance
    simp only [hprev, hp, hr, hlt, if_false, bind, Except.bind, pure, Except.pure]
    by_cases hc : E.close_to prev.center p = true
    · simp only [hc, if_true]
    · simp only [hc, if_false]; rfl

/-- The cross-section loop keeps what it starts from and only appends to it. -/
theorem circle_pipe_loop (E : externals) (b : branch)
    (hd : b.get_distances.length = b.get_size) (l : List Nat) (hl : ∀ i ∈ l, i < b.get_size)
    (res : List circle3d) (hres : res ≠ []) :
    ∃ extra, l.foldlM (branch.circle_pipe_step E b) res = Except.ok (res ++ extra) := by
  induction l generalizing res with
  | nil => exact ⟨[], by simp [List.foldlM]; rfl⟩
  | cons i l ih =>
    obtain ⟨prev, hprev⟩ : ∃ prev, res.getLast? = some prev := by
      cases h : res.getLast? with
      | none => exact absurd (List.getLast?_eq_none_iff.1 h) hres
      | some x => exact ⟨x, rfl⟩
    obtain ⟨c, hc, _, _⟩ :=
      circle_pipe_step_eq E b res i prev hprev (hl i (List.mem_cons_self _ _)) hd
    rw [List.foldlM_cons, hc]
    by_cases hclose : E.close_to prev.center c.center = true
    · simp only [hclose, if_true]
      obtain ⟨extra, he⟩ := ih (fun j hj => hl j (List.mem_cons_of_mem _ hj)) res hres
      exact ⟨extra, he⟩
    · simp only [hclose, if_false]
      obtain ⟨extra, he⟩ := ih (fun j hj => hl j (List.mem_cons_of_mem _ hj)) (res ++ [c])
        (by simp)
      exact ⟨c :: extra, by rw [show res ++ c :: extra = res ++ [c] ++ extra by simp]; exact he⟩

/-- The cross-section sequence of a branch with points and a non-soma parent, in terms
of the parent's sequence. -/
theorem get_circle_pipe_of_parent (E : externals) (b p : branch)
    (hp : b.get_parent = some p) (ht : p.get_type ≠ branch_type.soma)
    (hs : 1 ≤ b.get_size) :
    b.get_circle_pipe E =
      match p.get_circle_pipe E with
      | Except.error e => Except.error e
      | Except.ok pp =>
        match pp.getLast? with
        | none => Except.error exception.runtime_error
        | some last => (List.range b.get_size).foldlM (branch.circle_pipe_step E b) [last] := by
  cases b with
  | mk t i ps ds parent =>
    simp only [branch.get_parent] at hp
    subst hp
    rw [branch.get_circle_pipe]
    rw [if_neg (by omega)]
    simp only [ht, if_false]
    cases hpp : branch.get_circle_pipe E p with
    | error e => rfl
    | ok pp =>
      cases hlast : pp.getLast? with
      | none =>
        have : pp = [] := List.getLast?_eq_none_iff.1 hlast
        subst this
        rfl
      | some last =>
        have hne : ¬ pp.length < 1 := by
          intro h
          have : pp = [] := List.length_eq_zero.1 (by omega)
          subst this
          simp at hlast
        simp only [bind, Except.bind, hne, if_false, branch.back, hlast, pure, Except.pure]

/-- C11: cross-section continuity.  For a branch with at least one point (and one
radius per point) whose parent is not a soma: when the parent's `get_circle_pipe`
returns a non-empty sequence, the branch's sequence starts with the last cross-section
of the parent's (same centre, radius and axis); when the parent's sequence is empty the
branch's `get_circle_pipe` raises a runtime error; when the parent's computation raises,
the branch's raises the same error; so it raises exactly in these two cases. -/
theorem get_circle_pipe_continuity (E : externals) (b p : branch)
    (hp : b.get_parent = some p) (ht : p.get_type ≠ branch_type.soma)
    (hs : 1 ≤ b.get_size) (hd : b.get_distances.length = b.get_size) :
    (∀ pp last, p.get_circle_pipe E = Except.ok pp → pp.getLast? = some last →
      ∃ rest, b.get_circle_pipe E = Except.ok (last :: rest)) ∧
    (p.get_circle_pipe E = Except.ok [] →
      b.get_circle_pipe E = Except.error exception.runtime_error) ∧
    (∀ e, p.get_circle_pipe E = Except.error e → b.get_circle_pipe E = Except.error e) ∧
    ((∃ e, b.get_circle_pipe E = Except.error e) ↔
      (p.get_circle_pipe E = Except.ok [] ∨ ∃ e, p.get_circle_pipe E = Except.error e)) := by
  have key := get_circle_pipe_of_parent E b p hp ht hs
  have h1 : ∀ pp last, p.get_circle_pipe E = Except.ok pp → pp.getLast? = some last →
      ∃ rest, b.get_circle_pipe E = Except.ok (last :: rest) := by
    intro pp last hpp hlast
    rw [key, hpp]
    simp only [hlast]
    obtain ⟨extra, he⟩ := circle_pipe_loop E b hd (List.range b.get_size)
      (fun i hi => List.mem_range.1 hi) [last] (by simp)
    exact ⟨extra, he⟩
  have h2 : p.get_circle_pipe E = Except.ok [] →
      b.get_circle_pipe E = Except.error exception.runtime_error := by
    intro hpp
    rw [key, hpp]
    rfl
  have h3 : ∀ e, p.get_circle_pipe E = Except.error e →
      b.get_circle_pipe E = Except.error e := by
    intro e hpp
    rw [key, hpp]
  refine ⟨h1, h2, h3, ?_⟩
  constructor
  · rintro ⟨e, he⟩
    cases hpp : p.get_circle_pipe E with
    | error e2 => exact Or.inr ⟨e2, rfl⟩
    | ok pp =>
      cases hlast : pp.getLast? with
      | none =>
        left
        rw [List.getLast?_eq_none_iff.1 hlast]
      | some last =>
        obtain ⟨rest, hr⟩ := h1 pp last hpp hlast
        rw [hr] at he
        cases he
  · rintro (h | ⟨e, h⟩)
    · exact ⟨_, h2 h⟩
    · exact ⟨e, h3 e h⟩

/-- Witness of C11 on `sample_grandchild`, whose parent `sample_child` is not a soma. -/
theorem get_circle_pipe_continuity_witness :
    (∀ pp last, sample_child.get_circle_pipe sample_externals = Except.ok pp →
      pp.getLast? = some last →
      ∃ rest, sample_grandchild.get_circle_pipe sample_externals =
        Except.ok (last :: rest)) ∧
    (sample_child.get_circle_pipe sample_externals = Except.ok [] →
      sample_grandchild.get_circle_pipe sample_externals =
        Except.error exception.runtime_error) ∧
    (∀ e, sample_child.get_circle_pipe sample_externals = Except.error e →
      sample_grandchild.get_circle_pipe sample_externals = Except.error e) ∧
    ((∃ e, sample_grandchild.get_circle_pipe sample_externals = Except.error e) ↔
      (sample_child.get_circle_pipe sample_externals = Except.ok [] ∨
        ∃ e, sample_child.get_circle_pipe sample_externals = Except.error e)) :=
  get_circle_pipe_continuity sample_externals sample_grandchild sample_child rfl
    (by decide) (by decide) (by decide)

/-! ## The soma sphere -/

/-- C12: soma sphere for small inputs.  `get_sphere` on a branch with no point raises a
runtime error; on a branch with exactly one point it returns the sphere whose centre is
that point and whose radius is the radius recorded for that point. -/
theorem get_sphere_small (E : externals) (b : branch) :
    (b.get_points = [] → b.get_sphere E = Except.error exception.runtime_error) ∧
    (∀ p r rest, b.get_points = [p] → b.get_distances = r :: rest →
      b.get_sphere E = Except.ok ⟨p, r⟩) := by
  constructor
  · intro h
    simp [branch.get_sphere, branch.get_size, h]
  · intro p r rest hp hr
    simp [branch.get_sphere, branch.get_size, branch.get_point, branch.get_distance, hp, hr]
    rfl

/-- Witness of C12 on `sample_empty_soma` and `sample_soma`. -/
theorem get_sphere_small_witness :
    sample_empty_soma.get_sphere sample_externals = Except.error exception.runtime_error ∧
    sample_soma.get_sphere sample_externals = Except.ok ⟨⟨0, 0, 0⟩, 1⟩ :=
  ⟨(get_sphere_small sample_externals sample_empty_soma).1 rfl,
   (get_sphere_small sample_externals sample_soma).2 ⟨0, 0, 0⟩ 1 [] rfl rfl⟩

theorem foldl_point_add (pts : List point3d) (c : point3d) :
    pts.foldl (fun c p => c.add p) c =
      ⟨c.x + (pts.map point3d.x).sum, c.y + (pts.map point3d.y).sum,
       c.z + (pts.map point3d.z).sum⟩ := by
  induction pts generalizing c with
  | nil => simp
  | cons p pts ih =>
    rw [List.foldl_cons, ih]
    simp [point3d.add, add_assoc]

theorem foldl_distance_add (g : point3d → ℚ) (pts : List point3d) (d : ℚ) :
    pts.foldl (fun d p => d + g p) d = d + (pts.map g).sum := by
  induction pts generalizing d with
  | nil => simp
  | cons p pts ih =>
    rw [List.foldl_cons, ih]
    simp [add_assoc]

/-- The two loops of `soma_gravity_center` compute the means of the specification. -/
theorem soma_gravity_center_eq (E : externals) (pts : List point3d) :
    soma_gravity_center E pts =
      (arithmetic_mean pts, mean_distance E pts (arithmetic_mean pts)) := by
  have hc : (pts.foldl (fun c p => c.add p) (point3d.mk 0 0 0)).div pts.length =
      arithmetic_mean pts := by
    rw [foldl_point_add]
    simp [point3d.div, arithmetic_mean]
  unfold soma_gravity_center
  simp only [hc, foldl_distance_add]
  simp [mean_distance]

/-- C13: soma sphere for two points or more.  `get_sphere` returns as centre the
coordinate-wise arithmetic mean of the points and as radius the arithmetic mean of the
distances from each point to that centre; the recorded radii play no part (two branches
with the same points get the same sphere); for the points (0,0,0) and (2,0,0), whose
Euclidean distances to (1,0,0) are 1, the centre is (1,0,0) and the radius is 1. -/
theorem get_sphere_gravity_center (E : externals) (b : branch) (h : 2 ≤ b.get_size) :
    b.get_sphere E = Except.ok ⟨arithmetic_mean b.get_points,
      mean_distance E b.get_points (arithmetic_mean b.get_points)⟩ ∧
    (∀ b2 : branch, b2.get_points = b.get_points → b2.get_sphere E = b.get_sphere E) ∧
    (b.get_points = [⟨0, 0, 0⟩, ⟨2, 0, 0⟩] → E.distance ⟨0, 0, 0⟩ ⟨1, 0, 0⟩ = 1 →
      E.distance ⟨2, 0, 0⟩ ⟨1, 0, 0⟩ = 1 → b.get_sphere E = Except.ok ⟨⟨1, 0, 0⟩, 1⟩) := by
  have main : ∀ c : branch, 2 ≤ c.get_size →
      c.get_sphere E = Except.ok ⟨arithmetic_mean c.get_points,
        mean_distance E c.get_points (arithmetic_mean c.get_points)⟩ := by
    intro c hc
    unfold branch.get_sphere
    match hsz : c.get_size with
    | 0 => omega
    | 1 => omega
    | n + 2 =>
      simp only [soma_gravity_center_eq]
      rfl
  refine ⟨main b h, ?_, ?_⟩
  · intro b2 h2
    have hs2 : 2 ≤ b2.get_size := by
      unfold branch.get_size at h ⊢
      rw [h2]; exact h
    rw [main b h, main b2 hs2, h2]
  · intro hp h1 h2
    rw [main b h, hp]
    have hm : arithmetic_mean [⟨0, 0, 0⟩, ⟨2, 0, 0⟩] = ⟨1, 0, 0⟩ := by
      simp [arithmetic_mean]
    rw [hm]
    simp [mean_distance, h1, h2]

/-- Witness of C13 on `sample_soma_two`, the soma of (0,0,0) and (2,0,0). -/
theorem get_sphere_gravity_center_witness :
    sample_soma_two.get_sphere sample_externals = Except.ok ⟨⟨1, 0, 0⟩, 1⟩ :=
  (get_sphere_gravity_center sample_externals sample_soma_two (by decide)).2.2 rfl
    (by decide!) (by decide!)

/-! ## Effect of the insertions on loops, volumes and arcs -/

theorem grows_refl (f : gmsh_abstract_file) : grows f f [] [] :=
  ⟨by simp, by simp, ⟨[], by simp⟩, ⟨[], by simp⟩, ⟨[], by simp⟩⟩

theorem grows_trans {f g h : gmsh_abstract_file} {L M : List gmsh_line_loop}
    {V W : List gmsh_volume} (h1 : grows f g L V) (h2 : grows g h M W) :
    grows f h (L ++ M) (V ++ W) := by
  obtain ⟨c1, hc1⟩ := h1.circles
  obtain ⟨c2, hc2⟩ := h2.circles
  obtain ⟨s1, hs1⟩ := h1.segments
  obtain ⟨s2, hs2⟩ := h2.segments
  obtain ⟨p1, hp1⟩ := h1.points
  obtain ⟨p2, hp2⟩ := h2.points
  exact ⟨by rw [h2.loops, h1.loops, List.append_assoc],
    by rw [h2.volumes, h1.volumes, List.append_assoc],
    ⟨c1 ++ c2, by rw [hc2, hc1, List.append_assoc]⟩,
    ⟨s1 ++ s2, by rw [hs2, hs1, List.append_assoc]⟩,
    ⟨p1 ++ p2, by rw [hp2, hp1, List.append_assoc]⟩⟩

theorem grows_add_point (f : gmsh_abstract_file) (p : gmsh_point) :
    grows f (f.add_point p).2 [] [] :=
  ⟨by simp [gmsh_abstract_file.add_point], by simp [gmsh_abstract_file.add_point],
    ⟨[], by simp [gmsh_abstract_file.add_point]⟩,
    ⟨[], by simp [gmsh_abstract_file.add_point]⟩, add_point_points f p⟩

theorem grows_add_points (ps : List gmsh_point) (f : gmsh_abstract_file) :
    grows f (f.add_points ps) [] [] := by
  induction ps generalizing f with
  | nil => exact grows_refl f
  | cons p ps ih =>
    have h := grows_trans (grows_add_point f p) (ih (f.add_point p).2)
    simpa using h

theorem grows_add_segment (f : gmsh_abstract_file) (s : gmsh_segment) :
    grows f (f.add_segment s).2 [] [] := by
  have h2 : grows f ((f.add_point s.point1).2.add_point s.point2).2 [] [] := by
    simpa using grows_trans (grows_add_point f s.point1) (grows_add_point _ s.point2)
  rcases f.add_segment_cases s with ⟨y, _, e⟩ | ⟨_, e⟩
  · rw [e]; exact h2
  · rw [e]
    obtain ⟨sx, hsx⟩ := h2.segments
    exact ⟨h2.loops, h2.volumes, h2.circles, ⟨sx ++ _, by
      show _ ++ _ = _
      rw [hsx, List.append_assoc]⟩, h2.points⟩

theorem grows_add_circle (f : gmsh_abstract_file) (c : gmsh_circle) :
    grows f (f.add_circle c).2 [] [] := by
  have h3 : grows f
      (((f.add_point c.center).2.add_point c.point1).2.add_point c.point2).2 [] [] := by
    simpa using grows_trans (grows_trans (grows_add_point f c.center)
      (grows_add_point _ c.point1)) (grows_add_point _ c.point2)
  rcases f.add_circle_cases c with ⟨y, _, e⟩ | ⟨_, e⟩
  · rw [e]; exact h3
  · rw [e]
    obtain ⟨cx, hcx⟩ := h3.circles
    exact ⟨h3.loops, h3.volumes, ⟨cx ++ _, by
      show _ ++ _ = _
      rw [hcx, List.append_assoc]⟩, h3.segments, h3.points⟩

theorem grows_add_line_loop (f : gmsh_abstract_file) (l : gmsh_line_loop) :
    grows f (f.add_line_loop l).2 [{ l with id := f.create_id_line_element }] [] := by
  rw [f.add_line_loop_eq l]
  exact ⟨rfl, by simp, ⟨[], by simp⟩, ⟨[], by simp⟩, ⟨[], by simp⟩⟩

theorem grows_add_volume (f : gmsh_abstract_file) (v : gmsh_volume) :
    grows f (f.add_volume v).2 [] [{ v with id := f._volumes.length + 1 }] := by
  rw [f.add_volume_eq v]
  exact ⟨by simp, rfl, ⟨[], by simp⟩, ⟨[], by simp⟩, ⟨[], by simp⟩⟩

theorem has_arc_mono {f g : gmsh_abstract_file} {L : List gmsh_line_loop}
    {V : List gmsh_volume} (h : grows f g L V) {id : Nat} {c p1 p2 : point3d}
    (ha : has_arc f id c p1 p2) : has_arc g id c p1 p2 := by
  obtain ⟨extra, he⟩ := h.circles
  obtain ⟨a, ha1, ha2⟩ := ha
  exact ⟨a, by rw [he]; exact List.mem_append_left _ ha1, ha2⟩

/-- The identifier `add_circle` returns is the one of a stored arc with the centre and
the boundary points of its argument. -/
theorem has_arc_add_circle (f : gmsh_abstract_file) (c : gmsh_circle) :
    has_arc (f.add_circle c).2 (f.add_circle c).1 c.center.coords c.point1.coords
      c.point2.coords := by
  rcases f.add_circle_cases c with ⟨y, hy, e⟩ | ⟨_, e⟩
  · rw [e]
    have hm := List.mem_of_find?_eq_some hy
    have hs := List.find?_some hy
    simp only [gmsh_circle.same, gmsh_point.same, Bool.and_eq_true, decide_eq_true_eq] at hs
    exact ⟨y, hm, rfl, hs.1.1, hs.1.2, hs.2⟩
  · rw [e]
    exact ⟨_, List.mem_append_right _ (List.mem_singleton_self _), rfl, rfl, rfl, rfl⟩

/-! ## Sphere construction -/

theorem is_octant_loop_mono {f g : gmsh_abstract_file} {M : List gmsh_line_loop}
    {V : List gmsh_volume} (h : grows f g M V) {c : point3d} {l : gmsh_line_loop}
    {o : gmsh_point × gmsh_point × gmsh_point} (ho : is_octant_loop f c l o) :
    is_octant_loop g c l o := by
  obtain ⟨h1, h2, xy, yz, xz, hids, a1, a2, a3⟩ := ho
  exact ⟨h1, h2, xy, yz, xz, hids, has_arc_mono h a1, has_arc_mono h a2, has_arc_mono h a3⟩

theorem forall₂_append_of {α β : Type} {R : α → β → Prop} {l1 l2 : List α} {m1 m2 : List β}
    (h1 : List.Forall₂ R l1 m1) (h2 : List.Forall₂ R l2 m2) :
    List.Forall₂ R (l1 ++ l2) (m1 ++ m2) :=
  List.rel_append h1 h2

/-- One iteration of the loop over `zpoints` adds one octant loop. -/
theorem sphere_z_step_spec (center x y : gmsh_point) (xy : Nat)
    (acc : List Nat × gmsh_abstract_file) (z : gmsh_point) :
    ∃ (l : gmsh_line_loop) (yz xz : Nat),
      grows acc.2 (sphere_z_step center x y xy acc z).2 [l] [] ∧
      (sphere_z_step center x y xy acc z).1 = acc.1 ++ [l.id] ∧
      l.isRuled = true ∧ l.isPhysical = true ∧
      l.ids = [(xy : Int), (yz : Int), -(xz : Int)] ∧
      has_arc (sphere_z_step center x y xy acc z).2 yz center.coords y.coords z.coords ∧
      has_arc (sphere_z_step center x y xy acc z).2 xz center.coords x.coords z.coords := by
  have e1 := grows_add_circle acc.2
    { gmsh_circle.make center x z with isPhysical := true }
  have a1 := has_arc_add_circle acc.2
    { gmsh_circle.make center x z with isPhysical := true }
  have e2 := grows_add_circle
    (acc.2.add_circle { gmsh_circle.make center x z with isPhysical := true }).2
    { gmsh_circle.make center y z with isPhysical := true }
  have a2 := has_arc_add_circle
    (acc.2.add_circle { gmsh_circle.make center x z with isPhysical := true }).2
    { gmsh_circle.make center y z with isPhysical := true }
  have e3 := grows_add_line_loop
    ((acc.2.add_circle { gmsh_circle.make center x z with isPhysical := true }).2.add_circle
      { gmsh_circle.make center y z with isPhysical := true }).2
    { gmsh_line_loop.make [(xy : Int),
        (((acc.2.add_circle { gmsh_circle.make center x z with isPhysical := true
          }).2.add_circle { gmsh_circle.make center y z with isPhysical := true }).1 : Int),
        -((acc.2.add_circle { gmsh_circle.make center x z with isPhysical := true }).1 : Int)]
      with isPhysical := true, isRuled := true }
  have hid : (sphere_z_step center x y xy acc z).1 = acc.1 ++
      [((acc.2.add_circle { gmsh_circle.make center x z with isPhysical := true
        }).2.add_circle { gmsh_circle.make center y z with isPhysical := true
        }).2.create_id_line_element] := by
    simp only [sphere_z_step]
    rw [gmsh_abstract_file.add_line_loop_eq]
  exact ⟨_, _, _, grows_trans (grows_trans e1 e2) e3, hid, rfl, rfl, rfl,
    has_arc_mono e3 a2, has_arc_mono (grows_trans e2 e3) a1⟩

/-- The loop over `zpoints`: one octant loop per point. -/
theorem sphere_z_fold (center x y : gmsh_point) (xy : Nat) (zs : List gmsh_point)
    (acc : List Nat × gmsh_abstract_file)
    (hxy : has_arc acc.2 xy center.coords x.coords y.coords) :
    ∃ L, grows acc.2 (zs.foldl (sphere_z_step center x y xy) acc).2 L [] ∧
      (zs.foldl (sphere_z_step center x y xy) acc).1 = acc.1 ++ L.map gmsh_line_loop.id ∧
      List.Forall₂ (is_octant_loop (zs.foldl (sphere_z_step center x y xy) acc).2
        center.coords) L (zs.map (fun z => (x, y, z))) := by
  induction zs generalizing acc with
  | nil => exact ⟨[], grows_refl _, by simp, by simp⟩
  | cons z zs ih =>
    rw [List.foldl_cons]
    obtain ⟨l, yz, xz, estep, hid, hr, hph, hl, ayz, axz⟩ :=
      sphere_z_step_spec center x y xy acc z
    have hxy2 : has_arc (sphere_z_step center x y xy acc z).2 xy center.coords x.coords
        y.coords := has_arc_mono estep hxy
    obtain ⟨L, hL, hids, hall⟩ := ih (sphere_z_step center x y xy acc z) hxy2
    refine ⟨l :: L, ?_, ?_, ?_⟩
    · simpa using grows_trans estep hL
    · rw [hids, hid]
      simp
    · refine List.Forall₂.cons ?_ hall
      exact is_octant_loop_mono hL ⟨hr, hph, xy, yz, xz, hl, hxy2, ayz, axz⟩

/-- The loop over `ypoints`. -/
theorem sphere_y_fold (center x : gmsh_point) (zs ys : List gmsh_point)
    (acc : List Nat × gmsh_abstract_file) :
    ∃ L, grows acc.2 (ys.foldl (sphere_y_step center x zs) acc).2 L [] ∧
      (ys.foldl (sphere_y_step center x zs) acc).1 = acc.1 ++ L.map gmsh_line_loop.id ∧
      List.Forall₂ (is_octant_loop (ys.foldl (sphere_y_step center x zs) acc).2
        center.coords) L (ys.flatMap (fun y => zs.map (fun z => (x, y, z)))) := by
  induction ys generalizing acc with
  | nil => exact ⟨[], grows_refl _, by simp, by simp⟩
  | cons y ys ih =>
    rw [List.foldl_cons]
    have e1 := grows_add_circle acc.2
      { gmsh_circle.make center x y with isPhysical := true }
    have a1 := has_arc_add_circle acc.2
      { gmsh_circle.make center x y with isPhysical := true }
    obtain ⟨L1, hL1, hids1, hall1⟩ := sphere_z_fold center x y
      (acc.2.add_circle { gmsh_circle.make center x y with isPhysical := true }).1 zs
      (acc.1, (acc.2.add_circle { gmsh_circle.make center x y with isPhysical := true }).2) a1
    have hstep : sphere_y_step center x zs acc y =
        zs.foldl (sphere_z_step center x y
          (acc.2.add_circle { gmsh_circle.make center x y with isPhysical := true }).1)
          (acc.1, (acc.2.add_circle { gmsh_circle.make center x y with isPhysical := true }).2) :=
      rfl
    obtain ⟨L2, hL2, hids2, hall2⟩ := ih (sphere_y_step center x zs acc y)
    rw [← hstep] at hL1 hids1 hall1
    refine ⟨L1 ++ L2, ?_, ?_, ?_⟩
    · simpa using grows_trans (grows_trans e1 hL1) hL2
    · rw [hids2, hids1]
      simp
    · rw [List.flatMap_cons]
      exact forall₂_append_of (hall1.imp (fun _ _ h => is_octant_loop_mono hL2 h)) hall2

/-- The loop over `xpoints`. -/
theorem sphere_x_fold (center : gmsh_point) (ys zs xs : List gmsh_point)
    (acc : List Nat × gmsh_abstract_file) :
    ∃ L, grows acc.2 (xs.foldl (sphere_x_step center ys zs) acc).2 L [] ∧
      (xs.foldl (sphere_x_step center ys zs) acc).1 = acc.1 ++ L.map gmsh_line_loop.id ∧
      List.Forall₂ (is_octant_loop (xs.foldl (sphere_x_step center ys zs) acc).2
        center.coords) L
        (xs.flatMap (fun x => ys.flatMap (fun y => zs.map (fun z => (x, y, z))))) := by
  induction xs generalizing acc with
  | nil => exact ⟨[], grows_refl _, by simp, by simp⟩
  | cons x xs ih =>
    rw [List.foldl_cons]
    obtain ⟨L1, hL1, hids1, hall1⟩ := sphere_y_fold center x zs ys acc
    have hstep : sphere_x_step center ys zs acc x =
        ys.foldl (sphere_y_step center x zs) acc := rfl
    obtain ⟨L2, hL2, hids2, hall2⟩ := ih (sphere_x_step center ys zs acc x)
    rw [← hstep] at hL1 hids1 hall1
    refine ⟨L1 ++ L2, ?_, ?_, ?_⟩
    · simpa using grows_trans hL1 hL2
    · rw [hids2, hids1]
      simp
    · rw [List.flatMap_cons]
      exact forall₂_append_of (hall1.imp (fun _ _ h => is_octant_loop_mono hL2 h)) hall2

/-- The volume that ends `create_gmsh_sphere`, on the result `r` of its loops. -/
theorem sphere_finish (f : gmsh_abstract_file) (r : List Nat × gmsh_abstract_file)
    (L : List gmsh_line_loop) (c : point3d)
    (octs : List (gmsh_point × gmsh_point × gmsh_point))
    (hL : grows f r.2 L []) (hids : r.1 = [] ++ L.map gmsh_line_loop.id)
    (hall : List.Forall₂ (is_octant_loop r.2 c) L octs) :
    grows f (r.2.add_volume (gmsh_volume.make r.1)).2 L
      [{ ids := L.map gmsh_line_loop.id, id := f._volumes.length + 1, isPhysical := false }] ∧
    List.Forall₂ (is_octant_loop (r.2.add_volume (gmsh_volume.make r.1)).2 c) L octs := by
  obtain ⟨ids, g⟩ := r
  simp only [List.nil_append] at hids
  subst hids
  have hv := grows_add_volume g (gmsh_volume.make (L.map gmsh_line_loop.id))
  have hlen : g._volumes.length = f._volumes.length := by rw [hL.volumes]; simp
  have hg := grows_trans hL hv
  rw [hlen] at hg
  constructor
  · simpa [gmsh_volume.make] using hg
  · exact hall.imp (fun _ _ h => is_octant_loop_mono hv h)

/-- What `create_gmsh_sphere` adds to a catalog. -/
theorem create_gmsh_sphere_spec (E : externals) (f : gmsh_abstract_file) (sphere : sphere3d) :
    ∃ L : List gmsh_line_loop, L.length = 8 ∧
      grows f (create_gmsh_sphere E f sphere) L
        [{ ids := L.map gmsh_line_loop.id, id := f._volumes.length + 1,
           isPhysical := false }] ∧
      List.Forall₂ (is_octant_loop (create_gmsh_sphere E f sphere) sphere.center) L
        (sphere_octants E sphere) := by
  obtain ⟨L, hL, hids, hall⟩ := sphere_x_fold
    (gmsh_point.make sphere.center E.default_diameter) (sphere_points E sphere).2.1
    (sphere_points E sphere).2.2 (sphere_points E sphere).1 ([], f)
  have hlen : L.length = 8 := by
    rw [hall.length_eq]
    simp [sphere_points]
  have hfin := sphere_finish f _ L sphere.center _ hL hids hall
  exact ⟨L, hlen, hfin.1, hfin.2⟩

/-- C15: sphere construction.  On every catalog, for every centre and radius,
`create_gmsh_sphere` adds exactly eight loops and exactly one volume; the loops are, in
order, one per choice of an x-, a y- and a z-extremal point, each ruled, physical and
made of exactly three signed arc identifiers: the arc from x to y, the arc from y to z
and the reversed arc from x to z, each the identifier of a stored arc whose centre is
the centre of the sphere; the loop list of the volume is the identifiers of the eight
new loops in creation order. -/
theorem create_gmsh_sphere_loops (E : externals) (f : gmsh_abstract_file)
    (sphere : sphere3d) :
    ∃ L : List gmsh_line_loop, L.length = 8 ∧
      (create_gmsh_sphere E f sphere)._line_loop = f._line_loop ++ L ∧
      (∃ v : gmsh_volume, (create_gmsh_sphere E f sphere)._volumes = f._volumes ++ [v] ∧
        v.ids = L.map gmsh_line_loop.id) ∧
      List.Forall₂ (is_octant_loop (create_gmsh_sphere E f sphere) sphere.center) L
        (sphere_octants E sphere) := by
  obtain ⟨L, h1, h2, h3⟩ := create_gmsh_sphere_spec E f sphere
  exact ⟨L, h1, h2.loops, ⟨_, h2.volumes, rfl⟩, h3⟩

/-! ## Circle, disk and lateral surfaces -/

/-- The arc loop of `create_gmsh_circle`: one arc per index, centred at `center`. -/
theorem circle_arc_fold (center : gmsh_point) (points : array4 gmsh_point) (is : List Nat)
    (acc : List Nat × gmsh_abstract_file) :
    ∃ ids, (is.foldl (circle_arc_step center points) acc).1 = acc.1 ++ ids ∧
      grows acc.2 (is.foldl (circle_arc_step center points) acc).2 [] [] ∧
      List.Forall₂ (fun id i => has_arc (is.foldl (circle_arc_step center points) acc).2 id
        center.coords (points.get i).coords (points.get (next_id i)).coords) ids is := by
  induction is generalizing acc with
  | nil => exact ⟨[], by simp, grows_refl _, by simp⟩
  | cons i is ih =>
    rw [List.foldl_cons]
    have e1 := grows_add_circle acc.2
      (gmsh_circle.make center (points.get i) (points.get (next_id i)))
    have a1 := has_arc_add_circle acc.2
      (gmsh_circle.make center (points.get i) (points.get (next_id i)))
    obtain ⟨ids, hids, hg, hall⟩ := ih (circle_arc_step center points acc i)
    refine ⟨(acc.2.add_circle
      (gmsh_circle.make center (points.get i) (points.get (next_id i)))).1 :: ids, ?_, ?_, ?_⟩
    · rw [hids]
      simp [circle_arc_step]
    · simpa using grows_trans e1 hg
    · exact List.Forall₂.cons (has_arc_mono hg a1) hall

/-- What `create_gmsh_circle` does when the boundary points pass the check. -/
theorem create_gmsh_circle_spec (E : externals) (f : gmsh_abstract_file) (c : circle3d)
    (h : circle_ok E c) :
    ∃ (arcs : List Nat) (g : gmsh_abstract_file),
      create_gmsh_circle E f c =
        Except.ok (gmsh_point.make c.center E.default_diameter, circle_points E c, arcs, g) ∧
      grows f g [] [] ∧ arcs.length = 4 ∧
      ∀ i, i < 4 → ∃ a ∈ g._circles, a.id = arcs.getD i 0 ∧ a.center.coords = c.center := by
  have e1 := grows_add_point f (gmsh_point.make c.center E.default_diameter)
  have e2 := grows_add_points (circle_points E c).toList
    (f.add_point (gmsh_point.make c.center E.default_diameter)).2
  obtain ⟨ids, hids, hg, hall⟩ := circle_arc_fold
    (gmsh_point.make c.center E.default_diameter) (circle_points E c) [0, 1, 2, 3]
    ([], ((f.add_point (gmsh_point.make c.center E.default_diameter)).2.add_points
      (circle_points E c).toList))
  have hlen : ids.length = 4 := by rw [hall.length_eq]; rfl
  refine ⟨ids, ([0, 1, 2, 3].foldl
    (circle_arc_step (gmsh_point.make c.center E.default_diameter) (circle_points E c))
    ([], ((f.add_point (gmsh_point.make c.center E.default_diameter)).2.add_points
      (circle_points E c).toList))).2, ?_,
    by simpa using grows_trans (grows_trans e1 e2) hg, hlen, ?_⟩
  · unfold circle_ok at h
    unfold create_gmsh_circle
    simp only [h, bind, Except.bind, pure, Except.pure]
    simp only [List.nil_append] at hids
    rw [← hids]
  · intro i hi
    have hget : ∀ j (hj : j < ids.length), has_arc _ (ids.get ⟨j, hj⟩) _ _ _ :=
      fun j hj => List.Forall₂.get hall hj (by rw [← hall.length_eq]; exact hj)
    obtain ⟨a, ha, hid, hc, _, _⟩ := hget i (by omega)
    refine ⟨a, ha, ?_, hc⟩
    rw [hid, List.getD_eq_getElem?_getD, List.getElem?_eq_getElem (by omega)]
    rfl

/-- The spoke loop of `create_gmsh_disk` adds no loop and returns one identifier per
boundary point. -/
theorem disk_spoke_fold (E : externals) (center : gmsh_point) (ps : List gmsh_point)
    (acc : List Nat × gmsh_abstract_file) :
    grows acc.2 (ps.foldl (disk_spoke_step E center) acc).2 [] [] := by
  induction ps generalizing acc with
  | nil => exact grows_refl _
  | cons p ps ih =>
    rw [List.foldl_cons]
    have e1 := grows_add_segment acc.2
      { gmsh_segment.make E p center with isPhysical := true }
    simpa using grows_trans e1 (ih (disk_spoke_step E center acc p))

/-- The capping loop of `create_gmsh_disk`: one ruled physical loop of three entries per
index, the first entry being the arc identifier of that index. -/
theorem disk_cap_fold (arcs spokes : List Nat) (is : List Nat)
    (acc : List Nat × gmsh_abstract_file) :
    ∃ L : List gmsh_line_loop,
      (is.foldl (disk_cap_step arcs spokes) acc).1 = acc.1 ++ L.map gmsh_line_loop.id ∧
      grows acc.2 (is.foldl (disk_cap_step arcs spokes) acc).2 L [] ∧
      List.Forall₂ (fun l i => l.isRuled = true ∧ l.isPhysical = true ∧
        l.ids = [(arcs.getD i 0 : Int), (spokes.getD (next_id i) 0 : Int),
          -(spokes.getD i 0 : Int)]) L is := by
  induction is generalizing acc with
  | nil => exact ⟨[], by simp, grows_refl _, by simp⟩
  | cons i is ih =>
    rw [List.foldl_cons]
    have e1 := grows_add_line_loop acc.2
      { gmsh_line_loop.make [(arcs.getD i 0 : Int), (spokes.getD (next_id i) 0 : Int),
          -(spokes.getD i 0 : Int)] with isPhysical := true, isRuled := true }
    obtain ⟨L, hids, hg, hall⟩ := ih (disk_cap_step arcs spokes acc i)
    refine ⟨gmsh_line_loop.mk [(arcs.getD i 0 : Int), (spokes.getD (next_id i) 0 : Int),
        -(spokes.getD i 0 : Int)] acc.2.create_id_line_element true true :: L, ?_,
      by simpa using grows_trans e1 hg, List.Forall₂.cons ⟨rfl, rfl, rfl⟩ hall⟩
    rw [hids]
    simp only [disk_cap_step, List.map_cons, List.append_assoc, List.singleton_append]
    rw [gmsh_abstract_file.add_line_loop_eq]

theorem forall₂_mem_left {α β : Type} {R : α → β → Prop} {l : List α} {m : List β}
    (h : List.Forall₂ R l m) : ∀ a ∈ l, ∃ b ∈ m, R a b := by
  induction h with
  | nil => intro a ha; cases ha
  | cons hab _ ih =>
    intro a ha
    rcases List.mem_cons.1 ha with ha | ha
    · subst ha
      exact ⟨_, List.mem_cons_self _ _, hab⟩
    · obtain ⟨b, hb, hr⟩ := ih a ha
      exact ⟨b, List.mem_cons_of_mem _ hb, hr⟩

theorem is_cap_loop_mono {f g : gmsh_abstract_file} {M : List gmsh_line_loop}
    {V : List gmsh_volume} (h : grows f g M V) {c : point3d} {l : gmsh_line_loop}
    (hl : is_cap_loop f c l) : is_cap_loop g c l := by
  obtain ⟨h1, h2, arc, s1, s0, hids, a, ha, hid, hc⟩ := hl
  obtain ⟨extra, he⟩ := h.circles
  exact ⟨h1, h2, arc, s1, s0, hids, a, by rw [he]; exact List.mem_append_left _ ha, hid, hc⟩

theorem is_lateral_loop_mono {f g : gmsh_abstract_file} {M : List gmsh_line_loop}
    {V : List gmsh_volume} (h : grows f g M V) {c1 c2 : point3d} {l : gmsh_line_loop}
    (hl : is_lateral_loop f c1 c2 l) : is_lateral_loop g c1 c2 l := by
  obtain ⟨h1, h2, a1, l2, a2, l1, hids, ⟨a, ha, hid, hc⟩, ⟨b, hb, hbid, hbc⟩⟩ := hl
  obtain ⟨extra, he⟩ := h.circles
  exact ⟨h1, h2, a1, l2, a2, l1, hids,
    ⟨a, by rw [he]; exact List.mem_append_left _ ha, hid, hc⟩,
    ⟨b, by rw [he]; exact List.mem_append_left _ hb, hbid, hbc⟩⟩

/-- What `create_gmsh_disk` does when the boundary points pass the check: it returns
the identifiers of the loops it adds, four cap loops when capping is requested and no
loop otherwise. -/
theorem create_gmsh_disk_spec (E : externals) (f : gmsh_abstract_file) (c : circle3d)
    (surface : Bool) (h : circle_ok E c) :
    ∃ (arcs : List Nat) (g : gmsh_abstract_file) (L : List gmsh_line_loop),
      create_gmsh_disk E f c surface =
        Except.ok (L.map gmsh_line_loop.id, circle_points E c, arcs, g) ∧
      grows f g L [] ∧ L.length = (if surface then 4 else 0) ∧
      (∀ l ∈ L, is_cap_loop g c.center l) ∧
      ∀ i, i < 4 → ∃ a ∈ g._circles, a.id = arcs.getD i 0 ∧ a.center.coords = c.center := by
  obtain ⟨arcs, g1, hc, hg1, _, harc⟩ := create_gmsh_circle_spec E f c h
  have hsp := disk_spoke_fold E (gmsh_point.make c.center E.default_diameter)
    (circle_points E c).toList ([], g1)
  cases surface with
  | false =>
    refine ⟨arcs, _, [], ?_, by simpa using grows_trans hg1 hsp, rfl, by simp, ?_⟩
    · unfold create_gmsh_disk
      rw [hc]
      rfl
    · intro i hi
      obtain ⟨a, ha, hid, hcc⟩ := harc i hi
      obtain ⟨extra, he⟩ := hsp.circles
      exact ⟨a, by rw [he]; exact List.mem_append_left _ ha, hid, hcc⟩
  | true =>
    obtain ⟨L, hids, hgc, hall⟩ := disk_cap_fold arcs
      ((circle_points E c).toList.foldl
        (disk_spoke_step E (gmsh_point.make c.center E.default_diameter)) ([], g1)).1
      [0, 1, 2, 3]
      ([], ((circle_points E c).toList.foldl
        (disk_spoke_step E (gmsh_point.make c.center E.default_diameter)) ([], g1)).2)
    have harc2 : ∀ i, i < 4 → ∃ a ∈ ([0, 1, 2, 3].foldl (disk_cap_step arcs
        ((circle_points E c).toList.foldl
          (disk_spoke_step E (gmsh_point.make c.center E.default_diameter)) ([], g1)).1)
        ([], ((circle_points E c).toList.foldl
          (disk_spoke_step E (gmsh_point.make c.center E.default_diameter))
          ([], g1)).2)).2._circles,
        a.id = arcs.getD i 0 ∧ a.center.coords = c.center := by
      intro i hi
      obtain ⟨a, ha, hid, hcc⟩ := harc i hi
      obtain ⟨extra, he⟩ := (grows_trans hsp hgc).circles
      exact ⟨a, by rw [he]; exact List.mem_append_left _ ha, hid, hcc⟩
    refine ⟨arcs, ([0, 1, 2, 3].foldl (disk_cap_step arcs
        ((circle_points E c).toList.foldl
          (disk_spoke_step E (gmsh_point.make c.center E.default_diameter)) ([], g1)).1)
        ([], ((circle_points E c).toList.foldl
          (disk_spoke_step E (gmsh_point.make c.center E.default_diameter))
          ([], g1)).2)).2, L, ?_, by simpa using grows_trans (grows_trans hg1 hsp) hgc,
      by rw [hall.length_eq]; rfl, ?_, harc2⟩
    · unfold create_gmsh_disk
      rw [hc]
      simp only [List.nil_append] at hids
      rw [← hids]
      rfl
    · intro l hl
      obtain ⟨i, hi, hr, hp, hl3⟩ := forall₂_mem_left hall l hl
      have hi4 : i < 4 := by
        simp only [List.mem_cons, List.mem_singleton, List.not_mem_nil, or_false] at hi
        omega
      obtain ⟨a, ha, hid, hcc⟩ := harc2 i hi4
      exact ⟨hr, hp, _, _, _, hl3, a, ha, hid, hcc⟩

/-- One iteration of the loop of `create_gmsh_pipe_surfaces` adds one loop. -/
theorem pipe_surface_step_spec (E : externals) (d1 : array4 gmsh_point) (arc1 : List Nat)
    (d2 : array4 gmsh_point) (arc2 : List Nat) (acc : List Nat × gmsh_abstract_file)
    (i : Nat) :
    ∃ (l : gmsh_line_loop) (line2 line1 : Nat),
      grows acc.2 (pipe_surface_step E d1 arc1 d2 arc2 acc i).2 [l] [] ∧
      (pipe_surface_step E d1 arc1 d2 arc2 acc i).1 = acc.1 ++ [l.id] ∧
      l.isRuled = true ∧ l.isPhysical = true ∧
      l.ids = [(arc1.getD i 0 : Int), (line2 : Int), -(arc2.getD i 0 : Int),
        -(line1 : Int)] := by
  have e1 := grows_add_segment acc.2
    { gmsh_segment.make E (d1.get i) (d2.get i) with isPhysical := true }
  have e2 := grows_add_segment
    (acc.2.add_segment { gmsh_segment.make E (d1.get i) (d2.get i) with
      isPhysical := true }).2
    { gmsh_segment.make E (d1.get (next_id i)) (d2.get (next_id i)) with isPhysical := true }
  have e3 := grows_add_line_loop
    ((acc.2.add_segment { gmsh_segment.make E (d1.get i) (d2.get i) with
      isPhysical := true }).2.add_segment
      { gmsh_segment.make E (d1.get (next_id i)) (d2.get (next_id i)) with
        isPhysical := true }).2
    { gmsh_line_loop.make [(arc1.getD i 0 : Int),
        (((acc.2.add_segment { gmsh_segment.make E (d1.get i) (d2.get i) with
          isPhysical := true }).2.add_segment
          { gmsh_segment.make E (d1.get (next_id i)) (d2.get (next_id i)) with
            isPhysical := true }).1 : Int),
        -(arc2.getD i 0 : Int),
        -((acc.2.add_segment { gmsh_segment.make E (d1.get i) (d2.get i) with
          isPhysical := true }).1 : Int)] with isPhysical := true, isRuled := true }
  have hid : (pipe_surface_step E d1 arc1 d2 arc2 acc i).1 = acc.1 ++
      [((acc.2.add_segment { gmsh_segment.make E (d1.get i) (d2.get i) with
        isPhysical := true }).2.add_segment
        { gmsh_segment.make E (d1.get (next_id i)) (d2.get (next_id i)) with
          isPhysical := true }).2.create_id_line_element] := by
    simp only [pipe_surface_step]
    rw [gmsh_abstract_file.add_line_loop_eq]
  exact ⟨_, _, _, grows_trans (grows_trans e1 e2) e3, hid, rfl, rfl, rfl⟩

/-- The loop of `create_gmsh_pipe_surfaces`: one ruled physical loop of four entries per
index, made of the arc of that index of the first disk, a segment, the reversed arc of
that index of the second disk and a reversed segment. -/
theorem pipe_surface_fold (E : externals) (d1 : array4 gmsh_point) (arc1 : List Nat)
    (d2 : array4 gmsh_point) (arc2 : List Nat) (is : List Nat)
    (acc : List Nat × gmsh_abstract_file) :
    ∃ L : List gmsh_line_loop,
      (is.foldl (pipe_surface_step E d1 arc1 d2 arc2) acc).1 =
        acc.1 ++ L.map gmsh_line_loop.id ∧
      grows acc.2 (is.foldl (pipe_surface_step E d1 arc1 d2 arc2) acc).2 L [] ∧
      List.Forall₂ (fun l i => l.isRuled = true ∧ l.isPhysical = true ∧
        ∃ line2 line1 : Nat, l.ids = [(arc1.getD i 0 : Int), (line2 : Int),
          -(arc2.getD i 0 : Int), -(line1 : Int)]) L is := by
  induction is generalizing acc with
  | nil => exact ⟨[], by simp, grows_refl _, by simp⟩
  | cons i is ih =>
    rw [List.foldl_cons]
    obtain ⟨l, line2, line1, estep, hid, hr, hp, hl⟩ :=
      pipe_surface_step_spec E d1 arc1 d2 arc2 acc i
    obtain ⟨L, hids, hg, hall⟩ := ih (pipe_surface_step E d1 arc1 d2 arc2 acc i)
    refine ⟨l :: L, ?_, by simpa using grows_trans estep hg,
      List.Forall₂.cons ⟨hr, hp, line2, line1, hl⟩ hall⟩
    rw [hids, hid]
    simp

/-! ## Tube construction -/

theorem pipe_block_mono {f g : gmsh_abstract_file} {M : List gmsh_line_loop}
    {V : List gmsh_volume} (h : grows f g M V) {circles : List circle3d}
    {block : List gmsh_line_loop} {i : Nat} (hb : pipe_block f circles block i) :
    pipe_block g circles block i := by
  obtain ⟨c1, c2, caps1, caps2, lat, h1, h2, hbl, hl1, hl2, hl3, hc1, hc2, hlat⟩ := hb
  exact ⟨c1, c2, caps1, caps2, lat, h1, h2, hbl, hl1, hl2, hl3,
    fun l hl => is_cap_loop_mono h (hc1 l hl), fun l hl => is_cap_loop_mono h (hc2 l hl),
    fun l hl => is_lateral_loop_mono h (hlat l hl)⟩

/-- One iteration of the loop of `create_gmsh_truncated_pipe`, for a pair of
cross-sections on which the circle construction succeeds. -/
theorem truncated_pipe_step_spec (E : externals) (circles : List circle3d)
    (acc : List Nat × gmsh_abstract_file) (id : Nat) (c1 c2 : circle3d)
    (h1 : circles[id]? = some c1) (h2 : circles[id + 1]? = some c2)
    (ok1 : circle_ok E c1) (ok2 : circle_ok E c2) :
    ∃ (block : List gmsh_line_loop) (g : gmsh_abstract_file),
      truncated_pipe_step E circles acc id =
        Except.ok (acc.1 ++ block.map gmsh_line_loop.id, g) ∧
      grows acc.2 g block [] ∧ pipe_block g circles block id := by
  obtain ⟨arcs1, g1, L1, hd1, hg1, hlen1, hcap1, harc1⟩ :=
    create_gmsh_disk_spec E acc.2 c1 (decide (id = 0)) ok1
  obtain ⟨arcs2, g2, L2, hd2, hg2, hlen2, hcap2, harc2⟩ :=
    create_gmsh_disk_spec E g1 c2 (decide (id + 1 = circles.length - 1)) ok2
  obtain ⟨L3, hids3, hg3, hall3⟩ := pipe_surface_fold E (circle_points E c1) arcs1
    (circle_points E c2) arcs2 [0, 1, 2, 3] ([], g2)
  have hg23 : grows g2 (create_gmsh_pipe_surfaces E g2 (circle_points E c1) arcs1
      (circle_points E c2) arcs2).2 L3 [] := hg3
  refine ⟨L1 ++ L2 ++ L3, (create_gmsh_pipe_surfaces E g2 (circle_points E c1) arcs1
      (circle_points E c2) arcs2).2, ?_, ?_, ?_⟩
  · have hres : (create_gmsh_pipe_surfaces E g2 (circle_points E c1) arcs1
        (circle_points E c2) arcs2).1 = L3.map gmsh_line_loop.id := by
      simpa using hids3
    unfold truncated_pipe_step at_index
    simp only [h1, h2, hd1, hd2, bind, Except.bind, pure, Except.pure, hres,
      List.map_append, List.append_assoc]
  · simpa using grows_trans (grows_trans hg1 hg2) hg23
  · refine ⟨c1, c2, L1, L2, L3, h1, h2, rfl, ?_, ?_, ?_, ?_, ?_, ?_⟩
    · rw [hlen1]; simp
    · rw [hlen2]; simp
    · rw [hall3.length_eq]; rfl
    · intro l hl
      exact is_cap_loop_mono (grows_trans hg2 hg23) (hcap1 l hl)
    · intro l hl
      exact is_cap_loop_mono hg23 (hcap2 l hl)
    · intro l hl
      obtain ⟨i, hi, hr, hp, line2, line1, hl4⟩ := forall₂_mem_left hall3 l hl
      have hi4 : i < 4 := by
        simp only [List.mem_cons, List.mem_singleton, List.not_mem_nil, or_false] at hi
        omega
      obtain ⟨a, ha, hid, hcc⟩ := harc1 i hi4
      obtain ⟨b, hb, hbid, hbc⟩ := harc2 i hi4
      obtain ⟨x1, hx1⟩ := (grows_trans hg2 hg23).circles
      obtain ⟨x2, hx2⟩ := hg23.circles
      exact ⟨hr, hp, _, _, _, _, hl4,
        ⟨a, by rw [hx1]; exact List.mem_append_left _ ha, hid, hcc⟩,
        ⟨b, by rw [hx2]; exact List.mem_append_left _ hb, hbid, hbc⟩⟩

/-- The loop of `create_gmsh_truncated_pipe` over pairs of cross-sections on which the
circle construction succeeds: one block of loops per pair. -/
theorem truncated_pipe_fold (E : externals) (circles : List circle3d)
    (hok : ∀ c ∈ circles, circle_ok E c) (is : List Nat)
    (his : ∀ i ∈ is, i + 1 < circles.length) (acc : List Nat × gmsh_abstract_file) :
    ∃ (blocks : List (List gmsh_line_loop)) (g : gmsh_abstract_file),
      is.foldlM (truncated_pipe_step E circles) acc =
        Except.ok (acc.1 ++ blocks.flatten.map gmsh_line_loop.id, g) ∧
      grows acc.2 g blocks.flatten [] ∧
      List.Forall₂ (pipe_block g circles) blocks is := by
  induction is generalizing acc with
  | nil => exact ⟨[], acc.2, by simp [List.foldlM]; rfl, by simpa using grows_refl acc.2,
      by simp⟩
  | cons i is ih =>
    have hi := his i (List.mem_cons_self _ _)
    have h1 : circles[i]? = some circles[i] := List.getElem?_eq_getElem (by omega)
    have h2 : circles[i + 1]? = some circles[i + 1] := List.getElem?_eq_getElem hi
    obtain ⟨block, g1, hstep, hg1, hb⟩ := truncated_pipe_step_spec E circles acc i _ _ h1 h2
      (hok _ (List.getElem_mem _)) (hok _ (List.getElem_mem _))
    obtain ⟨blocks, g, hfold, hg, hall⟩ :=
      ih (fun j hj => his j (List.mem_cons_of_mem _ hj)) (acc.1 ++ block.map gmsh_line_loop.id, g1)
    refine ⟨block :: blocks, g, ?_, ?_, List.Forall₂.cons (pipe_block_mono hg hb) hall⟩
    · rw [List.foldlM_cons, hstep]
      simp only [bind, Except.bind]
      rw [hfold]
      simp
    · simpa using grows_trans hg1 hg

theorem sum_indicator_range (m k : Nat) :
    ((List.range m).map (fun i => if i = k then 4 else 0)).sum = if k < m then 4 else 0 := by
  induction m with
  | zero => simp
  | succ m ih =>
    rw [List.range_succ, List.map_append, List.sum_append, ih]
    by_cases h1 : k < m
    · have h2 : m ≠ k := by omega
      simp [h1, h2, Nat.lt_succ_of_lt h1]
    · by_cases h3 : m = k
      · subst h3
        simp
      · have h4 : ¬ k < m + 1 := by omega
        simp [h1, h3, h4]

/-- The number of loops of the blocks of a tube of `m + 1` cross-sections. -/
theorem pipe_blocks_length (g : gmsh_abstract_file) (circles : List circle3d)
    (blocks : List (List gmsh_line_loop)) (is : List Nat)
    (h : List.Forall₂ (pipe_block g circles) blocks is) :
    blocks.flatten.length = (is.map (fun i => 4 + (if i = 0 then 4 else 0) +
      (if i = circles.length - 2 then 4 else 0))).sum := by
  induction h with
  | nil => rfl
  | @cons block i blocks is hb _ ih =>
    obtain ⟨c1, c2, caps1, caps2, lat, h1, h2, hbl, hl1, hl2, hl3, _, _, _⟩ := hb
    have hlt : i + 1 < circles.length := by
      by_contra hne
      rw [List.getElem?_eq_none (by omega)] at h2
      cases h2
    have hcond : (i + 1 = circles.length - 1) ↔ (i = circles.length - 2) := by omega
    rw [List.flatten_cons, List.length_append, ih, List.map_cons, List.sum_cons, hbl]
    simp only [List.length_append, hl1, hl2, hl3, hcond]
    omega

theorem pipe_blocks_total (m : Nat) (hm : 1 ≤ m) :
    ((List.range m).map (fun i => 4 + (if i = 0 then 4 else 0) +
      (if i = m - 1 then 4 else 0))).sum = 4 * m + 8 := by
  have h0 := sum_indicator_range m 0
  have h1 := sum_indicator_range m (m - 1)
  rw [if_pos (by omega)] at h0 h1
  have hc : ((List.range m).map (fun _ => 4)).sum = 4 * m := by
    simp [Nat.mul_comm]
  rw [List.sum_map_add, List.sum_map_add, h0, h1, hc]

/-- What `create_gmsh_truncated_pipe` adds to a catalog, for at least two
cross-sections on which the circle construction succeeds. -/
theorem create_gmsh_truncated_pipe_spec (E : externals) (f : gmsh_abstract_file)
    (circles : List circle3d) (hn : 2 ≤ circles.length)
    (hok : ∀ c ∈ circles, circle_ok E c) :
    ∃ (g : gmsh_abstract_file) (blocks : List (List gmsh_line_loop)),
      create_gmsh_truncated_pipe E f circles = Except.ok g ∧
      grows f g blocks.flatten
        [gmsh_volume.mk (blocks.flatten.map gmsh_line_loop.id) (f._volumes.length + 1) true] ∧
      blocks.flatten.length = 4 * (circles.length - 1) + 8 ∧
      List.Forall₂ (pipe_block g circles) blocks (List.range (circles.length - 1)) := by
  obtain ⟨blocks, g1, hfold, hg1, hall⟩ := truncated_pipe_fold E circles hok
    (List.range (circles.length - 1)) (fun i hi => by
      have := List.mem_range.1 hi
      omega) ([], f)
  have hv := grows_add_volume g1
    { gmsh_volume.make ([] ++ blocks.flatten.map gmsh_line_loop.id) with isPhysical := true }
  have hg := grows_trans hg1 hv
  have hvl : g1._volumes.length = f._volumes.length := by
    rw [hg1.volumes]; simp
  have hlen : blocks.flatten.length = 4 * (circles.length - 1) + 8 := by
    rw [pipe_blocks_length _ circles blocks _ hall]
    have h2 : circles.length - 2 = circles.length - 1 - 1 := by omega
    rw [h2]
    exact pipe_blocks_total (circles.length - 1) (by omega)
  refine ⟨(g1.add_volume { gmsh_volume.make ([] ++ blocks.flatten.map gmsh_line_loop.id)
      with isPhysical := true }).2, blocks, ?_, ?_, hlen,
    hall.imp (fun _ _ h => pipe_block_mono hv h)⟩
  · unfold create_gmsh_truncated_pipe
    rw [if_neg (by omega), hfold]
    rfl
  · rw [← hvl]
    exact ⟨by simpa using hg.loops, hg.volumes, hg.circles, hg.segments, hg.points⟩

/-- C16: tube construction.  For a sequence of `n ≥ 2` cross-sections on each of which
the circle construction succeeds, `create_gmsh_truncated_pipe` returns a catalog with
exactly one more volume, flagged physical, whose loop list is the identifiers of the
loops added, in creation order, and has `4 (n - 1) + 8` entries; the loops added are,
for each consecutive pair in order, four cap loops of the first cross-section of the
pair exactly when it is the first of the sequence, four cap loops of the second exactly
when it is the last of the sequence, and four lateral loops: no cap loop is created at
an interior cross-section. -/
theorem create_gmsh_truncated_pipe_volume (E : externals) (f : gmsh_abstract_file)
    (circles : List circle3d) (hn : 2 ≤ circles.length)
    (hok : ∀ c ∈ circles, circle_ok E c) :
    ∃ (g : gmsh_abstract_file) (blocks : List (List gmsh_line_loop)) (v : gmsh_volume),
      create_gmsh_truncated_pipe E f circles = Except.ok g ∧
      g._line_loop = f._line_loop ++ blocks.flatten ∧
      g._volumes = f._volumes ++ [v] ∧ v.isPhysical = true ∧
      v.ids = blocks.flatten.map gmsh_line_loop.id ∧
      v.ids.length = 4 * (circles.length - 1) + 8 ∧
      List.Forall₂ (pipe_block g circles) blocks (List.range (circles.length - 1)) := by
  obtain ⟨g, blocks, hc, hg, hlen, hall⟩ := create_gmsh_truncated_pipe_spec E f circles hn hok
  refine ⟨g, blocks, _, hc, hg.loops, hg.volumes, rfl, rfl, ?_, hall⟩
  show (blocks.flatten.map gmsh_line_loop.id).length = _
  rw [List.length_map, hlen]

theorem sample_circles_ok : ∀ c ∈ sample_circles, circle_ok sample_externals c := by
  intro c hc
  simp only [sample_circles, List.mem_cons, List.mem_singleton, List.not_mem_nil,
    or_false] at hc
  rcases hc with hc | hc <;> subst hc <;> unfold circle_ok check_points_on_circle <;>
    rw [if_pos (by decide!)] <;> rfl

/-- Witness of C16 on `sample_circles`, two cross-sections along the third axis. -/
theorem create_gmsh_truncated_pipe_volume_witness :
    ∃ (g : gmsh_abstract_file) (blocks : List (List gmsh_line_loop)) (v : gmsh_volume),
      create_gmsh_truncated_pipe sample_externals gmsh_abstract_file.empty sample_circles =
        Except.ok g ∧
      g._line_loop = gmsh_abstract_file.empty._line_loop ++ blocks.flatten ∧
      g._volumes = gmsh_abstract_file.empty._volumes ++ [v] ∧ v.isPhysical = true ∧
      v.ids = blocks.flatten.map gmsh_line_loop.id ∧
      v.ids.length = 4 * (sample_circles.length - 1) + 8 ∧
      List.Forall₂ (pipe_block g sample_circles) blocks
        (List.range (sample_circles.length - 1)) :=
  create_gmsh_truncated_pipe_volume sample_externals gmsh_abstract_file.empty sample_circles
    (by decide) sample_circles_ok

/-! ## Circle construction on an axis opposite to the first reference direction -/

/-- C14 at a failing input: for the unit axis (-1, 0, 0), the axis of the first
cross-section of `sample_child`, `get_unit_vec` returns (1, 0, 0), whose scalar product
with the axis is the smallest but which is colinear with it; the vector product of the
two is the zero vector, which has no direction to normalize; and with the sample
external functions `create_gmsh_circle` raises the invalid-circle error for centre
(0, 0, 0) and radius 1. -/
theorem create_gmsh_circle_colinear_axis :
    get_unit_vec ⟨-1, 0, 0⟩ = ⟨1, 0, 0⟩ ∧
    cross_product (get_unit_vec ⟨-1, 0, 0⟩) ⟨-1, 0, 0⟩ = ⟨0, 0, 0⟩ ∧
    sample_externals.normalize ⟨-1, 0, 0⟩ = ⟨-1, 0, 0⟩ ∧
    (sample_child.get_circle_pipe sample_externals).toOption.map List.head? =
      some (some ⟨⟨0, 0, 0⟩, 1, ⟨-1, 0, 0⟩⟩) ∧
    error_of (create_gmsh_circle sample_externals gmsh_abstract_file.empty
      ⟨⟨0, 0, 0⟩, 1, ⟨-1, 0, 0⟩⟩) = some exception.out_of_range := by
  refine ⟨?_, ?_, ?_, ?_, ?_⟩ <;> decide!

/-! ## The wireframe of the two-branch tree -/

theorem add_point_keys (f : gmsh_abstract_file) (p : gmsh_point) :
    (f.add_point p).2._points.map gmsh_point.coords =
      if p.coords ∈ f._points.map gmsh_point.coords then f._points.map gmsh_point.coords
      else f._points.map gmsh_point.coords ++ [p.coords] := by
  rcases f.add_point_cases p with ⟨y, h1, h2⟩ | ⟨h1, h2⟩
  · have hy := find_same_some _ _ _ h1
    have hmem : p.coords ∈ f._points.map gmsh_point.coords :=
      List.mem_map.2 ⟨y, hy.1, hy.2⟩
    rw [h2, if_pos hmem]
  · have hn := (find_same_none_iff _ _).1 h1
    have hmem : p.coords ∉ f._points.map gmsh_point.coords := by
      intro h
      obtain ⟨q, hq, hc⟩ := List.mem_map.1 h
      exact hn q hq hc
    rw [h2, if_neg hmem]
    simp

theorem add_segment_keys (f : gmsh_abstract_file) (s : gmsh_segment) :
    (f.add_segment s).2._segments.map (fun t => (t.point1.coords, t.point2.coords)) =
      if (s.point1.coords, s.point2.coords) ∈
          f._segments.map (fun t => (t.point1.coords, t.point2.coords)) then
        f._segments.map (fun t => (t.point1.coords, t.point2.coords))
      else f._segments.map (fun t => (t.point1.coords, t.point2.coords)) ++
        [(s.point1.coords, s.point2.coords)] := by
  have hseg : ((f.add_point s.point1).2.add_point s.point2).2._segments = f._segments := rfl
  rcases f.add_segment_cases s with ⟨y, h1, h2⟩ | ⟨h1, h2⟩
  · rw [hseg] at h1
    have hm := List.mem_of_find?_eq_some h1
    have hs := List.find?_some h1
    simp only [gmsh_segment.same, gmsh_point.same, Bool.and_eq_true, decide_eq_true_eq] at hs
    have hmem : (s.point1.coords, s.point2.coords) ∈
        f._segments.map (fun t => (t.point1.coords, t.point2.coords)) :=
      List.mem_map.2 ⟨y, hm, by rw [hs.1, hs.2]⟩
    rw [h2, if_pos hmem, hseg]
  · rw [hseg] at h1
    have hn := List.find?_eq_none.1 h1
    have hmem : (s.point1.coords, s.point2.coords) ∉
        f._segments.map (fun t => (t.point1.coords, t.point2.coords)) := by
      intro h
      obtain ⟨q, hq, hc⟩ := List.mem_map.1 h
      have := hn q hq
      simp only [gmsh_segment.same, gmsh_point.same, Bool.and_eq_true, decide_eq_true_eq,
        not_and] at this
      simp only [Prod.mk.injEq] at hc
      exact this hc.1 hc.2
    rw [h2, if_neg hmem]
    show List.map _ (((f.add_point s.point1).2.add_point s.point2).2._segments ++ _) = _
    rw [hseg]
    simp

theorem add_segment_point_keys (f : gmsh_abstract_file) (s : gmsh_segment) :
    (f.add_segment s).2._points.map gmsh_point.coords =
      ((f.add_point s.point1).2.add_point s.point2).2._points.map gmsh_point.coords := rfl

theorem add_segment_circles (f : gmsh_abstract_file) (s : gmsh_segment) :
    (f.add_segment s).2._circles = f._circles := rfl

theorem add_segment_line_loop (f : gmsh_abstract_file) (s : gmsh_segment) :
    (f.add_segment s).2._line_loop = f._line_loop := rfl

theorem add_segment_volumes (f : gmsh_abstract_file) (s : gmsh_segment) :
    (f.add_segment s).2._volumes = f._volumes := rfl

/-- The catalog `construct_gmsh_vfile_lines` builds for the two-branch tree: the three
segments of the polyline of the child, inserted in order. -/
theorem construct_two_branch_lines (E : externals) (flags : exporter_flags)
    (sid cid : Nat) (p1 p2 p3 : point3d) :
    construct_gmsh_vfile_lines E flags (two_branch_tree sid cid p1 p2 p3)
      gmsh_abstract_file.empty =
      Except.ok (((gmsh_abstract_file.empty.add_segment
        (wire_segment E cid ⟨0, 0, 0⟩ p1 (E.distance ⟨0, 0, 0⟩ p1)
          (E.distance p1 p2))).2.add_segment
        (wire_segment E cid p1 p2 (E.distance p1 p2) (E.distance p2 p3))).2.add_segment
        (wire_segment E cid p2 p3 (E.distance p2 p3) (E.distance p2 p3))).2 := by
  unfold two_branch_tree two_branch_child two_branch_soma
  simp only [construct_gmsh_vfile_lines, construct_gmsh_vfile_lines_childrens]
  simp [vfile_lines_branch, branch.get_linestring, branch.get_parent, branch.get_size,
    branch.get_points, branch.get_point, List.range, List.range.loop, bind, Except.bind,
    pure, Except.pure, branch.get_type, branch.get_sphere, branch.get_distance,
    branch.get_distances, vfile_lines_step, at_index, branch.get_id]
  rfl

/-- Counterexample to C17 as stated: for the own points (1,0,0), (2,0,0), (3,0,0) the
wireframe construction leaves 4 points and 3 segments, not 3 points and 2 segments. -/
theorem construct_gmsh_vfile_lines_counts_counterexample :
    (construct_gmsh_vfile_lines sample_externals ⟨false, false, false, false⟩
        (two_branch_tree 0 1 ⟨1, 0, 0⟩ ⟨2, 0, 0⟩ ⟨3, 0, 0⟩)
        gmsh_abstract_file.empty).toOption.map
      (fun f => (f._points.length, f._segments.length)) = some (4, 3) := by
  decide!

/-- C17, amended: for the two-branch tree of a one-point soma at the origin with radius
1 and one child branch of three distinct points of radius 1/2, the wireframe
construction started on the empty catalog returns a catalog with exactly 3 segments
(soma centre to first point, first to second, second to third), with exactly 4 points
when no own point is at the origin and exactly 3 points when one is, and with no arcs,
no loops and no volumes. -/
theorem construct_gmsh_vfile_lines_counts (E : externals) (flags : exporter_flags)
    (sid cid : Nat) (p1 p2 p3 : point3d) (h12 : p1 ≠ p2) (h23 : p2 ≠ p3) (h13 : p1 ≠ p3) :
    ∃ f, construct_gmsh_vfile_lines E flags (two_branch_tree sid cid p1 p2 p3)
        gmsh_abstract_file.empty = Except.ok f ∧
      f._segments.map (fun t => (t.point1.coords, t.point2.coords)) =
        [(⟨0, 0, 0⟩, p1), (p1, p2), (p2, p3)] ∧
      f._segments.length = 3 ∧
      f._points.length =
        (if (⟨0, 0, 0⟩ : point3d) = p1 ∨ (⟨0, 0, 0⟩ : point3d) = p2 ∨
          (⟨0, 0, 0⟩ : point3d) = p3 then 3 else 4) ∧
      f._circles = [] ∧ f._line_loop = [] ∧ f._volumes = [] := by
  refine ⟨_, construct_two_branch_lines E flags sid cid p1 p2 p3, ?_, ?_, ?_, rfl, rfl, rfl⟩
  · simp only [add_segment_keys]
    simp [gmsh_abstract_file.empty, wire_segment, gmsh_segment.make, gmsh_point.make,
      h12, h23, h13, Ne.symm h12, Ne.symm h23, Ne.symm h13]
  · have h : ∀ l : List gmsh_segment,
        l.length = (l.map (fun t => (t.point1.coords, t.point2.coords))).length := by
      intro l; simp
    rw [h]
    simp only [add_segment_keys]
    simp [gmsh_abstract_file.empty, wire_segment, gmsh_segment.make, gmsh_point.make,
      h12, h23, h13, Ne.symm h12, Ne.symm h23, Ne.symm h13]
  · have h : ∀ l : List gmsh_point, l.length = (l.map gmsh_point.coords).length := by
      intro l; simp
    rw [h]
    simp only [add_segment_point_keys, add_point_keys]
    by_cases e1 : (⟨0, 0, 0⟩ : point3d) = p1
    · subst e1
      simp [gmsh_abstract_file.empty, wire_segment, gmsh_segment.make, gmsh_point.make,
        h12, h23, h13, Ne.symm h12, Ne.symm h23, Ne.symm h13]
    · by_cases e2 : (⟨0, 0, 0⟩ : point3d) = p2
      · subst e2
        simp [gmsh_abstract_file.empty, wire_segment, gmsh_segment.make, gmsh_point.make,
          h12, h23, h13, Ne.symm h12, Ne.symm h23, Ne.symm h13]
      · by_cases e3 : (⟨0, 0, 0⟩ : point3d) = p3
        · subst e3
          simp [gmsh_abstract_file.empty, wire_segment, gmsh_segment.make, gmsh_point.make,
            h12, h23, h13, Ne.symm h12, Ne.symm h23, Ne.symm h13]
        · simp [gmsh_abstract_file.empty, wire_segment, gmsh_segment.make, gmsh_point.make,
            h12, h23, h13, Ne.symm h12, Ne.symm h23, Ne.symm h13, e1, e2, e3,
            Ne.symm e1, Ne.symm e2, Ne.symm e3]

/-- Witness of the amended C17 on the own points (1,0,0), (2,0,0), (3,0,0). -/
theorem construct_gmsh_vfile_lines_counts_witness :
    ∃ f, construct_gmsh_vfile_lines sample_externals ⟨false, false, false, false⟩
        (two_branch_tree 0 1 ⟨1, 0, 0⟩ ⟨2, 0, 0⟩ ⟨3, 0, 0⟩)
        gmsh_abstract_file.empty = Except.ok f ∧
      f._segments.map (fun t => (t.point1.coords, t.point2.coords)) =
        [(⟨0, 0, 0⟩, ⟨1, 0, 0⟩), (⟨1, 0, 0⟩, ⟨2, 0, 0⟩), (⟨2, 0, 0⟩, ⟨3, 0, 0⟩)] ∧
      f._segments.length = 3 ∧
      f._points.length =
        (if (⟨0, 0, 0⟩ : point3d) = ⟨1, 0, 0⟩ ∨ (⟨0, 0, 0⟩ : point3d) = ⟨2, 0, 0⟩ ∨
          (⟨0, 0, 0⟩ : point3d) = ⟨3, 0, 0⟩ then 3 else 4) ∧
      f._circles = [] ∧ f._line_loop = [] ∧ f._volumes = [] :=
  construct_gmsh_vfile_lines_counts sample_externals ⟨false, false, false, false⟩ 0 1
    ⟨1, 0, 0⟩ ⟨2, 0, 0⟩ ⟨3, 0, 0⟩ (by simp) (by simp) (by simp)

/-! ## The solid of the two-branch tree -/

/-- The cross-section sequence of the child of the two-branch tree: the loop over its
three points started on the cross-section of the soma sphere. -/
theorem two_branch_child_pipe (E : externals) (sid cid : Nat) (p1 p2 p3 : point3d) :
    ∃ rest, (two_branch_child sid cid p1 p2 p3).get_circle_pipe E =
      Except.ok (⟨⟨0, 0, 0⟩, 1, (point3d.mk 0 0 0).sub p1⟩ :: rest) := by
  have h : (two_branch_child sid cid p1 p2 p3).get_circle_pipe E =
      (List.range (two_branch_child sid cid p1 p2 p3).get_size).foldlM
        (branch.circle_pipe_step E (two_branch_child sid cid p1 p2 p3))
        [⟨⟨0, 0, 0⟩, 1, (point3d.mk 0 0 0).sub p1⟩] := by
    unfold two_branch_child two_branch_soma
    rw [branch.get_circle_pipe]
    simp [branch.get_size, branch.get_points, branch.get_type, branch.get_sphere,
      branch.get_point, branch.get_distance, branch.get_distances, bind, Except.bind, pure,
      Except.pure, List.range, List.range.loop]
  obtain ⟨extra, he⟩ := circle_pipe_loop E (two_branch_child sid cid p1 p2 p3) rfl
    (List.range (two_branch_child sid cid p1 p2 p3).get_size)
    (fun i hi => List.mem_range.1 hi) [⟨⟨0, 0, 0⟩, 1, (point3d.mk 0 0 0).sub p1⟩] (by simp)
  exact ⟨extra, by rw [h, he]; rfl⟩

/-- The steps of `construct_gmsh_3d_object` on the two-branch tree: the soma sphere, the
tube of the child, the sphere at the last point of the child. -/
theorem construct_two_branch_solid (E : externals) (sid cid : Nat) (p1 p2 p3 : point3d)
    (pipe : List circle3d) (f g : gmsh_abstract_file)
    (hp : (two_branch_child sid cid p1 p2 p3).get_circle_pipe E = Except.ok pipe)
    (hg : create_gmsh_truncated_pipe E (create_gmsh_sphere E f ⟨⟨0, 0, 0⟩, 1⟩) pipe =
      Except.ok g) :
    construct_gmsh_3d_object E (two_branch_tree sid cid p1 p2 p3) f =
      Except.ok (create_gmsh_sphere E g ⟨p3, 1 / 2⟩) := by
  have h1 : branch_sphere E (two_branch_soma sid) = Except.ok ⟨⟨0, 0, 0⟩, 1⟩ := by
    simp [branch_sphere, two_branch_soma, branch.get_type, branch.get_sphere,
      branch.get_size, branch.get_points, branch.get_point, branch.get_distance,
      branch.get_distances]
    rfl
  have h2 : branch_sphere E (two_branch_child sid cid p1 p2 p3) = Except.ok ⟨p3, 1 / 2⟩ := by
    simp [branch_sphere, two_branch_child, branch.get_type, branch.get_size,
      branch.get_points, branch.get_point, branch.get_distance, branch.get_distances]
    rfl
  unfold two_branch_tree
  simp only [construct_gmsh_3d_object, construct_gmsh_3d_object_childrens, hp, h1, h2, bind,
    Except.bind, hg, pure, Except.pure]

/-- Counterexample to C18 as stated: for the own points (0,0,1), (0,0,2), (0,0,3) the
solid construction leaves three volumes, of 8, 20 and 8 loops, of which two, not one,
are made of eight three-entry loops: the soma sphere and a sphere at the last point of
the child. -/
theorem construct_gmsh_3d_object_volumes_counterexample :
    (construct_gmsh_3d_object sample_externals
        (two_branch_tree 0 1 ⟨0, 0, 1⟩ ⟨0, 0, 2⟩ ⟨0, 0, 3⟩)
        gmsh_abstract_file.empty).toOption.map
      (fun f => (f._volumes.map (fun v => (v.ids.length, v.isPhysical)),
        (f._volumes.filter (fun v => decide (v.ids.length = 8) && v.ids.all (fun i =>
          f._line_loop.any (fun l => decide (l.id = i) && decide (l.ids.length = 3))))).length))
      = some ([(8, false), (20, true), (8, false)], 2) := by
  decide!

/-- C18, amended: for the two-branch tree of a one-point soma at the origin with radius
1 and one child branch of three points of radius 1/2, the cross-section sequence of the
child is computed and starts with the cross-section of the soma sphere; when it has at
least two cross-sections and the circle construction succeeds on each, the solid
construction started on the empty catalog returns a catalog with exactly three volumes:
the soma sphere (eight octant loops of three arcs), one tube, flagged physical, with cap
loops only at its first and last cross-section, and a second sphere, at the last point
of the child with its radius (eight octant loops of three arcs). -/
theorem construct_gmsh_3d_object_volumes (E : externals) (sid cid : Nat)
    (p1 p2 p3 : point3d) :
    ∃ pipe, (two_branch_child sid cid p1 p2 p3).get_circle_pipe E = Except.ok pipe ∧
      pipe.head? = some ⟨⟨0, 0, 0⟩, 1, (point3d.mk 0 0 0).sub p1⟩ ∧
      (2 ≤ pipe.length → (∀ c ∈ pipe, circle_ok E c) →
        ∃ (f : gmsh_abstract_file) (L1 : List gmsh_line_loop)
          (blocks : List (List gmsh_line_loop)) (L3 : List gmsh_line_loop),
          construct_gmsh_3d_object E (two_branch_tree sid cid p1 p2 p3)
            gmsh_abstract_file.empty = Except.ok f ∧
          f._volumes = [gmsh_volume.mk (L1.map gmsh_line_loop.id) 1 false,
            gmsh_volume.mk (blocks.flatten.map gmsh_line_loop.id) 2 true,
            gmsh_volume.mk (L3.map gmsh_line_loop.id) 3 false] ∧
          f._line_loop = L1 ++ blocks.flatten ++ L3 ∧
          L1.length = 8 ∧ L3.length = 8 ∧
          blocks.flatten.length = 4 * (pipe.length - 1) + 8 ∧
          List.Forall₂ (is_octant_loop f ⟨0, 0, 0⟩) L1 (sphere_octants E ⟨⟨0, 0, 0⟩, 1⟩) ∧
          List.Forall₂ (pipe_block f pipe) blocks (List.range (pipe.length - 1)) ∧
          List.Forall₂ (is_octant_loop f p3) L3 (sphere_octants E ⟨p3, 1 / 2⟩)) := by
  obtain ⟨rest, hp⟩ := two_branch_child_pipe E sid cid p1 p2 p3
  refine ⟨_, hp, rfl, ?_⟩
  intro h2 hok
  obtain ⟨L1, hl1, hg1, ho1⟩ :=
    create_gmsh_sphere_spec E gmsh_abstract_file.empty ⟨⟨0, 0, 0⟩, 1⟩
  obtain ⟨g2, blocks, hc2, hg2, hl2, hb2⟩ := create_gmsh_truncated_pipe_spec E
    (create_gmsh_sphere E gmsh_abstract_file.empty ⟨⟨0, 0, 0⟩, 1⟩) _ h2 hok
  obtain ⟨L3, hl3, hg3, ho3⟩ := create_gmsh_sphere_spec E g2 ⟨p3, 1 / 2⟩
  have hv1 : (create_gmsh_sphere E gmsh_abstract_file.empty ⟨⟨0, 0, 0⟩, 1⟩)._volumes.length =
      1 := by rw [hg1.volumes]; rfl
  have hv2 : g2._volumes.length = 2 := by rw [hg2.volumes, List.length_append, hv1]; rfl
  rw [hv1] at hg2
  rw [hv2] at hg3
  have hg := grows_trans (grows_trans hg1 hg2) hg3
  refine ⟨_, L1, blocks, L3, construct_two_branch_solid E sid cid p1 p2 p3 _ _ _ hp hc2,
    ?_, ?_, hl1, hl3, hl2, ?_, ?_, ho3⟩
  · rw [hg.volumes]
    rfl
  · rw [hg.loops]
    rfl
  · exact ho1.imp (fun _ _ h => is_octant_loop_mono (grows_trans hg2 hg3) h)
  · exact hb2.imp (fun _ _ h => pipe_block_mono hg3 h)

theorem sample_pipe_z_ok : ∀ c ∈ sample_pipe_z, circle_ok sample_externals c := by
  intro c hc
  simp only [sample_pipe_z, List.mem_cons, List.mem_singleton, List.not_mem_nil,
    or_false] at hc
  rcases hc with hc | hc | hc | hc <;> subst hc <;>
    unfold circle_ok check_points_on_circle <;> rw [if_pos (by decide!)] <;> rfl

/-- Witness of the amended C18 on the own points (0,0,1), (0,0,2), (0,0,3): the
cross-section sequence is `sample_pipe_z`, the construction returns a catalog of three
volumes, of which only the second is physical, and of 8 + 20 + 8 loops. -/
theorem construct_gmsh_3d_object_volumes_witness :
    (two_branch_child 0 1 ⟨0, 0, 1⟩ ⟨0, 0, 2⟩ ⟨0, 0, 3⟩).get_circle_pipe sample_externals =
      Except.ok sample_pipe_z ∧
    ∃ f, construct_gmsh_3d_object sample_externals
        (two_branch_tree 0 1 ⟨0, 0, 1⟩ ⟨0, 0, 2⟩ ⟨0, 0, 3⟩) gmsh_abstract_file.empty =
        Except.ok f ∧
      f._volumes.map (fun v => (v.id, v.isPhysical)) = [(1, false), (2, true), (3, false)] ∧
      f._line_loop.length = 36 := by
  obtain ⟨pipe, hp, _, H⟩ := construct_gmsh_3d_object_volumes sample_externals 0 1
    ⟨0, 0, 1⟩ ⟨0, 0, 2⟩ ⟨0, 0, 3⟩
  have h : ((two_branch_child 0 1 ⟨0, 0, 1⟩ ⟨0, 0, 2⟩ ⟨0, 0, 3⟩).get_circle_pipe
      sample_externals).toOption = some sample_pipe_z := by decide!
  rw [hp] at h
  have hpipe : pipe = sample_pipe_z := Option.some.inj h
  subst hpipe
  obtain ⟨f, L1, blocks, L3, hf, hv, hl, h1, h3, hb, _⟩ := H (by decide) sample_pipe_z_ok
  refine ⟨hp, f, hf, ?_, ?_⟩
  · rw [hv]
    rfl
  · rw [hl, List.length_append, List.length_append, h1, h3, hb]
    rfl

/-! ## Export determinism -/

/-- Two rearrangements of a container without repeated identifiers have the same copy
sorted by identifier. -/
theorem sort_by_id_congr {α : Type} (id : α → Nat) (s t : List α) (hp : s.Perm t)
    (hn : (s.map id).Nodup) : sort_by_id id s = sort_by_id id t := by
  have hn2 : (t.map id).Nodup := (hp.map id).nodup_iff.1 hn
  haveI : IsAntisymm α (fun x y => id x < id y) :=
    ⟨fun a b h1 h2 => absurd h1 (Nat.lt_asymm h2)⟩
  exact List.eq_of_perm_of_sorted
    ((sort_by_id_perm id s).trans (hp.trans (sort_by_id_perm id t).symm))
    (sort_by_id_pairwise id s hn) (sort_by_id_pairwise id t hn2)

/-- The lookup by coordinate gives the same stored point on two rearrangements of a
point container without repeated coordinates. -/
theorem find_same_perm (l m : List gmsh_point) (hp : l.Perm m)
    (hk : l.Pairwise (fun p q => p.coords ≠ q.coords)) (p : gmsh_point) :
    l.find? (fun y => gmsh_point.same y p) = m.find? (fun y => gmsh_point.same y p) := by
  have hsymm : ∀ {x y : gmsh_point}, x.coords ≠ y.coords → y.coords ≠ x.coords :=
    fun h => Ne.symm h
  have hk2 : m.Pairwise (fun p q => p.coords ≠ q.coords) := (hp.pairwise_iff hsymm).1 hk
  cases h : l.find? (fun y => gmsh_point.same y p) with
  | none =>
    symm
    rw [find_same_none_iff] at h ⊢
    intro q hq
    exact h q (hp.mem_iff.2 hq)
  | some y =>
    obtain ⟨hy, hc⟩ := find_same_some _ _ _ h
    cases h2 : m.find? (fun y => gmsh_point.same y p) with
    | none =>
      rw [find_same_none_iff] at h2
      exact absurd hc (h2 y (hp.mem_iff.1 hy))
    | some z =>
      obtain ⟨hz, hcz⟩ := find_same_some _ _ _ h2
      congr 1
      by_contra hne
      exact hk2.forall (fun _ _ h => Ne.symm h) (hp.mem_iff.1 hy) hz hne (hc.trans hcz.symm)

/-- On catalogs that hold the same entities `find_point` gives the same result. -/
theorem find_point_congr (f g : gmsh_abstract_file) (h : same_entities f g) (hk : keyed f)
    (p : gmsh_point) : (f.find_point p).1 = (g.find_point p).1 := by
  unfold gmsh_abstract_file.find_point
  rw [find_same_perm _ _ h.points hk.point_keys p]
  cases g._points.find? (fun y => gmsh_point.same y p) <;> rfl

/-- Every catalog that satisfies the invariant of the insertion interface is keyed. -/
theorem well_formed_keyed (f : gmsh_abstract_file) (h : well_formed f) : keyed f := by
  obtain ⟨h1, h2, h3, h4, h5⟩ := well_formed_nodup f h
  exact ⟨h1, h2, h3, h4, h5, h.point_keys⟩

theorem same_entities_reversed (f : gmsh_abstract_file) : same_entities f (reversed f) :=
  ⟨(List.reverse_perm _).symm, (List.reverse_perm _).symm, (List.reverse_perm _).symm,
    (List.reverse_perm _).symm, (List.reverse_perm _).symm⟩

/-- C5: listing by identifier.  Let `f` be a catalog in which no container repeats an
identifier (as in every catalog built through the insertion interface) and `g` a catalog
whose containers enumerate the entities of `f` in any order.  Then each of
`get_all_points`, `get_all_segments`, `get_all_circles`, `get_all_line_loops` and
`get_all_volumes` of `g` is a permutation of the stored collection of its kind and is
strictly ascending by identifier, and it is the same list whatever the enumeration. -/
theorem get_all_sorted (f g : gmsh_abstract_file) (h : same_entities f g) (hk : keyed f) :
    (g.get_all_points.Perm g._points ∧
      g.get_all_points.Pairwise (fun a b => a.id < b.id) ∧
      g.get_all_points = f.get_all_points) ∧
    (g.get_all_segments.Perm g._segments ∧
      g.get_all_segments.Pairwise (fun a b => a.id < b.id) ∧
      g.get_all_segments = f.get_all_segments) ∧
    (g.get_all_circles.Perm g._circles ∧
      g.get_all_circles.Pairwise (fun a b => a.id < b.id) ∧
      g.get_all_circles = f.get_all_circles) ∧
    (g.get_all_line_loops.Perm g._line_loop ∧
      g.get_all_line_loops.Pairwise (fun a b => a.id < b.id) ∧
      g.get_all_line_loops = f.get_all_line_loops) ∧
    (g.get_all_volumes.Perm g._volumes ∧
      g.get_all_volumes.Pairwise (fun a b => a.id < b.id) ∧
      g.get_all_volumes = f.get_all_volumes) :=
  ⟨⟨sort_by_id_perm _ _,
      sort_by_id_pairwise _ _ ((h.points.map _).nodup_iff.1 hk.point_ids),
      (sort_by_id_congr _ _ _ h.points hk.point_ids).symm⟩,
    ⟨sort_by_id_perm _ _,
      sort_by_id_pairwise _ _ ((h.segments.map _).nodup_iff.1 hk.segment_ids),
      (sort_by_id_congr _ _ _ h.segments hk.segment_ids).symm⟩,
    ⟨sort_by_id_perm _ _,
      sort_by_id_pairwise _ _ ((h.circles.map _).nodup_iff.1 hk.circle_ids),
      (sort_by_id_congr _ _ _ h.circles hk.circle_ids).symm⟩,
    ⟨sort_by_id_perm _ _,
      sort_by_id_pairwise _ _ ((h.line_loop.map _).nodup_iff.1 hk.loop_ids),
      (sort_by_id_congr _ _ _ h.line_loop hk.loop_ids).symm⟩,
    ⟨sort_by_id_perm _ _,
      sort_by_id_pairwise _ _ ((h.volumes.map _).nodup_iff.1 hk.volume_ids),
      (sort_by_id_congr _ _ _ h.volumes hk.volume_ids).symm⟩⟩

/-- Witness of C5: the sample catalog and the same catalog enumerated in the reverse
order, whose stored point list is descending by identifier. -/
theorem get_all_sorted_witness :
    same_entities sample_catalog (reversed sample_catalog) ∧ keyed sample_catalog ∧
    (reversed sample_catalog)._points.map gmsh_point.id = [6, 5, 4, 3, 2, 1] ∧
    (reversed sample_catalog).get_all_points.map gmsh_point.id = [1, 2, 3, 4, 5, 6] ∧
    (((reversed sample_catalog).get_all_points.Perm (reversed sample_catalog)._points ∧
      (reversed sample_catalog).get_all_points.Pairwise (fun a b => a.id < b.id) ∧
      (reversed sample_catalog).get_all_points = sample_catalog.get_all_points) ∧
    ((reversed sample_catalog).get_all_segments.Perm (reversed sample_catalog)._segments ∧
      (reversed sample_catalog).get_all_segments.Pairwise (fun a b => a.id < b.id) ∧
      (reversed sample_catalog).get_all_segments = sample_catalog.get_all_segments) ∧
    ((reversed sample_catalog).get_all_circles.Perm (reversed sample_catalog)._circles ∧
      (reversed sample_catalog).get_all_circles.Pairwise (fun a b => a.id < b.id) ∧
      (reversed sample_catalog).get_all_circles = sample_catalog.get_all_circles) ∧
    ((reversed sample_catalog).get_all_line_loops.Perm (reversed sample_catalog)._line_loop ∧
      (reversed sample_catalog).get_all_line_loops.Pairwise (fun a b => a.id < b.id) ∧
      (reversed sample_catalog).get_all_line_loops = sample_catalog.get_all_line_loops) ∧
    ((reversed sample_catalog).get_all_volumes.Perm (reversed sample_catalog)._volumes ∧
      (reversed sample_catalog).get_all_volumes.Pairwise (fun a b => a.id < b.id) ∧
      (reversed sample_catalog).get_all_volumes = sample_catalog.get_all_volumes)) :=
  ⟨same_entities_reversed _, well_formed_keyed _ (well_formed_run_ops sample_externals _),
    by decide!, by decide!,
    get_all_sorted sample_catalog (reversed sample_catalog) (same_entities_reversed _)
      (well_formed_keyed _ (well_formed_run_ops sample_externals _))⟩

/-- C19: export determinism.  For two catalogs that hold the same entities with the
same identifiers and flags, enumerated in any two orders, where no container repeats an
identifier and no two stored points have the same coordinate (as in every catalog built
through the insertion interface), each export function gives the same output on both:
the five functions of the geometry script, the segment export in both its single and
packed form, and the five functions of the second format; and `find_point`, the only
catalog operation the exports call, returns the catalog it received, so that exporting
one catalog twice gives the same output. -/
theorem export_deterministic (E : externals) (f g : gmsh_abstract_file)
    (h : same_entities f g) (hk : keyed f) :
    f.export_points_to_stream E = g.export_points_to_stream E ∧
    (∀ packed, f.export_segments_to_stream packed = g.export_segments_to_stream packed) ∧
    f.export_circle_to_stream = g.export_circle_to_stream ∧
    f.export_line_loop_to_stream = g.export_line_loop_to_stream ∧
    f.export_volume_to_stream = g.export_volume_to_stream ∧
    f.export_points_to_stream_dmg E = g.export_points_to_stream_dmg E ∧
    f.export_segments_to_stream_dmg = g.export_segments_to_stream_dmg ∧
    f.export_circle_to_stream_dmg = g.export_circle_to_stream_dmg ∧
    f.export_line_loop_to_stream_dmg = g.export_line_loop_to_stream_dmg ∧
    f.export_volume_to_stream_dmg = g.export_volume_to_stream_dmg ∧
    (∀ p, (f.find_point p).2 = f) := by
  have hp : f.get_all_points = g.get_all_points :=
    sort_by_id_congr _ _ _ h.points hk.point_ids
  have hs : f.get_all_segments = g.get_all_segments :=
    sort_by_id_congr _ _ _ h.segments hk.segment_ids
  have hc : f.get_all_circles = g.get_all_circles :=
    sort_by_id_congr _ _ _ h.circles hk.circle_ids
  have hl : f.get_all_line_loops = g.get_all_line_loops :=
    sort_by_id_congr _ _ _ h.line_loop hk.loop_ids
  have hv : f.get_all_volumes = g.get_all_volumes :=
    sort_by_id_congr _ _ _ h.volumes hk.volume_ids
  have hf : ∀ p, (f.find_point p).1 = (g.find_point p).1 := find_point_congr f g h hk
  refine ⟨?_, ?_, ?_, ?_, ?_, ?_, ?_, ?_, ?_, ?_, ?_⟩
  · simp only [gmsh_abstract_file.export_points_to_stream, hp]
  · intro packed
    simp only [gmsh_abstract_file.export_segments_to_stream, export_segments_packed,
      export_segments_single, hs, hf]
  · simp only [gmsh_abstract_file.export_circle_to_stream, hc, hf]
  · simp only [gmsh_abstract_file.export_line_loop_to_stream, hl]
  · simp only [gmsh_abstract_file.export_volume_to_stream, hv]
  · simp only [gmsh_abstract_file.export_points_to_stream_dmg, hp]
  · simp only [gmsh_abstract_file.export_segments_to_stream_dmg, hs, hf]
  · simp only [gmsh_abstract_file.export_circle_to_stream_dmg, hc, hf]
  · simp only [gmsh_abstract_file.export_line_loop_to_stream_dmg, hl]
  · simp only [gmsh_abstract_file.export_volume_to_stream_dmg, hv]
  · intro p
    unfold gmsh_abstract_file.find_point
    cases f._points.find? (fun y => gmsh_point.same y p) <;> rfl

/-- Witness of C19 on `sample_catalog` and the same catalog enumerated in reverse
order, which is a different enumeration of the same entities. -/
theorem export_deterministic_witness :
    same_entities sample_catalog (reversed sample_catalog) ∧ keyed sample_catalog ∧
    (reversed sample_catalog)._points ≠ sample_catalog._points ∧
    (reversed sample_catalog)._segments ≠ sample_catalog._segments ∧
    sample_catalog.export_points_to_stream sample_externals =
      (reversed sample_catalog).export_points_to_stream sample_externals ∧
    (∀ packed, sample_catalog.export_segments_to_stream packed =
      (reversed sample_catalog).export_segments_to_stream packed) ∧
    sample_catalog.export_circle_to_stream =
      (reversed sample_catalog).export_circle_to_stream ∧
    sample_catalog.export_line_loop_to_stream =
      (reversed sample_catalog).export_line_loop_to_stream ∧
    sample_catalog.export_volume_to_stream =
      (reversed sample_catalog).export_volume_to_stream ∧
    sample_catalog.export_points_to_stream_dmg sample_externals =
      (reversed sample_catalog).export_points_to_stream_dmg sample_externals ∧
    sample_catalog.export_segments_to_stream_dmg =
      (reversed sample_catalog).export_segments_to_stream_dmg ∧
    sample_catalog.export_circle_to_stream_dmg =
      (reversed sample_catalog).export_circle_to_stream_dmg ∧
    sample_catalog.export_line_loop_to_stream_dmg =
      (reversed sample_catalog).export_line_loop_to_stream_dmg ∧
    sample_catalog.export_volume_to_stream_dmg =
      (reversed sample_catalog).export_volume_to_stream_dmg ∧
    (∀ p, (sample_catalog.find_point p).2 = sample_catalog) :=
  ⟨same_entities_reversed _, well_formed_keyed _ (well_formed_run_ops _ _), by decide!,
    by decide!,
    export_deterministic sample_externals sample_catalog (reversed sample_catalog)
      (same_entities_reversed _) (well_formed_keyed _ (well_formed_run_ops _ _))⟩

/-! ## Packing of chained segments -/

theorem packed_step_nil (lines : List (Nat × Bool)) (p : gmsh_segment) :
    packed_step ([], lines) p =
      ([[{ p with id := lines.length + 1 }]], lines ++ [(lines.length + 1, true)]) := by
  simp [packed_step]

theorem packed_step_concat (gs : List (List gmsh_segment)) (g : List gmsh_segment)
    (b : gmsh_segment) (lines : List (Nat × Bool)) (p : gmsh_segment) :
    packed_step (gs ++ [g ++ [b]], lines) p =
      if chains b p then (gs ++ [g ++ [b] ++ [p]], lines)
      else (gs ++ [g ++ [b]] ++ [[{ p with id := lines.length + 1 }]],
        lines ++ [(lines.length + 1, true)]) := by
  simp [packed_step, chains]

theorem range_map_concat {β : Type} (h : Nat → β) (n : Nat) :
    (List.range' 1 (n + 1)).map h = (List.range' 1 n).map h ++ [h (n + 1)] := by
  rw [List.range'_concat, List.map_append, List.map_singleton, Nat.one_mul, Nat.add_comm 1 n]

theorem erase_id_with (p : gmsh_segment) (k : Nat) :
    erase_id { p with id := k } = erase_id p := rfl

theorem chains_with (b p : gmsh_segment) (k : Nat) :
    chains b { p with id := k } = chains b p := rfl

/-- The packing after a segment that opens a new group. -/
theorem packing_new_group (l : List gmsh_segment) (groups : List (List gmsh_segment))
    (lines : List (Nat × Bool)) (p : gmsh_segment) (h : packing l groups lines)
    (hb : ∀ g ∈ groups.getLast?, ∀ a ∈ g.getLast?, chains a p = false) :
    packing (l ++ [p]) (groups ++ [[{ p with id := lines.length + 1 }]])
      (lines ++ [(lines.length + 1, true)]) := by
  have hlen : lines.length = groups.length := by
    rw [h.lines_eq, List.length_map, List.length_range']
  refine ⟨?_, ?_, ?_, ?_, ?_, ?_⟩
  · rw [List.length_append, List.length_singleton, range_map_concat, ← h.lines_eq, hlen]
  · intro g hg
    rcases List.mem_append.1 hg with hg | hg
    · exact h.nonempty g hg
    · rw [List.mem_singleton.1 hg]
      exact List.cons_ne_nil _ _
  · rw [List.length_append, List.length_singleton, range_map_concat, ← h.first_ids,
      List.map_append, hlen]
    rfl
  · rw [List.flatten_append, List.map_append, List.map_append, h.partition]
    rfl
  · intro g hg
    rcases List.mem_append.1 hg with hg | hg
    · exact h.within g hg
    · rw [List.mem_singleton.1 hg]
      exact List.chain'_singleton _
  · rw [List.chain'_append]
    refine ⟨h.boundary, List.chain'_singleton _, ?_⟩
    intro g hg g2 hg2 a ha b hb2
    rw [List.head?_cons, Option.mem_def, Option.some.injEq] at hg2
    subst hg2
    rw [List.head?_cons, Option.mem_def, Option.some.injEq] at hb2
    subst hb2
    exact hb g hg a ha

/-- The packing after a segment that extends the last group. -/
theorem packing_extend (l : List gmsh_segment) (gs : List (List gmsh_segment))
    (g : List gmsh_segment) (b : gmsh_segment)
    (lines : List (Nat × Bool)) (p : gmsh_segment) (h : packing l (gs ++ [g ++ [b]]) lines)
    (hc : chains b p = true) :
    packing (l ++ [p]) (gs ++ [g ++ [b] ++ [p]]) lines := by
  have hlen : (gs ++ [g ++ [b] ++ [p]]).length = (gs ++ [g ++ [b]]).length := by
    simp
  have hhead : (g ++ [b] ++ [p]).head? = (g ++ [b]).head? := by
    cases g <;> rfl
  refine ⟨?_, ?_, ?_, ?_, ?_, ?_⟩
  · rw [hlen]
    exact h.lines_eq
  · intro x hx
    rcases List.mem_append.1 hx with hx | hx
    · exact h.nonempty x (List.mem_append_left _ hx)
    · rw [List.mem_singleton.1 hx]
      simp
  · rw [hlen, ← h.first_ids, List.map_append, List.map_append, List.map_singleton,
      List.map_singleton, hhead]
  · have hp := h.partition
    rw [List.flatten_append, List.map_append] at hp ⊢
    rw [List.map_append, ← hp]
    simp
  · intro x hx
    rcases List.mem_append.1 hx with hx | hx
    · exact h.within x (List.mem_append_left _ hx)
    · rw [List.mem_singleton.1 hx, List.chain'_append]
      refine ⟨h.within _ (List.mem_append_right _ (List.mem_singleton_self _)),
        List.chain'_singleton _, ?_⟩
      intro a ha c hc2
      rw [List.getLast?_concat, Option.mem_def, Option.some.injEq] at ha
      rw [List.head?_cons, Option.mem_def, Option.some.injEq] at hc2
      subst ha
      subst hc2
      exact hc
  · have hbd := h.boundary
    rw [List.chain'_append] at hbd ⊢
    refine ⟨hbd.1, List.chain'_singleton _, ?_⟩
    intro x hx y hy
    rw [List.head?_cons, Option.mem_def, Option.some.injEq] at hy
    subst hy
    rw [hhead]
    exact hbd.2.2 x hx _ rfl

theorem packing_foldl (l : List gmsh_segment) :
    packing l (l.foldl packed_step ([], [])).1 (l.foldl packed_step ([], [])).2 := by
  induction l using List.reverseRecOn with
  | nil => exact ⟨rfl, by simp, rfl, rfl, by simp, List.chain'_nil⟩
  | append_singleton l p ih =>
    rw [List.foldl_append, List.foldl_cons, List.foldl_nil]
    generalize List.foldl packed_step ([], []) l = acc at ih ⊢
    obtain ⟨groups, lines⟩ := acc
    rcases List.eq_nil_or_concat groups with hg | ⟨gs, g, hg⟩
    · subst hg
      rw [packed_step_nil]
      exact packing_new_group l [] lines p ih (by simp)
    · rw [List.concat_eq_append] at hg
      subst hg
      have hne : g ≠ [] := ih.nonempty g (List.mem_append_right _ (List.mem_singleton_self _))
      rcases List.eq_nil_or_concat g with hg | ⟨g2, b, hg⟩
      · exact absurd hg hne
      · rw [List.concat_eq_append] at hg
        subst hg
        rw [packed_step_concat]
        cases hc : chains b p with
        | true =>
          rw [if_pos rfl]
          exact packing_extend l gs g2 b lines p ih hc
        | false =>
          rw [if_neg (by simp)]
          refine packing_new_group l _ lines p ih ?_
          intro x hx a ha
          rw [List.getLast?_concat, Option.mem_def, Option.some.injEq] at hx
          subst hx
          rw [List.getLast?_concat, Option.mem_def, Option.some.injEq] at ha
          subst ha
          exact hc

theorem find_point_eq_point_id (f : gmsh_abstract_file) (p : gmsh_point)
    (h : registered f p) : (f.find_point p).1 = Except.ok (point_id f p) := by
  unfold gmsh_abstract_file.find_point point_id
  cases hf : f._points.find? (fun y => gmsh_point.same y p) with
  | none =>
    obtain ⟨q, hq, hc⟩ := h
    exact absurd hc ((find_same_none_iff _ _).1 hf q hq)
  | some y => rfl

theorem point_id_same (f : gmsh_abstract_file) (a b : gmsh_point)
    (h : a.coords = b.coords) : point_id f a = point_id f b := by
  unfold point_id gmsh_point.same
  rw [h]

theorem chains_point_id (f : gmsh_abstract_file) (a b : gmsh_segment)
    (h : chains a b = true) : point_id f a.point2 = point_id f b.point1 := by
  apply point_id_same
  simp only [chains, gmsh_point.same, Bool.and_eq_true, decide_eq_true_eq] at h
  exact h.1

theorem mapM_ok_eq {α β : Type} (g : α → Except exception β) (h : α → β) (l : List α)
    (H : ∀ a ∈ l, g a = Except.ok (h a)) : l.mapM g = Except.ok (l.map h) := by
  induction l with
  | nil => rfl
  | cons a l ih =>
    rw [List.mapM_cons, H a (List.mem_cons_self _ _),
      ih (fun x hx => H x (List.mem_cons_of_mem _ hx))]
    rfl

theorem line_pairs_append (l m : List geo_statement) :
    line_pairs (l ++ m) = line_pairs l ++ line_pairs m := by
  induction l with
  | nil => rfl
  | cons a l ih => cases a <;> simp [line_pairs, ih]

theorem line_statement_ids_append (l m : List geo_statement) :
    line_statement_ids (l ++ m) = line_statement_ids l ++ line_statement_ids m := by
  induction l with
  | nil => rfl
  | cons a l ih => cases a <;> simp [line_statement_ids, ih]

theorem exportPhysicalsElements_no_line (elements : List (Nat × Bool)) (name tag : String) :
    line_pairs (exportPhysicalsElements elements name tag) = [] ∧
    line_statement_ids (exportPhysicalsElements elements name tag) = [] := by
  unfold exportPhysicalsElements
  simp only
  cases List.foldl (fun (acc : Option (List Nat)) (p : Nat × Bool) =>
      if p.2 = true then
        match acc with
        | none => some [p.1]
        | some ids => some (ids ++ [p.1])
      else acc) none elements <;> exact ⟨rfl, rfl⟩

/-- The consecutive pairs of the polyline of a chained group are the end point pairs of
its segments. -/
theorem polyline_pairs (f : gmsh_abstract_file) (g : List gmsh_segment)
    (hc : g.Chain' (fun a b => chains a b = true)) :
    line_pairs [polyline f g] =
      g.map (fun s => (point_id f s.point1, point_id f s.point2)) := by
  unfold polyline
  simp only [line_pairs, List.append_nil, List.tail_cons]
  induction g with
  | nil => rfl
  | cons a t ih =>
    cases t with
    | nil => rfl
    | cons b t =>
      have h1 := List.chain'_cons.1 hc
      have ih2 := ih h1.2
      simp only [List.head?_cons, Option.map_some', Option.getD_some, List.map_cons,
        List.zip_cons_cons] at ih2 ⊢
      rw [chains_point_id f a b h1.1, ih2]

theorem line_pairs_polylines (f : gmsh_abstract_file) (groups : List (List gmsh_segment))
    (hc : ∀ g ∈ groups, g.Chain' (fun a b => chains a b = true)) :
    line_pairs (groups.map (polyline f)) =
      groups.flatten.map (fun s => (point_id f s.point1, point_id f s.point2)) := by
  induction groups with
  | nil => rfl
  | cons g rest ih =>
    rw [List.map_cons, ← List.singleton_append, line_pairs_append,
      polyline_pairs f g (hc g (List.mem_cons_self _ _)),
      ih (fun x hx => hc x (List.mem_cons_of_mem _ hx)), List.flatten_cons, List.map_append]

theorem line_statement_ids_polylines (f : gmsh_abstract_file)
    (groups : List (List gmsh_segment)) :
    line_statement_ids (groups.map (polyline f)) =
      (groups.map (fun g => g.head?.map gmsh_segment.id)).map (fun o => o.getD 0) := by
  induction groups with
  | nil => rfl
  | cons g rest ih =>
    rw [List.map_cons, List.map_cons, List.map_cons, ← ih]
    rfl

/-- The statement emitted for a group that is not empty and whose points are stored. -/
theorem packed_group_statement (f : gmsh_abstract_file) (g : List gmsh_segment)
    (hne : g ≠ [])
    (hreg : ∀ s ∈ g, registered f s.point1 ∧ registered f s.point2) :
    (do
      let first_elem ← at_index g 0
      let p1 ← (f.find_point first_elem.point1).1
      let rest ← g.mapM (fun p => (f.find_point p.point2).1)
      pure (geo_statement.line first_elem.id (p1 :: rest)) :
        Except exception geo_statement) = Except.ok (polyline f g) := by
  cases g with
  | nil => exact absurd rfl hne
  | cons a t =>
    have h1 : at_index (a :: t) 0 = Except.ok a := by
      unfold at_index
      rw [List.getElem?_cons_zero]
    have h2 := find_point_eq_point_id f a.point1 (hreg a (List.mem_cons_self _ _)).1
    have h3 := mapM_ok_eq (fun p : gmsh_segment => (f.find_point p.point2).1)
      (fun p => point_id f p.point2) (a :: t)
      (fun s hs => find_point_eq_point_id f s.point2 (hreg s hs).2)
    simp only [h1, h2, h3, bind, Except.bind, pure, Except.pure]
    rfl

theorem packed_groups_statements (f : gmsh_abstract_file) (groups : List (List gmsh_segment))
    (hne : ∀ g ∈ groups, g ≠ [])
    (hreg : ∀ g ∈ groups, ∀ s ∈ g, registered f s.point1 ∧ registered f s.point2) :
    groups.mapM (fun elem_group => (do
      let first_elem ← at_index elem_group 0
      let p1 ← (f.find_point first_elem.point1).1
      let rest ← elem_group.mapM (fun p => (f.find_point p.point2).1)
      pure (geo_statement.line first_elem.id (p1 :: rest)) :
        Except exception geo_statement)) = Except.ok (groups.map (polyline f)) :=
  mapM_ok_eq _ _ _ (fun g hg => packed_group_statement f g (hne g hg) (hreg g hg))

/-- C20: packing preserves the represented topology.  For every segment list, sorted
by identifier or not, the grouping loop of `export_segments_packed` yields groups and
lines that are a packing of the list: the groups are not empty and are numbered 1..k,
they hold the segments of the list in order, within a group each segment starts at the
end point of the previous one and has the same branch id, and the last segment of a
group never chains with the first segment of the next group.  When the end points of
all segments are stored in the catalog, `export_segments_packed` returns the script
made of one polyline per group, whose `Line` statements are numbered 1..k, and
expanding the polylines into their consecutive point pairs gives exactly the sequence of
(point1, point2) identifier pairs of the input list. -/
theorem export_segments_packed_topology (f : gmsh_abstract_file)
    (all_segments : List gmsh_segment)
    (hreg : ∀ s ∈ all_segments, registered f s.point1 ∧ registered f s.point2) :
    packing all_segments (all_segments.foldl packed_step ([], [])).1
      (all_segments.foldl packed_step ([], [])).2 ∧
    ∃ out, export_segments_packed all_segments f = Except.ok out ∧
      out = [geo_statement.text "// export morphology segments packed"] ++
        (all_segments.foldl packed_step ([], [])).1.map (polyline f) ++
        exportPhysicalsElements (all_segments.foldl packed_step ([], [])).2
          "Line" "Segments" ∧
      line_statement_ids out =
        List.range' 1 (all_segments.foldl packed_step ([], [])).1.length ∧
      (line_pairs out).map
          (fun ab => ((Except.ok ab.1 : Except exception Nat),
            (Except.ok ab.2 : Except exception Nat))) =
        all_segments.map (fun s => ((f.find_point s.point1).1, (f.find_point s.point2).1)) := by
  have inv := packing_foldl all_segments
  refine ⟨inv, ?_⟩
  have hexp : ∀ lines, (all_segments.foldl packed_step ([], [])).1.mapM
      (fun elem_group => (do
        let first_elem ← at_index elem_group 0
        let p1 ← (f.find_point first_elem.point1).1
        let rest ← elem_group.mapM (fun p => (f.find_point p.point2).1)
        pure (geo_statement.line first_elem.id (p1 :: rest)) :
          Except exception geo_statement)) = Except.ok lines →
      export_segments_packed all_segments f =
        Except.ok ([geo_statement.text "// export morphology segments packed"] ++ lines ++
          exportPhysicalsElements (all_segments.foldl packed_step ([], [])).2
            "Line" "Segments") := by
    intro lines h
    unfold export_segments_packed
    simp only []
    rw [h]
    rfl
  generalize List.foldl packed_step ([], []) all_segments = r at inv hexp ⊢
  have hmem : ∀ s ∈ r.1.flatten, ∃ t ∈ all_segments, erase_id t = erase_id s := by
    intro s hs
    have h := List.mem_map_of_mem erase_id hs
    rw [inv.partition] at h
    exact List.mem_map.1 h
  have hgreg : ∀ g ∈ r.1, ∀ s ∈ g, registered f s.point1 ∧ registered f s.point2 := by
    intro g hg s hs
    obtain ⟨t, ht, he⟩ := hmem s (List.mem_flatten.2 ⟨g, hg, hs⟩)
    have h1 : (erase_id t).point1 = (erase_id s).point1 := congrArg gmsh_segment.point1 he
    have h2 : (erase_id t).point2 = (erase_id s).point2 := congrArg gmsh_segment.point2 he
    change t.point1 = s.point1 at h1
    change t.point2 = s.point2 at h2
    rw [← h1, ← h2]
    exact hreg t ht
  have hlines := packed_groups_statements f r.1 inv.nonempty hgreg
  refine ⟨[geo_statement.text "// export morphology segments packed"] ++
        r.1.map (polyline f) ++ exportPhysicalsElements r.2 "Line" "Segments", ?_, rfl, ?_, ?_⟩
  · exact hexp _ hlines
  · rw [line_statement_ids_append, line_statement_ids_append,
      (exportPhysicalsElements_no_line _ _ _).2, line_statement_ids_polylines, inv.first_ids,
      List.map_map]
    simp only [line_statement_ids, List.nil_append, List.append_nil]
    exact List.map_id _
  · rw [line_pairs_append, line_pairs_append, (exportPhysicalsElements_no_line _ _ _).1,
      line_pairs_polylines f _ inv.within]
    have h1 : r.1.flatten.map (fun s => (point_id f s.point1, point_id f s.point2)) =
        all_segments.map (fun s => (point_id f s.point1, point_id f s.point2)) := by
      have h2 := congrArg
        (List.map (fun s : gmsh_segment => (point_id f s.point1, point_id f s.point2)))
        inv.partition
      rw [List.map_map, List.map_map] at h2
      exact h2
    simp only [line_pairs, List.nil_append, List.append_nil]
    rw [h1, List.map_map]
    apply List.map_congr_left
    intro s hs
    simp only [Function.comp]
    rw [find_point_eq_point_id f _ (hreg s hs).1, find_point_eq_point_id f _ (hreg s hs).2]

/-- Witness of C20 on the three segments of `sample_catalog`, which are packed into a
group of two chained segments and a group of one. -/
theorem export_segments_packed_topology_witness :
    (∀ s ∈ sample_catalog.get_all_segments,
      registered sample_catalog s.point1 ∧ registered sample_catalog s.point2) ∧
    ((sample_catalog.get_all_segments.foldl packed_step ([], [])).1.map List.length =
      [2, 1]) ∧
    packing sample_catalog.get_all_segments
      (sample_catalog.get_all_segments.foldl packed_step ([], [])).1
      (sample_catalog.get_all_segments.foldl packed_step ([], [])).2 ∧
    ∃ out, export_segments_packed sample_catalog.get_all_segments sample_catalog =
        Except.ok out ∧
      out = [geo_statement.text "// export morphology segments packed"] ++
        (sample_catalog.get_all_segments.foldl packed_step ([], [])).1.map
          (polyline sample_catalog) ++
        exportPhysicalsElements
          (sample_catalog.get_all_segments.foldl packed_step ([], [])).2 "Line" "Segments" ∧
      line_statement_ids out =
        List.range' 1 (sample_catalog.get_all_segments.foldl packed_step ([], [])).1.length ∧
      (line_pairs out).map
          (fun ab => ((Except.ok ab.1 : Except exception Nat),
            (Except.ok ab.2 : Except exception Nat))) =
        sample_catalog.get_all_segments.map (fun s =>
          ((sample_catalog.find_point s.point1).1, (sample_catalog.find_point s.point2).1)) :=
  ⟨fun s hs => (well_formed_run_ops sample_externals _).segment_points s
      ((sort_by_id_perm _ _).mem_iff.1 hs),
    by decide!,
    export_segments_packed_topology sample_catalog sample_catalog.get_all_segments
      (fun s hs => (well_formed_run_ops sample_externals _).segment_points s
        ((sort_by_id_perm _ _).mem_iff.1 hs))⟩

/-! ## The physical summary line -/

/-- The state of the loop of `exportPhysicalsElements` after the elements `l`, started
in state `acc`. -/
theorem exportPhysicals_fold (l : List (Nat × Bool)) (acc : Option (List Nat)) :
    l.foldl (fun (acc : Option (List Nat)) (p : Nat × Bool) =>
        if p.2 = true then
          match acc with
          | none => some [p.1]
          | some ids => some (ids ++ [p.1])
        else acc) acc =
      match acc, (l.filter (fun p => p.2)).map Prod.fst with
      | none, [] => none
      | none, ids => some ids
      | some a, ids => some (a ++ ids) := by
  induction l generalizing acc with
  | nil => cases acc <;> simp
  | cons p l ih =>
    rw [List.foldl_cons, ih]
    by_cases hp : p.2 = true
    · cases acc with
      | none =>
        simp only [hp, if_true, List.filter_cons_of_pos, List.map_cons]
        rfl
      | some a =>
        simp only [hp, if_true, List.filter_cons_of_pos, List.map_cons]
        simp
    · have hp2 : p.2 = false := by simpa using hp
      rw [List.filter_cons_of_neg (by simp [hp2])]
      simp [hp2]

/-- C22: the physical summary line.  For every entity list, `exportPhysicalsElements`
emits nothing when no entity is flagged physical and otherwise exactly one Physical
statement, whose identifier list is the identifiers of the physical entities in list
order, each as often as it occurs among the physical entities and no identifier of a
non-physical entity added; on a list sorted strictly ascending by identifier the
identifier list is strictly ascending, so each identifier occurs once. -/
theorem exportPhysicalsElements_spec (elements : List (Nat × Bool)) (name tag : String) :
    ((∀ p ∈ elements, p.2 = false) → exportPhysicalsElements elements name tag = []) ∧
    ((∃ p ∈ elements, p.2 = true) → exportPhysicalsElements elements name tag =
      [geo_statement.physical name tag ((elements.filter (fun p => p.2)).map Prod.fst)]) ∧
    (∀ i, i ∈ (elements.filter (fun p => p.2)).map Prod.fst ↔ (i, true) ∈ elements) ∧
    ((elements.map Prod.fst).Pairwise (fun a b => a < b) →
      ((elements.filter (fun p => p.2)).map Prod.fst).Pairwise (fun a b => a < b)) := by
  have h : exportPhysicalsElements elements name tag =
      match (elements.filter (fun p => p.2)).map Prod.fst with
      | [] => []
      | ids => [geo_statement.physical name tag ids] := by
    unfold exportPhysicalsElements
    simp only [exportPhysicals_fold]
    cases (elements.filter (fun p => p.2)).map Prod.fst <;> rfl
  refine ⟨?_, ?_, ?_, ?_⟩
  · intro hno
    have : elements.filter (fun p => p.2) = [] := by
      rw [List.filter_eq_nil_iff]
      intro p hp
      rw [hno p hp]
      simp
    rw [h, this]
    rfl
  · rintro ⟨p, hp, hphys⟩
    have hmem : p.1 ∈ (elements.filter (fun p => p.2)).map Prod.fst :=
      List.mem_map_of_mem _ (List.mem_filter.2 ⟨hp, hphys⟩)
    rw [h]
    cases hl : (elements.filter (fun p => p.2)).map Prod.fst with
    | nil => rw [hl] at hmem; exact absurd hmem (List.not_mem_nil _)
    | cons a t => rfl
  · intro i
    constructor
    · intro hi
      obtain ⟨p, hp, rfl⟩ := List.mem_map.1 hi
      obtain ⟨hp1, hp2⟩ := List.mem_filter.1 hp
      have : p = (p.1, true) := Prod.ext rfl hp2
      rw [← this]
      exact hp1
    · intro hi
      exact List.mem_map.2 ⟨(i, true), List.mem_filter.2 ⟨hi, rfl⟩, rfl⟩
  · intro hs
    exact hs.sublist ((List.filter_sublist _).map Prod.fst)

/-- Witness of C22 on four entities, two of them physical. -/
theorem exportPhysicalsElements_spec_witness :
    exportPhysicalsElements [(1, true), (2, false), (3, true), (4, false)] "Point" "Points" =
      [geo_statement.physical "Point" "Points" [1, 3]] ∧
    exportPhysicalsElements [(1, false), (2, false)] "Point" "Points" = [] ∧
    ([1, 3] : List Nat).Pairwise (fun a b => a < b) :=
  ⟨(exportPhysicalsElements_spec [(1, true), (2, false), (3, true), (4, false)]
      "Point" "Points").2.1 ⟨(1, true), by decide, rfl⟩,
    (exportPhysicalsElements_spec [(1, false), (2, false)] "Point" "Points").1 (by decide),
    (exportPhysicalsElements_spec [(1, true), (2, false), (3, true), (4, false)]
      "Point" "Points").2.2.2 (by decide)⟩

/-! ## The reference direction -/

/-- C23 at a failing input: for the normalized axis (-1, 0, 0) the scalar products with
the candidates (1, 0, 0) and (0, 1, 0) are -1 and 0; the candidate of smallest
magnitude is (0, 1, 0), but `get_unit_vec` compares the signed values and returns
(1, 0, 0), which is colinear with the axis: their vector product is the zero vector.
For the normalized axis (-4/5, 3/5, 0) it returns (1, 0, 0) too, of magnitude 4/5, not
the candidate (0, 1, 0) of magnitude 3/5. -/
theorem get_unit_vec_signed_comparison :
    get_unit_vec ⟨-1, 0, 0⟩ = ⟨1, 0, 0⟩ ∧
    |dot_product ⟨-1, 0, 0⟩ ⟨0, 1, 0⟩| < |dot_product ⟨-1, 0, 0⟩ (get_unit_vec ⟨-1, 0, 0⟩)| ∧
    cross_product (get_unit_vec ⟨-1, 0, 0⟩) ⟨-1, 0, 0⟩ = ⟨0, 0, 0⟩ ∧
    get_unit_vec ⟨-4 / 5, 3 / 5, 0⟩ = ⟨1, 0, 0⟩ ∧
    |dot_product ⟨-4 / 5, 3 / 5, 0⟩ ⟨0, 1, 0⟩| <
      |dot_product ⟨-4 / 5, 3 / 5, 0⟩ (get_unit_vec ⟨-4 / 5, 3 / 5, 0⟩)| := by
  refine ⟨?_, ?_, ?_, ?_, ?_⟩ <;> decide!

/-! ## The cross-section loop, step by step -/

/-- What a successful iteration of the cross-section loop read and returned. -/
theorem circle_pipe_step_ok (E : externals) (b : branch) (res res2 : List circle3d) (i : Nat)
    (h : branch.circle_pipe_step E b res i = Except.ok res2) :
    ∃ prev p r, res.getLast? = some prev ∧ b.get_points[i]? = some p ∧
      b.get_distances[i]? = some r ∧
      ∃ axis, res2 = (if E.close_to prev.center p then res else res ++ [⟨p, r, axis⟩]) ∧
        ((i < b.get_size - 1 ∧ ∃ q, b.get_points[i + 1]? = some q ∧
            axis = get_tangente_axis prev.center p q) ∨
          (¬ i < b.get_size - 1 ∧ axis = prev.center.sub p)) := by
  unfold branch.circle_pipe_step branch.back branch.get_point branch.get_distance at h
  cases hprev : res.getLast? with
  | none => simp [hprev, bind, Except.bind] at h
  | some prev =>
    cases hp : b.get_points[i]? with
    | none => simp [hprev, hp, bind, Except.bind] at h
    | some p =>
      cases hr : b.get_distances[i]? with
      | none =>
        by_cases hlt : i < b.get_size - 1
        · cases hq : b.get_points[i + 1]? with
          | none => simp [hprev, hp, hr, hq, hlt, bind, Except.bind] at h
          | some q => simp [hprev, hp, hr, hq, hlt, bind, Except.bind, pure, Except.pure] at h
        · simp [hprev, hp, hr, hlt, bind, Except.bind, pure, Except.pure] at h
      | some r =>
        refine ⟨prev, p, r, rfl, rfl, rfl, ?_⟩
        by_cases hlt : i < b.get_size - 1
        · cases hq : b.get_points[i + 1]? with
          | none => simp [hprev, hp, hr, hq, hlt, bind, Except.bind] at h
          | some q =>
            refine ⟨get_tangente_axis prev.center p q, ?_, Or.inl ⟨hlt, q, rfl, rfl⟩⟩
            simp only [hprev, hp, hr, hq, hlt, if_true, bind, Except.bind, pure,
              Except.pure] at h
            by_cases hc : E.close_to prev.center p = true
            · simp only [hc, if_true] at h ⊢
              exact (Except.ok.inj h).symm
            · simp only [hc, if_false] at h ⊢
              exact (Except.ok.inj h).symm
        · refine ⟨prev.center.sub p, ?_, Or.inr ⟨hlt, rfl⟩⟩
          simp only [hprev, hp, hr, hlt, if_false, bind, Except.bind, pure,
            Except.pure] at h
          by_cases hc : E.close_to prev.center p = true
          · simp only [hc, if_true] at h ⊢
            exact (Except.ok.inj h).symm
          · simp only [hc, if_false] at h ⊢
            exact (Except.ok.inj h).symm

theorem getD_of_getElem? {α : Type} (l : List α) (i : Nat) (d a : α) (h : l[i]? = some a) :
    l.getD i d = a := by
  rw [List.getD_eq_getElem?_getD, h]
  rfl

/-- The cross-section loop appends, for the indices it is run on, the own points kept
by the degenerate-point policy: the cross-section emitted at a kept index obeys the axis
rule at that index. -/
theorem circle_pipe_fold_ok (E : externals) (b : branch) (l : List Nat) :
    ∀ (res : List circle3d) (prev : circle3d) (pipe : List circle3d),
      res.getLast? = some prev →
      l.foldlM (branch.circle_pipe_step E b) res = Except.ok pipe →
      ∃ extra, pipe = res ++ extra ∧
        List.Chain (fun a c => E.close_to a.center c.center = false) prev extra ∧
        extra.map circle3d.center = (kept_points E b.get_points prev.center l).map
          (fun i => b.get_points.getD i ⟨0, 0, 0⟩) ∧
        extra.map circle3d.radius = (kept_points E b.get_points prev.center l).map
          (fun i => b.get_distances.getD i 0) ∧
        List.Forall₂ (fun i (pc : circle3d × circle3d) => axis_rule b i pc.1 pc.2)
          (kept_points E b.get_points prev.center l) ((prev :: extra).zip extra) := by
  induction l with
  | nil =>
    intro res prev pipe _ h
    refine ⟨[], ?_, List.Chain.nil, rfl, rfl, ?_⟩
    · rw [List.append_nil]
      exact (Except.ok.inj h).symm
    · rw [kept_points, List.zip_nil_right]
      exact List.Forall₂.nil
  | cons i l ih =>
    intro res prev pipe hprev h
    rw [List.foldlM_cons] at h
    cases hstep : branch.circle_pipe_step E b res i with
    | error e =>
      rw [hstep] at h
      exact absurd h (by simp [bind, Except.bind])
    | ok res2 =>
      rw [hstep] at h
      have h2 : l.foldlM (branch.circle_pipe_step E b) res2 = Except.ok pipe := h
      obtain ⟨prev2, p, r, hprev2, hp, hr, axis, hres2, hax⟩ :=
        circle_pipe_step_ok E b res res2 i hstep
      rw [hprev] at hprev2
      have hpe : prev = prev2 := Option.some.inj hprev2
      subst hpe
      have hpd : b.get_points.getD i ⟨0, 0, 0⟩ = p := getD_of_getElem? _ _ _ _ hp
      have hrd : b.get_distances.getD i 0 = r := getD_of_getElem? _ _ _ _ hr
      by_cases hc : E.close_to prev.center p = true
      · rw [if_pos hc] at hres2
        rw [hres2] at h2
        obtain ⟨extra, he, hch, hcen, hrad, hidx⟩ := ih res prev pipe hprev h2
        refine ⟨extra, he, hch, ?_, ?_, ?_⟩
        · rw [hcen, kept_points, hpd, if_pos hc]
        · rw [hrad, kept_points, hpd, if_pos hc]
        · rw [kept_points, hpd, if_pos hc]
          exact hidx
      · rw [if_neg hc] at hres2
        rw [hres2] at h2
        obtain ⟨extra, he, hch, hcen, hrad, hidx⟩ :=
          ih (res ++ [⟨p, r, axis⟩]) ⟨p, r, axis⟩ pipe (List.getLast?_concat _) h2
        have hi : i < b.get_size := by
          unfold branch.get_size
          by_contra hge
          rw [List.getElem?_eq_none (Nat.le_of_not_lt hge)] at hp
          exact Option.noConfusion hp
        have hcf : E.close_to prev.center p = false := by
          cases hx : E.close_to prev.center p with
          | true => exact absurd hx hc
          | false => rfl
        refine ⟨⟨p, r, axis⟩ :: extra, ?_, List.Chain.cons hcf hch, ?_, ?_, ?_⟩
        · rw [he, List.append_assoc]
          rfl
        · rw [kept_points, hpd, if_neg hc, List.map_cons, List.map_cons, hcen, hpd]
        · rw [kept_points, hpd, if_neg hc, List.map_cons, List.map_cons, hrad, hrd]
        · rw [kept_points, hpd, if_neg hc, List.zip_cons_cons]
          refine List.Forall₂.cons ⟨hi, hp, hr, ?_⟩ hidx
          rcases hax with ⟨hlt, q, hq, haxis⟩ | ⟨hnlt, haxis⟩
          · exact Or.inl ⟨by omega, q, hq, haxis⟩
          · exact Or.inr ⟨by omega, haxis⟩

/-- A successful `get_circle_pipe` either met a branch without points and returned the
empty sequence, or ran the cross-section loop on a one-element seed. -/
theorem get_circle_pipe_seed (E : externals) (b : branch) (pipe : List circle3d)
    (h : b.get_circle_pipe E = Except.ok pipe) :
    (b.get_size = 0 ∧ pipe = []) ∨
    (1 ≤ b.get_size ∧ ∃ seed, (List.range b.get_size).foldlM
      (branch.circle_pipe_step E b) [seed] = Except.ok pipe) := by
  obtain ⟨t, i, ps, ds, parent⟩ := b
  rw [branch.get_circle_pipe] at h
  by_cases hs : (branch.mk t i ps ds parent).get_size < 1
  · rw [if_pos hs] at h
    exact Or.inl ⟨by omega, (Except.ok.inj h).symm⟩
  · rw [if_neg hs] at h
    refine Or.inr ⟨by omega, ?_⟩
    cases parent with
    | none => exact absurd h (by simp [bind, Except.bind])
    | some p =>
      by_cases ht : p.get_type = branch_type.soma
      · simp only [ht, if_true] at h
        cases hsp : p.get_sphere E with
        | error e => rw [hsp] at h; exact absurd h (by simp [bind, Except.bind])
        | ok sphere =>
          cases hp0 : (branch.mk t i ps ds (some p)).get_point 0 with
          | error e => rw [hsp, hp0] at h; exact absurd h (by simp [bind, Except.bind])
          | ok p0 =>
            rw [hsp, hp0] at h
            exact ⟨_, h⟩
      · simp only [ht, if_false] at h
        cases hpp : branch.get_circle_pipe E p with
        | error e => rw [hpp] at h; exact absurd h (by simp [bind, Except.bind])
        | ok ppipe =>
          rw [hpp] at h
          by_cases hl : ppipe.length < 1
          · simp only [bind, Except.bind, hl, if_true] at h
            exact absurd h (by simp)
          · cases hb : branch.back ppipe with
            | error e =>
              simp only [bind, Except.bind, hl, if_false, hb] at h
              exact absurd h (by simp)
            | ok last =>
              simp only [bind, Except.bind, hl, if_false, hb] at h
              exact ⟨_, h⟩

theorem eq_ok_of_toOption {α : Type} (x : Except exception α) (a : α)
    (h : x.toOption = some a) : x = Except.ok a := by
  cases x with
  | error e => exact Option.noConfusion h
  | ok b => exact congrArg Except.ok (Option.some.inj h)

theorem kept_points_sublist (E : externals) (pts : List point3d) (l : List Nat) :
    ∀ prev, (kept_points E pts prev l).Sublist l := by
  induction l with
  | nil => intro prev; exact List.Sublist.refl _
  | cons i l ih =>
    intro prev
    rw [kept_points]
    split
    · exact (ih prev).cons i
    · exact (ih _).cons₂ i

theorem sample_child_z_pipe :
    sample_child_z.get_circle_pipe sample_externals = Except.ok sample_pipe_z :=
  eq_ok_of_toOption _ _ (by decide!)

theorem sample_child_aba_pipe :
    sample_child_aba.get_circle_pipe sample_externals = Except.ok sample_pipe_aba :=
  eq_ok_of_toOption _ _ (by decide!)

/-- C25: the axis rule of the cross-section sequence.  A cross-section sequence that
`get_circle_pipe` returns is empty, for a branch without points, or a seed followed by
the cross-sections emitted for the own points, which are in order those of the loop
indices kept by the degenerate-point policy; the cross-section emitted at the loop index
i has the centre p_i and the radius recorded at index i, and with prev the centre of the
cross-section right before it in the sequence its axis is (p_i - prev) + (p_(i+1) - p_i)
when i is not the last own index and prev - p_i when i is the last own index. -/
theorem get_circle_pipe_axis_rule (E : externals) (b : branch) (pipe : List circle3d)
    (h : b.get_circle_pipe E = Except.ok pipe) :
    (b.get_size = 0 ∧ pipe = []) ∨
    ∃ seed rest, pipe = seed :: rest ∧
      List.Forall₂ (fun i (pc : circle3d × circle3d) => axis_rule b i pc.1 pc.2)
        (kept_points E b.get_points seed.center (List.range b.get_size))
        ((seed :: rest).zip rest) := by
  rcases get_circle_pipe_seed E b pipe h with ⟨h0, hp⟩ | ⟨_, seed, hf⟩
  · exact Or.inl ⟨h0, hp⟩
  · obtain ⟨extra, he, _, _, _, hidx⟩ :=
      circle_pipe_fold_ok E b _ [seed] seed pipe rfl hf
    exact Or.inr ⟨seed, extra, he, hidx⟩

/-- Witness of C25 on `sample_child_aba`, whose first and last own point have the same
coordinate and whose sequence is `sample_pipe_aba`: all three own points are kept, and
the cross-sections of the first and of the last differ in radius and axis. -/
theorem get_circle_pipe_axis_rule_witness :
    sample_child_aba.get_circle_pipe sample_externals = Except.ok sample_pipe_aba ∧
    kept_points sample_externals sample_child_aba.get_points ⟨0, 0, 0⟩
      (List.range sample_child_aba.get_size) = [0, 1, 2] ∧
    ((sample_child_aba.get_size = 0 ∧ sample_pipe_aba = []) ∨
    ∃ seed rest, sample_pipe_aba = seed :: rest ∧
      List.Forall₂
        (fun i (pc : circle3d × circle3d) => axis_rule sample_child_aba i pc.1 pc.2)
        (kept_points sample_externals sample_child_aba.get_points seed.center
          (List.range sample_child_aba.get_size))
        ((seed :: rest).zip rest)) :=
  ⟨sample_child_aba_pipe, by decide!,
    get_circle_pipe_axis_rule sample_externals sample_child_aba sample_pipe_aba
      sample_child_aba_pipe⟩

/-- Counterexample to C26 as stated: on a branch that has a parent and no point
`get_circle_pipe` succeeds and returns the empty sequence, which has no seed and fewer
than one element. -/
theorem get_circle_pipe_skip_counterexample :
    sample_empty_child.get_parent = some sample_soma ∧
    (sample_empty_child.get_circle_pipe sample_externals).toOption.map List.length =
      some 0 :=
  ⟨rfl, by decide!⟩

/-- C26, amended: the degenerate-point skip.  For every branch with at least one point
on which `get_circle_pipe` succeeds, the result is a seed followed by cross-sections
whose centres and radii are, in order, those of exactly the own points kept by the
policy: a point is kept when it does not coincide, by the tolerance test, with the
centre of the cross-section emitted immediately before.  The kept indices are a
subsequence of the own indices, the result has between 1 and size + 1 elements, and no
two consecutive cross-sections of the result have coinciding centres. -/
theorem get_circle_pipe_skip (E : externals) (b : branch) (pipe : List circle3d)
    (hs : 1 ≤ b.get_size) (h : b.get_circle_pipe E = Except.ok pipe) :
    ∃ seed rest, pipe = seed :: rest ∧
      rest.map circle3d.center =
        (kept_points E b.get_points seed.center (List.range b.get_size)).map
          (fun i => b.get_points.getD i ⟨0, 0, 0⟩) ∧
      rest.map circle3d.radius =
        (kept_points E b.get_points seed.center (List.range b.get_size)).map
          (fun i => b.get_distances.getD i 0) ∧
      (kept_points E b.get_points seed.center (List.range b.get_size)).Sublist
        (List.range b.get_size) ∧
      1 ≤ pipe.length ∧ pipe.length ≤ b.get_size + 1 ∧
      pipe.Chain' (fun a c => E.close_to a.center c.center = false) := by
  rcases get_circle_pipe_seed E b pipe h with ⟨h0, _⟩ | ⟨_, seed, hf⟩
  · omega
  · obtain ⟨extra, he, hch, hcen, hrad, _⟩ :=
      circle_pipe_fold_ok E b _ [seed] seed pipe rfl hf
    have hsub := kept_points_sublist E b.get_points (List.range b.get_size) seed.center
    have hlen : extra.length ≤ b.get_size := by
      have h1 := congrArg List.length hcen
      rw [List.length_map, List.length_map] at h1
      have h2 := hsub.length_le
      rw [List.length_range] at h2
      omega
    refine ⟨seed, extra, he, hcen, hrad, hsub, ?_, ?_, ?_⟩
    · rw [he]
      simp
    · rw [he]
      simp only [List.singleton_append, List.length_cons]
      omega
    · rw [he]
      exact hch

/-- Witness of the amended C26 on `sample_child_z`. -/
theorem get_circle_pipe_skip_witness :
    ∃ seed rest, sample_pipe_z = seed :: rest ∧
      rest.map circle3d.center =
        (kept_points sample_externals sample_child_z.get_points seed.center
          (List.range sample_child_z.get_size)).map
          (fun i => sample_child_z.get_points.getD i ⟨0, 0, 0⟩) ∧
      rest.map circle3d.radius =
        (kept_points sample_externals sample_child_z.get_points seed.center
          (List.range sample_child_z.get_size)).map
          (fun i => sample_child_z.get_distances.getD i 0) ∧
      (kept_points sample_externals sample_child_z.get_points seed.center
        (List.range sample_child_z.get_size)).Sublist (List.range sample_child_z.get_size) ∧
      1 ≤ sample_pipe_z.length ∧ sample_pipe_z.length ≤ sample_child_z.get_size + 1 ∧
      sample_pipe_z.Chain'
        (fun a c => sample_externals.close_to a.center c.center = false) :=
  get_circle_pipe_skip sample_externals sample_child_z sample_pipe_z (by decide)
    sample_child_z_pipe

/-! ## Properties kept by the construction algorithms -/

theorem has_segment_mono {f g : gmsh_abstract_file} {L : List gmsh_line_loop}
    {V : List gmsh_volume} (h : grows f g L V) {id : Nat} {p1 p2 : point3d}
    (hs : has_segment f id p1 p2) : has_segment g id p1 p2 := by
  obtain ⟨s, hs, h1, h2, h3⟩ := hs
  obtain ⟨extra, he⟩ := h.segments
  exact ⟨s, by rw [he]; exact List.mem_append_left _ hs, h1, h2, h3⟩

theorem find_segment_same (l : List gmsh_segment) (s y : gmsh_segment)
    (h : l.find? (fun y => gmsh_segment.same y s) = some y) :
    y ∈ l ∧ y.point1.coords = s.point1.coords ∧ y.point2.coords = s.point2.coords := by
  refine ⟨List.mem_of_find?_eq_some h, ?_⟩
  have := List.find?_some h
  simpa [gmsh_segment.same, gmsh_point.same] using this

/-- After `add_segment s` the catalog stores a segment with the returned identifier and
the end points of `s`. -/
theorem has_segment_add_segment (f : gmsh_abstract_file) (s : gmsh_segment) :
    has_segment (f.add_segment s).2 (f.add_segment s).1 s.point1.coords s.point2.coords := by
  rcases f.add_segment_cases s with ⟨y, h1, h2⟩ | ⟨_, h2⟩
  · obtain ⟨hy, hc1, hc2⟩ := find_segment_same _ _ _ h1
    rw [h2]
    exact ⟨y, hy, rfl, hc1, hc2⟩
  · rw [h2]
    exact ⟨_, List.mem_append_right _ (List.mem_singleton_self _), rfl, rfl, rfl⟩

theorem stable_foldl {α β : Type} (P : gmsh_abstract_file → Prop)
    (step : β × gmsh_abstract_file → α → β × gmsh_abstract_file)
    (hstep : ∀ acc x, P acc.2 → P (step acc x).2) (l : List α) :
    ∀ (b : β) (f : gmsh_abstract_file), P f → P (l.foldl step (b, f)).2 := by
  induction l with
  | nil => intro b f h; exact h
  | cons x l ih => intro b f h; exact ih _ _ (hstep (b, f) x h)

theorem stable_add_points {P : gmsh_abstract_file → Prop} (hP : stable P)
    (ps : List gmsh_point) : ∀ f, P f → P (f.add_points ps) := by
  induction ps with
  | nil => intro f h; exact h
  | cons p ps ih => intro f h; exact ih _ (hP.point f p h)

theorem stable_sphere_z {P : gmsh_abstract_file → Prop} (hP : stable P)
    (center x y : gmsh_point) (xy : Nat) (acc : List Nat × gmsh_abstract_file)
    (z : gmsh_point) (h : P acc.2) : P (sphere_z_step center x y xy acc z).2 :=
  hP.line_loop _ _ (hP.circle _ _ (hP.circle _ _ h))

theorem stable_sphere_y {P : gmsh_abstract_file → Prop} (hP : stable P)
    (center x : gmsh_point) (zs : List gmsh_point) (acc : List Nat × gmsh_abstract_file)
    (y : gmsh_point) (h : P acc.2) : P (sphere_y_step center x zs acc y).2 :=
  stable_foldl P (sphere_z_step center x y _)
    (fun a z ha => stable_sphere_z hP center x y _ a z ha) zs acc.1 _ (hP.circle acc.2 _ h)

theorem stable_sphere_x {P : gmsh_abstract_file → Prop} (hP : stable P)
    (center : gmsh_point) (ys zs : List gmsh_point) (acc : List Nat × gmsh_abstract_file)
    (x : gmsh_point) (h : P acc.2) : P (sphere_x_step center ys zs acc x).2 :=
  stable_foldl P (sphere_y_step center x zs)
    (fun a y ha => stable_sphere_y hP center x zs a y ha) ys acc.1 acc.2 h

theorem stable_sphere {P : gmsh_abstract_file → Prop} (hP : stable P) (E : externals)
    (f : gmsh_abstract_file) (sphere : sphere3d) (h : P f) :
    P (create_gmsh_sphere E f sphere) :=
  hP.volume _ _ (stable_foldl P
    (sphere_x_step (gmsh_point.make sphere.center E.default_diameter)
      (sphere_points E sphere).2.1 (sphere_points E sphere).2.2)
    (fun a x ha => stable_sphere_x hP _ _ _ a x ha) (sphere_points E sphere).1 [] f h)

theorem stable_circle {P : gmsh_abstract_file → Prop} (hP : stable P) (E : externals)
    (f : gmsh_abstract_file) (c : circle3d)
    (r : gmsh_point × array4 gmsh_point × List Nat × gmsh_abstract_file)
    (hr : create_gmsh_circle E f c = Except.ok r) (h : P f) : P r.2.2.2 := by
  unfold create_gmsh_circle at hr
  cases hc : check_points_on_circle E c.radius (gmsh_point.make c.center E.default_diameter)
      (circle_points E c) with
  | error e => simp [hc, bind, Except.bind] at hr
  | ok u =>
    simp only [hc, bind, Except.bind, pure, Except.pure] at hr
    rw [← Except.ok.inj hr]
    exact stable_foldl P
      (circle_arc_step (gmsh_point.make c.center E.default_diameter) (circle_points E c))
      (fun a i ha => hP.circle a.2 _ ha) [0, 1, 2, 3] [] _
      (stable_add_points hP _ _ (hP.point _ _ h))

theorem stable_disk {P : gmsh_abstract_file → Prop} (hP : stable P) (E : externals)
    (f : gmsh_abstract_file) (c : circle3d) (surface : Bool)
    (r : List Nat × array4 gmsh_point × List Nat × gmsh_abstract_file)
    (hr : create_gmsh_disk E f c surface = Except.ok r) (h : P f) : P r.2.2.2 := by
  unfold create_gmsh_disk at hr
  cases hc : create_gmsh_circle E f c with
  | error e => simp [hc, bind, Except.bind] at hr
  | ok rc =>
    have h1 := stable_circle hP E f c rc hc h
    obtain ⟨center, pts, arcs, g⟩ := rc
    have h2 : P (pts.toList.foldl (disk_spoke_step E center) ([], g)).2 :=
      stable_foldl P (disk_spoke_step E center) (fun a p ha => hP.segment a.2 _ ha)
        pts.toList [] g h1
    cases surface with
    | false =>
      simp only [hc, bind, Except.bind, pure, Except.pure] at hr
      rw [← Except.ok.inj hr]
      exact h2
    | true =>
      simp only [hc, bind, Except.bind, pure, Except.pure] at hr
      rw [← Except.ok.inj hr]
      exact stable_foldl P
        (disk_cap_step arcs (pts.toList.foldl (disk_spoke_step E center) ([], g)).1)
        (fun a i ha => hP.line_loop a.2 _ ha) [0, 1, 2, 3] [] _ h2

theorem stable_pipe_surfaces {P : gmsh_abstract_file → Prop} (hP : stable P) (E : externals)
    (f : gmsh_abstract_file) (d1 : array4 gmsh_point) (arc1 : List Nat)
    (d2 : array4 gmsh_point) (arc2 : List Nat) (h : P f) :
    P (create_gmsh_pipe_surfaces E f d1 arc1 d2 arc2).2 :=
  stable_foldl P (pipe_surface_step E d1 arc1 d2 arc2)
    (fun a _ ha => hP.line_loop _ _ (hP.segment _ _ (hP.segment a.2 _ ha))) [0, 1, 2, 3] [] f h

theorem stable_bounding_box {P : gmsh_abstract_file → Prop} (hP : stable P) (E : externals)
    (f : gmsh_abstract_file) (h : P f) : P (f.add_bounding_box E) :=
  run_ops_induction E P hP.point hP.segment hP.circle hP.line_loop hP.volume
    [catalog_op.add_bounding_box] f h

theorem well_formed_stable : stable well_formed :=
  ⟨well_formed_add_point, well_formed_add_segment, well_formed_add_circle,
    well_formed_add_line_loop, well_formed_add_volume⟩

theorem keyed_lines_stable : stable keyed_lines := by
  refine ⟨?_, ?_, ?_, ?_, ?_⟩
  · intro f p h
    exact ⟨h.segment_keys, h.circle_keys⟩
  · intro f s h
    rcases f.add_segment_cases s with ⟨y, _, h2⟩ | ⟨h1, h2⟩
    · rw [h2]
      exact ⟨h.segment_keys, h.circle_keys⟩
    · rw [h2]
      refine ⟨?_, h.circle_keys⟩
      show (f._segments ++ [_]).Pairwise _
      rw [List.pairwise_append]
      refine ⟨h.segment_keys, List.pairwise_singleton _ _, ?_⟩
      intro a ha b hb
      rw [List.mem_singleton.1 hb]
      have := List.find?_eq_none.1 h1 a ha
      simpa using this
  · intro f c h
    rcases f.add_circle_cases c with ⟨y, _, h2⟩ | ⟨h1, h2⟩
    · rw [h2]
      exact ⟨h.segment_keys, h.circle_keys⟩
    · rw [h2]
      refine ⟨h.segment_keys, ?_⟩
      show (f._circles ++ [_]).Pairwise _
      rw [List.pairwise_append]
      refine ⟨h.circle_keys, List.pairwise_singleton _ _, ?_⟩
      intro a ha b hb
      rw [List.mem_singleton.1 hb]
      have := List.find?_eq_none.1 h1 a ha
      simpa using this
  · intro f l h
    exact ⟨h.segment_keys, h.circle_keys⟩
  · intro f v h
    exact ⟨h.segment_keys, h.circle_keys⟩

theorem keyed_lines_empty : keyed_lines gmsh_abstract_file.empty :=
  ⟨List.Pairwise.nil, List.Pairwise.nil⟩

/-- In a keyed catalog the identifier of a segment is determined by its end points. -/
theorem has_segment_id_unique {g : gmsh_abstract_file} (hk : keyed_lines g) {n m : Nat}
    {p q : point3d} (h1 : has_segment g n p q) (h2 : has_segment g m p q) : n = m := by
  obtain ⟨a, ha, hida, hpa, hqa⟩ := h1
  obtain ⟨b, hb, hidb, hpb, hqb⟩ := h2
  by_cases hab : a = b
  · rw [← hida, ← hidb, hab]
  · have hsymm : Symmetric (fun a b : gmsh_segment => gmsh_segment.same a b = false) := by
      intro x y hxy
      simp only [gmsh_segment.same, gmsh_point.same] at hxy ⊢
      rw [← hxy]
      simp only [eq_comm]
    have := hk.segment_keys.forall hsymm ha hb hab
    simp [gmsh_segment.same, gmsh_point.same, hpa, hqa, hpb, hqb] at this

theorem filter_id_singleton {α : Type} (id : α → Nat) (l : List α)
    (hn : (l.map id).Nodup) (a : α) (ha : a ∈ l) :
    l.filter (fun x => decide (id x = id a)) = [a] := by
  induction l with
  | nil => cases ha
  | cons b l ih =>
    rw [List.map_cons, List.nodup_cons] at hn
    rcases List.mem_cons.1 ha with hab | hal
    · subst hab
      rw [List.filter_cons_of_pos (by simp)]
      congr 1
      rw [List.filter_eq_nil_iff]
      intro x hx
      have : id x ≠ id a := fun he => hn.1 (he ▸ List.mem_map_of_mem id hx)
      simpa using this
    · have hne : id b ≠ id a := fun he => hn.1 (he ▸ List.mem_map_of_mem id hal)
      rw [List.filter_cons_of_neg (by simpa using hne)]
      exact ih hn.2 hal

theorem filter_id_nil {α : Type} (id : α → Nat) (l : List α) (n : Nat)
    (hn : n ∉ l.map id) : l.filter (fun x => decide (id x = n)) = [] := by
  rw [List.filter_eq_nil_iff]
  intro x hx
  have : id x ≠ n := fun he => hn (he ▸ List.mem_map_of_mem id hx)
  simpa using this

theorem well_formed_line_ids (g : gmsh_abstract_file) (hw : well_formed g) :
    (g._segments.map gmsh_segment.id).Nodup ∧ (g._circles.map gmsh_circle.id).Nodup ∧
    (∀ n ∈ g._segments.map gmsh_segment.id, n ∉ g._circles.map gmsh_circle.id) ∧
    (∀ n ∈ line_ids g, 1 ≤ n) := by
  have hl : (line_ids g).Nodup := hw.line_perm.nodup_iff.2 (List.nodup_range' _ _)
  have hge : ∀ n ∈ line_ids g, 1 ≤ n := by
    intro n hn
    have := hw.line_perm.mem_iff.1 hn
    rw [List.mem_range'_1] at this
    exact this.1
  unfold line_ids at hl
  rw [List.nodup_append, List.nodup_append] at hl
  refine ⟨hl.1.1, hl.1.2.1, ?_, hge⟩
  intro n hs hc
  exact hl.1.2.2 hs hc

/-- In a well-formed catalog a reference to a stored arc resolves to its end points,
and the reversed reference to the exchanged end points. -/
theorem signed_ends_arc {g : gmsh_abstract_file} (hw : well_formed g) {n : Nat}
    {c p q : point3d} (h : has_arc g n c p q) :
    signed_ends g (n : Int) = some (p, q) ∧ signed_ends g (-(n : Int)) = some (q, p) := by
  obtain ⟨hs, hc, hd, hge⟩ := well_formed_line_ids g hw
  obtain ⟨a, ha, hid, _, hp, hq⟩ := h
  have hmem : n ∈ g._circles.map gmsh_circle.id := hid ▸ List.mem_map_of_mem _ ha
  have h1 : 1 ≤ n := hge n (by
    unfold line_ids
    exact List.mem_append_left _ (List.mem_append_right _ hmem))
  have hends : line_ends g n = [(p, q)] := by
    unfold line_ends
    rw [filter_id_nil gmsh_segment.id _ n (fun hx => hd n hx hmem), ← hid,
      filter_id_singleton gmsh_circle.id _ hc a ha]
    simp [hp, hq]
  constructor
  · unfold signed_ends
    rw [Int.natAbs_ofNat, hends]
    simp
  · unfold signed_ends
    rw [Int.natAbs_neg, Int.natAbs_ofNat, hends]
    have : -(n : Int) < 0 := by omega
    simp [this]

/-- In a well-formed catalog a reference to a stored segment resolves to its end
points, and the reversed reference to the exchanged end points. -/
theorem signed_ends_segment {g : gmsh_abstract_file} (hw : well_formed g) {n : Nat}
    {p q : point3d} (h : has_segment g n p q) :
    signed_ends g (n : Int) = some (p, q) ∧ signed_ends g (-(n : Int)) = some (q, p) := by
  obtain ⟨hs, hc, hd, hge⟩ := well_formed_line_ids g hw
  obtain ⟨a, ha, hid, hp, hq⟩ := h
  have hmem : n ∈ g._segments.map gmsh_segment.id := hid ▸ List.mem_map_of_mem _ ha
  have h1 : 1 ≤ n := hge n (by
    unfold line_ids
    exact List.mem_append_left _ (List.mem_append_left _ hmem))
  have hends : line_ends g n = [(p, q)] := by
    unfold line_ends
    rw [filter_id_nil gmsh_circle.id _ n (hd n hmem), ← hid,
      filter_id_singleton gmsh_segment.id _ hs a ha]
    simp [hp, hq]
  constructor
  · unfold signed_ends
    rw [Int.natAbs_ofNat, hends]
    simp
  · unfold signed_ends
    rw [Int.natAbs_neg, Int.natAbs_ofNat, hends]
    have : -(n : Int) < 0 := by omega
    simp [this]

/-! ## Disks and lateral surfaces, with their segments -/

theorem forall₂_has_arc_mono {f g : gmsh_abstract_file} {L : List gmsh_line_loop}
    {V : List gmsh_volume} (h : grows f g L V) {c : point3d} {pts : array4 gmsh_point}
    {ids is : List Nat}
    (ha : List.Forall₂ (fun id i => has_arc f id c (pts.get i).coords
      (pts.get (next_id i)).coords) ids is) :
    List.Forall₂ (fun id i => has_arc g id c (pts.get i).coords
      (pts.get (next_id i)).coords) ids is :=
  ha.imp (fun _ _ hx => has_arc_mono h hx)

/-- What `create_gmsh_circle` does when the boundary points pass the check: the arc of
index i goes from boundary point i to boundary point `next_id i`. -/
theorem create_gmsh_circle_full (E : externals) (f : gmsh_abstract_file) (c : circle3d)
    (h : circle_ok E c) :
    ∃ (arcs : List Nat) (g : gmsh_abstract_file),
      create_gmsh_circle E f c =
        Except.ok (gmsh_point.make c.center E.default_diameter, circle_points E c, arcs, g) ∧
      grows f g [] [] ∧
      List.Forall₂ (fun id i => has_arc g id c.center ((circle_points E c).get i).coords
        ((circle_points E c).get (next_id i)).coords) arcs [0, 1, 2, 3] := by
  have e1 := grows_add_point f (gmsh_point.make c.center E.default_diameter)
  have e2 := grows_add_points (circle_points E c).toList
    (f.add_point (gmsh_point.make c.center E.default_diameter)).2
  obtain ⟨ids, hids, hg, hall⟩ := circle_arc_fold
    (gmsh_point.make c.center E.default_diameter) (circle_points E c) [0, 1, 2, 3]
    ([], ((f.add_point (gmsh_point.make c.center E.default_diameter)).2.add_points
      (circle_points E c).toList))
  refine ⟨ids, ([0, 1, 2, 3].foldl
    (circle_arc_step (gmsh_point.make c.center E.default_diameter) (circle_points E c))
    ([], ((f.add_point (gmsh_point.make c.center E.default_diameter)).2.add_points
      (circle_points E c).toList))).2, ?_,
    by simpa using grows_trans (grows_trans e1 e2) hg, hall⟩
  unfold circle_ok at h
  unfold create_gmsh_circle
  simp only [h, bind, Except.bind, pure, Except.pure]
  simp only [List.nil_append] at hids
  rw [← hids]

/-- The spoke loop of `create_gmsh_disk`: one segment from each boundary point to the
centre. -/
theorem disk_spoke_fold_full (E : externals) (center : gmsh_point) (ps : List gmsh_point)
    (acc : List Nat × gmsh_abstract_file) :
    ∃ ids, (ps.foldl (disk_spoke_step E center) acc).1 = acc.1 ++ ids ∧
      grows acc.2 (ps.foldl (disk_spoke_step E center) acc).2 [] [] ∧
      List.Forall₂ (fun id p => has_segment (ps.foldl (disk_spoke_step E center) acc).2 id
        p.coords center.coords) ids ps := by
  induction ps generalizing acc with
  | nil => exact ⟨[], by simp, grows_refl _, by simp⟩
  | cons p ps ih =>
    rw [List.foldl_cons]
    have e1 := grows_add_segment acc.2
      { gmsh_segment.make E p center with isPhysical := true }
    have a1 := has_segment_add_segment acc.2
      { gmsh_segment.make E p center with isPhysical := true }
    obtain ⟨ids, hids, hg, hall⟩ := ih (disk_spoke_step E center acc p)
    refine ⟨(acc.2.add_segment
      { gmsh_segment.make E p center with isPhysical := true }).1 :: ids, ?_, ?_, ?_⟩
    · rw [hids]
      simp [disk_spoke_step]
    · simpa using grows_trans e1 hg
    · exact List.Forall₂.cons (has_segment_mono hg a1) hall

/-- What `create_gmsh_disk` does when the boundary points pass the check. -/
theorem create_gmsh_disk_full (E : externals) (f : gmsh_abstract_file) (c : circle3d)
    (surface : Bool) (h : circle_ok E c) :
    ∃ (arcs spokes : List Nat) (g : gmsh_abstract_file) (L : List gmsh_line_loop),
      create_gmsh_disk E f c surface =
        Except.ok (L.map gmsh_line_loop.id, circle_points E c, arcs, g) ∧
      grows f g L [] ∧
      List.Forall₂ (fun id i => has_arc g id c.center ((circle_points E c).get i).coords
        ((circle_points E c).get (next_id i)).coords) arcs [0, 1, 2, 3] ∧
      List.Forall₂ (fun id p => has_segment g id p.coords c.center) spokes
        (circle_points E c).toList ∧
      (surface = false → L = []) ∧
      (surface = true → List.Forall₂ (fun l i => l.isRuled = true ∧ l.isPhysical = true ∧
        l.ids = [(arcs.getD i 0 : Int), (spokes.getD (next_id i) 0 : Int),
          -(spokes.getD i 0 : Int)]) L [0, 1, 2, 3]) := by
  obtain ⟨arcs, g1, hc, hg1, harc⟩ := create_gmsh_circle_full E f c h
  obtain ⟨spokes, hsp1, hsp, hspokes⟩ := disk_spoke_fold_full E
    (gmsh_point.make c.center E.default_diameter) (circle_points E c).toList ([], g1)
  simp only [List.nil_append] at hsp1
  cases surface with
  | false =>
    refine ⟨arcs, spokes, _, [], ?_, by simpa using grows_trans hg1 hsp,
      forall₂_has_arc_mono hsp harc, hspokes, fun _ => rfl, fun hx => Bool.noConfusion hx⟩
    unfold create_gmsh_disk
    rw [hc]
    rfl
  | true =>
    obtain ⟨L, hids, hgc, hall⟩ := disk_cap_fold arcs
      ((circle_points E c).toList.foldl
        (disk_spoke_step E (gmsh_point.make c.center E.default_diameter)) ([], g1)).1
      [0, 1, 2, 3]
      ([], ((circle_points E c).toList.foldl
        (disk_spoke_step E (gmsh_point.make c.center E.default_diameter)) ([], g1)).2)
    refine ⟨arcs, spokes, ([0, 1, 2, 3].foldl (disk_cap_step arcs
        ((circle_points E c).toList.foldl
          (disk_spoke_step E (gmsh_point.make c.center E.default_diameter)) ([], g1)).1)
        ([], ((circle_points E c).toList.foldl
          (disk_spoke_step E (gmsh_point.make c.center E.default_diameter))
          ([], g1)).2)).2, L, ?_, by simpa using grows_trans (grows_trans hg1 hsp) hgc,
      forall₂_has_arc_mono (grows_trans hsp hgc) harc,
      hspokes.imp (fun _ _ hx => has_segment_mono hgc hx),
      fun hx => Bool.noConfusion hx, fun _ => ?_⟩
    · unfold create_gmsh_disk
      rw [hc]
      simp only [List.nil_append] at hids
      rw [← hids]
      rfl
    · rw [← hsp1]
      exact hall

theorem forall₂_four {α β : Type} {R : α → β → Prop} {l : List α} {x0 x1 x2 x3 : β}
    (h : List.Forall₂ R l [x0, x1, x2, x3]) :
    ∃ a b c d, l = [a, b, c, d] ∧ R a x0 ∧ R b x1 ∧ R c x2 ∧ R d x3 := by
  obtain ⟨a, l1, ha, h1, rfl⟩ := List.forall₂_cons_right_iff.1 h
  obtain ⟨b, l2, hb, h2, rfl⟩ := List.forall₂_cons_right_iff.1 h1
  obtain ⟨c, l3, hc, h3, rfl⟩ := List.forall₂_cons_right_iff.1 h2
  obtain ⟨d, l4, hd, h4, rfl⟩ := List.forall₂_cons_right_iff.1 h3
  rw [List.forall₂_nil_right_iff.1 h4]
  exact ⟨a, b, c, d, rfl, ha, hb, hc, hd⟩

theorem next_id_mod (i : Nat) (h : i < 4) : next_id i = (i + 1) % 4 := by
  unfold next_id
  interval_cases i <;> rfl

/-- C27: disk construction.  For every catalog and every cross-section on which the
circle construction succeeds, `create_gmsh_disk` returns the four boundary points and
four arc identifiers, arc i going from boundary point i to boundary point (i+1) mod 4
around the centre, and stores the four spoke segments, spoke i going from boundary point
i to the centre.  When capping is not requested it returns the empty list and adds no
loop; when capping is requested it adds exactly four loops and returns their
identifiers, loop i being [arc_i, spoke_((i+1) mod 4), -spoke_i], ruled and physical. -/
theorem create_gmsh_disk_loops (E : externals) (f : gmsh_abstract_file) (c : circle3d)
    (surface : Bool) (h : circle_ok E c) :
    ∃ (arcs spokes : List Nat) (g : gmsh_abstract_file) (L : List gmsh_line_loop),
      create_gmsh_disk E f c surface =
        Except.ok (L.map gmsh_line_loop.id, circle_points E c, arcs, g) ∧
      g._line_loop = f._line_loop ++ L ∧
      arcs.length = 4 ∧ spokes.length = 4 ∧
      (∀ i, i < 4 →
        has_arc g (arcs.getD i 0) c.center ((circle_points E c).get i).coords
          ((circle_points E c).get ((i + 1) % 4)).coords ∧
        has_segment g (spokes.getD i 0) ((circle_points E c).get i).coords c.center) ∧
      (surface = false → L = []) ∧
      (surface = true → L.length = 4 ∧ ∀ i, i < 4 →
        (L.map gmsh_line_loop.isRuled).getD i false = true ∧
        (L.map gmsh_line_loop.isPhysical).getD i false = true ∧
        (L.map gmsh_line_loop.ids).getD i [] =
          [(arcs.getD i 0 : Int), (spokes.getD ((i + 1) % 4) 0 : Int),
            -(spokes.getD i 0 : Int)]) := by
  obtain ⟨arcs, spokes, g, L, hc, hg, harcs, hspokes, hno, hcap⟩ :=
    create_gmsh_disk_full E f c surface h
  obtain ⟨a0, a1, a2, a3, rfl, ha0, ha1, ha2, ha3⟩ := forall₂_four harcs
  obtain ⟨s0, s1, s2, s3, rfl, hs0, hs1, hs2, hs3⟩ := forall₂_four hspokes
  refine ⟨[a0, a1, a2, a3], [s0, s1, s2, s3], g, L, hc, hg.loops, rfl, rfl, ?_, hno, ?_⟩
  · intro i hi
    interval_cases i
    · exact ⟨ha0, hs0⟩
    · exact ⟨ha1, hs1⟩
    · exact ⟨ha2, hs2⟩
    · exact ⟨ha3, hs3⟩
  · intro hs
    obtain ⟨l0, l1, l2, l3, rfl, hl0, hl1, hl2, hl3⟩ := forall₂_four (hcap hs)
    refine ⟨rfl, ?_⟩
    intro i hi
    interval_cases i
    · exact ⟨hl0.1, hl0.2.1, hl0.2.2⟩
    · exact ⟨hl1.1, hl1.2.1, hl1.2.2⟩
    · exact ⟨hl2.1, hl2.2.1, hl2.2.2⟩
    · exact ⟨hl3.1, hl3.2.1, hl3.2.2⟩

/-- Witness of C27 on the cross-section of centre (0, 0, 0), radius 1 and axis
(0, 0, -1), with capping, on the empty catalog. -/
theorem create_gmsh_disk_loops_witness :
    circle_ok sample_externals ⟨⟨0, 0, 0⟩, 1, ⟨0, 0, -1⟩⟩ ∧
    ∃ (arcs spokes : List Nat) (g : gmsh_abstract_file) (L : List gmsh_line_loop),
      create_gmsh_disk sample_externals gmsh_abstract_file.empty
          ⟨⟨0, 0, 0⟩, 1, ⟨0, 0, -1⟩⟩ true =
        Except.ok (L.map gmsh_line_loop.id,
          circle_points sample_externals ⟨⟨0, 0, 0⟩, 1, ⟨0, 0, -1⟩⟩, arcs, g) ∧
      g._line_loop = L ∧ L.length = 4 ∧
      (L.map gmsh_line_loop.ids).getD 3 [] =
        [(arcs.getD 3 0 : Int), (spokes.getD 0 0 : Int), -(spokes.getD 3 0 : Int)] := by
  have hok : circle_ok sample_externals ⟨⟨0, 0, 0⟩, 1, ⟨0, 0, -1⟩⟩ :=
    sample_circles_ok _ (List.mem_cons_self _ _)
  obtain ⟨arcs, spokes, g, L, hc, hl, _, _, _, _, hcap⟩ :=
    create_gmsh_disk_loops sample_externals gmsh_abstract_file.empty
      ⟨⟨0, 0, 0⟩, 1, ⟨0, 0, -1⟩⟩ true hok
  exact ⟨hok, arcs, spokes, g, L, hc, hl, (hcap rfl).1, ((hcap rfl).2 3 (by decide)).2.2⟩

/-- One iteration of the loop of `create_gmsh_pipe_surfaces`, with the two longitudinal
segments it stores. -/
theorem pipe_surface_step_full (E : externals) (d1 : array4 gmsh_point) (arc1 : List Nat)
    (d2 : array4 gmsh_point) (arc2 : List Nat) (acc : List Nat × gmsh_abstract_file)
    (i : Nat) :
    ∃ (l : gmsh_line_loop) (line2 line1 : Nat),
      grows acc.2 (pipe_surface_step E d1 arc1 d2 arc2 acc i).2 [l] [] ∧
      (pipe_surface_step E d1 arc1 d2 arc2 acc i).1 = acc.1 ++ [l.id] ∧
      l.isRuled = true ∧ l.isPhysical = true ∧
      l.ids = [(arc1.getD i 0 : Int), (line2 : Int), -(arc2.getD i 0 : Int),
        -(line1 : Int)] ∧
      has_segment (pipe_surface_step E d1 arc1 d2 arc2 acc i).2 line1
        (d1.get i).coords (d2.get i).coords ∧
      has_segment (pipe_surface_step E d1 arc1 d2 arc2 acc i).2 line2
        (d1.get (next_id i)).coords (d2.get (next_id i)).coords := by
  have e2 := grows_add_segment
    (acc.2.add_segment { gmsh_segment.make E (d1.get i) (d2.get i) with
      isPhysical := true }).2
    { gmsh_segment.make E (d1.get (next_id i)) (d2.get (next_id i)) with isPhysical := true }
  have e3 := grows_add_line_loop
    ((acc.2.add_segment { gmsh_segment.make E (d1.get i) (d2.get i) with
      isPhysical := true }).2.add_segment
      { gmsh_segment.make E (d1.get (next_id i)) (d2.get (next_id i)) with
        isPhysical := true }).2
    { gmsh_line_loop.make [(arc1.getD i 0 : Int),
        (((acc.2.add_segment { gmsh_segment.make E (d1.get i) (d2.get i) with
          isPhysical := true }).2.add_segment
          { gmsh_segment.make E (d1.get (next_id i)) (d2.get (next_id i)) with
            isPhysical := true }).1 : Int),
        -(arc2.getD i 0 : Int),
        -((acc.2.add_segment { gmsh_segment.make E (d1.get i) (d2.get i) with
          isPhysical := true }).1 : Int)] with isPhysical := true, isRuled := true }
  have s1 := has_segment_add_segment acc.2
    { gmsh_segment.make E (d1.get i) (d2.get i) with isPhysical := true }
  have s2 := has_segment_add_segment
    (acc.2.add_segment { gmsh_segment.make E (d1.get i) (d2.get i) with
      isPhysical := true }).2
    { gmsh_segment.make E (d1.get (next_id i)) (d2.get (next_id i)) with isPhysical := true }
  have e1 := grows_add_segment acc.2
    { gmsh_segment.make E (d1.get i) (d2.get i) with isPhysical := true }
  have hid : (pipe_surface_step E d1 arc1 d2 arc2 acc i).1 = acc.1 ++
      [((acc.2.add_segment { gmsh_segment.make E (d1.get i) (d2.get i) with
        isPhysical := true }).2.add_segment
        { gmsh_segment.make E (d1.get (next_id i)) (d2.get (next_id i)) with
          isPhysical := true }).2.create_id_line_element] := by
    simp only [pipe_surface_step]
    rw [gmsh_abstract_file.add_line_loop_eq]
  exact ⟨_, _, _, grows_trans (grows_trans e1 e2) e3, hid, rfl, rfl, rfl,
    has_segment_mono (grows_trans e2 e3) s1, has_segment_mono e3 s2⟩

/-- The loop of `create_gmsh_pipe_surfaces`, with the longitudinal segments stored. -/
theorem pipe_surface_fold_full (E : externals) (d1 : array4 gmsh_point) (arc1 : List Nat)
    (d2 : array4 gmsh_point) (arc2 : List Nat) (is : List Nat)
    (acc : List Nat × gmsh_abstract_file) :
    ∃ L : List gmsh_line_loop,
      (is.foldl (pipe_surface_step E d1 arc1 d2 arc2) acc).1 =
        acc.1 ++ L.map gmsh_line_loop.id ∧
      grows acc.2 (is.foldl (pipe_surface_step E d1 arc1 d2 arc2) acc).2 L [] ∧
      List.Forall₂ (fun l i => l.isRuled = true ∧ l.isPhysical = true ∧
        ∃ line2 line1 : Nat, l.ids = [(arc1.getD i 0 : Int), (line2 : Int),
          -(arc2.getD i 0 : Int), -(line1 : Int)] ∧
          has_segment (is.foldl (pipe_surface_step E d1 arc1 d2 arc2) acc).2 line1
            (d1.get i).coords (d2.get i).coords ∧
          has_segment (is.foldl (pipe_surface_step E d1 arc1 d2 arc2) acc).2 line2
            (d1.get (next_id i)).coords (d2.get (next_id i)).coords) L is := by
  induction is generalizing acc with
  | nil => exact ⟨[], by simp, grows_refl _, by simp⟩
  | cons i is ih =>
    rw [List.foldl_cons]
    obtain ⟨l, line2, line1, estep, hid, hr, hp, hl, hs1, hs2⟩ :=
      pipe_surface_step_full E d1 arc1 d2 arc2 acc i
    obtain ⟨L, hids, hg, hall⟩ := ih (pipe_surface_step E d1 arc1 d2 arc2 acc i)
    refine ⟨l :: L, ?_, by simpa using grows_trans estep hg,
      List.Forall₂.cons ⟨hr, hp, line2, line1, hl, has_segment_mono hg hs1,
        has_segment_mono hg hs2⟩ hall⟩
    rw [hids, hid]
    simp

/-- C28: lateral stitching.  For every catalog whose segment container is keyed and
every pair of four-point circles with their arc identifiers,
`create_gmsh_pipe_surfaces` adds exactly four loops and returns their identifiers; with
L_j the identifier of the stored segment from boundary point j of the near circle to
boundary point j of the far circle, loop i is [arc1_i, L_((i+1) mod 4), -arc2_i, -L_i],
ruled and physical. -/
theorem create_gmsh_pipe_surfaces_loops (E : externals) (f : gmsh_abstract_file)
    (d1 : array4 gmsh_point) (arc1 : List Nat) (d2 : array4 gmsh_point) (arc2 : List Nat)
    (hk : keyed_lines f) :
    ∃ (lines : List Nat) (L : List gmsh_line_loop),
      (create_gmsh_pipe_surfaces E f d1 arc1 d2 arc2).1 = L.map gmsh_line_loop.id ∧
      (create_gmsh_pipe_surfaces E f d1 arc1 d2 arc2).2._line_loop = f._line_loop ++ L ∧
      L.length = 4 ∧ lines.length = 4 ∧
      (∀ j, j < 4 → has_segment (create_gmsh_pipe_surfaces E f d1 arc1 d2 arc2).2
        (lines.getD j 0) (d1.get j).coords (d2.get j).coords) ∧
      ∀ i, i < 4 →
        (L.map gmsh_line_loop.isRuled).getD i false = true ∧
        (L.map gmsh_line_loop.isPhysical).getD i false = true ∧
        (L.map gmsh_line_loop.ids).getD i [] =
          [(arc1.getD i 0 : Int), (lines.getD ((i + 1) % 4) 0 : Int),
            -(arc2.getD i 0 : Int), -(lines.getD i 0 : Int)] := by
  have hkg := stable_pipe_surfaces keyed_lines_stable E f d1 arc1 d2 arc2 hk
  obtain ⟨L, hids, hg, hall⟩ := pipe_surface_fold_full E d1 arc1 d2 arc2 [0, 1, 2, 3] ([], f)
  simp only [List.nil_append] at hids
  obtain ⟨l0, l1, l2, l3, rfl, h0, h1, h2, h3⟩ := forall₂_four hall
  obtain ⟨r0, p0, a0, b0, i0, s0, t0⟩ := h0
  obtain ⟨r1, p1, a1, b1, i1, s1, t1⟩ := h1
  obtain ⟨r2, p2, a2, b2, i2, s2, t2⟩ := h2
  obtain ⟨r3, p3, a3, b3, i3, s3, t3⟩ := h3
  have e0 : a0 = b1 := has_segment_id_unique hkg t0 s1
  have e1 : a1 = b2 := has_segment_id_unique hkg t1 s2
  have e2 : a2 = b3 := has_segment_id_unique hkg t2 s3
  have e3 : a3 = b0 := has_segment_id_unique hkg t3 s0
  subst e0 e1 e2 e3
  refine ⟨[a3, a0, a1, a2], [l0, l1, l2, l3], hids, hg.loops, rfl, rfl, ?_, ?_⟩
  · intro j hj
    interval_cases j
    · exact s0
    · exact s1
    · exact s2
    · exact s3
  · intro i hi
    interval_cases i
    · exact ⟨r0, p0, i0⟩
    · exact ⟨r1, p1, i1⟩
    · exact ⟨r2, p2, i2⟩
    · exact ⟨r3, p3, i3⟩

/-- Witness of C28 on the empty catalog and the boundary points of the two
cross-sections of `sample_circles`. -/
theorem create_gmsh_pipe_surfaces_loops_witness :
    keyed_lines gmsh_abstract_file.empty ∧
    ∃ (lines : List Nat) (L : List gmsh_line_loop),
      (create_gmsh_pipe_surfaces sample_externals gmsh_abstract_file.empty
        (circle_points sample_externals ⟨⟨0, 0, 0⟩, 1, ⟨0, 0, -1⟩⟩) [1, 2, 3, 4]
        (circle_points sample_externals ⟨⟨0, 0, 1⟩, 1 / 2, ⟨0, 0, 2⟩⟩) [5, 6, 7, 8]).1 =
        L.map gmsh_line_loop.id ∧
      L.length = 4 ∧ lines.length = 4 ∧
      (L.map gmsh_line_loop.ids).getD 3 [] =
        [(4 : Int), (lines.getD 0 0 : Int), -(8 : Int), -(lines.getD 3 0 : Int)] := by
  obtain ⟨lines, L, h1, _, h3, h4, _, h6⟩ :=
    create_gmsh_pipe_surfaces_loops sample_externals gmsh_abstract_file.empty
      (circle_points sample_externals ⟨⟨0, 0, 0⟩, 1, ⟨0, 0, -1⟩⟩) [1, 2, 3, 4]
      (circle_points sample_externals ⟨⟨0, 0, 1⟩, 1 / 2, ⟨0, 0, 2⟩⟩) [5, 6, 7, 8]
      keyed_lines_empty
  exact ⟨keyed_lines_empty, lines, L, h1, h3, h4, (h6 3 (by decide)).2.2⟩

theorem forall₂_eight {α β : Type} {R : α → β → Prop} {l : List α}
    {x0 x1 x2 x3 x4 x5 x6 x7 : β}
    (h : List.Forall₂ R l [x0, x1, x2, x3, x4, x5, x6, x7]) :
    ∃ a0 a1 a2 a3 a4 a5 a6 a7, l = [a0, a1, a2, a3, a4, a5, a6, a7] ∧
      R a0 x0 ∧ R a1 x1 ∧ R a2 x2 ∧ R a3 x3 ∧ R a4 x4 ∧ R a5 x5 ∧ R a6 x6 ∧ R a7 x7 := by
  obtain ⟨a0, l0, h0, t0, rfl⟩ := List.forall₂_cons_right_iff.1 h
  obtain ⟨a1, l1, h1, t1, rfl⟩ := List.forall₂_cons_right_iff.1 t0
  obtain ⟨a2, l2, h2, t2, rfl⟩ := List.forall₂_cons_right_iff.1 t1
  obtain ⟨a3, l3, h3, t3, rfl⟩ := List.forall₂_cons_right_iff.1 t2
  obtain ⟨a4, l4, h4, t4, rfl⟩ := List.forall₂_cons_right_iff.1 t3
  obtain ⟨a5, l5, h5, t5, rfl⟩ := List.forall₂_cons_right_iff.1 t4
  obtain ⟨a6, l6, h6, t6, rfl⟩ := List.forall₂_cons_right_iff.1 t5
  obtain ⟨a7, l7, h7, t7, rfl⟩ := List.forall₂_cons_right_iff.1 t6
  rw [List.forall₂_nil_right_iff.1 t7]
  exact ⟨a0, a1, a2, a3, a4, a5, a6, a7, rfl, h0, h1, h2, h3, h4, h5, h6, h7⟩

theorem log2_fuel_spec : ∀ fuel n, n ≤ fuel → 0 < n →
    2 ^ log2_fuel fuel n ≤ n ∧ n < 2 ^ (log2_fuel fuel n + 1) := by
  intro fuel
  induction fuel with
  | zero => intro n h1 h2; omega
  | succ fuel ih =>
    intro n h1 h2
    rw [log2_fuel]
    by_cases h : n < 2
    · rw [if_pos h]
      simp only [pow_zero, zero_add, pow_one]
      omega
    · rw [if_neg h]
      obtain ⟨a, b⟩ := ih (n / 2) (by omega) (by omega)
      rw [pow_succ] at b ⊢
      rw [pow_succ]
      constructor <;> omega

theorem pow2_eq (e : Int) : pow2 e = (2 : ℚ) ^ e := by
  unfold pow2
  by_cases h : 0 ≤ e
  · rw [if_pos h]
    obtain ⟨k, rfl⟩ := Int.eq_ofNat_of_zero_le h
    simp
  · rw [if_neg h]
    obtain ⟨k, hk⟩ := Int.eq_ofNat_of_zero_le (show 0 ≤ -e by omega)
    have he : e = -(k : Int) := by omega
    subst he
    simp

/-- The binary exponent of a non-zero value is at most its magnitude. -/
theorem binade_le (q : ℚ) (hq : q ≠ 0) : (2 : ℚ) ^ binade q ≤ |q| := by
  unfold binade
  simp only
  split_ifs with h
  · rw [← pow2_eq]
    exact h
  · have hn : 0 < q.num.natAbs := Int.natAbs_pos.2 (Rat.num_ne_zero.2 hq)
    have hd : 0 < q.den := q.den_pos
    obtain ⟨n1, _⟩ := log2_fuel_spec _ _ (le_refl q.num.natAbs) hn
    obtain ⟨_, d2⟩ := log2_fuel_spec _ _ (le_refl q.den) hd
    have habs : |q| = (q.num.natAbs : ℚ) / (q.den : ℚ) := by
      conv_lhs => rw [← Rat.num_div_den q]
      rw [abs_div, Nat.abs_cast, Nat.cast_natAbs, Int.cast_abs]
    rw [habs]
    have e1 : ((log2_fuel q.num.natAbs q.num.natAbs : Int) - (log2_fuel q.den q.den : Int) - 1)
        = (log2_fuel q.num.natAbs q.num.natAbs : Int) -
          ((log2_fuel q.den q.den + 1 : Nat) : Int) := by
      push_cast; ring
    rw [e1, zpow_sub₀ (by norm_num : (2 : ℚ) ≠ 0), zpow_natCast, zpow_natCast]
    have n1q : (2 : ℚ) ^ log2_fuel q.num.natAbs q.num.natAbs ≤ (q.num.natAbs : ℚ) := by
      exact_mod_cast n1
    have d2q : (q.den : ℚ) ≤ (2 : ℚ) ^ (log2_fuel q.den q.den + 1) := by
      exact_mod_cast d2.le
    have hdq : (0 : ℚ) < q.den := by exact_mod_cast hd
    exact div_le_div₀ (by positivity) n1q hdq d2q

theorem round_even_near (m : ℚ) : |(round_even m : ℚ) - m| ≤ 1 / 2 := by
  have h1 := Int.floor_le m
  have h2 := Int.lt_floor_add_one m
  unfold round_even
  simp only
  rw [abs_le]
  split_ifs <;> push_cast <;> constructor <;> linarith

/-- Rounding moves a value of magnitude below 2^58 by at most 16. -/
theorem round_double_near (q : ℚ) (hq : |q| < 288230376151711744) :
    |round_double q - q| ≤ 16 := by
  unfold round_double
  by_cases h0 : q = 0
  · rw [if_pos h0, h0]; norm_num
  · rw [if_neg h0]
    simp only
    rw [pow2_eq]
    have hb := binade_le q h0
    have he : binade q < 58 := by
      have h58 : (2 : ℚ) ^ binade q < (2 : ℚ) ^ (58 : Int) := by
        refine lt_of_le_of_lt hb (lt_of_lt_of_le hq ?_)
        norm_num
      exact (zpow_lt_zpow_iff_right₀ (by norm_num : (1 : ℚ) < 2)).1 h58
    have hu0 : (0 : ℚ) < (2 : ℚ) ^ (binade q - 52) := by positivity
    have hu : (2 : ℚ) ^ (binade q - 52) ≤ 32 := by
      have : (2 : ℚ) ^ (binade q - 52) ≤ (2 : ℚ) ^ (5 : Int) :=
        zpow_le_zpow_right₀ (by norm_num) (by omega)
      refine le_trans this ?_
      norm_num
    have hr := round_even_near (q / (2 : ℚ) ^ (binade q - 52))
    have hrw : (round_even (q / (2 : ℚ) ^ (binade q - 52)) : ℚ) * (2 : ℚ) ^ (binade q - 52) - q
        = ((round_even (q / (2 : ℚ) ^ (binade q - 52)) : ℚ) - q / (2 : ℚ) ^ (binade q - 52))
          * (2 : ℚ) ^ (binade q - 52) := by
      field_simp
    rw [hrw, abs_mul, abs_of_pos hu0]
    calc |(round_even (q / (2 : ℚ) ^ (binade q - 52)) : ℚ) - q / (2 : ℚ) ^ (binade q - 52)|
          * (2 : ℚ) ^ (binade q - 52) ≤ 1 / 2 * 32 := by
            exact mul_le_mul hr hu hu0.le (by norm_num)
      _ = 16 := by norm_num

/-- The margin 20 subtracted from or added to a value of magnitude at most 2^57 and
rounded moves the value by at least 4 and at most 36. -/
theorem round_double_margin (v : ℚ) (hv : |v| ≤ margin_safe_bound) :
    (v - 36 ≤ round_double (v - 20) ∧ round_double (v - 20) ≤ v - 4) ∧
    (v + 4 ≤ round_double (v + 20) ∧ round_double (v + 20) ≤ v + 36) := by
  unfold margin_safe_bound at hv
  obtain ⟨v1, v2⟩ := abs_le.1 hv
  have h1 := abs_le.1 (round_double_near (v - 20) (by rw [abs_lt]; constructor <;> linarith))
  have h2 := abs_le.1 (round_double_near (v + 20) (by rw [abs_lt]; constructor <;> linarith))
  refine ⟨⟨?_, ?_⟩, ⟨?_, ?_⟩⟩ <;> linarith [h1.1, h1.2, h2.1, h2.2]

/-! ### The extents -/

/-- One iteration of the extent loop lowers each minimum to at most the cleaned
coordinate and raises each maximum to at least it. -/
theorem bounding_box_step_bounds (E : externals) (acc : point3d × point3d) (p : gmsh_point) :
    ((bounding_box_step E acc p).1.x ≤ acc.1.x ∧
      (bounding_box_step E acc p).1.x ≤ clean_coordinate E p.coords.x ∧
      acc.2.x ≤ (bounding_box_step E acc p).2.x ∧
      clean_coordinate E p.coords.x ≤ (bounding_box_step E acc p).2.x) ∧
    ((bounding_box_step E acc p).1.y ≤ acc.1.y ∧
      (bounding_box_step E acc p).1.y ≤ clean_coordinate E p.coords.y ∧
      acc.2.y ≤ (bounding_box_step E acc p).2.y ∧
      clean_coordinate E p.coords.y ≤ (bounding_box_step E acc p).2.y) ∧
    ((bounding_box_step E acc p).1.z ≤ acc.1.z ∧
      (bounding_box_step E acc p).1.z ≤ clean_coordinate E p.coords.z ∧
      acc.2.z ≤ (bounding_box_step E acc p).2.z ∧
      clean_coordinate E p.coords.z ≤ (bounding_box_step E acc p).2.z) := by
  have hx1 : (bounding_box_step E acc p).1.x =
      if clean_coordinate E p.coords.x < acc.1.x then clean_coordinate E p.coords.x
      else acc.1.x := by
    simp only [bounding_box_step]
    split_ifs <;> rfl
  have hx2 : (bounding_box_step E acc p).2.x =
      if clean_coordinate E p.coords.x > acc.2.x then clean_coordinate E p.coords.x
      else acc.2.x := by
    simp only [bounding_box_step]
    split_ifs <;> rfl
  have hy1 : (bounding_box_step E acc p).1.y =
      if clean_coordinate E p.coords.y < acc.1.y then clean_coordinate E p.coords.y
      else acc.1.y := by
    simp only [bounding_box_step]
    split_ifs <;> rfl
  have hy2 : (bounding_box_step E acc p).2.y =
      if clean_coordinate E p.coords.y > acc.2.y then clean_coordinate E p.coords.y
      else acc.2.y := by
    simp only [bounding_box_step]
    split_ifs <;> rfl
  have hz1 : (bounding_box_step E acc p).1.z =
      if clean_coordinate E p.coords.z < acc.1.z then clean_coordinate E p.coords.z
      else acc.1.z := by
    simp only [bounding_box_step]
    split_ifs <;> rfl
  have hz2 : (bounding_box_step E acc p).2.z =
      if clean_coordinate E p.coords.z > acc.2.z then clean_coordinate E p.coords.z
      else acc.2.z := by
    simp only [bounding_box_step]
    split_ifs <;> rfl
  rw [hx1, hx2, hy1, hy2, hz1, hz2]
  refine ⟨⟨?_, ?_, ?_, ?_⟩, ⟨?_, ?_, ?_, ?_⟩, ⟨?_, ?_, ?_, ?_⟩⟩ <;> split_ifs <;> linarith

theorem bounding_box_fold_bounds (E : externals) (l : List gmsh_point) :
    ∀ acc : point3d × point3d,
      ((l.foldl (bounding_box_step E) acc).1.x ≤ acc.1.x ∧
        acc.2.x ≤ (l.foldl (bounding_box_step E) acc).2.x ∧
        (l.foldl (bounding_box_step E) acc).1.y ≤ acc.1.y ∧
        acc.2.y ≤ (l.foldl (bounding_box_step E) acc).2.y ∧
        (l.foldl (bounding_box_step E) acc).1.z ≤ acc.1.z ∧
        acc.2.z ≤ (l.foldl (bounding_box_step E) acc).2.z) ∧
      ∀ p ∈ l,
        (l.foldl (bounding_box_step E) acc).1.x ≤ clean_coordinate E p.coords.x ∧
        clean_coordinate E p.coords.x ≤ (l.foldl (bounding_box_step E) acc).2.x ∧
        (l.foldl (bounding_box_step E) acc).1.y ≤ clean_coordinate E p.coords.y ∧
        clean_coordinate E p.coords.y ≤ (l.foldl (bounding_box_step E) acc).2.y ∧
        (l.foldl (bounding_box_step E) acc).1.z ≤ clean_coordinate E p.coords.z ∧
        clean_coordinate E p.coords.z ≤ (l.foldl (bounding_box_step E) acc).2.z := by
  induction l with
  | nil =>
    intro acc
    exact ⟨⟨le_refl _, le_refl _, le_refl _, le_refl _, le_refl _, le_refl _⟩,
      fun p hp => absurd hp (List.not_mem_nil _)⟩
  | cons q l ih =>
    intro acc
    rw [List.foldl_cons]
    obtain ⟨⟨m1, m2, m3, m4, m5, m6⟩, hall⟩ := ih (bounding_box_step E acc q)
    obtain ⟨⟨x1, x2, x3, x4⟩, ⟨y1, y2, y3, y4⟩, ⟨z1, z2, z3, z4⟩⟩ :=
      bounding_box_step_bounds E acc q
    refine ⟨⟨by linarith, by linarith, by linarith, by linarith, by linarith, by linarith⟩, ?_⟩
    intro p hp
    rcases List.mem_cons.1 hp with hpq | hpl
    · subst hpq
      exact ⟨by linarith, by linarith, by linarith, by linarith, by linarith, by linarith⟩
    · exact hall p hpl

theorem clean_coordinate_abs (E : externals) (v : ℚ) : |clean_coordinate E v| ≤ |v| := by
  unfold clean_coordinate
  split_ifs
  · rw [abs_zero]
    exact abs_nonneg v
  · exact le_refl _

/-- One iteration of the extent loop keeps the magnitudes within a bound that holds for
the coordinates of the point. -/
theorem bounding_box_step_within (E : externals) (B : ℚ) (acc : point3d × point3d)
    (p : gmsh_point) (h1 : coords_within B acc.1) (h2 : coords_within B acc.2)
    (hp : coords_within B p.coords) :
    coords_within B (bounding_box_step E acc p).1 ∧
    coords_within B (bounding_box_step E acc p).2 := by
  have cx := le_trans (clean_coordinate_abs E p.coords.x) hp.1
  have cy := le_trans (clean_coordinate_abs E p.coords.y) hp.2.1
  have cz := le_trans (clean_coordinate_abs E p.coords.z) hp.2.2
  obtain ⟨a1, a2, a3⟩ := h1
  obtain ⟨b1, b2, b3⟩ := h2
  simp only [bounding_box_step, coords_within]
  refine ⟨⟨?_, ?_, ?_⟩, ⟨?_, ?_, ?_⟩⟩ <;> split_ifs <;> assumption

theorem bounding_box_fold_within (E : externals) (B : ℚ) (l : List gmsh_point) :
    ∀ acc : point3d × point3d, coords_within B acc.1 → coords_within B acc.2 →
      (∀ p ∈ l, coords_within B p.coords) →
      coords_within B (l.foldl (bounding_box_step E) acc).1 ∧
      coords_within B (l.foldl (bounding_box_step E) acc).2 := by
  induction l with
  | nil => intro acc h1 h2 _; exact ⟨h1, h2⟩
  | cons q l ih =>
    intro acc h1 h2 hall
    rw [List.foldl_cons]
    obtain ⟨s1, s2⟩ := bounding_box_step_within E B acc q h1 h2
      (hall q (List.mem_cons_self _ _))
    exact ih _ s1 s2 (fun p hp => hall p (List.mem_cons_of_mem _ hp))

/-- With stored coordinates of magnitude at most 2^57, each lower extent is between 36
and 4 below the minimum found by the extent loop and each upper extent between 4 and 36
above the maximum. -/
theorem bounding_box_extents_margin (E : externals) (f : gmsh_abstract_file)
    (hb : ∀ p ∈ f._points, coords_within margin_safe_bound p.coords) :
    ((f.get_all_points.foldl (bounding_box_step E)
        (⟨1000000, 1000000, 1000000⟩, ⟨-1000000, -1000000, -1000000⟩)).1.x - 36 ≤
        (bounding_box_extents E f).1.x ∧
      (bounding_box_extents E f).1.x ≤ (f.get_all_points.foldl (bounding_box_step E)
        (⟨1000000, 1000000, 1000000⟩, ⟨-1000000, -1000000, -1000000⟩)).1.x - 4 ∧
      (f.get_all_points.foldl (bounding_box_step E)
        (⟨1000000, 1000000, 1000000⟩, ⟨-1000000, -1000000, -1000000⟩)).2.x + 4 ≤
        (bounding_box_extents E f).2.x ∧
      (bounding_box_extents E f).2.x ≤ (f.get_all_points.foldl (bounding_box_step E)
        (⟨1000000, 1000000, 1000000⟩, ⟨-1000000, -1000000, -1000000⟩)).2.x + 36) ∧
    ((f.get_all_points.foldl (bounding_box_step E)
        (⟨1000000, 1000000, 1000000⟩, ⟨-1000000, -1000000, -1000000⟩)).1.y - 36 ≤
        (bounding_box_extents E f).1.y ∧
      (bounding_box_extents E f).1.y ≤ (f.get_all_points.foldl (bounding_box_step E)
        (⟨1000000, 1000000, 1000000⟩, ⟨-1000000, -1000000, -1000000⟩)).1.y - 4 ∧
      (f.get_all_points.foldl (bounding_box_step E)
        (⟨1000000, 1000000, 1000000⟩, ⟨-1000000, -1000000, -1000000⟩)).2.y + 4 ≤
        (bounding_box_extents E f).2.y ∧
      (bounding_box_extents E f).2.y ≤ (f.get_all_points.foldl (bounding_box_step E)
        (⟨1000000, 1000000, 1000000⟩, ⟨-1000000, -1000000, -1000000⟩)).2.y + 36) ∧
    ((f.get_all_points.foldl (bounding_box_step E)
        (⟨1000000, 1000000, 1000000⟩, ⟨-1000000, -1000000, -1000000⟩)).1.z - 36 ≤
        (bounding_box_extents E f).1.z ∧
      (bounding_box_extents E f).1.z ≤ (f.get_all_points.foldl (bounding_box_step E)
        (⟨1000000, 1000000, 1000000⟩, ⟨-1000000, -1000000, -1000000⟩)).1.z - 4 ∧
      (f.get_all_points.foldl (bounding_box_step E)
        (⟨1000000, 1000000, 1000000⟩, ⟨-1000000, -1000000, -1000000⟩)).2.z + 4 ≤
        (bounding_box_extents E f).2.z ∧
      (bounding_box_extents E f).2.z ≤ (f.get_all_points.foldl (bounding_box_step E)
        (⟨1000000, 1000000, 1000000⟩, ⟨-1000000, -1000000, -1000000⟩)).2.z + 36) := by
  have hinit : coords_within margin_safe_bound (⟨1000000, 1000000, 1000000⟩ : point3d) ∧
      coords_within margin_safe_bound (⟨-1000000, -1000000, -1000000⟩ : point3d) := by
    unfold coords_within margin_safe_bound
    norm_num [abs_le]
  obtain ⟨⟨m1, m2, m3⟩, ⟨M1, M2, M3⟩⟩ := bounding_box_fold_within E margin_safe_bound
    f.get_all_points (⟨1000000, 1000000, 1000000⟩, ⟨-1000000, -1000000, -1000000⟩)
    hinit.1 hinit.2 (fun p hp => hb p ((sort_by_id_perm _ _).mem_iff.1 hp))
  simp only [bounding_box_extents]
  exact ⟨⟨(round_double_margin _ m1).1.1, (round_double_margin _ m1).1.2,
      (round_double_margin _ M1).2.1, (round_double_margin _ M1).2.2⟩,
    ⟨(round_double_margin _ m2).1.1, (round_double_margin _ m2).1.2,
      (round_double_margin _ M2).2.1, (round_double_margin _ M2).2.2⟩,
    ⟨(round_double_margin _ m3).1.1, (round_double_margin _ m3).1.2,
      (round_double_margin _ M3).2.1, (round_double_margin _ M3).2.2⟩⟩

/-- A coordinate lies within 1 of its cleaned value when the values the external
comparison takes for zero are within 1 of zero. -/
theorem clean_coordinate_near (E : externals)
    (ha : ∀ v, E.almost_equal v 0 = true → -1 < v ∧ v < 1) (v : ℚ) :
    clean_coordinate E v - 1 < v ∧ v < clean_coordinate E v + 1 := by
  unfold clean_coordinate
  by_cases h : E.almost_equal v 0 = true
  · rw [if_pos h]
    have := ha v h
    constructor <;> linarith [this.1, this.2]
  · rw [if_neg h]
    constructor <;> linarith

/-- With stored coordinates of magnitude at most 2^57, every stored point lies strictly
inside the inflated extents. -/
theorem bounding_box_inside (E : externals) (f : gmsh_abstract_file)
    (ha : ∀ v, E.almost_equal v 0 = true → -1 < v ∧ v < 1)
    (hb : ∀ p ∈ f._points, coords_within margin_safe_bound p.coords) :
    ∀ q ∈ f._points,
      (bounding_box_extents E f).1.x < q.coords.x ∧
      q.coords.x < (bounding_box_extents E f).2.x ∧
      (bounding_box_extents E f).1.y < q.coords.y ∧
      q.coords.y < (bounding_box_extents E f).2.y ∧
      (bounding_box_extents E f).1.z < q.coords.z ∧
      q.coords.z < (bounding_box_extents E f).2.z := by
  intro q hq
  have hq2 : q ∈ f.get_all_points := (sort_by_id_perm _ _).mem_iff.2 hq
  obtain ⟨_, hall⟩ := bounding_box_fold_bounds E f.get_all_points
    (⟨1000000, 1000000, 1000000⟩, ⟨-1000000, -1000000, -1000000⟩)
  obtain ⟨b1, b2, b3, b4, b5, b6⟩ := hall q hq2
  obtain ⟨⟨_, x1, x2, _⟩, ⟨_, y1, y2, _⟩, ⟨_, z1, z2, _⟩⟩ :=
    bounding_box_extents_margin E f hb
  have cx := clean_coordinate_near E ha q.coords.x
  have cy := clean_coordinate_near E ha q.coords.y
  have cz := clean_coordinate_near E ha q.coords.z
  refine ⟨?_, ?_, ?_, ?_, ?_, ?_⟩ <;> linarith [cx.1, cx.2, cy.1, cy.2, cz.1, cz.2]

/-- With stored coordinates of magnitude at most 2^57, the lower and the upper extent
differ on each axis. -/
theorem bounding_box_extents_ne (E : externals) (f : gmsh_abstract_file)
    (hb : ∀ p ∈ f._points, coords_within margin_safe_bound p.coords) :
    (bounding_box_extents E f).1.x ≠ (bounding_box_extents E f).2.x ∧
    (bounding_box_extents E f).1.y ≠ (bounding_box_extents E f).2.y ∧
    (bounding_box_extents E f).1.z ≠ (bounding_box_extents E f).2.z := by
  obtain ⟨⟨x0, x1, x2, x3⟩, ⟨y0, y1, y2, y3⟩, ⟨z0, z1, z2, z3⟩⟩ :=
    bounding_box_extents_margin E f hb
  cases hl : f.get_all_points with
  | nil =>
    rw [hl] at x0 x3 y0 y3 z0 z3
    simp only [List.foldl_nil] at x0 x3 y0 y3 z0 z3
    refine ⟨?_, ?_, ?_⟩ <;> intro h <;> linarith
  | cons q l =>
    obtain ⟨_, hall⟩ := bounding_box_fold_bounds E f.get_all_points
      (⟨1000000, 1000000, 1000000⟩, ⟨-1000000, -1000000, -1000000⟩)
    obtain ⟨b1, b2, b3, b4, b5, b6⟩ := hall q (by rw [hl]; exact List.mem_cons_self _ _)
    refine ⟨?_, ?_, ?_⟩ <;> intro h <;> linarith

theorem box_corners_nodup (a1 a2 b1 b2 c1 c2 : ℚ) (ha : a1 ≠ a2) (hb : b1 ≠ b2)
    (hc : c1 ≠ c2) :
    ([⟨a1, b1, c1⟩, ⟨a2, b1, c1⟩, ⟨a2, b2, c1⟩, ⟨a1, b2, c1⟩, ⟨a1, b1, c2⟩, ⟨a2, b1, c2⟩,
      ⟨a2, b2, c2⟩, ⟨a1, b2, c2⟩] : List point3d).Nodup := by
  have ha2 := Ne.symm ha
  have hb2 := Ne.symm hb
  have hc2 := Ne.symm hc
  simp [ha, hb, hc, ha2, hb2, hc2]

theorem bounding_box_pnts_coords (E : externals) (f : gmsh_abstract_file) :
    (bounding_box_pnts E f).map gmsh_point.coords =
      [⟨(bounding_box_extents E f).1.x, (bounding_box_extents E f).1.y,
          (bounding_box_extents E f).1.z⟩,
        ⟨(bounding_box_extents E f).2.x, (bounding_box_extents E f).1.y,
          (bounding_box_extents E f).1.z⟩,
        ⟨(bounding_box_extents E f).2.x, (bounding_box_extents E f).2.y,
          (bounding_box_extents E f).1.z⟩,
        ⟨(bounding_box_extents E f).1.x, (bounding_box_extents E f).2.y,
          (bounding_box_extents E f).1.z⟩,
        ⟨(bounding_box_extents E f).1.x, (bounding_box_extents E f).1.y,
          (bounding_box_extents E f).2.z⟩,
        ⟨(bounding_box_extents E f).2.x, (bounding_box_extents E f).1.y,
          (bounding_box_extents E f).2.z⟩,
        ⟨(bounding_box_extents E f).2.x, (bounding_box_extents E f).2.y,
          (bounding_box_extents E f).2.z⟩,
        ⟨(bounding_box_extents E f).1.x, (bounding_box_extents E f).2.y,
          (bounding_box_extents E f).2.z⟩] := rfl

/-- The eight corners have pairwise different coordinates. -/
theorem bounding_box_pnts_nodup (E : externals) (f : gmsh_abstract_file)
    (hb : ∀ p ∈ f._points, coords_within margin_safe_bound p.coords) :
    ((bounding_box_pnts E f).map gmsh_point.coords).Nodup := by
  obtain ⟨hx, hy, hz⟩ := bounding_box_extents_ne E f hb
  rw [bounding_box_pnts_coords]
  exact box_corners_nodup _ _ _ _ _ _ hx hy hz

/-- No corner has the coordinate of a stored point. -/
theorem bounding_box_pnts_fresh (E : externals) (f : gmsh_abstract_file)
    (ha : ∀ v, E.almost_equal v 0 = true → -1 < v ∧ v < 1)
    (hb : ∀ p ∈ f._points, coords_within margin_safe_bound p.coords) :
    ∀ p ∈ bounding_box_pnts E f, ∀ q ∈ f._points, q.coords ≠ p.coords := by
  intro p hp q hq he
  obtain ⟨h1, h2, _⟩ := bounding_box_inside E f ha hb q hq
  have hpc : p.coords ∈ (bounding_box_pnts E f).map gmsh_point.coords :=
    List.mem_map_of_mem _ hp
  rw [bounding_box_pnts_coords] at hpc
  rw [← he] at hpc
  simp only [List.mem_cons, List.mem_singleton, List.not_mem_nil, or_false] at hpc
  rcases hpc with h | h | h | h | h | h | h | h <;>
    · have hx := congrArg point3d.x h
      simp only at hx
      linarith

theorem add_point_of_registered (f : gmsh_abstract_file) (p : gmsh_point)
    (h : registered f p) : (f.add_point p).2 = f := by
  rcases f.add_point_cases p with ⟨y, _, h2⟩ | ⟨h1, _⟩
  · rw [h2]
  · obtain ⟨q, hq, hc⟩ := h
    exact absurd hc ((find_same_none_iff _ _).1 h1 q hq)

theorem add_points_lines (ps : List gmsh_point) :
    ∀ f : gmsh_abstract_file, (f.add_points ps)._segments = f._segments ∧
      (f.add_points ps)._circles = f._circles ∧
      (f.add_points ps)._line_loop = f._line_loop ∧
      (f.add_points ps)._volumes = f._volumes := by
  induction ps with
  | nil => intro f; exact ⟨rfl, rfl, rfl, rfl⟩
  | cons p ps ih => intro f; exact ih (f.add_point p).2

/-- Insertion of points of pairwise different coordinates, none of them stored: each is
appended, with its size hint and physical flag. -/
theorem add_points_fresh (ps : List gmsh_point) :
    ∀ f : gmsh_abstract_file, (ps.map gmsh_point.coords).Nodup →
      (∀ p ∈ ps, ∀ q ∈ f._points, q.coords ≠ p.coords) →
      ∃ P, (f.add_points ps)._points = f._points ++ P ∧
        List.Forall₂ (fun a p => a.coords = p.coords ∧ a.isPhysical = p.isPhysical ∧
          a.diameter = p.diameter) P ps := by
  induction ps with
  | nil => intro f _ _; exact ⟨[], by simp [gmsh_abstract_file.add_points], List.Forall₂.nil⟩
  | cons p ps ih =>
    intro f hn hf
    rw [List.map_cons, List.nodup_cons] at hn
    rcases f.add_point_cases p with ⟨y, h1, _⟩ | ⟨_, h2⟩
    · obtain ⟨hy, hc⟩ := find_same_some _ _ _ h1
      exact absurd hc (hf p (List.mem_cons_self _ _) y hy)
    · have hstep : f.add_points (p :: ps) = (f.add_point p).2.add_points ps := rfl
      rw [hstep, h2]
      obtain ⟨P, hP, hall⟩ := ih
        { f with _points := f._points ++ [{ p with id := f._points.length + 1 }] } hn.2 (by
          intro p2 hp2 q hq
          rcases List.mem_append.1 hq with hq | hq
          · exact hf p2 (List.mem_cons_of_mem _ hp2) q hq
          · rw [List.mem_singleton.1 hq]
            intro he
            exact hn.1 (by
              have : p.coords = p2.coords := he
              rw [this]
              exact List.mem_map_of_mem _ hp2))
      refine ⟨{ p with id := f._points.length + 1 } :: P, ?_,
        List.Forall₂.cons ⟨rfl, rfl, rfl⟩ hall⟩
      rw [hP]
      simp

/-- Insertion of a segment whose end points are stored and whose end point pair is
not: the segment is appended under the next line identifier and nothing else changes. -/
theorem add_segment_fresh (f : gmsh_abstract_file) (s : gmsh_segment)
    (h1 : registered f s.point1) (h2 : registered f s.point2)
    (hk : ∀ t ∈ f._segments,
      ¬ (t.point1.coords = s.point1.coords ∧ t.point2.coords = s.point2.coords)) :
    f.add_segment s = (f.create_id_line_element,
      { f with _segments := f._segments ++ [{ s with id := f.create_id_line_element }] }) := by
  have e1 : (f.add_point s.point1).2 = f := add_point_of_registered f _ h1
  have e2 : ((f.add_point s.point1).2.add_point s.point2).2 = f := by
    rw [e1]
    exact add_point_of_registered f _ h2
  rcases f.add_segment_cases s with ⟨y, hy, _⟩ | ⟨_, h⟩
  · rw [e2] at hy
    obtain ⟨hm, hc1, hc2⟩ := find_segment_same _ _ _ hy
    exact absurd ⟨hc1, hc2⟩ (hk y hm)
  · rw [h, e2]

/-- Insertion of segments of pairwise different end point pairs, none of them stored,
between stored points: each is appended, in order, and its identifier returned. -/
theorem add_segments_fresh (ss : List gmsh_segment) :
    ∀ (ids : List Int) (f : gmsh_abstract_file),
      (ss.map (fun s => (s.point1.coords, s.point2.coords))).Nodup →
      (∀ s ∈ ss, registered f s.point1 ∧ registered f s.point2) →
      (∀ s ∈ ss, ∀ t ∈ f._segments,
        ¬ (t.point1.coords = s.point1.coords ∧ t.point2.coords = s.point2.coords)) →
      ∃ S : List gmsh_segment,
        (ss.foldl (fun acc s => (acc.1 ++ [((acc.2.add_segment s).1 : Int)],
          (acc.2.add_segment s).2)) (ids, f)).1 =
            ids ++ S.map (fun s => (s.id : Int)) ∧
        (ss.foldl (fun acc s => (acc.1 ++ [((acc.2.add_segment s).1 : Int)],
          (acc.2.add_segment s).2)) (ids, f)).2 = { f with _segments := f._segments ++ S } ∧
        List.Forall₂ (fun a s => a.point1 = s.point1 ∧ a.point2 = s.point2 ∧
          a.isPhysical = s.isPhysical ∧ a.branch_id = s.branch_id) S ss := by
  induction ss with
  | nil => intro ids f _ _ _; exact ⟨[], by simp, by simp, List.Forall₂.nil⟩
  | cons s ss ih =>
    intro ids f hn hr hk
    rw [List.map_cons, List.nodup_cons] at hn
    rw [List.foldl_cons]
    have hs := add_segment_fresh f s (hr s (List.mem_cons_self _ _)).1
      (hr s (List.mem_cons_self _ _)).2 (hk s (List.mem_cons_self _ _))
    rw [hs]
    obtain ⟨S, h1, h2, hall⟩ := ih (ids ++ [(f.create_id_line_element : Int)])
      { f with _segments := f._segments ++ [{ s with id := f.create_id_line_element }] }
      hn.2 (fun t ht => hr t (List.mem_cons_of_mem _ ht)) (by
        intro t ht u hu
        rcases List.mem_append.1 hu with hu | hu
        · exact hk t (List.mem_cons_of_mem _ ht) u hu
        · rw [List.mem_singleton.1 hu]
          intro he
          apply hn.1
          have e : (s.point1.coords, s.point2.coords) = (t.point1.coords, t.point2.coords) :=
            Prod.ext he.1 he.2
          rw [e]
          exact List.mem_map_of_mem (fun s : gmsh_segment => (s.point1.coords, s.point2.coords))
            ht)
    refine ⟨{ s with id := f.create_id_line_element } :: S, ?_, ?_,
      List.Forall₂.cons ⟨rfl, rfl, rfl, rfl⟩ hall⟩
    · rw [h1]
      simp
    · rw [h2]
      simp

/-- Insertion of loops: each is appended, in order, and its identifier returned. -/
theorem add_line_loops_spec (ls : List gmsh_line_loop) :
    ∀ (ids : List Nat) (f : gmsh_abstract_file),
      ∃ L : List gmsh_line_loop,
        (ls.foldl (fun acc l => (acc.1 ++ [(acc.2.add_line_loop l).1],
          (acc.2.add_line_loop l).2)) (ids, f)).1 = ids ++ L.map gmsh_line_loop.id ∧
        (ls.foldl (fun acc l => (acc.1 ++ [(acc.2.add_line_loop l).1],
          (acc.2.add_line_loop l).2)) (ids, f)).2 =
            { f with _line_loop := f._line_loop ++ L } ∧
        List.Forall₂ (fun a l => a.ids = l.ids ∧ a.isPhysical = l.isPhysical ∧
          a.isRuled = l.isRuled) L ls := by
  induction ls with
  | nil => intro ids f; exact ⟨[], by simp, by simp, List.Forall₂.nil⟩
  | cons l ls ih =>
    intro ids f
    rw [List.foldl_cons, gmsh_abstract_file.add_line_loop_eq]
    obtain ⟨L, h1, h2, hall⟩ := ih (ids ++ [f.create_id_line_element])
      { f with _line_loop := f._line_loop ++ [{ l with id := f.create_id_line_element }] }
    refine ⟨{ l with id := f.create_id_line_element } :: L, ?_, ?_,
      List.Forall₂.cons ⟨rfl, rfl, rfl⟩ hall⟩
    · rw [h1]
      simp
    · rw [h2]
      simp

theorem box_edges_nodup {α : Type} (p0 p1 p2 p3 p4 p5 p6 p7 : α)
    (H : [p0, p1, p2, p3, p4, p5, p6, p7].Nodup) :
    [(p0, p1), (p1, p2), (p2, p3), (p3, p0), (p0, p4), (p1, p5), (p2, p6), (p3, p7),
      (p4, p5), (p5, p6), (p6, p7), (p7, p4)].Nodup := by
  simp only [List.nodup_cons, List.mem_cons, List.mem_singleton, List.not_mem_nil,
    not_or, Prod.mk.injEq, List.nodup_nil, and_true, not_false_eq_true, not_and] at H ⊢
  obtain ⟨⟨h01, h02, h03, h04, h05, h06, h07⟩, ⟨h12, h13, h14, h15, h16, h17⟩,
    ⟨h23, h24, h25, h26, h27⟩, ⟨h34, h35, h36, h37⟩, ⟨h45, h46, h47⟩, ⟨h56, h57⟩, h67⟩ := H
  have s01 := Ne.symm h01
  have s02 := Ne.symm h02
  have s03 := Ne.symm h03
  have s12 := Ne.symm h12
  have s13 := Ne.symm h13
  have s23 := Ne.symm h23
  have s45 := Ne.symm h45
  have s46 := Ne.symm h46
  have s47 := Ne.symm h47
  have s56 := Ne.symm h56
  have s57 := Ne.symm h57
  have s67 := Ne.symm h67
  have s04 := Ne.symm h04
  have s15 := Ne.symm h15
  have s26 := Ne.symm h26
  have s37 := Ne.symm h37
  simp_all

theorem catalog_ext (a b : gmsh_abstract_file) (h1 : a._points = b._points)
    (h2 : a._segments = b._segments) (h3 : a._circles = b._circles)
    (h4 : a._line_loop = b._line_loop) (h5 : a._volumes = b._volumes) : a = b := by
  cases a
  cases b
  simp only [gmsh_abstract_file.mk.injEq]
  exact ⟨h1, h2, h3, h4, h5⟩

theorem bounding_box_segments_keys (E : externals) (f : gmsh_abstract_file)
    (c0 c1 c2 c3 c4 c5 c6 c7 : point3d)
    (h : (bounding_box_pnts E f).map gmsh_point.coords = [c0, c1, c2, c3, c4, c5, c6, c7]) :
    (bounding_box_segments E f).map (fun s => (s.point1.coords, s.point2.coords)) =
      [(c0, c1), (c1, c2), (c2, c3), (c3, c0), (c0, c4), (c1, c5), (c2, c6), (c3, c7),
        (c4, c5), (c5, c6), (c6, c7), (c7, c4)] := by
  rw [bounding_box_pnts_coords] at h
  simp only [List.cons.injEq, and_true] at h
  obtain ⟨h0, h1, h2, h3, h4, h5, h6, h7⟩ := h
  rw [← h0, ← h1, ← h2, ← h3, ← h4, ← h5, ← h6, ← h7]
  rfl

theorem forall₂_mem_right {α β : Type} {R : α → β → Prop} {l : List α} {m : List β}
    (h : List.Forall₂ R l m) : ∀ b ∈ m, ∃ a ∈ l, R a b := by
  induction h with
  | nil => intro b hb; cases hb
  | cons hab _ ih =>
    intro b hb
    rcases List.mem_cons.1 hb with hb | hb
    · subst hb
      exact ⟨_, List.mem_cons_self _ _, hab⟩
    · obtain ⟨a, ha, hr⟩ := ih b hb
      exact ⟨a, List.mem_cons_of_mem _ ha, hr⟩

/-- The end points of the edge segments are corners. -/
theorem bounding_box_segments_corners (E : externals) (f : gmsh_abstract_file) :
    ∀ s ∈ bounding_box_segments E f,
      s.point1 ∈ bounding_box_pnts E f ∧ s.point2 ∈ bounding_box_pnts E f ∧
      s.isPhysical = true := by
  intro s hs
  simp only [bounding_box_segments, bounding_box_edges, List.range, List.range.loop,
    List.map_cons, List.map_nil, List.cons_append, List.nil_append, List.mem_cons,
    List.mem_singleton, List.not_mem_nil, or_false] at hs
  rcases hs with h | h | h | h | h | h | h | h | h | h | h | h <;> subst h <;>
    exact ⟨by simp [bounding_box_pnts, gmsh_segment.make],
      by simp [bounding_box_pnts, gmsh_segment.make], rfl⟩

/-- What `add_bounding_box` does on a well-formed catalog with coordinates of magnitude
at most 2^57: it appends eight points, twelve segments, six loops and one volume. -/
theorem add_bounding_box_fresh (E : externals) (f : gmsh_abstract_file)
    (hw : well_formed f) (ha : ∀ v, E.almost_equal v 0 = true → -1 < v ∧ v < 1)
    (hb : ∀ p ∈ f._points, coords_within margin_safe_bound p.coords) :
    ∃ (P : List gmsh_point) (S : List gmsh_segment) (L : List gmsh_line_loop),
      f.add_bounding_box E =
        { _points := f._points ++ P, _segments := f._segments ++ S, _circles := f._circles,
          _line_loop := f._line_loop ++ L,
          _volumes := f._volumes ++ [⟨L.map gmsh_line_loop.id, f._volumes.length + 1, true⟩] } ∧
      List.Forall₂ (fun a p => a.coords = p.coords ∧ a.isPhysical = p.isPhysical ∧
        a.diameter = p.diameter) P (bounding_box_pnts E f) ∧
      List.Forall₂ (fun a s => a.point1 = s.point1 ∧ a.point2 = s.point2 ∧
        a.isPhysical = s.isPhysical ∧ a.branch_id = s.branch_id) S
        (bounding_box_segments E f) ∧
      List.Forall₂ (fun (a : gmsh_line_loop) face =>
        a.ids = face.map (fun (e : Bool × Nat) =>
          if e.1 then (S.map (fun s => (s.id : Int))).getD e.2 0
          else - (S.map (fun s => (s.id : Int))).getD e.2 0) ∧
        a.isPhysical = true ∧ a.isRuled = true) L bounding_box_faces := by
  obtain ⟨P, hP, hPall⟩ := add_points_fresh (bounding_box_pnts E f) f
    (bounding_box_pnts_nodup E f hb) (bounding_box_pnts_fresh E f ha hb)
  obtain ⟨l1, l2, l3, l4⟩ := add_points_lines (bounding_box_pnts E f) f
  have hf1 : f.add_points (bounding_box_pnts E f) = { f with _points := f._points ++ P } :=
    catalog_ext _ _ hP l1 l2 l3 l4
  have hreg : ∀ p ∈ bounding_box_pnts E f,
      registered { f with _points := f._points ++ P } p := by
    intro p hp
    obtain ⟨a, haP, hc, _⟩ := forall₂_mem_right hPall p hp
    exact ⟨a, List.mem_append_right _ haP, hc⟩
  have hkeys : ((bounding_box_segments E f).map
      (fun s => (s.point1.coords, s.point2.coords))).Nodup := by
    rw [bounding_box_segments_keys E f _ _ _ _ _ _ _ _ (bounding_box_pnts_coords E f)]
    apply box_edges_nodup
    rw [← bounding_box_pnts_coords]
    exact bounding_box_pnts_nodup E f hb
  obtain ⟨S, hS1, hS2, hSall⟩ := add_segments_fresh (bounding_box_segments E f) []
    { f with _points := f._points ++ P } hkeys
    (fun s hs => ⟨hreg _ (bounding_box_segments_corners E f s hs).1,
      hreg _ (bounding_box_segments_corners E f s hs).2.1⟩)
    (by
      intro s hs t ht he
      obtain ⟨q, hq, hc⟩ := (hw.segment_points t ht).1
      exact bounding_box_pnts_fresh E f ha hb _ (bounding_box_segments_corners E f s hs).1 q hq
        (hc.trans he.1))
  simp only [List.nil_append] at hS1
  obtain ⟨L, hL1, hL2, hLall⟩ := add_line_loops_spec
    (bounding_box_faces.map (fun face =>
      { gmsh_line_loop.make (face.map (fun (e : Bool × Nat) =>
          if e.1 then (S.map (fun s => (s.id : Int))).getD e.2 0
          else - (S.map (fun s => (s.id : Int))).getD e.2 0)) with
        isPhysical := true, isRuled := true })) []
    { f with _points := f._points ++ P, _segments := f._segments ++ S }
  simp only [List.nil_append] at hL1
  refine ⟨P, S, L, ?_, hPall, hSall, ?_⟩
  · unfold gmsh_abstract_file.add_bounding_box
    simp only [gmsh_abstract_file.add_segments, gmsh_abstract_file.add_line_loops, hf1, hS1,
      hS2, hL1, hL2, gmsh_abstract_file.add_volume_eq]
    rfl
  · rw [List.forall₂_map_right_iff] at hLall
    exact hLall.imp (fun _ _ h => ⟨h.1, h.2.1, h.2.2⟩)

theorem bounding_box_pnts_physical (E : externals) (f : gmsh_abstract_file) :
    ∀ p ∈ bounding_box_pnts E f, p.isPhysical = true := by
  intro p hp
  simp only [bounding_box_pnts, List.mem_cons, List.mem_singleton, List.not_mem_nil,
    or_false] at hp
  rcases hp with h | h | h | h | h | h | h | h <;> subst h <;> rfl

/-- Counterexample to C21 as stated: the catalog with the single stored point
(-2^60, -2^60, -2^60), not flagged physical.  The lower extents -2^60 - 20 are rounded to
-2^60, the first corner has the coordinate of the stored point, `add_point` returns the
stored identifier 1 for it, and `add_bounding_box` adds 7 points, not 8; the stored
point at that corner stays not physical. -/
theorem add_bounding_box_counts_counterexample :
    sample_huge_catalog._points =
      [⟨⟨-1152921504606846976, -1152921504606846976, -1152921504606846976⟩, 1, 1, false⟩] ∧
    (bounding_box_extents sample_externals sample_huge_catalog).1 =
      ⟨-1152921504606846976, -1152921504606846976, -1152921504606846976⟩ ∧
    (sample_huge_catalog.add_point
      ((bounding_box_pnts sample_externals sample_huge_catalog).getD 0
        (gmsh_point.make ⟨0, 0, 0⟩ 0))).1 = 1 ∧
    (sample_huge_catalog.add_bounding_box sample_externals)._points.length =
      sample_huge_catalog._points.length + 7 ∧
    (sample_huge_catalog.add_bounding_box sample_externals)._points.map
      gmsh_point.isPhysical = [false, true, true, true, true, true, true, true] ∧
    (sample_huge_catalog.add_bounding_box sample_externals)._segments.length = 12 := by
  refine ⟨?_, ?_, ?_, ?_, ?_, ?_⟩ <;> decide!

/-- C21, amended: bounding-box augmentation.  For every well-formed catalog whose stored
coordinates have magnitude at most 2^57, with an external zero test that holds only for
values within 1 of zero, `add_bounding_box` appends exactly 8 points, 12 segments,
6 loops and 1 volume and leaves the arcs unchanged; every appended entity is flagged
physical, and the loop list of the appended volume is the list of the identifiers of the
6 appended loops. -/
theorem add_bounding_box_counts (E : externals) (f : gmsh_abstract_file)
    (hw : well_formed f) (ha : ∀ v, E.almost_equal v 0 = true → -1 < v ∧ v < 1)
    (hb : ∀ p ∈ f._points, coords_within margin_safe_bound p.coords) :
    ∃ (P : List gmsh_point) (S : List gmsh_segment) (L : List gmsh_line_loop)
      (v : gmsh_volume),
      (f.add_bounding_box E)._points = f._points ++ P ∧ P.length = 8 ∧
      (f.add_bounding_box E)._segments = f._segments ++ S ∧ S.length = 12 ∧
      (f.add_bounding_box E)._circles = f._circles ∧
      (f.add_bounding_box E)._line_loop = f._line_loop ++ L ∧ L.length = 6 ∧
      (f.add_bounding_box E)._volumes = f._volumes ++ [v] ∧
      (∀ p ∈ P, p.isPhysical = true) ∧ (∀ s ∈ S, s.isPhysical = true) ∧
      (∀ l ∈ L, l.isPhysical = true) ∧ v.isPhysical = true ∧
      v.ids = L.map gmsh_line_loop.id := by
  obtain ⟨P, S, L, hg, hP, hS, hL⟩ := add_bounding_box_fresh E f hw ha hb
  refine ⟨P, S, L, ⟨L.map gmsh_line_loop.id, f._volumes.length + 1, true⟩, ?_, ?_, ?_, ?_,
    ?_, ?_, ?_, ?_, ?_, ?_, ?_, rfl, rfl⟩
  · rw [hg]
  · rw [hP.length_eq]
    rfl
  · rw [hg]
  · rw [hS.length_eq]
    rfl
  · rw [hg]
  · rw [hg]
  · rw [hL.length_eq]
    rfl
  · rw [hg]
  · intro p hp
    obtain ⟨b, hb, _, h2, _⟩ := forall₂_mem_left hP p hp
    rw [h2]
    exact bounding_box_pnts_physical E f b hb
  · intro s hs
    obtain ⟨b, hb, _, _, h3, _⟩ := forall₂_mem_left hS s hs
    rw [h3]
    exact (bounding_box_segments_corners E f b hb).2.2
  · intro l hl
    obtain ⟨b, _, _, h2, _⟩ := forall₂_mem_left hL l hl
    exact h2

theorem sample_externals_almost_equal :
    ∀ v, sample_externals.almost_equal v 0 = true → -1 < v ∧ v < 1 := by
  intro v hv
  have : v = 0 := by simpa [sample_externals] using hv
  rw [this]
  constructor <;> norm_num

theorem sample_catalog_within :
    ∀ p ∈ sample_catalog._points, coords_within margin_safe_bound p.coords := by
  unfold coords_within
  decide!

/-- Witness of C21, amended, on `sample_catalog`. -/
theorem add_bounding_box_counts_witness :
    well_formed sample_catalog ∧
    (∀ v, sample_externals.almost_equal v 0 = true → -1 < v ∧ v < 1) ∧
    (∀ p ∈ sample_catalog._points, coords_within margin_safe_bound p.coords) ∧
    ∃ (P : List gmsh_point) (S : List gmsh_segment) (L : List gmsh_line_loop)
      (v : gmsh_volume),
      (sample_catalog.add_bounding_box sample_externals)._points =
        sample_catalog._points ++ P ∧ P.length = 8 ∧
      (sample_catalog.add_bounding_box sample_externals)._segments =
        sample_catalog._segments ++ S ∧ S.length = 12 ∧
      (sample_catalog.add_bounding_box sample_externals)._circles = sample_catalog._circles ∧
      (sample_catalog.add_bounding_box sample_externals)._line_loop =
        sample_catalog._line_loop ++ L ∧ L.length = 6 ∧
      (sample_catalog.add_bounding_box sample_externals)._volumes =
        sample_catalog._volumes ++ [v] ∧
      (∀ p ∈ P, p.isPhysical = true) ∧ (∀ s ∈ S, s.isPhysical = true) ∧
      (∀ l ∈ L, l.isPhysical = true) ∧ v.isPhysical = true ∧
      v.ids = L.map gmsh_line_loop.id :=
  ⟨well_formed_run_ops sample_externals _, sample_externals_almost_equal,
    sample_catalog_within,
    add_bounding_box_counts sample_externals sample_catalog
      (well_formed_run_ops sample_externals _) sample_externals_almost_equal
      sample_catalog_within⟩

/-- C30 at a failing input: for the catalog with the single point (2000000, 0, 0) the
extent loop starts from the constants 1e+6 and -1e+6, so the lower extent on the first
axis stays at 1000000 - 20 = 999980, not at the minimum 2000000 of the stored points
minus 20; the box spans 999980 .. 2000020 on the first axis and -20 .. 20 on the
others. -/
theorem add_bounding_box_sentinel_extents :
    sample_far_catalog._points.map gmsh_point.coords = [⟨2000000, 0, 0⟩] ∧
    bounding_box_extents sample_externals sample_far_catalog =
      (⟨999980, -20, -20⟩, ⟨2000020, 20, 20⟩) ∧
    (sample_far_catalog._points.map
      (fun p => clean_coordinate sample_externals p.coords.x - 20)) = [1999980] ∧
    ((sample_far_catalog.add_bounding_box sample_externals)._points.map
      gmsh_point.coords).drop 1 =
      [⟨999980, -20, -20⟩, ⟨2000020, -20, -20⟩, ⟨2000020, 20, -20⟩, ⟨999980, 20, -20⟩,
        ⟨999980, -20, 20⟩, ⟨2000020, -20, 20⟩, ⟨2000020, 20, 20⟩, ⟨999980, 20, 20⟩] := by
  refine ⟨?_, ?_, ?_, ?_⟩ <;> decide!

/-! ## Closed loops -/

/-- An octant loop of a sphere is closed and resolvable in a well-formed catalog. -/
theorem loop_closed_octant {g : gmsh_abstract_file} (hw : well_formed g) {c : point3d}
    {l : gmsh_line_loop} {o : gmsh_point × gmsh_point × gmsh_point}
    (h : is_octant_loop g c l o) : loop_closed g l = true := by
  obtain ⟨_, _, xy, yz, xz, hids, hxy, hyz, hxz⟩ := h
  unfold loop_closed
  rw [hids]
  simp [(signed_ends_arc hw hxy).1, (signed_ends_arc hw hyz).1, (signed_ends_arc hw hxz).2,
    List.reduceOption, ends_closed, ends_chain]

/-- A cap loop of a disk is closed and resolvable in a well-formed catalog. -/
theorem loop_closed_cap {g : gmsh_abstract_file} (hw : well_formed g) {l : gmsh_line_loop}
    {arc s1 s0 : Nat} {c p q : point3d} (hids : l.ids = [(arc : Int), (s1 : Int), -(s0 : Int)])
    (harc : has_arc g arc c p q) (h1 : has_segment g s1 q c) (h0 : has_segment g s0 p c) :
    loop_closed g l = true := by
  unfold loop_closed
  rw [hids]
  simp [(signed_ends_arc hw harc).1, (signed_ends_segment hw h1).1,
    (signed_ends_segment hw h0).2, List.reduceOption, ends_closed, ends_chain]

/-- A lateral loop between two disks is closed and resolvable in a well-formed
catalog. -/
theorem loop_closed_lateral {g : gmsh_abstract_file} (hw : well_formed g)
    {l : gmsh_line_loop} {arc1 line2 arc2 line1 : Nat} {c1 c2 p1 q1 p2 q2 : point3d}
    (hids : l.ids = [(arc1 : Int), (line2 : Int), -(arc2 : Int), -(line1 : Int)])
    (ha1 : has_arc g arc1 c1 p1 q1) (hl2 : has_segment g line2 q1 q2)
    (ha2 : has_arc g arc2 c2 p2 q2) (hl1 : has_segment g line1 p1 p2) :
    loop_closed g l = true := by
  unfold loop_closed
  rw [hids]
  simp [(signed_ends_arc hw ha1).1, (signed_ends_segment hw hl2).1,
    (signed_ends_arc hw ha2).2, (signed_ends_segment hw hl1).2, List.reduceOption,
    ends_closed, ends_chain]

/-- Insertion of segments: every returned identifier is the one of a stored segment
with the end points of the segment inserted. -/
theorem add_segments_has (ss : List gmsh_segment) :
    ∀ (ids : List Int) (f : gmsh_abstract_file),
      ∃ ns : List Nat,
        (ss.foldl (fun acc s => (acc.1 ++ [((acc.2.add_segment s).1 : Int)],
          (acc.2.add_segment s).2)) (ids, f)).1 = ids ++ ns.map (fun (n : Nat) => (n : Int)) ∧
        grows f (ss.foldl (fun acc s => (acc.1 ++ [((acc.2.add_segment s).1 : Int)],
          (acc.2.add_segment s).2)) (ids, f)).2 [] [] ∧
        List.Forall₂ (fun n s => has_segment
          (ss.foldl (fun acc s => (acc.1 ++ [((acc.2.add_segment s).1 : Int)],
            (acc.2.add_segment s).2)) (ids, f)).2 n s.point1.coords s.point2.coords) ns ss := by
  induction ss with
  | nil => intro ids f; exact ⟨[], by simp, grows_refl _, List.Forall₂.nil⟩
  | cons s ss ih =>
    intro ids f
    rw [List.foldl_cons]
    obtain ⟨ns, h1, h2, hall⟩ := ih (ids ++ [((f.add_segment s).1 : Int)]) (f.add_segment s).2
    refine ⟨(f.add_segment s).1 :: ns, ?_, by simpa using grows_trans (grows_add_segment f s) h2,
      List.Forall₂.cons (has_segment_mono h2 (has_segment_add_segment f s)) hall⟩
    rw [h1]
    simp

theorem forall₂_twelve {α β : Type} {R : α → β → Prop} {l : List α}
    {x0 x1 x2 x3 x4 x5 x6 x7 x8 x9 x10 x11 : β}
    (h : List.Forall₂ R l [x0, x1, x2, x3, x4, x5, x6, x7, x8, x9, x10, x11]) :
    ∃ a0 a1 a2 a3 a4 a5 a6 a7 a8 a9 a10 a11,
      l = [a0, a1, a2, a3, a4, a5, a6, a7, a8, a9, a10, a11] ∧
      R a0 x0 ∧ R a1 x1 ∧ R a2 x2 ∧ R a3 x3 ∧ R a4 x4 ∧ R a5 x5 ∧ R a6 x6 ∧ R a7 x7 ∧
      R a8 x8 ∧ R a9 x9 ∧ R a10 x10 ∧ R a11 x11 := by
  obtain ⟨a0, l0, h0, t0, rfl⟩ := List.forall₂_cons_right_iff.1 h
  obtain ⟨a1, l1, h1, t1, rfl⟩ := List.forall₂_cons_right_iff.1 t0
  obtain ⟨a2, l2, h2, t2, rfl⟩ := List.forall₂_cons_right_iff.1 t1
  obtain ⟨a3, l3, h3, t3, rfl⟩ := List.forall₂_cons_right_iff.1 t2
  obtain ⟨b, hb, rfl⟩ : ∃ b, List.Forall₂ R b [x4, x5, x6, x7, x8, x9, x10, x11] ∧ l3 = b :=
    ⟨l3, t3, rfl⟩
  obtain ⟨a4, a5, a6, a7, a8, a9, a10, a11, rfl, h4, h5, h6, h7, h8, h9, h10, h11⟩ :=
    forall₂_eight hb
  exact ⟨a0, a1, a2, a3, a4, a5, a6, a7, a8, a9, a10, a11, rfl, h0, h1, h2, h3, h4, h5, h6,
    h7, h8, h9, h10, h11⟩

/-- The six faces built on twelve stored edge segments of a box are closed loops. -/
theorem box_loops_closed {g : gmsh_abstract_file} (hw : well_formed g)
    (c0 c1 c2 c3 c4 c5 c6 c7 : point3d) (n0 n1 n2 n3 n4 n5 n6 n7 n8 n9 n10 n11 : Nat)
    (h0 : has_segment g n0 c0 c1) (h1 : has_segment g n1 c1 c2)
    (h2 : has_segment g n2 c2 c3) (h3 : has_segment g n3 c3 c0)
    (h4 : has_segment g n4 c0 c4) (h5 : has_segment g n5 c1 c5)
    (h6 : has_segment g n6 c2 c6) (h7 : has_segment g n7 c3 c7)
    (h8 : has_segment g n8 c4 c5) (h9 : has_segment g n9 c5 c6)
    (h10 : has_segment g n10 c6 c7) (h11 : has_segment g n11 c7 c4) :
    ∀ face ∈ bounding_box_faces, ∀ l : gmsh_line_loop,
      l.ids = face.map (fun (e : Bool × Nat) =>
        if e.1 then ([n0, n1, n2, n3, n4, n5, n6, n7, n8, n9, n10, n11].map
          (fun (n : Nat) => (n : Int))).getD e.2 0
        else - ([n0, n1, n2, n3, n4, n5, n6, n7, n8, n9, n10, n11].map
          (fun (n : Nat) => (n : Int))).getD e.2 0) →
      loop_closed g l = true := by
  intro face hface l hl
  simp only [bounding_box_faces, List.mem_cons, List.mem_singleton, List.not_mem_nil,
    or_false] at hface
  unfold loop_closed
  rw [hl]
  rcases hface with h | h | h | h | h | h <;> subst h <;>
    simp [(signed_ends_segment hw h0).1, (signed_ends_segment hw h0).2,
      (signed_ends_segment hw h1).1, (signed_ends_segment hw h1).2,
      (signed_ends_segment hw h2).1, (signed_ends_segment hw h2).2,
      (signed_ends_segment hw h3).1, (signed_ends_segment hw h3).2,
      (signed_ends_segment hw h4).1, (signed_ends_segment hw h4).2,
      (signed_ends_segment hw h5).1, (signed_ends_segment hw h5).2,
      (signed_ends_segment hw h6).1, (signed_ends_segment hw h6).2,
      (signed_ends_segment hw h7).1, (signed_ends_segment hw h7).2,
      (signed_ends_segment hw h8).1, (signed_ends_segment hw h8).2,
      (signed_ends_segment hw h9).1, (signed_ends_segment hw h9).2,
      (signed_ends_segment hw h10).1, (signed_ends_segment hw h10).2,
      (signed_ends_segment hw h11).1, (signed_ends_segment hw h11).2,
      List.reduceOption, ends_closed, ends_chain]

/-- The six loops `add_bounding_box` appends are closed and resolvable. -/
theorem add_bounding_box_loops_closed (E : externals) (f : gmsh_abstract_file)
    (hw : well_formed f) :
    ∃ L : List gmsh_line_loop,
      (f.add_bounding_box E)._line_loop = f._line_loop ++ L ∧ L.length = 6 ∧
      ∀ l ∈ L, loop_closed (f.add_bounding_box E) l = true := by
  have hwg := stable_bounding_box well_formed_stable E f hw
  obtain ⟨_, _, l3, _⟩ := add_points_lines (bounding_box_pnts E f) f
  obtain ⟨ns, hr1, hg2, hall⟩ := add_segments_has (bounding_box_segments E f) []
    (f.add_points (bounding_box_pnts E f))
  simp only [List.nil_append] at hr1
  obtain ⟨L, hL1, hL2, hLall⟩ := add_line_loops_spec
    (bounding_box_faces.map (fun face =>
      { gmsh_line_loop.make (face.map (fun (e : Bool × Nat) =>
          if e.1 then (ns.map (fun (n : Nat) => (n : Int))).getD e.2 0
          else - (ns.map (fun (n : Nat) => (n : Int))).getD e.2 0)) with
        isPhysical := true, isRuled := true })) []
    ((bounding_box_segments E f).foldl
      (fun (acc : List Int × gmsh_abstract_file) s =>
            (acc.1 ++ [((acc.2.add_segment s).1 : Int)], (acc.2.add_segment s).2))
      ([], f.add_points (bounding_box_pnts E f))).2
  simp only [List.nil_append] at hL1
  have hg : f.add_bounding_box E =
      ({ ((bounding_box_segments E f).foldl
          (fun (acc : List Int × gmsh_abstract_file) s =>
            (acc.1 ++ [((acc.2.add_segment s).1 : Int)], (acc.2.add_segment s).2))
          ([], f.add_points (bounding_box_pnts E f))).2 with
        _line_loop := ((bounding_box_segments E f).foldl
          (fun (acc : List Int × gmsh_abstract_file) s =>
            (acc.1 ++ [((acc.2.add_segment s).1 : Int)], (acc.2.add_segment s).2))
          ([], f.add_points (bounding_box_pnts E f))).2._line_loop ++ L }.add_volume
        { gmsh_volume.make (L.map gmsh_line_loop.id) with isPhysical := true }).2 := by
    unfold gmsh_abstract_file.add_bounding_box
    simp only [gmsh_abstract_file.add_segments, gmsh_abstract_file.add_line_loops, hr1, hL1,
      hL2]
  have hgrow : grows ((bounding_box_segments E f).foldl
      (fun (acc : List Int × gmsh_abstract_file) s =>
            (acc.1 ++ [((acc.2.add_segment s).1 : Int)], (acc.2.add_segment s).2))
      ([], f.add_points (bounding_box_pnts E f))).2 (f.add_bounding_box E) L
      [{ gmsh_volume.make (L.map gmsh_line_loop.id) with
        isPhysical := true,
        id := ((bounding_box_segments E f).foldl
          (fun (acc : List Int × gmsh_abstract_file) s =>
            (acc.1 ++ [((acc.2.add_segment s).1 : Int)], (acc.2.add_segment s).2))
          ([], f.add_points (bounding_box_pnts E f))).2._volumes.length + 1 }] := by
    rw [hg, gmsh_abstract_file.add_volume_eq]
    exact ⟨rfl, rfl, ⟨[], by simp⟩, ⟨[], by simp⟩, ⟨[], by simp⟩⟩
  obtain ⟨n0, n1, n2, n3, n4, n5, n6, n7, n8, n9, n10, n11, rfl, h0, h1, h2, h3, h4, h5, h6,
    h7, h8, h9, h10, h11⟩ := forall₂_twelve hall
  rw [List.forall₂_map_right_iff] at hLall
  refine ⟨L, ?_, by rw [hLall.length_eq]; rfl, ?_⟩
  · rw [hgrow.loops, hg2.loops, l3, List.append_nil]
  · intro l hl
    obtain ⟨face, hface, hids, _, _⟩ := forall₂_mem_left hLall l hl
    exact box_loops_closed hwg _ _ _ _ _ _ _ _ n0 n1 n2 n3 n4 n5 n6 n7 n8 n9 n10 n11
      (has_segment_mono hgrow h0) (has_segment_mono hgrow h1) (has_segment_mono hgrow h2)
      (has_segment_mono hgrow h3) (has_segment_mono hgrow h4) (has_segment_mono hgrow h5)
      (has_segment_mono hgrow h6) (has_segment_mono hgrow h7) (has_segment_mono hgrow h8)
      (has_segment_mono hgrow h9) (has_segment_mono hgrow h10) (has_segment_mono hgrow h11)
      face hface l hids

/-- The loops `create_gmsh_sphere` appends are closed and resolvable. -/
theorem create_gmsh_sphere_loops_closed (E : externals) (f : gmsh_abstract_file)
    (hw : well_formed f) (sphere : sphere3d) :
    ∃ L : List gmsh_line_loop,
      (create_gmsh_sphere E f sphere)._line_loop = f._line_loop ++ L ∧ L.length = 8 ∧
      ∀ l ∈ L, loop_closed (create_gmsh_sphere E f sphere) l = true := by
  have hwg := stable_sphere well_formed_stable E f sphere hw
  obtain ⟨L, hlen, hg, hall⟩ := create_gmsh_sphere_spec E f sphere
  refine ⟨L, hg.loops, hlen, ?_⟩
  intro l hl
  obtain ⟨o, _, ho⟩ := forall₂_mem_left hall l hl
  exact loop_closed_octant hwg ho

/-- The loops `create_gmsh_disk` appends are closed and resolvable. -/
theorem create_gmsh_disk_loops_closed (E : externals) (f : gmsh_abstract_file)
    (hw : well_formed f) (c : circle3d) (surface : Bool) (h : circle_ok E c) :
    ∃ (arcs : List Nat) (g : gmsh_abstract_file) (L : List gmsh_line_loop),
      create_gmsh_disk E f c surface =
        Except.ok (L.map gmsh_line_loop.id, circle_points E c, arcs, g) ∧
      g._line_loop = f._line_loop ++ L ∧ L.length = (if surface then 4 else 0) ∧
      ∀ l ∈ L, loop_closed g l = true := by
  obtain ⟨arcs, spokes, g, L, hc, hg, harcs, hspokes, hno, hcap⟩ :=
    create_gmsh_disk_full E f c surface h
  have hwg : well_formed g := stable_disk well_formed_stable E f c surface _ hc hw
  obtain ⟨a0, a1, a2, a3, rfl, ha0, ha1, ha2, ha3⟩ := forall₂_four harcs
  obtain ⟨s0, s1, s2, s3, rfl, hs0, hs1, hs2, hs3⟩ := forall₂_four hspokes
  cases surface with
  | false =>
    rw [hno rfl] at hc hg
    exact ⟨_, g, [], hc, hg.loops, rfl, fun l hl => absurd hl (List.not_mem_nil _)⟩
  | true =>
    obtain ⟨l0, l1, l2, l3, rfl, hl0, hl1, hl2, hl3⟩ := forall₂_four (hcap rfl)
    refine ⟨_, g, _, hc, hg.loops, rfl, ?_⟩
    intro l hl
    simp only [List.mem_cons, List.mem_singleton, List.not_mem_nil, or_false] at hl
    rcases hl with e | e | e | e <;> subst e
    · exact loop_closed_cap hwg hl0.2.2 ha0 hs1 hs0
    · exact loop_closed_cap hwg hl1.2.2 ha1 hs2 hs1
    · exact loop_closed_cap hwg hl2.2.2 ha2 hs3 hs2
    · exact loop_closed_cap hwg hl3.2.2 ha3 hs0 hs3

/-- The loops `create_gmsh_pipe_surfaces` appends between two circles whose arcs are
stored are closed and resolvable. -/
theorem create_gmsh_pipe_surfaces_loops_closed (E : externals) (f : gmsh_abstract_file)
    (hw : well_formed f) (d1 : array4 gmsh_point) (arc1 : List Nat)
    (d2 : array4 gmsh_point) (arc2 : List Nat) (c1 c2 : point3d)
    (h1 : ∀ i, i < 4 → has_arc f (arc1.getD i 0) c1 (d1.get i).coords
      (d1.get (next_id i)).coords)
    (h2 : ∀ i, i < 4 → has_arc f (arc2.getD i 0) c2 (d2.get i).coords
      (d2.get (next_id i)).coords) :
    ∃ L : List gmsh_line_loop,
      (create_gmsh_pipe_surfaces E f d1 arc1 d2 arc2).2._line_loop = f._line_loop ++ L ∧
      L.length = 4 ∧
      ∀ l ∈ L, loop_closed (create_gmsh_pipe_surfaces E f d1 arc1 d2 arc2).2 l = true := by
  have hwg := stable_pipe_surfaces well_formed_stable E f d1 arc1 d2 arc2 hw
  obtain ⟨L, _, hg, hall⟩ := pipe_surface_fold_full E d1 arc1 d2 arc2 [0, 1, 2, 3] ([], f)
  refine ⟨L, hg.loops, by rw [hall.length_eq]; rfl, ?_⟩
  intro l hl
  obtain ⟨i, hi, _, _, line2, line1, hids, hs1, hs2⟩ := forall₂_mem_left hall l hl
  have hi4 : i < 4 := by
    simp only [List.mem_cons, List.mem_singleton, List.not_mem_nil, or_false] at hi
    omega
  exact loop_closed_lateral hwg hids (has_arc_mono hg (h1 i hi4)) hs2
    (has_arc_mono hg (h2 i hi4)) hs1

/-- C29: every loop created by the construction algorithms is closed and resolvable.
On every well-formed catalog, each loop appended by `create_gmsh_sphere`, by
`create_gmsh_disk` (on a cross-section on which the circle construction succeeds), by
`create_gmsh_pipe_surfaces` (between two circles whose arcs are stored with their
boundary points as end points) and by `add_bounding_box` is closed in the resulting
catalog: every signed identifier resolves, by absolute value, to exactly one stored
segment or arc, and traversing the elements in order, a negative sign reversing the
element, the end point of each element is the start point of the next and the end point
of the last is the start point of the first. -/
theorem construction_loops_closed (E : externals) (f : gmsh_abstract_file)
    (hw : well_formed f) :
    (∀ sphere : sphere3d, ∃ L : List gmsh_line_loop,
      (create_gmsh_sphere E f sphere)._line_loop = f._line_loop ++ L ∧ L.length = 8 ∧
      ∀ l ∈ L, loop_closed (create_gmsh_sphere E f sphere) l = true) ∧
    (∀ (c : circle3d) (surface : Bool), circle_ok E c →
      ∃ (arcs : List Nat) (g : gmsh_abstract_file) (L : List gmsh_line_loop),
        create_gmsh_disk E f c surface =
          Except.ok (L.map gmsh_line_loop.id, circle_points E c, arcs, g) ∧
        g._line_loop = f._line_loop ++ L ∧ L.length = (if surface then 4 else 0) ∧
        ∀ l ∈ L, loop_closed g l = true) ∧
    (∀ (d1 : array4 gmsh_point) (arc1 : List Nat) (d2 : array4 gmsh_point)
        (arc2 : List Nat) (c1 c2 : point3d),
      (∀ i, i < 4 → has_arc f (arc1.getD i 0) c1 (d1.get i).coords
        (d1.get (next_id i)).coords) →
      (∀ i, i < 4 → has_arc f (arc2.getD i 0) c2 (d2.get i).coords
        (d2.get (next_id i)).coords) →
      ∃ L : List gmsh_line_loop,
        (create_gmsh_pipe_surfaces E f d1 arc1 d2 arc2).2._line_loop = f._line_loop ++ L ∧
        L.length = 4 ∧
        ∀ l ∈ L, loop_closed (create_gmsh_pipe_surfaces E f d1 arc1 d2 arc2).2 l = true) ∧
    (∃ L : List gmsh_line_loop,
      (f.add_bounding_box E)._line_loop = f._line_loop ++ L ∧ L.length = 6 ∧
      ∀ l ∈ L, loop_closed (f.add_bounding_box E) l = true) :=
  ⟨create_gmsh_sphere_loops_closed E f hw,
    fun c surface h => create_gmsh_disk_loops_closed E f hw c surface h,
    fun d1 arc1 d2 arc2 c1 c2 h1 h2 =>
      create_gmsh_pipe_surfaces_loops_closed E f hw d1 arc1 d2 arc2 c1 c2 h1 h2,
    add_bounding_box_loops_closed E f hw⟩

/-- Witness of C29 on the empty catalog: the sphere of centre (0, 0, 0) and radius 1,
the capped disk of the cross-section of centre (0, 0, 0), radius 1 and axis (0, 0, -1),
and the bounding box. -/
theorem construction_loops_closed_witness :
    well_formed gmsh_abstract_file.empty ∧
    circle_ok sample_externals ⟨⟨0, 0, 0⟩, 1, ⟨0, 0, -1⟩⟩ ∧
    (∃ L : List gmsh_line_loop,
      (create_gmsh_sphere sample_externals gmsh_abstract_file.empty
        ⟨⟨0, 0, 0⟩, 1⟩)._line_loop = L ∧ L.length = 8 ∧
      ∀ l ∈ L, loop_closed (create_gmsh_sphere sample_externals gmsh_abstract_file.empty
        ⟨⟨0, 0, 0⟩, 1⟩) l = true) ∧
    (∃ (arcs : List Nat) (g : gmsh_abstract_file) (L : List gmsh_line_loop),
      create_gmsh_disk sample_externals gmsh_abstract_file.empty
          ⟨⟨0, 0, 0⟩, 1, ⟨0, 0, -1⟩⟩ true =
        Except.ok (L.map gmsh_line_loop.id,
          circle_points sample_externals ⟨⟨0, 0, 0⟩, 1, ⟨0, 0, -1⟩⟩, arcs, g) ∧
      g._line_loop = L ∧ L.length = 4 ∧ ∀ l ∈ L, loop_closed g l = true) ∧
    (∃ L : List gmsh_line_loop,
      (gmsh_abstract_file.empty.add_bounding_box sample_externals)._line_loop = L ∧
      L.length = 6 ∧
      ∀ l ∈ L, loop_closed (gmsh_abstract_file.empty.add_bounding_box sample_externals) l =
        true) ∧
    ((gmsh_abstract_file.empty.add_bounding_box sample_externals)._line_loop.map
      (loop_closed (gmsh_abstract_file.empty.add_bounding_box sample_externals))) =
      [true, true, true, true, true, true] :=
  ⟨well_formed_empty, sample_circles_ok _ (List.mem_cons_self _ _),
    (construction_loops_closed sample_externals gmsh_abstract_file.empty
      well_formed_empty).1 ⟨⟨0, 0, 0⟩, 1⟩,
    (construction_loops_closed sample_externals gmsh_abstract_file.empty
      well_formed_empty).2.1 ⟨⟨0, 0, 0⟩, 1, ⟨0, 0, -1⟩⟩ true
      (sample_circles_ok _ (List.mem_cons_self _ _)),
    (construction_loops_closed sample_externals gmsh_abstract_file.empty
      well_formed_empty).2.2.2,
    by decide!⟩

/-! ## The embedded-segment range of the wireframe export -/

/-- C31 at a failing input: for a tree made of a one-point soma alone, exported with
the bounding box, the construction stores no segment, the catalog holds the 12 box
edges only, the index `all_segments.size() - 13` wraps to 2^64 - 1 and the read of the
segment list at that index is out of bounds.  For the two-branch sample tree, which
yields 3 segments, the same export returns a script whose `For` directive has the range
1 .. 3 and the volume 1. -/
theorem export_to_wireframe_no_segment :
    (construct_all sample_externals ⟨false, false, true, false⟩ [sample_soma_tree]
      gmsh_abstract_file.empty).toOption.map (fun f => f._segments.length) = some 0 ∧
    (construct_all sample_externals ⟨false, false, true, false⟩ [sample_soma_tree]
      gmsh_abstract_file.empty).toOption.map
        (fun f => (f.add_bounding_box sample_externals).get_all_segments.length) = some 12 ∧
    size_t_sub 12 13 = 2 ^ 64 - 1 ∧
    error_of (export_to_wireframe sample_externals ⟨false, false, true, false⟩
      [sample_soma_tree]) = some exception.out_of_bounds ∧
    (export_to_wireframe sample_externals ⟨false, false, true, false⟩
      [sample_tree]).toOption.map for_directives = some [(1, 3, 1)] := by
  refine ⟨?_, ?_, ?_, ?_, ?_⟩ <;> decide!

/-! ## Stored entities are immutable -/

theorem find_circle_same (l : List gmsh_circle) (c y : gmsh_circle)
    (h : l.find? (fun y => gmsh_circle.same y c) = some y) :
    y ∈ l ∧ y.center.coords = c.center.coords ∧ y.point1.coords = c.point1.coords ∧
      y.point2.coords = c.point2.coords := by
  refine ⟨List.mem_of_find?_eq_some h, ?_⟩
  have := List.find?_some h
  simpa [gmsh_circle.same, gmsh_point.same, and_assoc] using this

/-- Insertion of a point whose coordinate is stored: the catalog is unchanged and the
identifier of the stored point is returned. -/
theorem add_point_stored (f : gmsh_abstract_file) (p : gmsh_point) (h : registered f p) :
    (f.add_point p).2 = f ∧
    ∃ q ∈ f._points, q.coords = p.coords ∧ (f.add_point p).1 = q.id := by
  rcases f.add_point_cases p with ⟨y, h1, h2⟩ | ⟨h1, _⟩
  · obtain ⟨hy, hc⟩ := find_same_some _ _ _ h1
    rw [h2]
    exact ⟨rfl, y, hy, hc, rfl⟩
  · obtain ⟨q, hq, hc⟩ := h
    exact absurd hc ((find_same_none_iff _ _).1 h1 q hq)

/-- Insertion of a segment whose end point pair and end points are stored: the catalog
is unchanged and the identifier of the stored segment is returned. -/
theorem add_segment_stored (f : gmsh_abstract_file) (s : gmsh_segment)
    (h1 : registered f s.point1) (h2 : registered f s.point2)
    (h : ∃ t ∈ f._segments, t.point1.coords = s.point1.coords ∧
      t.point2.coords = s.point2.coords) :
    (f.add_segment s).2 = f ∧
    ∃ t ∈ f._segments, t.point1.coords = s.point1.coords ∧
      t.point2.coords = s.point2.coords ∧ (f.add_segment s).1 = t.id := by
  have e1 : (f.add_point s.point1).2 = f := add_point_of_registered f _ h1
  have e2 : ((f.add_point s.point1).2.add_point s.point2).2 = f := by
    rw [e1]
    exact add_point_of_registered f _ h2
  rcases f.add_segment_cases s with ⟨y, hy, hr⟩ | ⟨hn, _⟩
  · rw [e2] at hy hr
    obtain ⟨hm, hc1, hc2⟩ := find_segment_same _ _ _ hy
    rw [hr]
    exact ⟨rfl, y, hm, hc1, hc2, rfl⟩
  · rw [e2] at hn
    obtain ⟨t, ht, hc1, hc2⟩ := h
    have := List.find?_eq_none.1 hn t ht
    simp [gmsh_segment.same, gmsh_point.same, hc1, hc2] at this

/-- Insertion of an arc whose centre and end points are stored, as points and as the key
of a stored arc: the catalog is unchanged and the identifier of the stored arc is
returned. -/
theorem add_circle_stored (f : gmsh_abstract_file) (c : gmsh_circle)
    (h0 : registered f c.center) (h1 : registered f c.point1) (h2 : registered f c.point2)
    (h : ∃ a ∈ f._circles, a.center.coords = c.center.coords ∧
      a.point1.coords = c.point1.coords ∧ a.point2.coords = c.point2.coords) :
    (f.add_circle c).2 = f ∧
    ∃ a ∈ f._circles, a.center.coords = c.center.coords ∧
      a.point1.coords = c.point1.coords ∧ a.point2.coords = c.point2.coords ∧
      (f.add_circle c).1 = a.id := by
  have e0 : (f.add_point c.center).2 = f := add_point_of_registered f _ h0
  have e1 : ((f.add_point c.center).2.add_point c.point1).2 = f := by
    rw [e0]
    exact add_point_of_registered f _ h1
  have e2 : (((f.add_point c.center).2.add_point c.point1).2.add_point c.point2).2 = f := by
    rw [e1]
    exact add_point_of_registered f _ h2
  rcases f.add_circle_cases c with ⟨y, hy, hr⟩ | ⟨hn, _⟩
  · rw [e2] at hy hr
    obtain ⟨hm, hc0, hc1, hc2⟩ := find_circle_same _ _ _ hy
    rw [hr]
    exact ⟨rfl, y, hm, hc0, hc1, hc2, rfl⟩
  · rw [e2] at hn
    obtain ⟨a, ha, hc0, hc1, hc2⟩ := h
    have := List.find?_eq_none.1 hn a ha
    simp [gmsh_circle.same, gmsh_point.same, hc0, hc1, hc2] at this

theorem registered_of_coords {f : gmsh_abstract_file} {p q : gmsh_point}
    (h : registered f q) (hc : q.coords = p.coords) : registered f p := by
  obtain ⟨r, hr, he⟩ := h
  exact ⟨r, hr, he.trans hc⟩

/-- C32: stored entities are immutable.  For every catalog and every point `p` with the
coordinate of a stored point, `add_point p` leaves the whole catalog unchanged and
returns the identifier of the stored point, whatever size hint, identifier and physical
flag `p` carries; on every well-formed catalog `add_segment` of a segment with the end
point pair of a stored segment and `add_circle` of an arc with the centre and end points
of a stored arc leave the whole catalog unchanged and return the identifier of the
stored element; and on every catalog `add_segment` and `add_circle` keep every stored
entity in place. -/
theorem stored_entities_immutable (f : gmsh_abstract_file) :
    (∀ p, registered f p →
      (f.add_point p).2 = f ∧
      ∃ q ∈ f._points, q.coords = p.coords ∧ (f.add_point p).1 = q.id) ∧
    (well_formed f → ∀ s : gmsh_segment,
      (∃ t ∈ f._segments, t.point1.coords = s.point1.coords ∧
        t.point2.coords = s.point2.coords) →
      (f.add_segment s).2 = f ∧
      ∃ t ∈ f._segments, t.point1.coords = s.point1.coords ∧
        t.point2.coords = s.point2.coords ∧ (f.add_segment s).1 = t.id) ∧
    (well_formed f → ∀ c : gmsh_circle,
      (∃ a ∈ f._circles, a.center.coords = c.center.coords ∧
        a.point1.coords = c.point1.coords ∧ a.point2.coords = c.point2.coords) →
      (f.add_circle c).2 = f ∧
      ∃ a ∈ f._circles, a.center.coords = c.center.coords ∧
        a.point1.coords = c.point1.coords ∧ a.point2.coords = c.point2.coords ∧
        (f.add_circle c).1 = a.id) ∧
    (∀ s, grows f (f.add_segment s).2 [] []) ∧
    (∀ c, grows f (f.add_circle c).2 [] []) := by
  refine ⟨fun p h => add_point_stored f p h, ?_, ?_, grows_add_segment f, grows_add_circle f⟩
  · intro hw s h
    obtain ⟨t, ht, hc1, hc2⟩ := h
    exact add_segment_stored f s
      (registered_of_coords (hw.segment_points t ht).1 hc1)
      (registered_of_coords (hw.segment_points t ht).2 hc2) ⟨t, ht, hc1, hc2⟩
  · intro hw c h
    obtain ⟨a, ha, hc0, hc1, hc2⟩ := h
    exact add_circle_stored f c
      (registered_of_coords (hw.circle_points a ha).1 hc0)
      (registered_of_coords (hw.circle_points a ha).2.1 hc1)
      (registered_of_coords (hw.circle_points a ha).2.2 hc2) ⟨a, ha, hc0, hc1, hc2⟩

/-- Witness of C32 on the sample catalog: a point at the stored origin with another size
hint, identifier and flag, the first stored segment with swapped flag and branch, and
the stored arc. -/
theorem stored_entities_immutable_witness :
    registered sample_catalog ⟨⟨0, 0, 0⟩, 77, 9, true⟩ ∧
    ((sample_catalog.add_point ⟨⟨0, 0, 0⟩, 77, 9, true⟩).2 = sample_catalog ∧
      ∃ q ∈ sample_catalog._points, q.coords = (⟨0, 0, 0⟩ : point3d) ∧
        (sample_catalog.add_point ⟨⟨0, 0, 0⟩, 77, 9, true⟩).1 = q.id) ∧
    well_formed sample_catalog ∧
    ((sample_catalog.add_segment
        ⟨⟨⟨0, 0, 0⟩, 5, 0, true⟩, ⟨⟨1, 0, 0⟩, 5, 0, true⟩, 40, true, 3⟩).2 = sample_catalog ∧
      ∃ t ∈ sample_catalog._segments, t.point1.coords = (⟨0, 0, 0⟩ : point3d) ∧
        t.point2.coords = (⟨1, 0, 0⟩ : point3d) ∧
        (sample_catalog.add_segment
          ⟨⟨⟨0, 0, 0⟩, 5, 0, true⟩, ⟨⟨1, 0, 0⟩, 5, 0, true⟩, 40, true, 3⟩).1 = t.id) ∧
    ((sample_catalog.add_circle
        ⟨⟨⟨0, 0, 0⟩, 5, 0, true⟩, ⟨⟨1, 0, 0⟩, 5, 0, true⟩, ⟨⟨0, 1, 0⟩, 5, 0, true⟩,
          40, true⟩).2 = sample_catalog ∧
      ∃ a ∈ sample_catalog._circles, a.center.coords = (⟨0, 0, 0⟩ : point3d) ∧
        a.point1.coords = (⟨1, 0, 0⟩ : point3d) ∧ a.point2.coords = (⟨0, 1, 0⟩ : point3d) ∧
        (sample_catalog.add_circle
          ⟨⟨⟨0, 0, 0⟩, 5, 0, true⟩, ⟨⟨1, 0, 0⟩, 5, 0, true⟩, ⟨⟨0, 1, 0⟩, 5, 0, true⟩,
            40, true⟩).1 = a.id) :=
  have hr : registered sample_catalog ⟨⟨0, 0, 0⟩, 77, 9, true⟩ := by
    unfold registered; decide!
  have hw : well_formed sample_catalog := well_formed_run_ops _ _
  ⟨hr, (stored_entities_immutable sample_catalog).1 _ hr, hw,
    (stored_entities_immutable sample_catalog).2.1 hw
      ⟨⟨⟨0, 0, 0⟩, 5, 0, true⟩, ⟨⟨1, 0, 0⟩, 5, 0, true⟩, 40, true, 3⟩ (by decide!),
    (stored_entities_immutable sample_catalog).2.2.1 hw
      ⟨⟨⟨0, 0, 0⟩, 5, 0, true⟩, ⟨⟨1, 0, 0⟩, 5, 0, true⟩, ⟨⟨0, 1, 0⟩, 5, 0, true⟩,
        40, true⟩ (by decide!)⟩

/-! ## The axes of the cross-sections -/

theorem point3d_sub_eq_zero (q p : point3d) : q.sub p = ⟨0, 0, 0⟩ ↔ q = p := by
  obtain ⟨a, b, c⟩ := q
  obtain ⟨d, e, f⟩ := p
  simp only [point3d.sub, point3d.mk.injEq, sub_eq_zero]

/-- Counterexample to C33 as stated: the branch `sample_child_back` has a parent, its
second own point is back at the centre of the seed, `get_circle_pipe` succeeds on it and
the cross-section emitted for its first own point (1, 0, 0) has the zero vector as
axis. -/
theorem get_circle_pipe_axis_nonzero_counterexample :
    sample_child_back.get_parent = some sample_soma ∧
    (sample_child_back.get_circle_pipe sample_externals).toOption =
      some [⟨⟨0, 0, 0⟩, 1, ⟨-1, 0, 0⟩⟩, ⟨⟨1, 0, 0⟩, 1 / 2, ⟨0, 0, 0⟩⟩,
        ⟨⟨0, 0, 0⟩, 1 / 2, ⟨-1, 0, 1⟩⟩, ⟨⟨0, 0, 1⟩, 1 / 2, ⟨0, 0, -1⟩⟩] ∧
    ((sample_child_back.get_circle_pipe sample_externals).toOption.map
      (fun pipe => (pipe.drop 1).map circle3d.axis)) =
      some [⟨0, 0, 0⟩, ⟨-1, 0, 1⟩, ⟨0, 0, -1⟩] :=
  ⟨rfl, by decide!, by decide!⟩

theorem sample_child_back_pipe :
    sample_child_back.get_circle_pipe sample_externals = Except.ok sample_pipe_back :=
  eq_ok_of_toOption _ _ (by decide!)

/-- The consecutive pairs of a chain satisfy its relation. -/
theorem chain_zip_forall {α : Type} {R : α → α → Prop} :
    ∀ {a : α} {l : List α}, List.Chain R a l → ∀ pc ∈ (a :: l).zip l, R pc.1 pc.2
  | _, [], _ => fun pc hpc => absurd hpc (by simp)
  | a, c :: l, h => by
    intro pc hpc
    rw [List.zip_cons_cons, List.mem_cons] at hpc
    rcases hpc with rfl | hin
    · exact (List.chain_cons.1 h).1
    · exact chain_zip_forall (List.chain_cons.1 h).2 pc hin

/-- A pointwise relation between two lists can be exchanged for one it implies on the
elements of the second list. -/
theorem forall₂_imp_right {α β : Type} {R S : α → β → Prop} :
    ∀ {l : List α} {m : List β}, List.Forall₂ R l m →
      (∀ a b, b ∈ m → R a b → S a b) → List.Forall₂ S l m
  | _, _, List.Forall₂.nil, _ => List.Forall₂.nil
  | _, _, List.Forall₂.cons h t, hi =>
    List.Forall₂.cons (hi _ _ (List.mem_cons_self _ _) h)
      (forall₂_imp_right t (fun a b hb => hi a b (List.mem_cons_of_mem _ hb)))

/-- C33, amended: the axes of the cross-sections.  With a tolerance test that holds
between a point and itself, a cross-section sequence that `get_circle_pipe` returns is
empty, for a branch without points, or a seed followed by the cross-sections emitted at
the loop indices kept by the degenerate-point policy, in order; the cross-section emitted
at the last own index has the axis prev - p_i, with prev the centre of the cross-section
right before it in the sequence, prev differs from p_i and the axis is not the zero
vector; the cross-section emitted at an own index i that is not the last has the axis
`get_tangente_axis` (prev, p_i, p_(i+1)), the sum (p_i - prev) + (p_(i+1) - p_i), of
which nothing excludes the zero vector. -/
theorem get_circle_pipe_axis_nonzero (E : externals) (hrefl : ∀ p, E.close_to p p = true)
    (b : branch) (pipe : List circle3d) (h : b.get_circle_pipe E = Except.ok pipe) :
    (b.get_size = 0 ∧ pipe = []) ∨
    ∃ seed rest, pipe = seed :: rest ∧
      List.Forall₂ (fun i (pc : circle3d × circle3d) => axis_nonzero_rule b i pc.1 pc.2)
        (kept_points E b.get_points seed.center (List.range b.get_size))
        ((seed :: rest).zip rest) := by
  rcases get_circle_pipe_seed E b pipe h with ⟨h0, hp⟩ | ⟨_, seed, hf⟩
  · exact Or.inl ⟨h0, hp⟩
  · obtain ⟨extra, he, hch, _, _, hidx⟩ :=
      circle_pipe_fold_ok E b _ [seed] seed pipe rfl hf
    refine Or.inr ⟨seed, extra, he, ?_⟩
    have hpairs : ∀ pc ∈ (seed :: extra).zip extra,
        E.close_to pc.1.center pc.2.center = false :=
      chain_zip_forall hch
    refine forall₂_imp_right hidx ?_
    rintro i ⟨a, c⟩ hmem ⟨hi, hpt, _, hax⟩
    have hclose : E.close_to a.center c.center = false := hpairs (a, c) hmem
    refine ⟨hi, hpt, ?_⟩
    rcases hax with ⟨hlt, q, hq, haxis⟩ | ⟨hlast, haxis⟩
    · exact Or.inl ⟨hlt, q, hq, haxis⟩
    · have hne : a.center ≠ c.center := by
        intro he2
        rw [he2, hrefl] at hclose
        exact absurd hclose (by decide)
      refine Or.inr ⟨hlast, haxis, hne, ?_⟩
      intro hz
      rw [haxis, point3d_sub_eq_zero] at hz
      exact hne hz

/-- Witness of C33, amended, on `sample_child_back`, whose sequence is
`sample_pipe_back`. -/
theorem get_circle_pipe_axis_nonzero_witness :
    (∀ p, sample_externals.close_to p p = true) ∧
    sample_child_back.get_circle_pipe sample_externals = Except.ok sample_pipe_back ∧
    ((sample_child_back.get_size = 0 ∧ sample_pipe_back = []) ∨
    ∃ seed rest, sample_pipe_back = seed :: rest ∧
      List.Forall₂
        (fun i (pc : circle3d × circle3d) => axis_nonzero_rule sample_child_back i pc.1 pc.2)
        (kept_points sample_externals sample_child_back.get_points seed.center
          (List.range sample_child_back.get_size))
        ((seed :: rest).zip rest)) :=
  ⟨fun p => by simp [sample_externals], sample_child_back_pipe,
    get_circle_pipe_axis_nonzero sample_externals (fun p => by simp [sample_externals])
      sample_child_back sample_pipe_back sample_child_back_pipe⟩
end morpho
